import Mathlib

/-!
mdeGranular~ : a shallow embedding of the portable granulation engine.

Source: `src/src/mdeGranular~.c` and `src/src/mdeGranular~.h`.

Modelling conventions, used by every definition below.

* `mdefloat` (C `float`/`double`) is modelled by the rationals `ℚ`.
  Comparisons, sums and products are those of the source and are exact in the
  first embedding of each function; infinities and NaN are not modelled.
  Decimal literals of the source (`0.001`, `0.5`, `0.00001`, ...) denote the
  rational they spell.  Where a property depends on floating-point rounding,
  the function is embedded again with the rounding `fl` of the format applied
  after every operation (the definitions ending in `Fl`, section "Rounded
  arithmetic"); `binary64` and `binary32` are the roundings of `double` and
  `float`.
* `int` and `long` are modelled by `ℤ`.  A cast `(long)x` / `(int)x` of a
  floating value truncates toward zero (`cTrunc`).  Storing a `long` into an
  `int` goes through `cInt` (32-bit two's complement).  C's `/` and `%` on
  integers are `Int.tdiv` and `Int.tmod`.
* A pointer to an array is an `Option (List _)`: `none` is `NULL`.  Reading
  with `peek` outside the block yields `0` and writing with `poke` outside the
  block is dropped: statements about memory safety are therefore made on the
  index values themselves, never on the value read.
* `rand()` is an explicit stream of draws (`RandSource`); `RAND_MAX` is a
  field of that source because it is a constant of the C library.
* `post(...)`/`error(...)` only print; they have no effect on the state.
-/

namespace MdeGranular

/-! ## Definitions -/

/-- C floating-point type of the engine (`typedef double mdefloat`). -/
abbrev mdefloat := ℚ

/-- Status enumeration of the header:
`typedef enum { OFF, ON, STARTING, STOPPING, ACTIVE, INACTIVE, SKIPGRAIN } t_status;` -/
inductive t_status where
  | OFF
  | ON
  | STARTING
  | STOPPING
  | ACTIVE
  | INACTIVE
  | SKIPGRAIN
  deriving DecidableEq, Repr

/-- Integer value of an enumerator, as C assigns it (OFF = 0, ..., SKIPGRAIN = 6). -/
def t_status.toInt : t_status → Int
  | .OFF => 0
  | .ON => 1
  | .STARTING => 2
  | .STOPPING => 3
  | .ACTIVE => 4
  | .INACTIVE => 5
  | .SKIPGRAIN => 6

/-- The header constant `MAXTRANSPOSITIONS`. -/
def MAXTRANSPOSITIONS : Int := 256

/-- The header constant `RAMPLENMINMS` (0.5). -/
def RAMPLENMINMS : mdefloat := 1 / 2

/-- The constant `DBL_MIN` of `float.h`, the smallest positive normal double, 2^-1022. -/
def DBL_MIN : mdefloat := 1 / 2 ^ 1022

/-- The cast `(long)x` of a floating value: truncation toward zero. -/
def cTrunc (x : mdefloat) : Int :=
  if 0 ≤ x then ⌊x⌋ else ⌈x⌉

/-- Storing an integer into a C `int`: reduction to 32-bit two's complement. -/
def cInt (x : Int) : Int :=
  (x + 2 ^ 31) % 2 ^ 32 - 2 ^ 31

/-- The absolute value `fabs`. -/
def fabs (x : mdefloat) : mdefloat :=
  if x < 0 then -x else x

/-- Read `m[i]`; outside the block the model yields 0. -/
def peek (m : List mdefloat) (i : Int) : mdefloat :=
  if 0 ≤ i then m.getD i.toNat 0 else 0

/-- Write `m[i] = v`; outside the block the write is dropped. -/
def poke (m : List mdefloat) (i : Int) (v : mdefloat) : List mdefloat :=
  if 0 ≤ i then m.set i.toNat v else m

/-- One grain (voice): `struct _mdeGranularGrain` of the header, field for field. -/
structure mdeGranularGrain where
  length : Int
  start : mdefloat
  end_ : mdefloat
  endRampUp : Int
  startRampDown : Int
  current : mdefloat
  icurrent : Int
  rampi : Int
  inc : mdefloat
  backwards : Int
  status : t_status
  activeStatus : t_status
  channel : Int
  doDelay : Int
  firstDelay : Int
  firstDelayCounter : Int

/-- What the pointer `samples` of the granulator designates: a buffer owned by the
host (static granulation) or the engine's own live buffer `theSamples`. -/
inductive SamplesRef where
  | external (buf : List mdefloat)
  | internal

/-- The granulator: `struct _mdeGranular` of the header, field for field.

`rampUp` is the whole allocated ramp block; `rampDown` is the offset of the
pointer `rampDown` from `rampUp` inside that same block (`none` is `NULL`), as
set by `g->rampDown = g->rampUp + g->rampLenSamples`.  `channelBuffers` is the
array of host output pointers together with the host memory they point to. -/
structure mdeGranular where
  samplingRate : mdefloat
  maxVoices : Int
  activeVoices : Int
  transpositionOffsetST : mdefloat
  transpositionOffset : mdefloat
  numTranspositions : Int
  transpositions : List mdefloat
  srcs : List mdefloat
  grainLengthMS : mdefloat
  grainLength : Int
  grainLengthDeviation : mdefloat
  BufferName : String
  numChannels : Int
  activeChannels : Int
  channelBuffers : Option (List (Option (List mdefloat)))
  signalIn : Option (List mdefloat)
  nOutputSamples : Int
  grains : Option (List mdeGranularGrain)
  theSamples : Option (List mdefloat)
  samples : Option SamplesRef
  nBufferSamples : Int
  nAllocatedBufferSamples : Int
  AllocatedBufferMS : mdefloat
  BufferSamplesMS : mdefloat
  samplesStartMS : mdefloat
  samplesStart : Int
  samplesEndMS : mdefloat
  samplesEnd : Int
  rampLenMS : mdefloat
  rampLenSamples : Int
  rampUp : Option (List mdefloat)
  rampDown : Option Int
  density : mdefloat
  status : t_status
  grainAmp : mdefloat
  lastGrainAmp : mdefloat
  targetGrainAmp : mdefloat
  grainAmpInc : mdefloat
  grainAmps : Option (List mdefloat)
  statusRampIndex : Int
  live : Int
  liveIndex : Int
  rampType : Option String
  octaveSize : mdefloat
  octaveDivisions : mdefloat
  warnings : Int
  portionPosition : mdefloat
  portionWidth : mdefloat

/-- `long ms2samples(mdefloat samplingRate, mdefloat milliseconds)`:
`(long)ceil((milliseconds * 0.001) * samplingRate)`. -/
def ms2samples (samplingRate milliseconds : mdefloat) : Int :=
  ⌈(milliseconds * (1 / 1000)) * samplingRate⌉

/-- `mdefloat samples2ms(mdefloat samplingRate, int samples)`. -/
def samples2ms (samplingRate : mdefloat) (samples : Int) : mdefloat :=
  1000 * ((samples : mdefloat) / samplingRate)

/-- Loop of `maxFloat`: `for (i = 0; i < size; ++i) { tmp = *array++; if (tmp > result) result = tmp; }`,
with `n` iterations left and `i` the current index. -/
def maxFloatLoop (array : List mdefloat) : Nat → Int → mdefloat → mdefloat
  | 0, _, result => result
  | n + 1, i, result =>
    let tmp := peek array i
    maxFloatLoop array n (i + 1) (if tmp > result then tmp else result)

/-- `mdefloat maxFloat(mdefloat* array, int size)`: starts from `DBL_MIN`. -/
def maxFloat (array : List mdefloat) (size : Int) : mdefloat :=
  maxFloatLoop array size.toNat 0 DBL_MIN

/-- `void mdeGranularSetGrainLengthMS(mdeGranular* g, mdefloat f)`. -/
def mdeGranularSetGrainLengthMS (g : mdeGranular) (f : mdefloat) : mdeGranular :=
  let sr := g.samplingRate
  let lenSamples : Int := cInt (ms2samples sr f)
  let highestSRC := maxFloat g.srcs g.numTranspositions
  let sampsNeeded : Int := cTrunc ((lenSamples : mdefloat) * highestSRC * g.transpositionOffset)
  if f ≤ 2 * g.rampLenMS then
    g
  else if g.nBufferSamples ≠ 0 ∧ sampsNeeded ≥ g.nBufferSamples then
    g
  else
    { g with grainLengthMS := f, grainLength := lenSamples }

/-- `int mdeGranularAtTargetGrainAmp(mdeGranular* g)` for a non-null `g`. -/
def mdeGranularAtTargetGrainAmp (g : mdeGranular) : Bool :=
  (decide (g.lastGrainAmp ≤ g.targetGrainAmp) && decide (g.grainAmp ≥ g.targetGrainAmp))
    || (decide (g.lastGrainAmp ≥ g.targetGrainAmp) && decide (g.grainAmp ≤ g.targetGrainAmp))

/-- `void mdeGranularSetGrainAmp(mdeGranular* g, mdefloat f)` for a non-null `g`;
`min` is the local constant `0.00001`. -/
def mdeGranularSetGrainAmp (g : mdeGranular) (f : mdefloat) : mdeGranular :=
  let min : mdefloat := 1 / 100000
  if f ≥ 0 ∧ f ≤ 100 then
    if mdeGranularAtTargetGrainAmp g = true ∧ fabs (g.targetGrainAmp - f) > min then
      let lastGrainAmp := g.grainAmp
      { g with
        lastGrainAmp := lastGrainAmp
        targetGrainAmp := if f < min then 0 else f
        grainAmpInc := (f - lastGrainAmp) / ((g.nOutputSamples - 1 : Int) : mdefloat) }
    else g
  else g

/-- `mdefloat mdeGranularGetGrainAmpAndInc(mdeGranular* g)` for a non-null `g`:
the returned value and the updated granulator. -/
def mdeGranularGetGrainAmpAndInc (g : mdeGranular) : mdefloat × mdeGranular :=
  let ret := g.grainAmp
  let g1 := if mdeGranularAtTargetGrainAmp g = true then g
            else { g with grainAmp := g.grainAmp + g.grainAmpInc }
  let g2 := if g1.grainAmp < 0 then { g1 with grainAmp := 0 } else g1
  (ret, g2)

/-- The granulator after `n` successive calls of `mdeGranularGetGrainAmpAndInc`. -/
def grainAmpCalls : Nat → mdeGranular → mdeGranular
  | 0, g => g
  | n + 1, g => (mdeGranularGetGrainAmpAndInc (grainAmpCalls n g)).2

/-- `void silence(mdefloat* where, int numSamples)` on a non-null block:
`memset` of the first `numSamples` cells. -/
def silence (where_ : List mdefloat) (numSamples : Int) : List mdefloat :=
  List.replicate (Nat.min numSamples.toNat where_.length) 0 ++ where_.drop numSamples.toNat

/-- `void mdeGranularClearTheSamples(mdeGranular* g)`. -/
def mdeGranularClearTheSamples (g : mdeGranular) : mdeGranular :=
  match g.theSamples with
  | some buf =>
    if g.live ≠ 0 then
      { g with theSamples := some (silence buf g.nAllocatedBufferSamples), liveIndex := 0 }
    else g
  | none => g

/-- `void mdeGranularOn(mdeGranular* g)`. -/
def mdeGranularOn (g : mdeGranular) : mdeGranular :=
  if g.status ≠ t_status.STARTING ∧ g.status ≠ t_status.ON then
    { mdeGranularClearTheSamples g with status := t_status.STARTING }
  else g

/-- `void mdeGranularOff(mdeGranular* g)`. -/
def mdeGranularOff (g : mdeGranular) : mdeGranular :=
  if g.status ≠ t_status.STOPPING ∧ g.status ≠ t_status.OFF then
    { g with status := t_status.STOPPING }
  else g

/-- `int mdeGranularGrainExhausted(mdeGranularGrain* gg)`. -/
def mdeGranularGrainExhausted (gg : mdeGranularGrain) : Bool :=
  decide (gg.icurrent > gg.length)

/-- The all-zero grain that `mdeCalloc` hands out. -/
def zeroGrain : mdeGranularGrain :=
  { length := 0, start := 0, end_ := 0, endRampUp := 0, startRampDown := 0, current := 0,
    icurrent := 0, rampi := 0, inc := 0, backwards := 0, status := t_status.OFF,
    activeStatus := t_status.OFF, channel := 0, doDelay := 0, firstDelay := 0,
    firstDelayCounter := 0 }

/-- Read `g->grains[i]`; a cell outside the block reads as the all-zero grain. -/
def peekGrain (gs : List mdeGranularGrain) (i : Int) : mdeGranularGrain :=
  if 0 ≤ i then gs.getD i.toNat zeroGrain else zeroGrain

/-- Loop of `mdeGranularForceGrainReinit`, `n` iterations left, `i` the index.  The body is
`gg = g->grains[i]; gg.icurrent = gg.length + 1;` where `gg` is a local variable of type
`mdeGranularGrain` (a copy of the array cell, not a pointer to it): the assignment changes
the local only.  The state carried is the grain array and the local `gg`. -/
def forceGrainReinitLoop :
    Nat → Int → List mdeGranularGrain × mdeGranularGrain → List mdeGranularGrain × mdeGranularGrain
  | 0, _, st => st
  | n + 1, i, (grains, _) =>
    let gg := peekGrain grains i
    let gg := { gg with icurrent := gg.length + 1 }
    forceGrainReinitLoop n (i + 1) (grains, gg)

/-- `void mdeGranularForceGrainReinit(mdeGranular* g)`. -/
def mdeGranularForceGrainReinit (g : mdeGranular) : mdeGranular :=
  match g.grains with
  | some grains =>
    let r := forceGrainReinitLoop g.maxVoices.toNat 0 (grains, peekGrain grains (-1))
    { g with grains := some r.1 }
  | none => g

/-- Read `g->rampDown[i]`: the cell `rampLenSamples`-offset `i` of the ramp block. -/
def peekRampDown (g : mdeGranular) (i : Int) : mdefloat :=
  match g.rampUp, g.rampDown with
  | some block, some off => peek block (off + i)
  | _, _ => 0

/-- `mdefloat mdeGranularGetAmpForStatus(mdeGranular* g)`: the returned value and the
updated granulator. -/
def mdeGranularGetAmpForStatus (g : mdeGranular) : mdefloat × mdeGranular :=
  match g.status with
  | .STARTING =>
    let (result, g1) : mdefloat × mdeGranular :=
      match g.rampUp with
      | some block => (peek block g.statusRampIndex, { g with statusRampIndex := g.statusRampIndex + 1 })
      | none => (0, g)
    if g1.statusRampIndex ≥ g1.rampLenSamples then
      (1, { g1 with status := t_status.ON, statusRampIndex := 0 })
    else (result, g1)
  | .STOPPING =>
    let result := peekRampDown g g.statusRampIndex
    let g1 := { g with statusRampIndex := g.statusRampIndex + 1 }
    if g1.statusRampIndex ≥ g1.rampLenSamples then
      (0, mdeGranularForceGrainReinit { g1 with status := t_status.OFF, statusRampIndex := 0 })
    else (result, g1)
  | .ON => (1, g)
  | .OFF => (0, g)
  | .SKIPGRAIN => (0, g)
  | .INACTIVE => (0, g)
  | .ACTIVE => (0, g)

/-- The granulator after `n` successive calls of `mdeGranularGetAmpForStatus`. -/
def ampForStatusCalls : Nat → mdeGranular → mdeGranular
  | 0, g => g
  | n + 1, g => (mdeGranularGetAmpForStatus (ampForStatusCalls n g)).2

/-- The index `indexTrunc` of `interpolate` after the circular-buffer sanity step:
`indexTrunc = (long)findex; indexTrunc %= numSamples; if (indexTrunc < 0) indexTrunc = numSamples + indexTrunc;`. -/
def interpolateIndex (findex : mdefloat) (numSamples : Int) : Int :=
  let indexTrunc := Int.tmod (cTrunc findex) numSamples
  if indexTrunc < 0 then numSamples + indexTrunc else indexTrunc

/-- The four cells `(a, b, c, d)` that `interpolate` reads, as offsets from `samples`:
`fp` is `samples + indexTrunc`, `lastsamp` is `samples + numSamples - 1`. -/
def interpolateTaps (findex : mdefloat) (numSamples : Int) (backwards : Int) :
    Int × Int × Int × Int :=
  let indexTrunc := interpolateIndex findex numSamples
  let lastsamp := numSamples - 1
  let fp := indexTrunc
  if backwards ≠ 0 then
    let a := Int.tmod (indexTrunc + 1) numSamples
    let c := if indexTrunc ≠ 0 then fp - 1 else lastsamp
    let d := if indexTrunc = 0 then lastsamp - 1
             else (if indexTrunc = 1 then lastsamp else fp - 2)
    (a, fp, c, d)
  else
    let a := if indexTrunc ≠ 0 then fp - 1 else lastsamp
    let c := Int.tmod (indexTrunc + 1) numSamples
    let d := Int.tmod (indexTrunc + 2) numSamples
    (a, fp, c, d)

/-- `mdefloat interpolate(mdefloat findex, mdefloat* samples, long numSamples, char backwards)`:
4-point interpolating lookup in the circular buffer. -/
def interpolate (findex : mdefloat) (samples : Option (List mdefloat)) (numSamples : Int)
    (backwards : Int) : mdefloat :=
  match samples with
  | none => 0
  | some s =>
    let indexTrunc := cTrunc findex
    let fraction := fabs (findex - (indexTrunc : mdefloat))
    let taps := interpolateTaps findex numSamples backwards
    let a := peek s taps.1
    let b := peek s taps.2.1
    let c := peek s taps.2.2.1
    let d := peek s taps.2.2.2
    let cminusb := c - b
    b + fraction * (cminusb - (1 / 2) * (fraction - 1)
                      * ((a - d + 3 * cminusb) * fraction + (b - a - cminusb)))

/-- The C library's `rand()`: `draws n` is the value returned by the `n`-th call,
`pos` counts the calls made so far, `RAND_MAX` is the library constant. -/
structure RandSource where
  RAND_MAX : Int
  draws : Nat → Int
  pos : Nat

/-- One call of `rand()`. -/
def rand (r : RandSource) : Int × RandSource :=
  (r.draws r.pos, { r with pos := r.pos + 1 })

/-- `mdefloat between(mdefloat min, mdefloat max)`; `div` is `RAND_MAX + 1.0`. -/
def between (min max : mdefloat) (rs : RandSource) : mdefloat × RandSource :=
  let div : mdefloat := (rs.RAND_MAX : mdefloat) + 1
  if min = max then (min, rs)
  else
    let (r, rs1) := rand rs
    let diff := max - min
    let scaler := diff / div
    (min + ((r : mdefloat) * scaler), rs1)

/-- `int flip(void)`; `thresh` is `RAND_MAX / 2`. -/
def flip (rs : RandSource) : Int × RandSource :=
  let thresh := Int.tdiv rs.RAND_MAX 2
  let (r, rs1) := rand rs
  (if r > thresh then 1 else 0, rs1)

/-- `mdefloat randomlyDeviate(mdefloat number, mdefloat maxDeviation)`. -/
def randomlyDeviate (number maxDeviation : mdefloat) (rs : RandSource) : mdefloat × RandSource :=
  let (dev, rs1) := between 0 maxDeviation rs
  let ndev := number * (dev * (1 / 100))
  let (fl, rs2) := flip rs1
  let ndev := if fl ≠ 0 then -ndev else ndev
  (number + ndev, rs2)

/-- Locals of `mdeGranularGrainInit` at the point where the grain fields are assigned:
`length`, `st`, `nd`, `inc`, `backwards`, `status`, `ramplength`, and the random source
after the draws made so far. -/
structure GrainInitLocals where
  length : Int
  st : mdefloat
  nd : mdefloat
  inc : mdefloat
  backwards : Bool
  status : t_status
  ramplength : Int
  rs : RandSource

/-- The body of `mdeGranularGrainInit` from the test `if (plen < ramplength2)` down to the
live offset `st += latestSample; nd += latestSample`, for a grain that is not `INACTIVE`;
`inc` is the increment drawn in the declarations and `rs1` the random source after it. -/
def grainInitLocals (parent : mdeGranular) (inc : mdefloat) (rs1 : RandSource) :
    GrainInitLocals :=
  let plen : Int := parent.grainLength
  let givenStart := parent.samplesStart
  let givenEnd := parent.samplesEnd
  let ramplength : Int := cInt parent.rampLenSamples
  let backwards : Bool := decide (givenStart > givenEnd)
  let ramplength2 := ramplength * 2
  let live := parent.live
  let latestSample := parent.liveIndex
  let givenStart1 := if backwards then givenEnd else givenStart
  let givenEnd1 := if backwards then parent.samplesStart else givenEnd
  let plen1 := if plen < ramplength2 then ramplength2 else plen
  let dv := randomlyDeviate (plen1 : mdefloat) parent.grainLengthDeviation rs1
  let length : Int := cTrunc dv.1
  let newLiveSamples : Int :=
    if live ≠ 0 then parent.nOutputSamples * (1 + Int.tdiv length parent.nOutputSamples) else 0
  let samplesNeeded : mdefloat := (length : mdefloat) * inc
  let min_start : mdefloat :=
    if length < ramplength2 then 0 else ((givenStart1 + newLiveSamples : Int) : mdefloat)
  let max_start : mdefloat :=
    if length < ramplength2 then 0 else (givenEnd1 : mdefloat) - samplesNeeded
  let status : t_status :=
    if length < ramplength2 then t_status.SKIPGRAIN
    else if max_start < min_start then t_status.SKIPGRAIN else t_status.ON
  let b := between min_start max_start dv.2
  let st1 : mdefloat := if inc = 1 then (cTrunc b.1 : mdefloat) else b.1
  let st : mdefloat := if status.toInt ≠ 0 then st1 else (givenStart1 : mdefloat)
  let nd : mdefloat :=
    if status.toInt ≠ 0 then st1 + samplesNeeded else ((givenStart1 + plen1 : Int) : mdefloat)
  { length := length
    st := if parent.live ≠ 0 then st + (latestSample : mdefloat) else st
    nd := if parent.live ≠ 0 then nd + (latestSample : mdefloat) else nd
    inc := if status.toInt ≠ 0 then inc else 1
    backwards := backwards
    status := status
    ramplength := ramplength
    rs := if status.toInt ≠ 0 then b.2 else dv.2 }

/-- The first-delay block at the end of `mdeGranularGrainInit`:
`if (doFirstDelay || gg->doDelay) { gg->firstDelay = ...; gg->firstDelayCounter = 0; gg->doDelay = 0; }`. -/
def grainInitFirstDelay (gg : mdeGranularGrain) (doFirstDelay : Int) (rs : RandSource) :
    mdeGranularGrain × RandSource :=
  if doFirstDelay ≠ 0 ∨ gg.doDelay ≠ 0 then
    if gg.doDelay > 1 then
      ({ gg with firstDelay := gg.doDelay, firstDelayCounter := 0, doDelay := 0 }, rs)
    else
      let fd := between 0 ((gg.length : mdefloat) * 2) rs
      ({ gg with firstDelay := cTrunc fd.1, firstDelayCounter := 0, doDelay := 0 }, fd.2)
  else (gg, rs)

/-- `int mdeGranularGrainInit(mdeGranularGrain* gg, mdeGranular* parent, int doFirstDelay)`:
the return value, the grain afterwards and the random source afterwards.  The
declarations at the top of the C function are evaluated first (the draw for `inc`
among them), then the `INACTIVE` short-circuit; the rest of the body is
`grainInitLocals`, the field assignments, the channel and density draws and
`grainInitFirstDelay`. -/
def mdeGranularGrainInit (gg : mdeGranularGrain) (parent : mdeGranular) (doFirstDelay : Int)
    (rs : RandSource) : Int × mdeGranularGrain × RandSource :=
  let t := between 0 (parent.numTranspositions : mdefloat) rs
  let inc := peek parent.srcs (cTrunc t.1) * parent.transpositionOffset
  if gg.activeStatus = t_status.INACTIVE then
    (1, { gg with status := t_status.OFF }, t.2)
  else
    let p := grainInitLocals parent inc t.2
    let start := if p.backwards = true then p.nd else p.st
    let ch := between 0 (parent.activeChannels : mdefloat) p.rs
    let dn := between 0 100 ch.2
    let gg1 : mdeGranularGrain :=
      { gg with
        length := p.length
        start := start
        end_ := if p.backwards = true then p.st else p.nd
        inc := if p.backwards = true then -p.inc else p.inc
        backwards := if p.backwards = true then 1 else 0
        current := start
        status := if dn.1 > parent.density then t_status.SKIPGRAIN else p.status
        rampi := 0
        icurrent := 0
        endRampUp := p.ramplength
        startRampDown := p.length - p.ramplength
        channel := cTrunc ch.1 }
    let r := grainInitFirstDelay gg1 doFirstDelay dn.2
    (0, r.1, r.2)

/-- `mdefloat mdeGranularGrainGetRampVal(gg, rampUp, rampDown, rampLen)`: the value and the
grain afterwards (`rampi` advances).  `rampUp` is the ramp block and `rampDown` the offset
of the ramp-down pointer inside it, as stored in the granulator. -/
def mdeGranularGrainGetRampVal (gg : mdeGranularGrain) (rampUp : Option (List mdefloat))
    (rampDown : Option Int) (rampLen : Int) : mdefloat × mdeGranularGrain :=
  match rampUp, rampDown with
  | some block, some off =>
    if gg.icurrent < gg.endRampUp then (peek block gg.icurrent, gg)
    else if gg.icurrent ≥ gg.startRampDown then
      if gg.rampi < rampLen then (peek block (off + gg.rampi), { gg with rampi := gg.rampi + 1 })
      else (0, gg)
    else (1, gg)
  | _, _ => (0, gg)

/-- The block the pointer `g->samples` designates (`none` is `NULL`). -/
def samplesBlock (g : mdeGranular) : Option (List mdefloat) :=
  match g.samples with
  | none => none
  | some (SamplesRef.external buf) => some buf
  | some SamplesRef.internal => g.theSamples

/-- A pointer into the host output memory: cell `off` of the buffer of channel `chan`. -/
structure SamplePtr where
  chan : Int
  off : Int

/-- The pointer value `g->channelBuffers[channel] + i` (`none` when it is not a valid pointer). -/
def channelPtr (g : mdeGranular) (channel : Int) (i : Int) : Option SamplePtr :=
  match g.channelBuffers with
  | none => none
  | some bufs =>
    if 0 ≤ channel then
      match bufs.getD channel.toNat none with
      | some _ => some { chan := channel, off := i }
      | none => none
    else none

/-- The statement `*where += out` through a pointer into the output memory. -/
def mixInto (g : mdeGranular) (where_ : Option SamplePtr) (out : mdefloat) : mdeGranular :=
  match where_, g.channelBuffers with
  | some p, some bufs =>
    if 0 ≤ p.chan then
      match bufs.getD p.chan.toNat none with
      | some buf =>
        let buf1 := poke buf p.off (peek buf p.off + out)
        { g with channelBuffers := some (bufs.set p.chan.toNat (some buf1)) }
      | none => g
    else g
  | _, _ => g

/-- Variables live across the sample loop of `mdeGranularGrainMixIn`: the grain, the
granulator (whose output memory is written), the pointer `where`, the local `inc`
and the random source. -/
structure MixState where
  gg : mdeGranularGrain
  parent : mdeGranular
  where_ : Option SamplePtr
  inc : mdefloat
  rs : RandSource

/-- One iteration (index `i`) of the sample loop of `mdeGranularGrainMixIn`. -/
def mixStep (i : Int) (s : MixState) : MixState :=
  let bump : Option SamplePtr → Option SamplePtr :=
    fun w => w.map (fun p => { p with off := p.off + 1 })
  if s.gg.firstDelayCounter < s.gg.firstDelay then
    { s with gg := { s.gg with firstDelayCounter := s.gg.firstDelayCounter + 1 },
             where_ := bump s.where_ }
  else
    let s1 : MixState :=
      if mdeGranularGrainExhausted s.gg = true then
        let r := mdeGranularGrainInit s.gg s.parent 0 s.rs
        { s with gg := r.2.1, rs := r.2.2,
                 where_ := channelPtr s.parent r.2.1.channel i, inc := r.2.1.inc }
      else s
    let s2 : MixState :=
      if ¬ (s1.gg.status = t_status.OFF ∨ s1.gg.status = t_status.SKIPGRAIN) then
        let samples := (samplesBlock s1.parent).getD []
        let samp :=
          if s1.inc = 1 then
            peek samples (Int.tmod (cTrunc s1.gg.current) s1.parent.nBufferSamples)
          else interpolate s1.gg.current (samplesBlock s1.parent) s1.parent.nBufferSamples
                 s1.gg.backwards
        let rv := mdeGranularGrainGetRampVal s1.gg s1.parent.rampUp s1.parent.rampDown
                    s1.parent.rampLenSamples
        let out := samp * rv.1 * peek (s1.parent.grainAmps.getD []) i
        { s1 with gg := rv.2, parent := mixInto s1.parent s1.where_ out }
      else s1
    { s2 with gg := { s2.gg with current := s2.gg.current + s2.inc,
                                 icurrent := s2.gg.icurrent + 1 },
              where_ := bump s2.where_ }

/-- The sample loop `for (i = 0; i < howMany; ++i)`: `n` iterations left, `i` the index. -/
def mixLoop : Nat → Int → MixState → MixState
  | 0, _, s => s
  | n + 1, i, s => mixLoop n (i + 1) (mixStep i s)

/-- `void mdeGranularGrainMixIn(mdeGranularGrain* gg, mdeGranular* parent, mdefloat* where, int howMany)`:
the grain, the granulator (output memory) and the random source afterwards. -/
def mdeGranularGrainMixIn (gg : mdeGranularGrain) (parent : mdeGranular)
    (where_ : Option SamplePtr) (howMany : Int) (rs : RandSource) :
    mdeGranularGrain × mdeGranular × RandSource :=
  if (samplesBlock parent).isSome ∧ where_.isSome then
    let s := mixLoop howMany.toNat 0
      { gg := gg, parent := parent, where_ := where_, inc := gg.inc, rs := rs }
    (s.gg, s.parent, s.rs)
  else (gg, parent, rs)

/-- `void makeRamps(int rampLen, mdefloat* rampUp, mdefloat* rampDown)`, loop part:
`for (i = 0; i < rampLen; ++i, f += inc, ++rampUp, ++rampDown) { *rampUp = f; *rampDown = 1.0f - f; }`
with `n` iterations left.  Both pointers point into one block; `up` and `down` are their
offsets in it. -/
def makeRampsLoop (inc : mdefloat) : Nat → Int → Int → mdefloat → List mdefloat → List mdefloat
  | 0, _, _, _, block => block
  | n + 1, up, down, f, block =>
    makeRampsLoop inc n (up + 1) (down + 1) (f + inc) (poke (poke block up f) down (1 - f))

/-- `void makeRamps(int rampLen, mdefloat* rampUp, mdefloat* rampDown)`. -/
def makeRamps (rampLen : Int) (block : List mdefloat) (rampUp rampDown : Int) : List mdefloat :=
  let inc : mdefloat := 1 / ((rampLen - 1 : Int) : mdefloat)
  makeRampsLoop inc rampLen.toNat rampUp rampDown 0 block

/-- `mdefloat square(mdefloat x)`. -/
def square (x : mdefloat) : mdefloat := x * x

/-- `double mus_bessi0(mdefloat x)`: rational approximation of the modified Bessel function. -/
def mus_bessi0 (x : mdefloat) : mdefloat :=
  if x = 0 then 1
  else if fabs x ≤ 15 then
    let z := x * x
    let numerator :=
      (z * (z * (z * (z * (z * (z * (z * (z * (z * (z * (z * (z * (z * (z *
        0.210580722890567e-22 + 0.380715242345326e-19) +
        0.479440257548300e-16) + 0.435125971262668e-13) +
        0.300931127112960e-10) + 0.160224679395361e-7) +
        0.654858370096785e-5) + 0.202591084143397e-2) +
        0.463076284721000e0) + 0.754337328948189e2) +
        0.830792541809429e4) + 0.571661130563785e6) +
        0.216415572361227e8) + 0.356644482244025e9) +
        0.144048298227235e10)
    let denominator :=
      (z * (z * (z - 0.307646912682801e4) + 0.347626332405882e7) - 0.144048298227235e10)
    Neg.neg numerator / denominator
  else 1

/-- The constant `M_PI` as the source spells it. -/
def M_PI : mdefloat := 3.14159265358979323846264338327

/-- The constant `TWO_PI`. -/
def TWO_PI : mdefloat := 2 * M_PI

/-- The functions of `math.h` that `makeWindow` calls; they are library code, taken as
parameters (`log2` is the value of `log(2)`). -/
structure MathFns where
  cos : mdefloat → mdefloat
  sin : mdefloat → mdefloat
  exp : mdefloat → mdefloat
  sqrt : mdefloat → mdefloat
  log2 : mdefloat

/-- The loop shape shared by the symmetric windows of `makeWindow`:
`for (i = 0, j = size - 1, acc = ...; i <= midn; i++, j--, acc = next acc) body`,
with `n` iterations left; `body i j acc window` is the window after the loop body. -/
def windowLoop (body : Int → Int → mdefloat → List mdefloat → List mdefloat)
    (next : mdefloat → mdefloat) :
    Nat → Int → Int → mdefloat → List mdefloat → List mdefloat
  | 0, _, _, _, window => window
  | n + 1, i, j, acc, window =>
    windowLoop body next n (i + 1) (j - 1) (next acc) (body i j acc window)

/-- The statement `window[j] = (window[i] = v)`. -/
def setPair (window : List mdefloat) (i j : Int) (v : mdefloat) : List mdefloat :=
  poke (poke window i v) j v

/-- The loop `for (i = 0; i < size; i++) window[i] = 1.0` of the rectangular window,
`n` iterations left. -/
def onesLoop : Nat → Int → List mdefloat → List mdefloat
  | 0, _, window => window
  | n + 1, i, window => onesLoop n (i + 1) (poke window i 1)

/-- `mdefloat* makeWindow(char* type, int size, mdefloat beta, mdefloat* window)` on a
non-null `window`: the window block afterwards.  An unknown `type` reaches
`error(...)`, which prints, and the block is returned as it was. -/
def makeWindow (m : MathFns) (type : String) (size : Int) (beta : mdefloat)
    (window : List mdefloat) : List mdefloat :=
  let midn : Int := Int.tdiv size 2
  let midp1 : Int := Int.tdiv (size + 1) 2
  let freq : mdefloat := TWO_PI / (size : mdefloat)
  let rate : mdefloat := 1 / (midn : mdefloat)
  let expn : mdefloat := m.log2 / ((midn + 1 : Int) : mdefloat)
  let iters : Nat := (midn + 1).toNat
  if type = "TRAPEZOID" then
    makeRamps midn window 0 midn
  else if type = "RECTANGULAR" then
    onesLoop size.toNat 0 window
  else if type = "HANN" ∨ type = "HANNING" then
    windowLoop (fun i j angle w => setPair w i j (1 / 2 - 1 / 2 * m.cos angle))
      (fun angle => angle + freq) iters 0 (size - 1) 0 window
  else if type = "WELCH" then
    windowLoop
      (fun i j _ w => setPair w i j (1 - square (((i - midn : Int) : mdefloat) / (midp1 : mdefloat))))
      (fun acc => acc) iters 0 (size - 1) 0 window
  else if type = "PARZEN" then
    windowLoop
      (fun i j _ w => setPair w i j (1 - fabs (((i - midn : Int) : mdefloat) / (midp1 : mdefloat))))
      (fun acc => acc) iters 0 (size - 1) 0 window
  else if type = "BARTLETT" then
    windowLoop (fun i j angle w => setPair w i j angle)
      (fun angle => angle + rate) iters 0 (size - 1) 0 window
  else if type = "HAMMING" then
    windowLoop (fun i j angle w => setPair w i j (0.54 - 0.46 * m.cos angle))
      (fun angle => angle + freq) iters 0 (size - 1) 0 window
  else if type = "BLACKMAN2" then
    windowLoop
      (fun i j angle w =>
        let cx := m.cos angle
        setPair w i j (0.34401 + (cx * (-0.49755 + (cx * 0.15844)))))
      (fun angle => angle + freq) iters 0 (size - 1) 0 window
  else if type = "BLACKMAN3" then
    windowLoop
      (fun i j angle w =>
        let cx := m.cos angle
        setPair w i j (0.21747 + (cx * (-0.45325 + (cx * (0.28256 - (cx * 0.04672)))))))
      (fun angle => angle + freq) iters 0 (size - 1) 0 window
  else if type = "BLACKMAN4" then
    windowLoop
      (fun i j angle w =>
        let cx := m.cos angle
        setPair w i j
          (0.084037 + (cx * (-0.29145 + (cx * (0.375696 + (cx * (-0.20762 + (cx * 0.041194)))))))))
      (fun angle => angle + freq) iters 0 (size - 1) 0 window
  else if type = "EXPONENTIAL" then
    windowLoop (fun i j expsum w => setPair w i j (expsum - 1))
      (fun expsum => expsum * expn) iters 0 (size - 1) 1 window
  else if type = "KAISER" then
    let I0beta := mus_bessi0 beta
    windowLoop
      (fun i j angle w =>
        setPair w i j (mus_bessi0 (beta * m.sqrt (1 - square angle)) / I0beta))
      (fun angle => angle - rate) iters 0 (size - 1) 1 window
  else if type = "CAUCHY" then
    windowLoop (fun i j angle w => setPair w i j (1 / (1 + square (beta * angle))))
      (fun angle => angle - rate) iters 0 (size - 1) 1 window
  else if type = "POISSON" then
    windowLoop (fun i j angle w => setPair w i j (m.exp ((-beta) * angle)))
      (fun angle => angle - rate) iters 0 (size - 1) 1 window
  else if type = "RIEMANN" then
    let sr1 : mdefloat := TWO_PI / (size : mdefloat)
    windowLoop
      (fun i j _ w =>
        if i = midn then setPair w i j 1
        else
          let cx := sr1 * ((midn - i : Int) : mdefloat)
          let w1 := poke w i (m.sin cx / cx)
          poke w1 j (peek w1 i))
      (fun acc => acc) iters 0 (size - 1) 0 window
  else if type = "GAUSSIAN" then
    windowLoop (fun i j angle w => setPair w i j (m.exp ((-1 / 2) * square (beta * angle))))
      (fun angle => angle - rate) iters 0 (size - 1) 1 window
  else if type = "TUKEY" then
    let cx : mdefloat := (midn : mdefloat) * (1 - beta)
    windowLoop
      (fun i j _ w =>
        if (i : mdefloat) ≥ cx then setPair w i j 1
        else setPair w i j (1 / 2 * (1 - m.cos (M_PI * (i : mdefloat) / cx))))
      (fun acc => acc) iters 0 (size - 1) 0 window
  else window

/-- The shape names `makeWindow` accepts (every `strcmp` of its chain). -/
def acceptedShapes : List String :=
  ["TRAPEZOID", "RECTANGULAR", "HANN", "HANNING", "WELCH", "PARZEN", "BARTLETT", "HAMMING",
   "BLACKMAN2", "BLACKMAN3", "BLACKMAN4", "EXPONENTIAL", "KAISER", "CAUCHY", "POISSON",
   "RIEMANN", "GAUSSIAN", "TUKEY"]

/-- The local `sampsNeeded` of `mdeGranularSetGrainLengthMS`:
`int sampsNeeded = lenSamples * highestSRC * g->transpositionOffset`. -/
def grainSampsNeeded (g : mdeGranular) (f : mdefloat) : Int :=
  cTrunc (((cInt (ms2samples g.samplingRate f) : Int) : mdefloat)
    * maxFloat g.srcs g.numTranspositions * g.transpositionOffset)

/-- A concrete granulator used by the examples: 44.1 kHz, one voice and one channel, a
static four-sample buffer, a linear ramp of two samples (up `0, 1`, down `1, 0`), no
transposition, settled at grain amplitude 0.5, switched off. -/
def exampleGranular : mdeGranular :=
  { samplingRate := 44100
    maxVoices := 1
    activeVoices := 1
    transpositionOffsetST := 0
    transpositionOffset := 1
    numTranspositions := 1
    transpositions := [0]
    srcs := [1]
    grainLengthMS := 50
    grainLength := 2205
    grainLengthDeviation := 0
    BufferName := "buf"
    numChannels := 1
    activeChannels := 1
    channelBuffers := some [some [0, 0]]
    signalIn := none
    nOutputSamples := 2
    grains := some [{ zeroGrain with length := 10, activeStatus := t_status.ACTIVE }]
    theSamples := none
    samples := some (SamplesRef.external [0, 1, 2, 3])
    nBufferSamples := 4
    nAllocatedBufferSamples := 0
    AllocatedBufferMS := 0
    BufferSamplesMS := 0
    samplesStartMS := 0
    samplesStart := 0
    samplesEndMS := 0
    samplesEnd := 3
    rampLenMS := 5
    rampLenSamples := 2
    rampUp := some [0, 1, 1, 0]
    rampDown := some 2
    density := 100
    status := t_status.OFF
    grainAmp := 1 / 2
    lastGrainAmp := 1 / 2
    targetGrainAmp := 1 / 2
    grainAmpInc := 0
    grainAmps := some [1 / 2, 1 / 2]
    statusRampIndex := 0
    live := 0
    liveIndex := 0
    rampType := some "TRAPEZOID"
    octaveSize := 2
    octaveDivisions := 12
    warnings := 1
    portionPosition := 0
    portionWidth := 100 }

/-- A random source for the examples: `RAND_MAX = 32767`, every draw is 0. -/
def exampleRand : RandSource := { RAND_MAX := 32767, draws := fun _ => 0, pos := 0 }

/-- An exhausted grain (`icurrent = 5 > length = 3`) of a deactivated voice. -/
def inactiveExhaustedGrain : mdeGranularGrain :=
  { zeroGrain with length := 3, icurrent := 5, activeStatus := t_status.INACTIVE }

/-- An exhausted grain (`icurrent = 5 > length = 3`) still inside its initial delay
(`firstDelayCounter = 0 < firstDelay = 10`). -/
def delayingExhaustedGrain : mdeGranularGrain :=
  { zeroGrain with length := 3, icurrent := 5, activeStatus := t_status.ACTIVE,
                   firstDelay := 10, firstDelayCounter := 0 }

/-- An exhausted grain (`icurrent = 5 > length = 3`) of an active voice, past its delay. -/
def activeExhaustedGrain : mdeGranularGrain :=
  { zeroGrain with length := 3, icurrent := 5, activeStatus := t_status.ACTIVE }

/-- Invariant of a glide started from amplitude `a0` toward the request `f` with
`N = nOutputSamples - 1` steps: `lastGrainAmp` and `grainAmpInc` are those written by
`mdeGranularSetGrainAmp`, and either the target is `f` and the amplitude is on the grid
`a0 + m * (f - a0) / N` with `m <= N`, or the target is 0 (request below `0.00001`), the
request is not above `a0` and the amplitude is between 0 and `a0`. -/
def GlideInv (a0 f : mdefloat) (N : Int) (s : mdeGranular) : Prop :=
  s.lastGrainAmp = a0 ∧ s.grainAmpInc = (f - a0) / (N : mdefloat) ∧
  ((s.targetGrainAmp = f ∧
      ∃ m : Nat, (m : Int) ≤ N ∧ s.grainAmp = a0 + (m : mdefloat) * ((f - a0) / (N : mdefloat))) ∨
   (s.targetGrainAmp = 0 ∧ f ≤ a0 ∧ 0 ≤ s.grainAmp ∧ s.grainAmp ≤ a0))

/-- A loop body of `makeWindow` that stores one and the same value in the cells `i` and
`j` (the statement `window[j] = (window[i] = v)`), whenever both cells are inside the block. -/
def PairBody (body : Int → Int → mdefloat → List mdefloat → List mdefloat) : Prop :=
  ∀ (i j : Int) (acc : mdefloat) (w : List mdefloat),
    0 ≤ i → i < w.length → 0 ≤ j → j < w.length → ∃ v, body i j acc w = setPair w i j v

/-- Stand-ins for the `math.h` functions in the examples (every function constantly 0). -/
def exampleMath : MathFns :=
  { cos := fun _ => 0, sin := fun _ => 0, exp := fun _ => 0, sqrt := fun _ => 0, log2 := 0 }

/-- Write `g->grains[i] = gg`; outside the block the write is dropped. -/
def pokeGrain (gs : List mdeGranularGrain) (i : Int) (gg : mdeGranularGrain) :
    List mdeGranularGrain :=
  if 0 ≤ i then gs.set i.toNat gg else gs

/-- Loop of `mdeGranularSetActiveVoices`, `n` iterations left, `i` the index:
`g->grains[i].activeStatus = (i >= av ? INACTIVE : ACTIVE); g->grains[i].doDelay = 1;`. -/
def setActiveVoicesLoop (av : Int) : Nat → Int → List mdeGranularGrain → List mdeGranularGrain
  | 0, _, gs => gs
  | n + 1, i, gs =>
    let gg := peekGrain gs i
    setActiveVoicesLoop av n (i + 1)
      (pokeGrain gs i
        { gg with activeStatus := if i ≥ av then t_status.INACTIVE else t_status.ACTIVE,
                  doDelay := 1 })

/-- `void mdeGranularSetActiveVoices(mdeGranular* g, mdefloat activeVoices)`. -/
def mdeGranularSetActiveVoices (g : mdeGranular) (activeVoices : mdefloat) : mdeGranular :=
  let av : Int := cTrunc activeVoices
  if av ≥ 0 ∧ av ≤ g.maxVoices then
    match g.grains with
    | some gs =>
      { g with activeVoices := av,
               grains := some (setActiveVoicesLoop av g.maxVoices.toNat 0 gs) }
    | none => { g with activeVoices := av }
  else g

/-- `void mdeGranularSetDensity(mdeGranular* g, mdefloat f)`. -/
def mdeGranularSetDensity (g : mdeGranular) (f : mdefloat) : mdeGranular :=
  if f ≥ 0 ∧ f ≤ 100 then { g with density := f } else g

/-- `void mdeGranularSetSamplesStartMS(mdeGranular* g, mdefloat f)`. -/
def mdeGranularSetSamplesStartMS (g : mdeGranular) (f : mdefloat) : mdeGranular :=
  let g1 := { g with samplesStartMS := f, samplesStart := ms2samples g.samplingRate f }
  let g2 :=
    if g1.samplesStart < 0 then
      { g1 with samplesStart := 0, samplesStartMS := samples2ms g1.samplingRate (cInt 0) }
    else g1
  if g2.samplesStart ≥ g2.nBufferSamples then
    { g2 with samplesStart := g2.nBufferSamples - 1,
              samplesStartMS := samples2ms g2.samplingRate (cInt (g2.nBufferSamples - 1)) }
  else g2

/-- `void mdeGranularSetSamplesEndMS(mdeGranular* g, mdefloat f)`. -/
def mdeGranularSetSamplesEndMS (g : mdeGranular) (f : mdefloat) : mdeGranular :=
  let g1 := { g with samplesEndMS := f, samplesEnd := ms2samples g.samplingRate f }
  let g2 :=
    if g1.samplesEnd ≥ g1.nBufferSamples ∨ g1.samplesEndMS = DBL_MIN then
      { g1 with samplesEnd := g1.nBufferSamples - 1,
                samplesEndMS := samples2ms g1.samplingRate (cInt (g1.nBufferSamples - 1)) }
    else g1
  if g2.samplesEnd < 0 then
    { g2 with samplesEnd := 0, samplesEndMS := samples2ms g2.samplingRate (cInt 0) }
  else g2

/-- The locals `start` and `end` of `mdeGranularPortion` at the point where they are passed
to `mdeGranularSetSamplesStartMS` and `mdeGranularSetSamplesEndMS`. -/
def portionBounds (buf_ms position width : mdefloat) : mdefloat × mdefloat :=
  let width_ms := buf_ms * width * (1 / 100)
  let half_width_ms := width_ms * (1 / 2)
  let pos_ms := buf_ms * position * (1 / 100)
  let start := pos_ms - half_width_ms
  let end_ := pos_ms + half_width_ms
  let start1 := if start < 0 then 0 else start
  let end1 := if start < 0 then width_ms else end_
  let start2 := if end1 > buf_ms then buf_ms - width_ms else start1
  let end2 := if end1 > buf_ms then buf_ms else end1
  (start2, end2)

/-- `void mdeGranularPortion(mdeGranular* g, mdefloat position, mdefloat width)`. -/
def mdeGranularPortion (g : mdeGranular) (position width : mdefloat) : mdeGranular :=
  if width ≤ 0 ∨ width > 100 ∨ position < 0 ∨ position > 100 then g
  else
    let b := portionBounds g.BufferSamplesMS position width
    let g1 := { g with portionPosition := position, portionWidth := width }
    mdeGranularSetSamplesEndMS (mdeGranularSetSamplesStartMS g1 b.1) b.2

/-- `mdefloat st2src(mdefloat st, mdefloat octaveSize, mdefloat octaveDivisions)`:
`pow(octaveSize, st / octaveDivisions)`; `pow` is the function of `math.h`, a parameter. -/
def st2src (pow : mdefloat → mdefloat → mdefloat) (st octaveSize octaveDivisions : mdefloat) :
    mdefloat :=
  pow octaveSize (st / octaveDivisions)

/-- Loop of `mdeGranularSetTranspositions`, `n` iterations left, `i` the index:
`st = *list++; g->transpositions[i] = st; g->srcs[i] = st2src(st, ...)`.  The state is the
pair of the arrays `transpositions` and `srcs`. -/
def setTranspositionsLoop (pow : mdefloat → mdefloat → mdefloat)
    (octaveSize octaveDivisions : mdefloat) (list : List mdefloat) :
    Nat → Int → List mdefloat × List mdefloat → List mdefloat × List mdefloat
  | 0, _, arrays => arrays
  | n + 1, i, (transpositions, srcs) =>
    let st := peek list i
    setTranspositionsLoop pow octaveSize octaveDivisions list n (i + 1)
      (poke transpositions i st, poke srcs i (st2src pow st octaveSize octaveDivisions))

/-- `void mdeGranularSetTranspositions(mdeGranular* g, int num, mdefloat* list)`; the loop
runs while `i < num && i < MAXTRANSPOSITIONS`. -/
def mdeGranularSetTranspositions (pow : mdefloat → mdefloat → mdefloat) (g : mdeGranular)
    (num : Int) (list : Option (List mdefloat)) : mdeGranular :=
  let num1 : Int := if num = 0 then 1 else num
  let list1 : List mdefloat := if num = 0 then [0] else list.getD []
  let arrays := setTranspositionsLoop pow g.octaveSize g.octaveDivisions list1
    (min num1 MAXTRANSPOSITIONS).toNat 0 (g.transpositions, g.srcs)
  { g with numTranspositions := num1, transpositions := arrays.1, srcs := arrays.2 }

/-- `void* mdeCalloc(int howmany, size_t size, char* caller, char warn)` for an array of
`mdefloat`: `NULL` for a request of less than one cell, else `howmany` zeroed cells
(running out of memory is not modelled). -/
def mdeCalloc (howmany : Int) : Option (List mdefloat) :=
  if howmany < 1 then none else some (List.replicate howmany.toNat 0)

/-- `void mdeGranularStoreRampType(mdeGranular* g, char* type)`: the name is copied into
fresh memory and the old copy freed. -/
def mdeGranularStoreRampType (g : mdeGranular) (type : String) : mdeGranular :=
  { g with rampType := some type }

/-- Loop of `mdeGranularInitGrains`, `n` iterations left, `i` the index:
`mdeGranularGrainInit(&g->grains[i], g, 1)`. -/
def initGrainsLoop (parent : mdeGranular) :
    Nat → Int → List mdeGranularGrain → RandSource → List mdeGranularGrain × RandSource
  | 0, _, gs, rs => (gs, rs)
  | n + 1, i, gs, rs =>
    let r := mdeGranularGrainInit (peekGrain gs i) parent 1 rs
    initGrainsLoop parent n (i + 1) (pokeGrain gs i r.2.1) r.2.2

/-- `void mdeGranularInitGrains(mdeGranular* g)`: nothing happens without samples. -/
def mdeGranularInitGrains (g : mdeGranular) (rs : RandSource) : mdeGranular × RandSource :=
  if (samplesBlock g).isSome then
    match g.grains with
    | some gs =>
      let r := initGrainsLoop g g.maxVoices.toNat 0 gs rs
      ({ g with grains := some r.1 }, r.2)
    | none => (g, rs)
  else (g, rs)

/-- The call `makeWindow(g->rampType, g->rampLenSamples * 2, 2.5, g->rampUp)` of the ramp
setters, writing the ramp block in place. -/
def fillRamp (m : MathFns) (g : mdeGranular) : mdeGranular :=
  match g.rampUp with
  | some block =>
    let window := makeWindow m (g.rampType.getD "") (cInt (g.rampLenSamples * 2)) (5 / 2) block
    { g with rampUp := some window }
  | none => g

/-- `void mdeGranularSetRampType(mdeGranular* g, char* type)`. -/
def mdeGranularSetRampType (m : MathFns) (g : mdeGranular) (type : String) (rs : RandSource) :
    mdeGranular × RandSource :=
  if g.status ≠ t_status.OFF then (g, rs)
  else
    let r := mdeGranularInitGrains (mdeGranularStoreRampType g type) rs
    (fillRamp m r.1, r.2)

/-- `void mdeGranularSetRampLenMS(mdeGranular* g, mdefloat rampLenMS)`. -/
def mdeGranularSetRampLenMS (m : MathFns) (g : mdeGranular) (rampLenMS : mdefloat)
    (rs : RandSource) : mdeGranular × RandSource :=
  let halfgrainlength := g.grainLengthMS * (1 / 2)
  if g.status ≠ t_status.OFF then (g, rs)
  else
    let rampLenMS1 := if rampLenMS < RAMPLENMINMS then RAMPLENMINMS else rampLenMS
    if rampLenMS1 > halfgrainlength then (g, rs)
    else
      let rampLenSamples := ms2samples g.samplingRate rampLenMS1
      let g1 : mdeGranular :=
        { g with rampLenMS := rampLenMS1
                 rampLenSamples := rampLenSamples
                 rampUp := mdeCalloc (cInt (rampLenSamples * 2))
                 rampDown := some rampLenSamples }
      mdeGranularInitGrains (fillRamp m g1) rs

/-- `void mdeGranularSetLiveBufferSize(mdeGranular* g, mdefloat sizeMS)`. -/
def mdeGranularSetLiveBufferSize (g : mdeGranular) (sizeMS : mdefloat) : mdeGranular :=
  if g.status = t_status.OFF then
    if g.grainLengthMS > sizeMS ∧ g.warnings ≠ 0 then g
    else
      let numSamples : Int := cInt (ms2samples g.samplingRate sizeMS)
      { g with theSamples := mdeCalloc numSamples
               nAllocatedBufferSamples := numSamples
               AllocatedBufferMS := sizeMS
               samples := if g.live ≠ 0 then some SamplesRef.internal else g.samples }
  else g

/-- The cosine at the three angles the Hanning examples use, the constant `M_PI` standing
for pi: `cos 0 = 1`, `cos pi = -1`, `cos (2 pi / 3) = -1/2`. -/
def tableCos (x : mdefloat) : mdefloat :=
  if x = 0 then 1 else if x = M_PI then -1 else if x = TWO_PI / 3 then -1 / 2 else 0

/-- The `math.h` parameters of the Hanning examples. -/
def hannMath : MathFns :=
  { cos := tableCos, sin := fun _ => 0, exp := fun _ => 0, sqrt := fun _ => 0, log2 := 0 }

/-- A stand-in for `pow` in the examples: `pow x 0 = 1`, and 0 elsewhere. -/
def examplePow (_x y : mdefloat) : mdefloat :=
  if y = 0 then 1 else 0

/-- A random source whose every draw is `RAND_MAX = 32767`. -/
def maxRand : RandSource := { RAND_MAX := 32767, draws := fun _ => 32767, pos := 0 }

/-- `void mdeGranularSetActiveChannels(mdeGranular* g, long l)`. -/
def mdeGranularSetActiveChannels (g : mdeGranular) (l : Int) : mdeGranular :=
  if l > g.numChannels then { g with activeChannels := g.numChannels }
  else if l < 1 then { g with activeChannels := 1 }
  else { g with activeChannels := cInt l }

/-- The part of `mdeGranularInit3` after the `if (samples) ... else ...` block: buffer size,
region reset with the sentinel `DBL_MIN`, the 90 per cent grain-length rewrite when the
buffer is shorter than the grain, and the grain initialisation; returns 0. -/
def init3Tail (g : mdeGranular) (samplesMS numSamples : mdefloat) (rs : RandSource) :
    Int × mdeGranular × RandSource :=
  let g1 := { g with nBufferSamples := cTrunc numSamples, BufferSamplesMS := samplesMS }
  let g2 := mdeGranularSetSamplesStartMS (mdeGranularSetSamplesEndMS g1 DBL_MIN) DBL_MIN
  let ninetypc : Int := cTrunc ((g2.nBufferSamples : mdefloat) * (9 / 10))
  let g3 :=
    if g2.nBufferSamples < g2.grainLength then
      { g2 with grainLength := ninetypc, grainLengthMS := samples2ms g2.samplingRate ninetypc }
    else g2
  let r := mdeGranularInitGrains g3 rs
  (0, r.1, r.2)

/-- `int mdeGranularInit3(mdeGranular* g, mdefloat* samples, mdefloat samplesMS, mdefloat numSamples)`:
the return value, the granulator and the random source afterwards.  A non-null `samples`
is a static buffer of the host; `NULL` asks for live granulation. -/
def mdeGranularInit3 (g : mdeGranular) (samples : Option (List mdefloat))
    (samplesMS numSamples : mdefloat) (rs : RandSource) : Int × mdeGranular × RandSource :=
  match samples with
  | some buf =>
    init3Tail { g with samples := some (SamplesRef.external buf), live := 0 } samplesMS
      numSamples rs
  | none =>
    let g1 := if g.theSamples.isNone then mdeGranularSetLiveBufferSize g 10000 else g
    let g2 := { g1 with samples := some SamplesRef.internal }
    if numSamples > (g2.nAllocatedBufferSamples : mdefloat) then (1, g2, rs)
    else init3Tail { g2 with live := 1, liveIndex := 0 } samplesMS numSamples rs

/-- The local `newLiveSamples` of `mdeGranularGrainInit`:
`live ? parent->nOutputSamples * (1 + (length / parent->nOutputSamples)) : 0`. -/
def grainNewLiveSamples (live nOutputSamples length : Int) : Int :=
  if live ≠ 0 then nOutputSamples * (1 + Int.tdiv length nOutputSamples) else 0

/-- The local `plen` of `mdeGranularGrainInit` after `if (plen < ramplength2) plen = ramplength2`. -/
def grainInitPlen (parent : mdeGranular) : Int :=
  if parent.grainLength < cInt parent.rampLenSamples * 2 then cInt parent.rampLenSamples * 2
  else parent.grainLength

/-- The draws of a random source are results of `rand()`: between 0 and `RAND_MAX`. -/
def RandOK (rs : RandSource) : Prop :=
  0 ≤ rs.RAND_MAX ∧ ∀ n : Nat, 0 ≤ rs.draws n ∧ rs.draws n ≤ rs.RAND_MAX

/-- A random source for the length example: second draw 16384 (half of the deviation
range), third draw 32767 (the coin falls on "negative"), every other draw 0. -/
def deviateRand : RandSource :=
  { RAND_MAX := 32767,
    draws := fun n => if n = 1 then 16384 else if n = 2 then 32767 else 0,
    pos := 0 }

/-- A granulator for the length example: grain length 10 samples, ramp 5 samples,
deviation 5 per cent. -/
def shortGrainGranular : mdeGranular :=
  { exampleGranular with grainLength := 10, rampLenSamples := 5, grainLengthDeviation := 5 }

/-- A granulator whose only transposition factor is 2 (an octave up). -/
def octaveUpGranular : mdeGranular :=
  { exampleGranular with srcs := [2], transpositions := [12] }

/-- A grain of an active voice that waits ten samples before it starts. -/
def delayingGrain : mdeGranularGrain :=
  { zeroGrain with length := 100, activeStatus := t_status.ACTIVE, firstDelay := 10 }

/-- A granulator whose region (samples 0 to 9) has room for a grain of 4 samples. -/
def roomyGranular : mdeGranular :=
  { exampleGranular with grainLength := 4, samplesEnd := 9, nBufferSamples := 10,
                         samples := some (SamplesRef.external [0, 1, 2, 3, 4, 5, 6, 7, 8, 9]) }

/-- Loop of `mdeGranularCopyInputSamples`, `n` iterations left, `i` the offset of `in`:
`*samples++ = *in++; if (++li == end) { li = 0; samples = g->theSamples; }`.  The state is
the block `g->theSamples`, the offset of the local pointer `samples` in it, and `li`. -/
def copyInputSamplesLoop (in_ : List mdefloat) (end_ : Int) :
    Nat → Int → List mdefloat × Int × Int → List mdefloat × Int × Int
  | 0, _, st => st
  | n + 1, i, (block, samples, li) =>
    let block1 := poke block samples (peek in_ i)
    if li + 1 = end_ then copyInputSamplesLoop in_ end_ n (i + 1) (block1, 0, 0)
    else copyInputSamplesLoop in_ end_ n (i + 1) (block1, samples + 1, li + 1)

/-- `void mdeGranularCopyInputSamples(mdeGranular* g, mdefloat* in, long nsamps)`. -/
def mdeGranularCopyInputSamples (g : mdeGranular) (in_ : List mdefloat) (nsamps : Int) :
    mdeGranular :=
  match g.theSamples with
  | some block =>
    let r := copyInputSamplesLoop in_ g.nBufferSamples nsamps.toNat 0
      (block, g.liveIndex, g.liveIndex)
    { g with theSamples := some r.1, liveIndex := r.2.2 }
  | none => g

/-- Loop of `mdeGranularSmoothMode`, `n` iterations left, `i` the index:
`g->grains[i].doDelay = delay; delay += dinc;`. -/
def smoothModeLoop (dinc : Int) : Nat → Int → Int → List mdeGranularGrain → List mdeGranularGrain
  | 0, _, _, gs => gs
  | n + 1, i, delay, gs =>
    let gg := peekGrain gs i
    smoothModeLoop dinc n (i + 1) (delay + dinc) (pokeGrain gs i { gg with doDelay := delay })

/-- `void mdeGranularSmoothMode(mdeGranular* g)`.  The declaration `int dinc = len / av`
divides by `g->activeVoices`; for `av == 0` the division is undefined and the model
yields `none`. -/
def mdeGranularSmoothMode (g : mdeGranular) : Option mdeGranular :=
  let av := g.activeVoices
  let len := g.grainLength
  if av = 0 then none
  else
    let dinc := Int.tdiv len av
    let g1 := mdeGranularForceGrainReinit g
    let dinc1 := if dinc < 2 then 2 else dinc
    let g2 := { g1 with grainLengthDeviation := 0 }
    match g2.grains with
    | some gs => some { g2 with grains := some (smoothModeLoop dinc1 av.toNat 0 0 gs) }
    | none => some g2

/-- Read the pointer `channelBuffers[j]` (`none` is `NULL` or no such cell). -/
def peekChan (bufs : List (Option (List mdefloat))) (j : Int) : Option (List mdefloat) :=
  if 0 ≤ j then bufs.getD j.toNat none else none

/-- Store the block that `channelBuffers[j]` points to after it has been written. -/
def pokeChan (bufs : List (Option (List mdefloat))) (j : Int) (b : List mdefloat) :
    List (Option (List mdefloat)) :=
  if 0 ≤ j then bufs.set j.toNat (some b) else bufs

/-- Read `g->channelBuffers[j][i]`; 0 where there is no such cell. -/
def outSample (g : mdeGranular) (j i : Int) : mdefloat :=
  match g.channelBuffers with
  | some bufs =>
    match peekChan bufs j with
    | some buf => peek buf i
    | none => 0
  | none => 0

/-- Loop of `mdeGranularGo` that fills the amplitude table, `n` iterations left, `i` the
index: `*gamp = mdeGranularGetGrainAmpAndInc(g)` with `++gamp`; `gamp` starts at
`g->grainAmps`. -/
def goGrainAmpsLoop : Nat → Int → mdeGranular → mdeGranular
  | 0, _, g => g
  | n + 1, i, g =>
    let r := mdeGranularGetGrainAmpAndInc g
    goGrainAmpsLoop n (i + 1)
      { r.2 with grainAmps := r.2.grainAmps.map (fun amps => poke amps i r.1) }

/-- The first block of `mdeGranularGo`:
`if (mdeGranularDidInit(g)) if (!(mdeGranularAtTargetGrainAmp(g) && *gamp == g->grainAmp)) for ...`. -/
def goGrainAmps (tickSize : Int) (g : mdeGranular) : mdeGranular :=
  match g.grainAmps with
  | some amps =>
    if ¬ (mdeGranularAtTargetGrainAmp g = true ∧ peek amps 0 = g.grainAmp) then
      goGrainAmpsLoop tickSize.toNat 0 g
    else g
  | none => g

/-- Loop `for (i = 0; i < g->numChannels; ++i) silence(g->channelBuffers[i], tickSize)` of
`mdeGranularGo`, `n` iterations left; `silence` takes an `int` and skips a null pointer. -/
def goSilenceLoop (tickSize : Int) :
    Nat → Int → List (Option (List mdefloat)) → List (Option (List mdefloat))
  | 0, _, bufs => bufs
  | n + 1, i, bufs =>
    match peekChan bufs i with
    | some buf => goSilenceLoop tickSize n (i + 1) (pokeChan bufs i (silence buf (cInt tickSize)))
    | none => goSilenceLoop tickSize n (i + 1) bufs

/-- The zeroing of the channel buffers in `mdeGranularGo`. -/
def goSilence (tickSize : Int) (g : mdeGranular) : mdeGranular :=
  match g.channelBuffers with
  | some bufs =>
    { g with channelBuffers := some (goSilenceLoop tickSize g.numChannels.toNat 0 bufs) }
  | none => g

/-- Loop over the voices in `mdeGranularGo`, `n` iterations left, `i` the index:
`gg = &g->grains[i]; mdeGranularGrainMixIn(gg, g, g->channelBuffers[gg->channel], tickSize);`.
The grain is written back into its cell of the array. -/
def goMixLoop (tickSize : Int) : Nat → Int → mdeGranular → RandSource → mdeGranular × RandSource
  | 0, _, g, rs => (g, rs)
  | n + 1, i, g, rs =>
    match g.grains with
    | some gs =>
      let gg := peekGrain gs i
      let r := mdeGranularGrainMixIn gg g (channelPtr g gg.channel 0) (cInt tickSize) rs
      goMixLoop tickSize n (i + 1) { r.2.1 with grains := some (pokeGrain gs i r.1) } r.2.2
    | none => (g, rs)

/-- Loop `for (j = 0; j < g->activeChannels; ++j) { samp = g->channelBuffers[j] + i; *samp *= statusRampVal; }`
of `mdeGranularGo`, `n` iterations left, `j` the channel.  A null channel pointer, which
the C code would dereference, is skipped. -/
def goFadeChannels (i : Int) (statusRampVal : mdefloat) :
    Nat → Int → List (Option (List mdefloat)) → List (Option (List mdefloat))
  | 0, _, bufs => bufs
  | n + 1, j, bufs =>
    match peekChan bufs j with
    | some buf =>
      goFadeChannels i statusRampVal n (j + 1)
        (pokeChan bufs j (poke buf i (peek buf i * statusRampVal)))
    | none => goFadeChannels i statusRampVal n (j + 1) bufs

/-- Loop over the samples of the tick in the fade block of `mdeGranularGo`, `n` iterations
left, `i` the sample: `statusRampVal = mdeGranularGetAmpForStatus(g)`, then the loop over
the active channels. -/
def goFadeLoop : Nat → Int → mdeGranular → mdeGranular
  | 0, _, g => g
  | n + 1, i, g =>
    let r := mdeGranularGetAmpForStatus g
    match r.2.channelBuffers with
    | some bufs =>
      goFadeLoop n (i + 1)
        { r.2 with channelBuffers := some (goFadeChannels i r.1 r.2.activeChannels.toNat 0 bufs) }
    | none => goFadeLoop n (i + 1) r.2

/-- The state of `mdeGranularGo` after the loop over the voices (the mixed output, before
the fade block), for a tick whose test `g->status && g->grains` is true. -/
def goMixed (g : mdeGranular) (rs : RandSource) : mdeGranular × RandSource :=
  let tickSize := g.nOutputSamples
  let g1 := goSilence tickSize (goGrainAmps tickSize g)
  goMixLoop tickSize g1.maxVoices.toNat 0 g1 rs

/-- `void mdeGranularGo(mdeGranular* g)`: the granulator and the random source afterwards. -/
def mdeGranularGo (g : mdeGranular) (rs : RandSource) : mdeGranular × RandSource :=
  let tickSize := g.nOutputSamples
  let g1 := goSilence tickSize (goGrainAmps tickSize g)
  if g1.status.toInt ≠ 0 ∧ g1.grains.isSome then
    let r := goMixed g rs
    if r.1.status = t_status.STARTING ∨ r.1.status = t_status.STOPPING then
      (goFadeLoop tickSize.toNat 0 r.1, r.2)
    else r
  else (g1, rs)

/-- The ramp-relevant part of `n` samples of the loop of `mdeGranularGrainMixIn` for a
sounding grain: `rampval = mdeGranularGrainGetRampVal(gg, ...)`, then `gg->icurrent++`. -/
def rampCalls (rampUp : Option (List mdefloat)) (rampDown : Option Int) (rampLen : Int) :
    Nat → mdeGranularGrain → mdeGranularGrain
  | 0, gg => gg
  | n + 1, gg =>
    let g1 := (mdeGranularGrainGetRampVal (rampCalls rampUp rampDown rampLen n gg) rampUp
      rampDown rampLen).2
    { g1 with icurrent := g1.icurrent + 1 }

/-- A silent grain in mid-course: status SKIPGRAIN, increment 2, sample 3 of 10. -/
def silentGrain : mdeGranularGrain :=
  { zeroGrain with length := 10, icurrent := 3, current := 7, inc := 2,
                   status := t_status.SKIPGRAIN, activeStatus := t_status.ACTIVE }

/-- The example granulator while it is stopping, with the tick's output memory holding
other values than zero. -/
def stoppingGranular : mdeGranular :=
  { exampleGranular with status := t_status.STOPPING, channelBuffers := some [some [3, 4]] }

/-- A live granulator with a circular buffer of four samples, write index 3. -/
def liveGranular : mdeGranular :=
  { exampleGranular with theSamples := some [0, 0, 0, 0], samples := some SamplesRef.internal,
                         nAllocatedBufferSamples := 4, live := 1, liveIndex := 3 }

/-- A grain at the start of its ramp-up: ramp of two samples, length 10. -/
def rampingGrain : mdeGranularGrain :=
  { zeroGrain with length := 10, endRampUp := 2, startRampDown := 8 }

/-! ### Rounded arithmetic

The definitions above compute with exact rationals.  In the C code every arithmetic
operation on `mdefloat` is rounded to the floating-point format (`double` in the Max build,
`float` in the Pd build).  Where a property depends on that rounding the function is
embedded a second time with the rounding made explicit: `fl` is the rounding of the format,
applied to the result of every operation that can be inexact, to every conversion of an
integer and to every decimal literal that is not a dyadic number (`0`, `0.5` and `1` are
exact in every binary format).  With `fl` the identity these definitions are the exact ones. -/

/-- Nearest integer to a rational, ties to the even neighbour. -/
def roundEven (q : ℚ) : Int :=
  if q - (Int.floor q : ℚ) < 1 / 2 then Int.floor q
  else if 1 / 2 < q - (Int.floor q : ℚ) then Int.floor q + 1
  else if Int.floor q % 2 = 0 then Int.floor q
  else Int.floor q + 1

/-- Round to the nearest number with `p` significant bits, ties to even (the default
rounding of IEEE 754); the exponent range is not bounded, so overflow and subnormal
numbers are not modelled. -/
def roundTo (p : Nat) (x : ℚ) : ℚ :=
  let e : Int := Int.log 2 |x| - ((p : Int) - 1)
  (roundEven (x / (2 : ℚ) ^ e) : ℚ) * (2 : ℚ) ^ e

/-- Rounding of C `double` (53 significant bits). -/
def binary64 (x : ℚ) : ℚ := roundTo 53 x

/-- Rounding of C `float` (24 significant bits). -/
def binary32 (x : ℚ) : ℚ := roundTo 24 x

/-- `void mdeGranularSetGrainAmp(mdeGranular* g, mdefloat f)` with rounded arithmetic. -/
def mdeGranularSetGrainAmpFl (fl : ℚ → ℚ) (g : mdeGranular) (f : mdefloat) : mdeGranular :=
  let min : mdefloat := fl (1 / 100000)
  if f ≥ 0 ∧ f ≤ 100 then
    if mdeGranularAtTargetGrainAmp g = true ∧ fabs (fl (g.targetGrainAmp - f)) > min then
      let lastGrainAmp := g.grainAmp
      { g with
        lastGrainAmp := lastGrainAmp
        targetGrainAmp := if f < min then 0 else f
        grainAmpInc :=
          fl (fl (f - lastGrainAmp) / fl ((g.nOutputSamples - 1 : Int) : mdefloat)) }
    else g
  else g

/-- `mdefloat mdeGranularGetGrainAmpAndInc(mdeGranular* g)` with rounded arithmetic:
`g->grainAmp += g->grainAmpInc` is one rounded addition. -/
def mdeGranularGetGrainAmpAndIncFl (fl : ℚ → ℚ) (g : mdeGranular) : mdefloat × mdeGranular :=
  let ret := g.grainAmp
  let g1 := if mdeGranularAtTargetGrainAmp g = true then g
            else { g with grainAmp := fl (g.grainAmp + g.grainAmpInc) }
  let g2 := if g1.grainAmp < 0 then { g1 with grainAmp := 0 } else g1
  (ret, g2)

/-- The granulator after `n` successive calls of `mdeGranularGetGrainAmpAndInc`, rounded
arithmetic. -/
def grainAmpCallsFl (fl : ℚ → ℚ) : Nat → mdeGranular → mdeGranular
  | 0, g => g
  | n + 1, g => (mdeGranularGetGrainAmpAndIncFl fl (grainAmpCallsFl fl n g)).2

/-- The amplitude loop of `mdeGranularGo` (see `goGrainAmpsLoop`) with rounded arithmetic. -/
def goGrainAmpsLoopFl (fl : ℚ → ℚ) : Nat → Int → mdeGranular → mdeGranular
  | 0, _, g => g
  | n + 1, i, g =>
    let r := mdeGranularGetGrainAmpAndIncFl fl g
    goGrainAmpsLoopFl fl n (i + 1)
      { r.2 with grainAmps := r.2.grainAmps.map (fun amps => poke amps i r.1) }

/-- The first block of `mdeGranularGo` (see `goGrainAmps`) with rounded arithmetic. -/
def goGrainAmpsFl (fl : ℚ → ℚ) (tickSize : Int) (g : mdeGranular) : mdeGranular :=
  match g.grainAmps with
  | some amps =>
    if ¬ (mdeGranularAtTargetGrainAmp g = true ∧ peek amps 0 = g.grainAmp) then
      goGrainAmpsLoopFl fl tickSize.toNat 0 g
    else g
  | none => g

/-- The loop of `makeRamps` (see `makeRampsLoop`) with rounded arithmetic: `f += inc` and
`1.0f - f` are each one rounded operation. -/
def makeRampsLoopFl (fl : ℚ → ℚ) (inc : mdefloat) :
    Nat → Int → Int → mdefloat → List mdefloat → List mdefloat
  | 0, _, _, _, block => block
  | n + 1, up, down, f, block =>
    makeRampsLoopFl fl inc n (up + 1) (down + 1) (fl (f + inc))
      (poke (poke block up f) down (fl (1 - f)))

/-- `void makeRamps(int rampLen, mdefloat* rampUp, mdefloat* rampDown)` with rounded
arithmetic; `inc` is `1.0 / (mdefloat)(rampLen - 1)`. -/
def makeRampsFl (fl : ℚ → ℚ) (rampLen : Int) (block : List mdefloat) (rampUp rampDown : Int) :
    List mdefloat :=
  let inc : mdefloat := fl (1 / fl ((rampLen - 1 : Int) : mdefloat))
  makeRampsLoopFl fl inc rampLen.toNat rampUp rampDown 0 block

/-- The values of `f` in the loop of `makeRamps`: `rampValue fl inc f k` is `f` after `k`
rounded additions of `inc`. -/
def rampValue (fl : ℚ → ℚ) (inc f : mdefloat) : Nat → mdefloat
  | 0 => f
  | k + 1 => fl (rampValue fl inc f k + inc)

/-- `mdefloat* makeWindow(char* type, int size, mdefloat beta, mdefloat* window)` with the
arithmetic of the `TRAPEZOID` branch rounded.  Every other branch stores one computed value
in the two cells `window[i]` and `window[j]` (or the literal `1.0`), so that its symmetry
does not depend on how the value is computed; those branches are the ones of `makeWindow`. -/
def makeWindowFl (fl : ℚ → ℚ) (m : MathFns) (type : String) (size : Int) (beta : mdefloat)
    (window : List mdefloat) : List mdefloat :=
  if type = "TRAPEZOID" then
    makeRampsFl fl (Int.tdiv size 2) window 0 (Int.tdiv size 2)
  else makeWindow m type size beta window

/-- `mdefloat between(mdefloat min, mdefloat max)` with rounded arithmetic; `div` is
`(mdefloat)RAND_MAX + (mdefloat)1.0` and `r * scaler` converts the `int r` to `mdefloat`. -/
def betweenFl (fl : ℚ → ℚ) (min max : mdefloat) (rs : RandSource) : mdefloat × RandSource :=
  let div : mdefloat := fl (fl (rs.RAND_MAX : mdefloat) + 1)
  if min = max then (min, rs)
  else
    let (r, rs1) := rand rs
    let diff := fl (max - min)
    let scaler := fl (diff / div)
    (fl (min + fl (fl (r : mdefloat) * scaler)), rs1)

/-- The statement `gg->channel = (int)between((mdefloat)0.0, (mdefloat)parent->activeChannels)`
of `mdeGranularGrainInit` with rounded arithmetic: the channel it assigns. -/
def grainInitChannelFl (fl : ℚ → ℚ) (parent : mdeGranular) (rs : RandSource) : Int :=
  cTrunc (betweenFl fl 0 (fl (parent.activeChannels : mdefloat)) rs).1

/-- The locals `start` and `end` of `mdeGranularPortion` (see `portionBounds`) with rounded
arithmetic. -/
def portionBoundsFl (fl : ℚ → ℚ) (buf_ms position width : mdefloat) : mdefloat × mdefloat :=
  let width_ms := fl (fl (buf_ms * width) * fl (1 / 100))
  let half_width_ms := fl (width_ms * (1 / 2))
  let pos_ms := fl (fl (buf_ms * position) * fl (1 / 100))
  let start := fl (pos_ms - half_width_ms)
  let end_ := fl (pos_ms + half_width_ms)
  let start1 := if start < 0 then 0 else start
  let end1 := if start < 0 then width_ms else end_
  let start2 := if end1 > buf_ms then fl (buf_ms - width_ms) else start1
  let end2 := if end1 > buf_ms then buf_ms else end1
  (start2, end2)

/-- `void mdeGranularPortion(mdeGranular* g, mdefloat position, mdefloat width)` with the
arithmetic of its body rounded. -/
def mdeGranularPortionFl (fl : ℚ → ℚ) (g : mdeGranular) (position width : mdefloat) :
    mdeGranular :=
  if width ≤ 0 ∨ width > 100 ∨ position < 0 ∨ position > 100 then g
  else
    let b := portionBoundsFl fl g.BufferSamplesMS position width
    let g1 := { g with portionPosition := position, portionWidth := width }
    mdeGranularSetSamplesEndMS (mdeGranularSetSamplesStartMS g1 b.1) b.2

/-- `mdefloat samples2ms(mdefloat samplingRate, int samples)` with rounded arithmetic:
`1000.0 * ((mdefloat)samples / samplingRate)`. -/
def samples2msFl (fl : ℚ → ℚ) (samplingRate : mdefloat) (samples : Int) : mdefloat :=
  fl (1000 * fl (fl (samples : mdefloat) / samplingRate))

/-- The example granulator with a block of four samples per tick, at rest at amplitude 0.5. -/
def glideGranular : mdeGranular :=
  { exampleGranular with nOutputSamples := 4, grainAmps := some [1 / 2, 1 / 2, 1 / 2, 1 / 2] }

/-- A random source of a C library with `RAND_MAX = 2147483647` whose every draw is
`RAND_MAX`. -/
def topRand : RandSource := { RAND_MAX := 2147483647, draws := fun _ => 2147483647, pos := 0 }

/-- The example granulator over a buffer of 44109 samples at 44.1 kHz:
`BufferSamplesMS = samples2ms(44100, 44109)` as a `double`, 1000.2040816326529. -/
def longGranular : mdeGranular :=
  { exampleGranular with nBufferSamples := 44109,
                         BufferSamplesMS := 8797888143232939 / 8796093022208 }

/-- The granulator `glideGranular` during the glide from 0.5 to the requested amplitude 1.0
in doubles: `grainAmpInc` is `0.5 / 3.0 = 0.16666666666666666`, `a` is the current amplitude
and `amps` the amplitude table. -/
def glideState (a : mdefloat) (amps : List mdefloat) : mdeGranular :=
  { glideGranular with lastGrainAmp := 1 / 2, targetGrainAmp := 1,
                       grainAmpInc := 6004799503160661 / 36028797018963968,
                       grainAmp := a, grainAmps := some amps }

/-! ## Theorems -/

/-- C1: a grain length not above twice the ramp length is rejected by
`mdeGranularSetGrainLengthMS`: the granulator is returned unchanged in every field. -/
theorem setGrainLengthMS_rejects_short (g : mdeGranular) (f : mdefloat)
    (h : f ≤ 2 * g.rampLenMS) : mdeGranularSetGrainLengthMS g f = g := by
  unfold mdeGranularSetGrainLengthMS
  simp [h]

/-- Witness for C1: 8 ms against the 5 ms ramp of the example granulator. -/
theorem setGrainLengthMS_rejects_short_witness :
    (8 : mdefloat) ≤ 2 * exampleGranular.rampLenMS ∧
      mdeGranularSetGrainLengthMS exampleGranular 8 = exampleGranular :=
  ⟨by norm_num [exampleGranular],
   setGrainLengthMS_rejects_short exampleGranular 8 (by norm_num [exampleGranular])⟩

/-- C2 (as stated) fails: with a four-sample buffer and no transposition, a grain length
of 50 ms exceeds twice the 5 ms ramp, yet needs 2205 samples, so the second guard of
`mdeGranularSetGrainLengthMS` rejects it and `grainLengthMS` is not 50 afterwards. -/
theorem setGrainLengthMS_buffer_guard_rejects :
    (50 : mdefloat) > 2 * exampleGranular.rampLenMS ∧
      (mdeGranularSetGrainLengthMS { exampleGranular with grainLengthMS := 20 } 50).grainLengthMS
        ≠ 50 := by
  constructor
  · norm_num [exampleGranular]
  · have h1 : ms2samples 44100 50 = 2205 := by norm_num [ms2samples]
    have h2 : maxFloat [1] 1 = 1 := by norm_num [maxFloat, maxFloatLoop, peek, DBL_MIN]
    have h3 : cInt 2205 = 2205 := by decide
    simp only [mdeGranularSetGrainLengthMS, exampleGranular, h1, h2, h3]
    norm_num [cTrunc]

/-- C2 (amended): when `f > 2 * rampLenMS` and the buffer guard does not fire (the buffer
is empty, `nBufferSamples = 0`, or the samples needed at the highest transposition are
fewer than `nBufferSamples`), `mdeGranularSetGrainLengthMS` succeeds: `grainLengthMS = f`,
`grainLength` is `ms2samples(samplingRate, f)` stored in an `int`, nothing else changes. -/
theorem setGrainLengthMS_accepts (g : mdeGranular) (f : mdefloat)
    (h : f > 2 * g.rampLenMS)
    (hbuf : g.nBufferSamples = 0 ∨ grainSampsNeeded g f < g.nBufferSamples) :
    mdeGranularSetGrainLengthMS g f =
      { g with grainLengthMS := f, grainLength := cInt (ms2samples g.samplingRate f) } := by
  unfold mdeGranularSetGrainLengthMS
  have h1 : ¬ f ≤ 2 * g.rampLenMS := not_le.mpr h
  have h2 : ¬ (g.nBufferSamples ≠ 0 ∧
      cTrunc (((cInt (ms2samples g.samplingRate f) : Int) : mdefloat)
        * maxFloat g.srcs g.numTranspositions * g.transpositionOffset) ≥ g.nBufferSamples) := by
    rintro ⟨hne, hge⟩
    rcases hbuf with h0 | hlt
    · exact hne h0
    · unfold grainSampsNeeded at hlt
      omega
  simp only [h1, h2, if_false]

/-- Witness for C2 (amended): 50 ms at 44.1 kHz into a 100000-sample buffer. -/
theorem setGrainLengthMS_accepts_witness :
    (50 : mdefloat) > 2 * ({ exampleGranular with nBufferSamples := 100000 } : mdeGranular).rampLenMS ∧
    mdeGranularSetGrainLengthMS { exampleGranular with nBufferSamples := 100000 } 50 =
      { ({ exampleGranular with nBufferSamples := 100000 } : mdeGranular) with
        grainLengthMS := 50
        grainLength := cInt (ms2samples
          ({ exampleGranular with nBufferSamples := 100000 } : mdeGranular).samplingRate 50) } :=
  ⟨by norm_num [exampleGranular],
   setGrainLengthMS_accepts { exampleGranular with nBufferSamples := 100000 } 50
    (by norm_num [exampleGranular])
    (by
      right
      have h1 : ms2samples 44100 50 = 2205 := by norm_num [ms2samples]
      have h2 : maxFloat [1] 1 = 1 := by norm_num [maxFloat, maxFloatLoop, peek, DBL_MIN]
      have h3 : cInt 2205 = 2205 := by decide
      simp only [grainSampsNeeded, exampleGranular, h1, h2, h3]
      norm_num [cTrunc])⟩

/-- The index fix-up of `interpolate` (C remainder, then adding the length to a
negative result) is the mathematical remainder for a positive length. -/
theorem tmod_wrap_eq_emod (t N : Int) (hN : 0 < N) :
    (if Int.tmod t N < 0 then N + Int.tmod t N else Int.tmod t N) = t % N := by
  rcases le_or_lt 0 t with ht | ht
  · have h0 := Int.tmod_nonneg N ht
    rw [if_neg (not_lt.mpr h0)]
    exact Int.tmod_eq_emod ht hN.le
  · have hm : 0 ≤ -t := by omega
    have h1 : Int.tmod t N = -((-t) % N) := by
      have e1 : Int.tdiv t N = -((-t) / N) := by
        have := Int.neg_tdiv (-t) N
        rw [neg_neg] at this
        rw [this, Int.tdiv_eq_ediv hm hN.le]
      rw [Int.tmod_def, e1]
      have := Int.emod_add_ediv (-t) N
      linarith
    have hr0 := Int.emod_nonneg (-t) hN.ne'
    have hrlt := Int.emod_lt_of_pos (-t) hN
    have hdecomp := Int.emod_add_ediv (-t) N
    rw [h1]
    rcases eq_or_lt_of_le hr0 with hz | hpos
    · rw [← hz]
      simp only [neg_zero, lt_self_iff_false, if_false]
      have hdvd : N ∣ t := by
        have : N ∣ -t := Int.dvd_of_emod_eq_zero hz.symm
        exact (Int.dvd_neg.mp this)
      exact (Int.emod_eq_zero_of_dvd hdvd).symm
    · rw [if_pos (by omega)]
      have ht' : t = (N + -((-t) % N)) + N * (-((-t) / N) - 1) := by linarith
      conv_rhs => rw [ht']
      rw [Int.add_mul_emod_self_left]
      exact (Int.emod_eq_of_lt (by omega) (by omega)).symm

/-- The wrapped index of `interpolate` is the truncated position modulo the length. -/
theorem interpolateIndex_eq_emod (x : mdefloat) (N : Int) (hN : 0 < N) :
    interpolateIndex x N = cTrunc x % N := by
  unfold interpolateIndex
  exact tmod_wrap_eq_emod _ _ hN

/-- Truncating an integral value gives that integer. -/
theorem cTrunc_intCast (z : Int) : cTrunc (z : mdefloat) = z := by
  unfold cTrunc
  split_ifs
  · exact Int.floor_intCast z
  · exact Int.ceil_intCast z

/-- Truncation commutes with a shift by whole periods when the shift does not cross zero. -/
theorem cTrunc_add_period (x : mdefloat) (k N : Int)
    (h : (0 ≤ x ∧ 0 ≤ x + ((k * N : Int) : mdefloat)) ∨
         (x ≤ 0 ∧ x + ((k * N : Int) : mdefloat) ≤ 0)) :
    cTrunc (x + ((k * N : Int) : mdefloat)) = cTrunc x + k * N := by
  have hz : cTrunc 0 = 0 := by
    have := cTrunc_intCast 0
    simpa using this
  rcases h with ⟨h1, h2⟩ | ⟨h1, h2⟩
  · unfold cTrunc
    rw [if_pos h1, if_pos h2, Int.floor_add_int]
  · rcases eq_or_lt_of_le h1 with e | l1
    · subst e
      rw [zero_add, cTrunc_intCast, hz, zero_add]
    · rcases eq_or_lt_of_le h2 with e2 | l2
      · have hx : x = ((-(k * N) : Int) : mdefloat) := by
          push_cast
          push_cast at e2
          linarith
        rw [e2, hx, cTrunc_intCast, hz]
        ring
      · unfold cTrunc
        rw [if_neg (not_le.mpr l1), if_neg (not_le.mpr l2), Int.ceil_add_int]

/-- C3 (as stated) fails: in the buffer `[0, 1, 2, 3]` (N = 4, forward), the position
`-1/2` and the position `-1/2 + 1*4 = 7/2` interpolate to different values, because the
cast `(long)findex` truncates toward zero and the fraction is taken with `fabs`. -/
theorem interpolate_wrap_fails_across_zero :
    interpolate ((-1 / 2 : mdefloat) + ((1 * 4 : Int) : mdefloat)) (some [0, 1, 2, 3]) 4 0
      ≠ interpolate (-1 / 2) (some [0, 1, 2, 3]) 4 0 := by
  have e1 : cTrunc (-1 / 2 : mdefloat) = 0 := by
    norm_num [cTrunc, Int.ceil_eq_iff]
  have e2 : cTrunc ((-1 / 2 : mdefloat) + ((1 * 4 : Int) : mdefloat)) = 3 := by
    norm_num [cTrunc, Int.floor_eq_iff]
  have t2 : Int.toNat 2 = 2 := rfl
  have t3 : Int.toNat 3 = 3 := rfl
  simp only [interpolate, interpolateTaps, interpolateIndex, e1, e2]
  norm_num [peek, fabs, Int.tmod, t2, t3]

/-- C3 (amended): wraparound law for positions on one side of zero.  For every buffer,
every length N >= 2, every position `x`, every integer `k` and either direction, if `x`
and `x + k*N` are both >= 0 or both <= 0 then
`interpolate(x + k*N, samples, N, backwards) = interpolate(x, samples, N, backwards)`. -/
theorem interpolate_wrap_same_side (x : mdefloat) (s : List mdefloat) (N k : Int) (bw : Int)
    (hN : 2 ≤ N)
    (h : (0 ≤ x ∧ 0 ≤ x + ((k * N : Int) : mdefloat)) ∨
         (x ≤ 0 ∧ x + ((k * N : Int) : mdefloat) ≤ 0)) :
    interpolate (x + ((k * N : Int) : mdefloat)) (some s) N bw = interpolate x (some s) N bw := by
  have hN0 : 0 < N := by omega
  have ht := cTrunc_add_period x k N h
  have hidx : interpolateIndex (x + ((k * N : Int) : mdefloat)) N = interpolateIndex x N := by
    rw [interpolateIndex_eq_emod _ _ hN0, interpolateIndex_eq_emod _ _ hN0, ht,
      Int.add_mul_emod_self]
  have htaps : interpolateTaps (x + ((k * N : Int) : mdefloat)) N bw = interpolateTaps x N bw := by
    unfold interpolateTaps
    rw [hidx]
  have hfrac : x + ((k * N : Int) : mdefloat)
        - ((cTrunc (x + ((k * N : Int) : mdefloat)) : Int) : mdefloat)
      = x - ((cTrunc x : Int) : mdefloat) := by
    rw [ht]
    push_cast
    ring
  unfold interpolate
  simp only [htaps, hfrac]

/-- Witness for C3 (amended): position 5/2, shifted by three periods of a four-sample buffer,
read backwards. -/
theorem interpolate_wrap_same_side_witness :
    interpolate ((5 / 2 : mdefloat) + ((3 * 4 : Int) : mdefloat)) (some [0, 1, 2, 3]) 4 1
      = interpolate (5 / 2) (some [0, 1, 2, 3]) 4 1 :=
  interpolate_wrap_same_side (5 / 2) [0, 1, 2, 3] 4 3 1 (by decide)
    (Or.inl ⟨by norm_num, by norm_num⟩)

/-- C4 (as stated) fails for the function taken alone: for a one-sample buffer read
backwards at position 0 the four cells read are `a = 0, b = 0, c = 0, d = -1`; the tap `d`
is `*(lastsamp - 1)`, the cell before the buffer, outside `[0, N-1] = [0, 0]`. -/
theorem interpolate_one_sample_backwards_reads_before :
    interpolateTaps 0 1 1 = (0, 0, 0, -1) := by
  have e : cTrunc (0 : mdefloat) = 0 := by norm_num [cTrunc]
  simp only [interpolateTaps, interpolateIndex, e]
  decide


/-- Tap safety of `interpolate` for buffers of at least two samples: every position, either
direction, all four cells read lie in `[0, N-1]`. -/
theorem interpolateTaps_in_range (x : mdefloat) (N bw : Int) (hN : 2 ≤ N) :
    let t := interpolateTaps x N bw
    (0 ≤ t.1 ∧ t.1 < N) ∧ (0 ≤ t.2.1 ∧ t.2.1 < N) ∧
    (0 ≤ t.2.2.1 ∧ t.2.2.1 < N) ∧ (0 ≤ t.2.2.2 ∧ t.2.2.2 < N) := by
  have hN0 : 0 < N := by omega
  have hi := interpolateIndex_eq_emod x N hN0
  have h0 := Int.emod_nonneg (cTrunc x) hN0.ne'
  have h1 := Int.emod_lt_of_pos (cTrunc x) hN0
  rw [← hi] at h0 h1
  have ha : Int.tmod (interpolateIndex x N + 1) N = (interpolateIndex x N + 1) % N :=
    Int.tmod_eq_emod (by omega) hN0.le
  have hb : Int.tmod (interpolateIndex x N + 2) N = (interpolateIndex x N + 2) % N :=
    Int.tmod_eq_emod (by omega) hN0.le
  have ha0 := Int.emod_nonneg (interpolateIndex x N + 1) hN0.ne'
  have ha1 := Int.emod_lt_of_pos (interpolateIndex x N + 1) hN0
  have hb0 := Int.emod_nonneg (interpolateIndex x N + 2) hN0.ne'
  have hb1 := Int.emod_lt_of_pos (interpolateIndex x N + 2) hN0
  simp only [interpolateTaps, ha, hb]
  split_ifs <;> simp only [] <;> omega


/-- Tap safety of the forward read of `interpolate` for every non-empty buffer. -/
theorem interpolateTaps_forward_in_range (x : mdefloat) (N : Int) (hN : 1 ≤ N) :
    let t := interpolateTaps x N 0
    (0 ≤ t.1 ∧ t.1 < N) ∧ (0 ≤ t.2.1 ∧ t.2.1 < N) ∧
    (0 ≤ t.2.2.1 ∧ t.2.2.1 < N) ∧ (0 ≤ t.2.2.2 ∧ t.2.2.2 < N) := by
  have hN0 : 0 < N := by omega
  have hi := interpolateIndex_eq_emod x N hN0
  have h0 := Int.emod_nonneg (cTrunc x) hN0.ne'
  have h1 := Int.emod_lt_of_pos (cTrunc x) hN0
  rw [← hi] at h0 h1
  have ha : Int.tmod (interpolateIndex x N + 1) N = (interpolateIndex x N + 1) % N :=
    Int.tmod_eq_emod (by omega) hN0.le
  have hb : Int.tmod (interpolateIndex x N + 2) N = (interpolateIndex x N + 2) % N :=
    Int.tmod_eq_emod (by omega) hN0.le
  have ha0 := Int.emod_nonneg (interpolateIndex x N + 1) hN0.ne'
  have ha1 := Int.emod_lt_of_pos (interpolateIndex x N + 1) hN0
  have hb0 := Int.emod_nonneg (interpolateIndex x N + 2) hN0.ne'
  have hb1 := Int.emod_lt_of_pos (interpolateIndex x N + 2) hN0
  simp only [interpolateTaps, ha, hb]
  split_ifs <;> simp only [] <;> omega

/-- While the start ramp has not reached the table end, `j` calls of
`mdeGranularGetAmpForStatus` only advance the cursor to `j`. -/
theorem ampForStatusCalls_starting (g : mdeGranular) (tbl : List mdefloat)
    (hs : g.status = t_status.STARTING) (hi : g.statusRampIndex = 0)
    (ht : g.rampUp = some tbl) :
    ∀ j : Nat, (j : Int) < g.rampLenSamples →
      ampForStatusCalls j g = { g with statusRampIndex := (j : Int) } := by
  intro j
  induction j with
  | zero =>
    intro _
    simp only [ampForStatusCalls, Nat.cast_zero]
    rw [← hi]
  | succ n ih =>
    intro hlt
    have hn : (n : Int) < g.rampLenSamples := by push_cast at hlt; omega
    have hlt' : ¬ ((n : Int) + 1 ≥ g.rampLenSamples) := by push_cast at hlt; omega
    simp only [ampForStatusCalls, ih hn, mdeGranularGetAmpForStatus, hs, ht, hlt', if_false,
      Nat.cast_succ]


/-- C5: start ramp.  From status STARTING with `statusRampIndex = 0`, a ramp-up table
`tbl` and `rampLenSamples = L >= 1`: call number `j + 1` (for `j + 1 < L`) of
`mdeGranularGetAmpForStatus` returns `rampUp[j]` and leaves the status STARTING; call
number `L` returns exactly 1, sets the status to ON and resets `statusRampIndex` to 0. -/
theorem start_ramp (g : mdeGranular) (tbl : List mdefloat) (L : Int)
    (hs : g.status = t_status.STARTING) (hi : g.statusRampIndex = 0)
    (hL : g.rampLenSamples = L) (h1 : 1 ≤ L) (ht : g.rampUp = some tbl) :
    (∀ j : Nat, (j : Int) + 1 < L →
        (mdeGranularGetAmpForStatus (ampForStatusCalls j g)).1 = peek tbl j ∧
        (ampForStatusCalls (j + 1) g).status = t_status.STARTING) ∧
    (∀ j : Nat, (j : Int) + 1 = L →
        (mdeGranularGetAmpForStatus (ampForStatusCalls j g)).1 = 1 ∧
        (ampForStatusCalls (j + 1) g).status = t_status.ON ∧
        (ampForStatusCalls (j + 1) g).statusRampIndex = 0) := by
  subst hL
  constructor
  · intro j hj
    have hlt : (j : Int) < g.rampLenSamples := by omega
    have hlt' : ¬ ((j : Int) + 1 ≥ g.rampLenSamples) := by omega
    have hsucc : ((j + 1 : Nat) : Int) < g.rampLenSamples := by push_cast; omega
    constructor
    · simp only [ampForStatusCalls_starting g tbl hs hi ht j hlt, mdeGranularGetAmpForStatus, hs,
        ht, hlt', if_false]
    · rw [ampForStatusCalls_starting g tbl hs hi ht (j + 1) hsucc]
      exact hs
  · intro j hj
    have hlt : (j : Int) < g.rampLenSamples := by omega
    have hge : (j : Int) + 1 ≥ g.rampLenSamples := by omega
    simp only [ampForStatusCalls, ampForStatusCalls_starting g tbl hs hi ht j hlt,
      mdeGranularGetAmpForStatus, hs, ht, hge, if_true, and_self]


/-- Witness for C5: the two-sample ramp of the example granulator, switched to STARTING. -/
theorem start_ramp_witness :
    ((mdeGranularGetAmpForStatus
        (ampForStatusCalls 0 { exampleGranular with status := t_status.STARTING })).1
        = peek [0, 1, 1, 0] ((0 : Nat) : Int) ∧
      (ampForStatusCalls (0 + 1) { exampleGranular with status := t_status.STARTING }).status
        = t_status.STARTING) ∧
    ((mdeGranularGetAmpForStatus
        (ampForStatusCalls 1 { exampleGranular with status := t_status.STARTING })).1 = 1 ∧
      (ampForStatusCalls (1 + 1) { exampleGranular with status := t_status.STARTING }).status
        = t_status.ON ∧
      (ampForStatusCalls (1 + 1)
        { exampleGranular with status := t_status.STARTING }).statusRampIndex = 0) :=
  ⟨(start_ramp { exampleGranular with status := t_status.STARTING } [0, 1, 1, 0] 2
      rfl rfl rfl (by decide) rfl).1 0 (by decide),
   (start_ramp { exampleGranular with status := t_status.STARTING } [0, 1, 1, 0] 2
      rfl rfl rfl (by decide) rfl).2 1 (by decide)⟩

/-- C6: start and stop requests are idempotent.  `mdeGranularOn` returns the granulator
unchanged when the status is STARTING or ON, `mdeGranularOff` returns it unchanged when the
status is STOPPING or OFF; otherwise On sets the status to STARTING and Off sets it to
STOPPING. -/
theorem on_off_idempotent (g : mdeGranular) :
    ((g.status = t_status.STARTING ∨ g.status = t_status.ON) → mdeGranularOn g = g) ∧
    ((g.status = t_status.STOPPING ∨ g.status = t_status.OFF) → mdeGranularOff g = g) ∧
    (¬ (g.status = t_status.STARTING ∨ g.status = t_status.ON) →
        (mdeGranularOn g).status = t_status.STARTING) ∧
    (¬ (g.status = t_status.STOPPING ∨ g.status = t_status.OFF) →
        (mdeGranularOff g).status = t_status.STOPPING) := by
  refine ⟨?_, ?_, ?_, ?_⟩
  · intro h
    unfold mdeGranularOn
    rcases h with h | h <;> simp [h]
  · intro h
    unfold mdeGranularOff
    rcases h with h | h <;> simp [h]
  · intro h
    unfold mdeGranularOn
    have : g.status ≠ t_status.STARTING ∧ g.status ≠ t_status.ON := by
      constructor
      · intro e; exact h (Or.inl e)
      · intro e; exact h (Or.inr e)
    rw [if_pos this]
  · intro h
    unfold mdeGranularOff
    have : g.status ≠ t_status.STOPPING ∧ g.status ≠ t_status.OFF := by
      constructor
      · intro e; exact h (Or.inl e)
      · intro e; exact h (Or.inr e)
    rw [if_pos this]


/-- Witness for C6: a stop request on the example granulator, which is OFF, changes nothing. -/
theorem on_off_idempotent_witness : mdeGranularOff exampleGranular = exampleGranular :=
  (on_off_idempotent exampleGranular).2.1 (Or.inr rfl)

/-- The loop of `mdeGranularForceGrainReinit` never writes the grain array. -/
theorem forceGrainReinitLoop_fst (n : Nat) :
    ∀ (i : Int) (st : List mdeGranularGrain × mdeGranularGrain),
      (forceGrainReinitLoop n i st).1 = st.1 := by
  induction n with
  | zero => intro i st; rfl
  | succ n ih =>
    intro i st
    obtain ⟨grains, gg⟩ := st
    simp only [forceGrainReinitLoop]
    rw [ih]


/-- The function `mdeGranularForceGrainReinit` leaves the granulator as it was: it only
assigns to its local copy `gg`. -/
theorem forceGrainReinit_noop (g : mdeGranular) : mdeGranularForceGrainReinit g = g := by
  unfold mdeGranularForceGrainReinit
  cases hg : g.grains with
  | none => simp
  | some grains =>
    simp only [forceGrainReinitLoop_fst]
    cases g
    simp_all


/-- C7 at its failing input: the example granulator in status STOPPING with one sample of
ramp left and one grain with `icurrent = 0`, `length = 10`.  The call of
`mdeGranularGetAmpForStatus` sets the status to OFF, yet the grain still has `icurrent = 0`
and is not exhausted. -/
theorem stop_ramp_end_leaves_grains :
    (mdeGranularGetAmpForStatus
        { exampleGranular with status := t_status.STOPPING, statusRampIndex := 1 }).2.status
      = t_status.OFF ∧
    ((mdeGranularGetAmpForStatus
        { exampleGranular with status := t_status.STOPPING, statusRampIndex := 1 }).2.grains.map
      (List.map (fun gg => (gg.icurrent, gg.length, mdeGranularGrainExhausted gg))))
      = some [(0, 10, false)] := by
  simp only [mdeGranularGetAmpForStatus, forceGrainReinit_noop]
  simp [exampleGranular, zeroGrain, mdeGranularGrainExhausted]

/-- For a deactivated voice `mdeGranularGrainInit` only sets the status to OFF. -/
theorem grainInit_inactive (gg : mdeGranularGrain) (parent : mdeGranular) (d : Int)
    (rs : RandSource) (h : gg.activeStatus = t_status.INACTIVE) :
    (mdeGranularGrainInit gg parent d rs).2.1 = { gg with status := t_status.OFF } := by
  unfold mdeGranularGrainInit
  simp only [h, if_true]

/-- The first-delay block of `mdeGranularGrainInit` keeps `icurrent` and `activeStatus`. -/
theorem grainInitFirstDelay_keeps (gg : mdeGranularGrain) (d : Int) (rs : RandSource) :
    (grainInitFirstDelay gg d rs).1.icurrent = gg.icurrent ∧
    (grainInitFirstDelay gg d rs).1.activeStatus = gg.activeStatus := by
  unfold grainInitFirstDelay
  split_ifs <;> exact ⟨rfl, rfl⟩

/-- For a voice that is not deactivated `mdeGranularGrainInit` resets `icurrent` to 0 and
keeps `activeStatus`. -/
theorem grainInit_active (gg : mdeGranularGrain) (parent : mdeGranular) (d : Int)
    (rs : RandSource) (h : gg.activeStatus ≠ t_status.INACTIVE) :
    (mdeGranularGrainInit gg parent d rs).2.1.icurrent = 0 ∧
    (mdeGranularGrainInit gg parent d rs).2.1.activeStatus = gg.activeStatus := by
  unfold mdeGranularGrainInit
  simp only [h, if_false]
  exact ⟨(grainInitFirstDelay_keeps _ _ _).1, (grainInitFirstDelay_keeps _ _ _).2⟩

/-- The ramp lookup `mdeGranularGrainGetRampVal` keeps `icurrent`. -/
theorem getRampVal_icurrent (gg : mdeGranularGrain) (up : Option (List mdefloat))
    (down : Option Int) (L : Int) :
    (mdeGranularGrainGetRampVal gg up down L).2.icurrent = gg.icurrent := by
  unfold mdeGranularGrainGetRampVal
  cases up with
  | none => rfl
  | some block =>
    cases down with
    | none => rfl
    | some off =>
      simp only []
      split_ifs <;> rfl

/-- The ramp lookup `mdeGranularGrainGetRampVal` keeps `activeStatus`. -/
theorem getRampVal_activeStatus (gg : mdeGranularGrain) (up : Option (List mdefloat))
    (down : Option Int) (L : Int) :
    (mdeGranularGrainGetRampVal gg up down L).2.activeStatus = gg.activeStatus := by
  unfold mdeGranularGrainGetRampVal
  cases up with
  | none => rfl
  | some block =>
    cases down with
    | none => rfl
    | some off =>
      simp only []
      split_ifs <;> rfl

/-- One iteration of the sample loop of `mdeGranularGrainMixIn`, for an active voice: the
sample counter is either 1 (the grain was reinitialised) or grew by at most one. -/
theorem mixStep_icurrent (i : Int) (s : MixState)
    (h : s.gg.activeStatus ≠ t_status.INACTIVE) :
    (mixStep i s).gg.activeStatus = s.gg.activeStatus ∧
    ((mixStep i s).gg.icurrent = 1 ∨
      (s.gg.icurrent ≤ (mixStep i s).gg.icurrent ∧
        (mixStep i s).gg.icurrent ≤ s.gg.icurrent + 1)) := by
  have hA := grainInit_active s.gg s.parent 0 s.rs h
  unfold mixStep
  simp only []
  split_ifs <;> refine ⟨?_, ?_⟩ <;>
    simp only [getRampVal_icurrent, getRampVal_activeStatus, hA.1, hA.2] <;> omega

/-- One iteration of the sample loop on an exhausted grain of an active voice that is not
delaying: the grain is reinitialised and has produced one sample. -/
theorem mixStep_first (i : Int) (s : MixState)
    (h : s.gg.activeStatus ≠ t_status.INACTIVE)
    (hd : ¬ s.gg.firstDelayCounter < s.gg.firstDelay)
    (he : mdeGranularGrainExhausted s.gg = true) :
    (mixStep i s).gg.icurrent = 1 := by
  have hA := grainInit_active s.gg s.parent 0 s.rs h
  unfold mixStep
  simp only [hd, if_false, he, if_true]
  split_ifs <;> simp only [getRampVal_icurrent, hA.1] <;> norm_num

/-- The sample loop of `mdeGranularGrainMixIn` for an active voice: a counter between 1 and
`m` is between 1 and `m + n` after `n` iterations. -/
theorem mixLoop_icurrent (n : Nat) :
    ∀ (i : Int) (s : MixState) (m : Int), s.gg.activeStatus ≠ t_status.INACTIVE →
      1 ≤ s.gg.icurrent → s.gg.icurrent ≤ m →
      1 ≤ (mixLoop n i s).gg.icurrent ∧ (mixLoop n i s).gg.icurrent ≤ m + n := by
  induction n with
  | zero =>
    intro i s m _ h1 h2
    simp only [mixLoop, Nat.cast_zero, add_zero]
    exact ⟨h1, h2⟩
  | succ n ih =>
    intro i s m ha h1 h2
    simp only [mixLoop]
    have hs := mixStep_icurrent i s ha
    have ha' : (mixStep i s).gg.activeStatus ≠ t_status.INACTIVE := by rw [hs.1]; exact ha
    have hb : 1 ≤ (mixStep i s).gg.icurrent ∧ (mixStep i s).gg.icurrent ≤ m + 1 := by
      rcases hs.2 with e | ⟨l, u⟩
      · omega
      · omega
    have := ih (i + 1) (mixStep i s) (m + 1) ha' hb.1 hb.2
    push_cast
    omega

/-- C8 (as stated) fails on two exhausted grains (`icurrent = 5 > length = 3`).  For a
deactivated voice `mdeGranularGrainInit` short-circuits and `icurrent` is 6 after a call
with `howMany = 1`; for a grain still in its initial delay no reinitialisation is attempted
and `icurrent` is still 5 after a call with `howMany = 2`. -/
theorem mixIn_exhausted_not_reinitialised :
    (mdeGranularGrainExhausted inactiveExhaustedGrain = true ∧
      (mdeGranularGrainMixIn inactiveExhaustedGrain exampleGranular
        (some { chan := 0, off := 0 }) 1 exampleRand).1.icurrent = 6) ∧
    (mdeGranularGrainExhausted delayingExhaustedGrain = true ∧
      (mdeGranularGrainMixIn delayingExhaustedGrain exampleGranular
        (some { chan := 0, off := 0 }) 2 exampleRand).1.icurrent = 5) := by
  have hs : (samplesBlock exampleGranular).isSome = true := rfl
  have t1 : Int.toNat 1 = 1 := rfl
  have t2 : Int.toNat 2 = 2 := rfl
  refine ⟨⟨by decide, ?_⟩, ⟨by decide, ?_⟩⟩
  · have hI := grainInit_inactive inactiveExhaustedGrain exampleGranular 0 exampleRand rfl
    simp only [mdeGranularGrainMixIn, hs, Option.isSome_some, and_self, if_true, t1, mixLoop,
      mixStep, hI]
    simp [inactiveExhaustedGrain, zeroGrain, mdeGranularGrainExhausted]
  · simp only [mdeGranularGrainMixIn, hs, Option.isSome_some, and_self, if_true, t2, mixLoop,
      mixStep]
    simp [delayingExhaustedGrain, zeroGrain]

/-- C8 (amended): for every grain with `icurrent > length` whose voice is not INACTIVE and
which is not in its initial delay (`firstDelayCounter >= firstDelay`), the next call of
`mdeGranularGrainMixIn` with `howMany >= 1`, non-null samples and destination,
reinitialises the grain: after the first sample of the call `icurrent` is 1 (it was reset
to 0 before that sample), and after the call `1 <= icurrent <= howMany`. -/
theorem mixIn_reinit (gg : mdeGranularGrain) (parent : mdeGranular)
    (where_ : Option SamplePtr) (howMany : Int) (rs : RandSource)
    (hex : gg.icurrent > gg.length)
    (hact : gg.activeStatus ≠ t_status.INACTIVE)
    (hnd : gg.firstDelayCounter ≥ gg.firstDelay)
    (hs : (samplesBlock parent).isSome = true) (hw : where_.isSome = true)
    (hh : 1 ≤ howMany) :
    (mixStep 0 { gg := gg, parent := parent, where_ := where_, inc := gg.inc, rs := rs }).gg.icurrent
      = 1 ∧
    1 ≤ (mdeGranularGrainMixIn gg parent where_ howMany rs).1.icurrent ∧
    (mdeGranularGrainMixIn gg parent where_ howMany rs).1.icurrent ≤ howMany := by
  have hd : ¬ gg.firstDelayCounter < gg.firstDelay := by omega
  have he : mdeGranularGrainExhausted gg = true := by
    unfold mdeGranularGrainExhausted
    exact decide_eq_true hex
  have hfirst := mixStep_first 0
    { gg := gg, parent := parent, where_ := where_, inc := gg.inc, rs := rs } hact hd he
  refine ⟨hfirst, ?_⟩
  unfold mdeGranularGrainMixIn
  simp only [hs, hw, and_self, if_true]
  obtain ⟨n, hn⟩ : ∃ n : Nat, howMany.toNat = n + 1 := ⟨howMany.toNat - 1, by omega⟩
  rw [hn]
  simp only [mixLoop]
  have hs1 := mixStep_icurrent 0
    { gg := gg, parent := parent, where_ := where_, inc := gg.inc, rs := rs } hact
  have ha' : (mixStep 0
      { gg := gg, parent := parent, where_ := where_, inc := gg.inc, rs := rs }).gg.activeStatus
        ≠ t_status.INACTIVE := by rw [hs1.1]; exact hact
  have := mixLoop_icurrent n (0 + 1) _ 1 ha' (by rw [hfirst]) (by rw [hfirst])
  have hcast : (howMany.toNat : Int) = howMany := Int.toNat_of_nonneg (by omega)
  omega

/-- Witness for C8 (amended): an exhausted grain of an active voice, two samples. -/
theorem mixIn_reinit_witness :
    (mixStep 0 { gg := activeExhaustedGrain, parent := exampleGranular,
                 where_ := some { chan := 0, off := 0 }, inc := activeExhaustedGrain.inc,
                 rs := exampleRand }).gg.icurrent = 1 ∧
    1 ≤ (mdeGranularGrainMixIn activeExhaustedGrain exampleGranular
          (some { chan := 0, off := 0 }) 2 exampleRand).1.icurrent ∧
    (mdeGranularGrainMixIn activeExhaustedGrain exampleGranular
          (some { chan := 0, off := 0 }) 2 exampleRand).1.icurrent ≤ 2 :=
  mixIn_reinit activeExhaustedGrain exampleGranular (some { chan := 0, off := 0 }) 2 exampleRand
    (by decide) (by decide) (by decide) rfl rfl (by decide)

/-- The test `mdeGranularAtTargetGrainAmp` as a proposition. -/
theorem atTarget_iff (s : mdeGranular) :
    mdeGranularAtTargetGrainAmp s = true ↔
      (s.lastGrainAmp ≤ s.targetGrainAmp ∧ s.grainAmp ≥ s.targetGrainAmp) ∨
      (s.lastGrainAmp ≥ s.targetGrainAmp ∧ s.grainAmp ≤ s.targetGrainAmp) := by
  simp [mdeGranularAtTargetGrainAmp]

/-- At the target with a non-negative amplitude, `mdeGranularGetGrainAmpAndInc` changes nothing. -/
theorem getGrainAmp_at_target (s : mdeGranular)
    (h : mdeGranularAtTargetGrainAmp s = true) (hx : 0 ≤ s.grainAmp) :
    (mdeGranularGetGrainAmpAndInc s).2 = s := by
  unfold mdeGranularGetGrainAmpAndInc
  simp only [h, if_true, not_lt.mpr hx, if_false]

/-- Away from the target, `mdeGranularGetGrainAmpAndInc` adds the increment and clamps at 0. -/
theorem getGrainAmp_gliding (s : mdeGranular)
    (h : ¬ mdeGranularAtTargetGrainAmp s = true) :
    (mdeGranularGetGrainAmpAndInc s).2 =
      { s with grainAmp := if s.grainAmp + s.grainAmpInc < 0 then 0
                           else s.grainAmp + s.grainAmpInc } := by
  have hb : mdeGranularAtTargetGrainAmp s = false := by
    cases hc : mdeGranularAtTargetGrainAmp s
    · rfl
    · exact absurd hc h
  unfold mdeGranularGetGrainAmpAndInc
  simp only [hb, Bool.false_eq_true, if_false]
  by_cases hneg : s.grainAmp + s.grainAmpInc < 0
  · simp only [hneg, if_true]
  · simp only [hneg, if_false]

/-- One call of `mdeGranularGetGrainAmpAndInc` keeps the glide invariant and the target,
moves the amplitude toward the target without crossing it, and is the identity at the
target. -/
theorem glide_step (a0 f : mdefloat) (N : Int) (s : mdeGranular)
    (ha : 0 ≤ a0) (hf : 0 ≤ f) (hN : 1 ≤ N) (hI : GlideInv a0 f N s) :
    GlideInv a0 f N (mdeGranularGetGrainAmpAndInc s).2 ∧
    (mdeGranularGetGrainAmpAndInc s).2.targetGrainAmp = s.targetGrainAmp ∧
    (a0 ≤ s.targetGrainAmp → s.grainAmp ≤ s.targetGrainAmp ∧
        s.grainAmp ≤ (mdeGranularGetGrainAmpAndInc s).2.grainAmp ∧
        (mdeGranularGetGrainAmpAndInc s).2.grainAmp ≤ s.targetGrainAmp) ∧
    (s.targetGrainAmp ≤ a0 → s.targetGrainAmp ≤ s.grainAmp ∧
        s.targetGrainAmp ≤ (mdeGranularGetGrainAmpAndInc s).2.grainAmp ∧
        (mdeGranularGetGrainAmpAndInc s).2.grainAmp ≤ s.grainAmp) ∧
    (mdeGranularAtTargetGrainAmp s = true → (mdeGranularGetGrainAmpAndInc s).2 = s) := by
  obtain ⟨hlast, hinc, hcase⟩ := hI
  have hNq : (0 : mdefloat) < (N : mdefloat) := by
    have : (1 : mdefloat) ≤ (N : mdefloat) := by exact_mod_cast hN
    linarith
  set q : mdefloat := (f - a0) / (N : mdefloat) with hq
  have hNq' : (N : mdefloat) * q = f - a0 := by
    rw [hq]; field_simp
  rcases hcase with ⟨ht, m, hm, hx⟩ | ⟨ht, hfa, hx0, hxa⟩
  · -- the target is f and the amplitude sits on the grid a0 + m q
    have hmq : (m : mdefloat) ≤ (N : mdefloat) := by exact_mod_cast hm
    have hm0 : (0 : mdefloat) ≤ (m : mdefloat) := by positivity
    -- the grid point is a convex combination
    have hxN : (N : mdefloat) * s.grainAmp = a0 * ((N : mdefloat) - m) + f * m := by
      rw [hx]; linear_combination (m : mdefloat) * hNq'
    have hxnn : 0 ≤ s.grainAmp := by
      have h1 : 0 ≤ (N : mdefloat) * s.grainAmp := by
        rw [hxN]
        have := mul_nonneg ha (sub_nonneg.mpr hmq)
        have := mul_nonneg hf hm0
        linarith
      exact nonneg_of_mul_nonneg_right h1 hNq
    have hup : a0 ≤ f → s.grainAmp ≤ f ∧ a0 ≤ s.grainAmp := by
      intro h
      have hq0 : 0 ≤ q := by
        have : 0 ≤ (N : mdefloat) * q := by rw [hNq']; linarith
        exact nonneg_of_mul_nonneg_right this hNq
      have h1 := mul_nonneg (sub_nonneg.mpr hmq) hq0
      have h2 := mul_nonneg hm0 hq0
      constructor <;> rw [hx] <;> nlinarith
    have hdown : f ≤ a0 → f ≤ s.grainAmp ∧ s.grainAmp ≤ a0 := by
      intro h
      have hq0 : q ≤ 0 := by
        have : (N : mdefloat) * q ≤ 0 := by rw [hNq']; linarith
        by_contra hc
        push_neg at hc
        have := mul_pos hNq hc
        linarith
      have h1 := mul_nonneg (sub_nonneg.mpr hmq) (neg_nonneg.mpr hq0)
      have h2 := mul_nonneg hm0 (neg_nonneg.mpr hq0)
      constructor <;> rw [hx] <;> nlinarith
    by_cases hat : mdeGranularAtTargetGrainAmp s = true
    · have hs := getGrainAmp_at_target s hat hxnn
      rw [hs]
      refine ⟨⟨hlast, hinc, Or.inl ⟨ht, m, hm, hx⟩⟩, rfl, ?_, ?_, fun _ => rfl⟩
      · intro h; rw [ht] at h ⊢; exact ⟨(hup h).1, le_refl _, (hup h).1⟩
      · intro h; rw [ht] at h ⊢; exact ⟨(hdown h).1, (hdown h).1, le_refl _⟩
    · have hs := getGrainAmp_gliding s hat
      have hnat := hat
      rw [atTarget_iff, hlast, ht] at hnat
      push_neg at hnat
      -- not at target: m < N
      have hmlt : (m : Int) < N := by
        rcases lt_or_eq_of_le hm with h | h
        · exact h
        · exfalso
          have hxf : s.grainAmp = f := by
            have : (m : mdefloat) = (N : mdefloat) := by exact_mod_cast h
            rw [hx, this, hNq']; ring
          rcases le_total a0 f with h1 | h1
          · have := hnat.1 h1; linarith
          · have := hnat.2 h1; linarith
      have hm1 : ((m + 1 : Nat) : Int) ≤ N := by push_cast; omega
      have hm1q : ((m : mdefloat) + 1) ≤ (N : mdefloat) := by exact_mod_cast hm1
      have hx' : s.grainAmp + s.grainAmpInc = a0 + ((m + 1 : Nat) : mdefloat) * q := by
        rw [hinc, hx]; push_cast; ring
      have hxN' : (N : mdefloat) * (s.grainAmp + s.grainAmpInc)
          = a0 * ((N : mdefloat) - (m + 1)) + f * (m + 1) := by
        rw [hx']; push_cast; linear_combination ((m : mdefloat) + 1) * hNq'
      have hx'nn : 0 ≤ s.grainAmp + s.grainAmpInc := by
        have h1 : 0 ≤ (N : mdefloat) * (s.grainAmp + s.grainAmpInc) := by
          rw [hxN']
          have := mul_nonneg ha (sub_nonneg.mpr hm1q)
          have := mul_nonneg hf (by positivity : (0 : mdefloat) ≤ (m : mdefloat) + 1)
          linarith
        exact nonneg_of_mul_nonneg_right h1 hNq
      rw [hs]
      simp only [not_lt.mpr hx'nn, if_false]
      refine ⟨⟨hlast, hinc, Or.inl ⟨ht, m + 1, hm1, hx'⟩⟩, by first | rfl | trivial, ?_, ?_, fun h => absurd h hat⟩
      · intro h
        rw [ht] at h ⊢
        have hq0 : 0 ≤ q := by
          have : 0 ≤ (N : mdefloat) * q := by rw [hNq']; linarith
          exact nonneg_of_mul_nonneg_right this hNq
        have h1 := mul_nonneg (sub_nonneg.mpr hm1q) hq0
        refine ⟨(hup h).1, ?_, ?_⟩
        · rw [hinc]; linarith
        · rw [hx']; push_cast; nlinarith
      · intro h
        rw [ht] at h ⊢
        have hq0 : q ≤ 0 := by
          have : (N : mdefloat) * q ≤ 0 := by rw [hNq']; linarith
          by_contra hc
          push_neg at hc
          have := mul_pos hNq hc
          linarith
        have h1 := mul_nonneg (sub_nonneg.mpr hm1q) (neg_nonneg.mpr hq0)
        refine ⟨(hdown h).1, ?_, ?_⟩
        · rw [hx']; push_cast; nlinarith
        · rw [hinc]; linarith
  · -- the target is 0, the amplitude descends and is clamped at 0
    have hq0 : q ≤ 0 := by
      have : (N : mdefloat) * q ≤ 0 := by rw [hNq']; linarith
      by_contra hc
      push_neg at hc
      have := mul_pos hNq hc
      linarith
    by_cases hat : mdeGranularAtTargetGrainAmp s = true
    · have hs := getGrainAmp_at_target s hat hx0
      have hat' := hat
      rw [atTarget_iff, hlast, ht] at hat'
      have hxz : s.grainAmp = 0 := by
        rcases hat' with ⟨h1, _⟩ | ⟨_, h2⟩
        · linarith
        · linarith
      rw [hs]
      refine ⟨⟨hlast, hinc, Or.inr ⟨ht, hfa, hx0, hxa⟩⟩, rfl, ?_, ?_, fun _ => rfl⟩
      · intro _; rw [ht]; exact ⟨hxz.le, le_refl _, hxz.le⟩
      · intro _; rw [ht]; exact ⟨hx0, hx0, le_refl _⟩
    · have hs := getGrainAmp_gliding s hat
      rw [hs]
      have hnat := hat
      rw [atTarget_iff, hlast, ht] at hnat
      push_neg at hnat
      have ha0pos : 0 < a0 := by
        by_contra hc
        push_neg at hc
        have := hnat.1 hc
        linarith
      by_cases hneg : s.grainAmp + s.grainAmpInc < 0
      · simp only [hneg, if_true]
        refine ⟨⟨hlast, hinc, Or.inr ⟨ht, hfa, le_refl _, ha⟩⟩, by first | rfl | trivial, ?_, ?_, fun h => absurd h hat⟩
        · intro h; rw [ht] at h; exfalso; linarith
        · intro _; rw [ht]; exact ⟨hx0, le_refl _, hx0⟩
      · simp only [hneg, if_false]
        push_neg at hneg
        have hle : s.grainAmp + s.grainAmpInc ≤ s.grainAmp := by rw [hinc]; linarith
        refine ⟨⟨hlast, hinc, Or.inr ⟨ht, hfa, hneg, le_trans hle hxa⟩⟩, by first | rfl | trivial, ?_, ?_,
          fun h => absurd h hat⟩
        · intro h; rw [ht] at h; exfalso; linarith
        · intro _; rw [ht]; exact ⟨hx0, hneg, hle⟩

/-- The state written by an accepted `mdeGranularSetGrainAmp`. -/
theorem setGrainAmp_accepted (g : mdeGranular) (f : mdefloat)
    (hf0 : 0 ≤ f) (hf100 : f ≤ 100)
    (hat : mdeGranularAtTargetGrainAmp g = true)
    (hdiff : fabs (g.targetGrainAmp - f) > 1 / 100000) :
    mdeGranularSetGrainAmp g f =
      { g with
        lastGrainAmp := g.grainAmp
        targetGrainAmp := if f < 1 / 100000 then 0 else f
        grainAmpInc := (f - g.grainAmp) / ((g.nOutputSamples - 1 : Int) : mdefloat) } := by
  unfold mdeGranularSetGrainAmp
  have h1 : f ≥ 0 ∧ f ≤ 100 := ⟨hf0, hf100⟩
  have h2 : mdeGranularAtTargetGrainAmp g = true ∧ fabs (g.targetGrainAmp - f) > 1 / 100000 :=
    ⟨hat, hdiff⟩
  simp only [h1, h2, and_self, if_true]

/-- The glide invariant and the target hold after any number of calls. -/
theorem glide_inv_calls (a0 f : mdefloat) (N : Int) (s0 : mdeGranular)
    (ha : 0 ≤ a0) (hf : 0 ≤ f) (hN : 1 ≤ N) (hI : GlideInv a0 f N s0) :
    ∀ k : Nat, GlideInv a0 f N (grainAmpCalls k s0) ∧
      (grainAmpCalls k s0).targetGrainAmp = s0.targetGrainAmp := by
  intro k
  induction k with
  | zero => exact ⟨hI, rfl⟩
  | succ n ih =>
    have h := glide_step a0 f N (grainAmpCalls n s0) ha hf hN ih.1
    simp only [grainAmpCalls]
    exact ⟨h.1, h.2.1.trans ih.2⟩

/-- Glide law in exact arithmetic.  After an accepted `mdeGranularSetGrainAmp(g, f)` with
`0 <= f <= 100`, `nOutputSamples >= 2`, `grainAmp >= 0` and a request that is at least
`0.00001` or not above the current amplitude, over every sequence of
`mdeGranularGetGrainAmpAndInc` calls the target stays as set, `grainAmp - targetGrainAmp`
never takes opposite signs, its magnitude is non-increasing, and once
`mdeGranularAtTargetGrainAmp` holds the amplitude stays constant.  Sums are exact here;
with rounded sums the last step of a glide can cross the target. -/
theorem glide_law_exact (g : mdeGranular) (f : mdefloat)
    (hf0 : 0 ≤ f) (hf100 : f ≤ 100) (hn : 2 ≤ g.nOutputSamples)
    (hat : mdeGranularAtTargetGrainAmp g = true)
    (hdiff : fabs (g.targetGrainAmp - f) > 1 / 100000)
    (ha : 0 ≤ g.grainAmp) (hside : 1 / 100000 ≤ f ∨ f ≤ g.grainAmp) :
    (∀ k : Nat, (grainAmpCalls k (mdeGranularSetGrainAmp g f)).targetGrainAmp
        = (mdeGranularSetGrainAmp g f).targetGrainAmp) ∧
    (∀ j k : Nat,
        0 ≤ ((grainAmpCalls j (mdeGranularSetGrainAmp g f)).grainAmp
              - (mdeGranularSetGrainAmp g f).targetGrainAmp)
          * ((grainAmpCalls k (mdeGranularSetGrainAmp g f)).grainAmp
              - (mdeGranularSetGrainAmp g f).targetGrainAmp)) ∧
    (∀ k : Nat,
        |(grainAmpCalls (k + 1) (mdeGranularSetGrainAmp g f)).grainAmp
            - (mdeGranularSetGrainAmp g f).targetGrainAmp|
          ≤ |(grainAmpCalls k (mdeGranularSetGrainAmp g f)).grainAmp
            - (mdeGranularSetGrainAmp g f).targetGrainAmp|) ∧
    (∀ k : Nat, mdeGranularAtTargetGrainAmp (grainAmpCalls k (mdeGranularSetGrainAmp g f)) = true →
        ∀ m : Nat, k ≤ m →
          (grainAmpCalls m (mdeGranularSetGrainAmp g f)).grainAmp
            = (grainAmpCalls k (mdeGranularSetGrainAmp g f)).grainAmp) := by
  have hshape := setGrainAmp_accepted g f hf0 hf100 hat hdiff
  set s0 := mdeGranularSetGrainAmp g f with hs0
  have hN : 1 ≤ g.nOutputSamples - 1 := by omega
  have hI0 : GlideInv g.grainAmp f (g.nOutputSamples - 1) s0 := by
    rw [hshape]
    refine ⟨rfl, rfl, ?_⟩
    by_cases hmin : f < 1 / 100000
    · right
      have hfa : f ≤ g.grainAmp := by
        rcases hside with h | h
        · exact absurd hmin (not_lt.mpr h)
        · exact h
      refine ⟨?_, hfa, ha, le_refl _⟩
      simp only [hmin, if_true]
    · left
      refine ⟨?_, 0, by omega, ?_⟩
      · simp only [hmin, if_false]
      · simp
  have hall := glide_inv_calls g.grainAmp f (g.nOutputSamples - 1) s0 ha hf0 hN hI0
  have hstep := fun k : Nat =>
    glide_step g.grainAmp f (g.nOutputSamples - 1) (grainAmpCalls k s0) ha hf0 hN (hall k).1
  refine ⟨fun k => (hall k).2, ?_, ?_, ?_⟩
  · intro j k
    have hj := hstep j
    have hk := hstep k
    rw [(hall j).2] at hj
    rw [(hall k).2] at hk
    rcases le_total g.grainAmp s0.targetGrainAmp with h | h
    · have h1 := (hj.2.2.1 h).1
      have h2 := (hk.2.2.1 h).1
      have := mul_nonneg (sub_nonneg.mpr h1) (sub_nonneg.mpr h2)
      have e : ((grainAmpCalls j s0).grainAmp - s0.targetGrainAmp)
            * ((grainAmpCalls k s0).grainAmp - s0.targetGrainAmp)
          = (s0.targetGrainAmp - (grainAmpCalls j s0).grainAmp)
            * (s0.targetGrainAmp - (grainAmpCalls k s0).grainAmp) := by ring
      rw [e]
      exact this
    · have h1 := (hj.2.2.2.1 h).1
      have h2 := (hk.2.2.2.1 h).1
      exact mul_nonneg (sub_nonneg.mpr h1) (sub_nonneg.mpr h2)
  · intro k
    have hk := hstep k
    rw [(hall k).2] at hk
    have hnext : grainAmpCalls (k + 1) s0 = (mdeGranularGetGrainAmpAndInc (grainAmpCalls k s0)).2 :=
      rfl
    rw [hnext]
    rcases le_total g.grainAmp s0.targetGrainAmp with h | h
    · obtain ⟨h1, h2, h3⟩ := hk.2.2.1 h
      rw [abs_of_nonpos (by linarith), abs_of_nonpos (by linarith)]
      linarith
    · obtain ⟨h1, h2, h3⟩ := hk.2.2.2.1 h
      rw [abs_of_nonneg (by linarith), abs_of_nonneg (by linarith)]
      linarith
  · intro k hk m hkm
    obtain ⟨d, rfl⟩ : ∃ d, m = k + d := ⟨m - k, by omega⟩
    have hfix : ∀ d : Nat, grainAmpCalls (k + d) s0 = grainAmpCalls k s0 := by
      intro d
      induction d with
      | zero => rfl
      | succ d ih =>
        have : grainAmpCalls (k + (d + 1)) s0
            = (mdeGranularGetGrainAmpAndInc (grainAmpCalls (k + d) s0)).2 := rfl
        rw [this, ih]
        exact (hstep k).2.2.2.2 hk
    rw [hfix d]

/-- A write keeps the length of the block. -/
theorem length_poke (w : List mdefloat) (i : Int) (v : mdefloat) :
    (poke w i v).length = w.length := by
  unfold poke
  split_ifs
  · exact List.length_set _ _ _
  · rfl

/-- Reading the cell just written, inside the block, gives the value written. -/
theorem peek_poke_same (w : List mdefloat) (i : Int) (v : mdefloat)
    (h0 : 0 ≤ i) (h1 : i < w.length) : peek (poke w i v) i = v := by
  unfold peek poke
  have hlt : i.toNat < w.length := by omega
  simp [h0, List.getD_eq_getElem?_getD, List.getElem?_set, hlt]

/-- A write leaves every other cell as it was. -/
theorem peek_poke_ne (w : List mdefloat) (i j : Int) (v : mdefloat) (h : i ≠ j) :
    peek (poke w i v) j = peek w j := by
  unfold peek poke
  by_cases hi : 0 ≤ i
  · by_cases hj : 0 ≤ j
    · have hne : i.toNat ≠ j.toNat := by omega
      simp [hi, hj, List.getD_eq_getElem?_getD, List.getElem?_set, hne]
    · simp [hi, hj]
  · simp [hi]

/-- The paired store keeps the length of the block. -/
theorem length_setPair (w : List mdefloat) (i j : Int) (v : mdefloat) :
    (setPair w i j v).length = w.length := by
  unfold setPair
  rw [length_poke, length_poke]

/-- After `window[j] = (window[i] = v)` the cell `i` holds `v`. -/
theorem peek_setPair_left (w : List mdefloat) (i j : Int) (v : mdefloat)
    (hi0 : 0 ≤ i) (hi1 : i < w.length) (hj0 : 0 ≤ j) (hj1 : j < w.length) :
    peek (setPair w i j v) i = v := by
  unfold setPair
  by_cases h : j = i
  · subst h
    exact peek_poke_same _ _ _ hj0 (by rw [length_poke]; exact hj1)
  · rw [peek_poke_ne _ _ _ _ h]
    exact peek_poke_same _ _ _ hi0 hi1

/-- After `window[j] = (window[i] = v)` the cell `j` holds `v`. -/
theorem peek_setPair_right (w : List mdefloat) (i j : Int) (v : mdefloat)
    (hj0 : 0 ≤ j) (hj1 : j < w.length) :
    peek (setPair w i j v) j = v := by
  unfold setPair
  exact peek_poke_same _ _ _ hj0 (by rw [length_poke]; exact hj1)

/-- The paired store leaves every cell other than `i` and `j` as it was. -/
theorem peek_setPair_other (w : List mdefloat) (i j p : Int) (v : mdefloat)
    (hi : i ≠ p) (hj : j ≠ p) :
    peek (setPair w i j v) p = peek w p := by
  unfold setPair
  rw [peek_poke_ne _ _ _ _ hj, peek_poke_ne _ _ _ _ hi]

/-- Invariant of the symmetric window loop: with `j = N - 1 - i`, the cells below `i` agree with
their mirror cells, and the loop extends this to the cells it stores. -/
theorem windowLoop_sym (body : Int → Int → mdefloat → List mdefloat → List mdefloat)
    (next : mdefloat → mdefloat) (N : Int) (hb : PairBody body) (n : Nat) :
    ∀ (i : Int) (acc : mdefloat) (w : List mdefloat),
      0 ≤ i → i + n ≤ N → N ≤ w.length →
      (∀ p : Int, 0 ≤ p → p < i → peek w p = peek w (N - 1 - p)) →
      (windowLoop body next n i (N - 1 - i) acc w).length = w.length ∧
      (∀ p : Int, 0 ≤ p → p < i + n →
        peek (windowLoop body next n i (N - 1 - i) acc w) p
          = peek (windowLoop body next n i (N - 1 - i) acc w) (N - 1 - p)) := by
  induction n with
  | zero =>
    intro i acc w _ _ _ hsym
    simp only [windowLoop, Nat.cast_zero, add_zero]
    exact ⟨trivial, hsym⟩
  | succ n ih =>
    intro i acc w hi0 hiN hlen hsym
    push_cast at hiN
    simp only [windowLoop]
    obtain ⟨v, hv⟩ := hb i (N - 1 - i) acc w hi0 (by omega) (by omega) (by omega)
    rw [hv]
    have hlen1 : (setPair w i (N - 1 - i) v).length = w.length := length_setPair _ _ _ _
    have hj : N - 1 - i - 1 = N - 1 - (i + 1) := by ring
    rw [hj]
    have hsym1 : ∀ p : Int, 0 ≤ p → p < i + 1 →
        peek (setPair w i (N - 1 - i) v) p = peek (setPair w i (N - 1 - i) v) (N - 1 - p) := by
      intro p hp0 hp1
      by_cases hpi : p = i
      · subst hpi
        rw [peek_setPair_left _ _ _ _ hi0 (by omega) (by omega) (by omega),
          peek_setPair_right _ _ _ _ (by omega) (by omega)]
      · by_cases hpj : p = N - 1 - i
        · subst hpj
          rw [peek_setPair_right _ _ _ _ (by omega) (by omega)]
          have : N - 1 - (N - 1 - i) = i := by ring
          rw [this, peek_setPair_left _ _ _ _ hi0 (by omega) (by omega) (by omega)]
        · rw [peek_setPair_other _ _ _ _ _ (fun h => hpi h.symm) (fun h => hpj h.symm),
            peek_setPair_other _ _ _ _ _ (by omega) (by omega)]
          exact hsym p hp0 (by omega)
    have := ih (i + 1) (next acc) (setPair w i (N - 1 - i) v) (by omega) (by omega)
      (by rw [hlen1]; exact hlen) hsym1
    refine ⟨by rw [this.1, hlen1], ?_⟩
    intro p hp0 hp1
    exact this.2 p hp0 (by omega)

/-- The symmetric window loop run for an even size `2L` (`L + 1` iterations from `i = 0`,
`j = 2L - 1`) leaves a table equal to its mirror image. -/
theorem windowLoop_symmetric (body : Int → Int → mdefloat → List mdefloat → List mdefloat)
    (next : mdefloat → mdefloat) (L : Int) (acc : mdefloat) (w : List mdefloat)
    (hb : PairBody body) (hL : 1 ≤ L) (hlen : 2 * L ≤ w.length) :
    ∀ p : Int, 0 ≤ p → p < 2 * L →
      peek (windowLoop body next (L + 1).toNat 0 (2 * L - 1) acc w) p
        = peek (windowLoop body next (L + 1).toNat 0 (2 * L - 1) acc w) (2 * L - 1 - p) := by
  have h := windowLoop_sym body next (2 * L) hb (L + 1).toNat 0 acc w (le_refl _)
    (by have : ((L + 1).toNat : Int) = L + 1 := Int.toNat_of_nonneg (by omega); omega) hlen
    (by intro p h0 h1; omega)
  have e : 2 * L - 1 - 0 = 2 * L - 1 := by ring
  rw [e] at h
  have hcast : ((L + 1).toNat : Int) = L + 1 := Int.toNat_of_nonneg (by omega)
  intro p hp0 hp1
  by_cases hp : p < L + 1
  · exact h.2 p hp0 (by omega)
  · have := h.2 (2 * L - 1 - p) (by omega) (by omega)
    have e2 : 2 * L - 1 - (2 * L - 1 - p) = p := by ring
    rw [e2] at this
    exact this.symm

/-- The loop of the rectangular window stores 1 in the cells `i .. i + n - 1` and leaves the
cells below `i` as they were. -/
theorem onesLoop_spec (n : Nat) :
    ∀ (i : Int) (w : List mdefloat), 0 ≤ i → i + n ≤ w.length →
      (onesLoop n i w).length = w.length ∧
      (∀ p : Int, i ≤ p → p < i + n → peek (onesLoop n i w) p = 1) ∧
      (∀ p : Int, p < i → peek (onesLoop n i w) p = peek w p) := by
  induction n with
  | zero =>
    intro i w _ _
    simp only [onesLoop, Nat.cast_zero, add_zero]
    exact ⟨trivial, fun p h1 h2 => absurd h2 (not_lt.mpr h1), fun _ _ => trivial⟩
  | succ n ih =>
    intro i w hi0 hlen
    push_cast at hlen
    simp only [onesLoop]
    have h := ih (i + 1) (poke w i 1) (by omega) (by rw [length_poke]; omega)
    refine ⟨by rw [h.1, length_poke], ?_, ?_⟩
    · intro p hp0 hp1
      by_cases hpi : p = i
      · subst hpi
        rw [h.2.2 p (by omega)]
        exact peek_poke_same _ _ _ hi0 (by omega)
      · exact h.2.1 p (by omega) (by push_cast at hp1; omega)
    · intro p hp
      rw [h.2.2 p (by omega), peek_poke_ne _ _ _ _ (by omega)]

/-- The loop of `makeRamps`: cell `up + k` holds `f + k * inc`, cell `down + k` holds
`1 - (f + k * inc)`, every cell outside the two ranges is as it was. -/
theorem makeRampsLoop_spec (inc : mdefloat) (n : Nat) :
    ∀ (up down : Int) (f : mdefloat) (block : List mdefloat),
      0 ≤ up → up + n ≤ down → down + n ≤ block.length →
      (makeRampsLoop inc n up down f block).length = block.length ∧
      (∀ k : Nat, k < n →
        peek (makeRampsLoop inc n up down f block) (up + k) = f + k * inc ∧
        peek (makeRampsLoop inc n up down f block) (down + k) = 1 - (f + k * inc)) ∧
      (∀ p : Int, (p < up ∨ (up + n ≤ p ∧ p < down) ∨ down + n ≤ p) →
        peek (makeRampsLoop inc n up down f block) p = peek block p) := by
  induction n with
  | zero =>
    intro up down f block _ _ _
    simp only [makeRampsLoop]
    exact ⟨trivial, fun k hk => absurd hk (Nat.not_lt_zero k), fun _ _ => trivial⟩
  | succ n ih =>
    intro up down f block hup hud hlen
    push_cast at hud hlen
    simp only [makeRampsLoop]
    have hl1 : (poke (poke block up f) down (1 - f)).length = block.length := by
      rw [length_poke, length_poke]
    have h := ih (up + 1) (down + 1) (f + inc) (poke (poke block up f) down (1 - f))
      (by omega) (by omega) (by rw [hl1]; omega)
    refine ⟨by rw [h.1, hl1], ?_, ?_⟩
    · intro k hk
      cases k with
      | zero =>
        simp only [Nat.cast_zero, add_zero, zero_mul]
        constructor
        · rw [h.2.2 up (Or.inl (by omega)), peek_poke_ne _ _ _ _ (by omega)]
          exact peek_poke_same _ _ _ hup (by omega)
        · rw [h.2.2 down (Or.inr (Or.inl ⟨by omega, by omega⟩))]
          exact peek_poke_same _ _ _ (by omega) (by rw [length_poke]; omega)
      | succ k =>
        have hk' := h.2.1 k (by omega)
        have e1 : up + ((k + 1 : Nat) : Int) = up + 1 + (k : Int) := by push_cast; ring
        have e2 : down + ((k + 1 : Nat) : Int) = down + 1 + (k : Int) := by push_cast; ring
        rw [e1, e2, hk'.1, hk'.2]
        push_cast
        constructor <;> ring
    · intro p hp
      rw [h.2.2 p (by omega), peek_poke_ne _ _ _ _ (by omega),
        peek_poke_ne _ _ _ _ (by omega)]

/-- The trapezoid built by `makeRamps` over a block of `2L` cells, `L >= 2`, equals its mirror
image (exact arithmetic). -/
theorem makeRamps_symmetric (L : Int) (w : List mdefloat) (hL : 2 ≤ L)
    (hlen : 2 * L ≤ w.length) :
    ∀ p : Int, 0 ≤ p → p < 2 * L →
      peek (makeRamps L w 0 L) p = peek (makeRamps L w 0 L) (2 * L - 1 - p) := by
  have hcast : (L.toNat : Int) = L := Int.toNat_of_nonneg (by omega)
  have h := makeRampsLoop_spec (1 / ((L - 1 : Int) : mdefloat)) L.toNat 0 L 0 w (le_refl _)
    (by omega) (by omega)
  have hLq : ((L - 1 : Int) : mdefloat) ≠ 0 := by
    have : (L - 1 : Int) ≠ 0 := by omega
    exact_mod_cast this
  have key : ∀ q : Int, 0 ≤ q → q < L →
      peek (makeRamps L w 0 L) q = peek (makeRamps L w 0 L) (2 * L - 1 - q) := by
    intro q hq0 hq1
    have h1 := (h.2.1 q.toNat (by omega)).1
    have h2 := (h.2.1 (L - 1 - q).toNat (by omega)).2
    have c1 : (q.toNat : Int) = q := Int.toNat_of_nonneg hq0
    have c2 : ((L - 1 - q).toNat : Int) = L - 1 - q := Int.toNat_of_nonneg (by omega)
    have c1q : (q.toNat : mdefloat) = (q : mdefloat) := by exact_mod_cast c1
    have c2q : ((L - 1 - q).toNat : mdefloat) = ((L - 1 - q : Int) : mdefloat) := by
      exact_mod_cast c2
    rw [c1, c1q] at h1
    rw [c2, c2q] at h2
    have e1 : (0 : Int) + q = q := by ring
    have e2 : L + (L - 1 - q) = 2 * L - 1 - q := by ring
    rw [e1] at h1
    rw [e2] at h2
    unfold makeRamps
    rw [h1, h2]
    push_cast
    push_cast at hLq
    field_simp
  intro p hp0 hp1
  by_cases hp : p < L
  · exact key p hp0 hp
  · have := key (2 * L - 1 - p) (by omega) (by omega)
    have e : 2 * L - 1 - (2 * L - 1 - p) = p := by ring
    rw [e] at this
    exact this.symm

/-- The midpoint `size / 2` of an even size `2L`. -/
theorem tdiv_two_mul (L : Int) (h : 0 ≤ L) : Int.tdiv (2 * L) 2 = L := by
  rw [Int.tdiv_eq_ediv (by omega) (by omega)]
  omega

/-- For an accepted shape name and an even size `2L`, `makeWindow` is the trapezoid ramp, the
rectangular fill, or a symmetric window loop whose body stores one value in `i` and `j`. -/
theorem makeWindow_shape (m : MathFns) (type : String) (L : Int) (beta : mdefloat)
    (w : List mdefloat) (hacc : type ∈ acceptedShapes) (hL : 1 ≤ L) :
    makeWindow m type (2 * L) beta w = makeRamps L w 0 L ∨
    makeWindow m type (2 * L) beta w = onesLoop (2 * L).toNat 0 w ∨
    ∃ (body : Int → Int → mdefloat → List mdefloat → List mdefloat)
      (next : mdefloat → mdefloat) (acc : mdefloat),
      PairBody body ∧
      makeWindow m type (2 * L) beta w
        = windowLoop body next (L + 1).toNat 0 (2 * L - 1) acc w := by
  have hmid := tdiv_two_mul L (by omega)
  simp only [acceptedShapes, List.mem_cons, List.mem_singleton, List.not_mem_nil, or_false]
    at hacc
  rcases hacc with h | h | h | h | h | h | h | h | h | h | h | h | h | h | h | h | h | h <;>
    subst h <;> unfold makeWindow <;>
    simp only [hmid, String.reduceEq, if_true, if_false, false_or, or_false, or_true, true_or]
  all_goals right; right
  · exact ⟨_, _, _, fun i j acc w _ _ _ _ => ⟨_, rfl⟩, rfl⟩
  · exact ⟨_, _, _, fun i j acc w _ _ _ _ => ⟨_, rfl⟩, rfl⟩
  · exact ⟨_, _, _, fun i j acc w _ _ _ _ => ⟨_, rfl⟩, rfl⟩
  · exact ⟨_, _, _, fun i j acc w _ _ _ _ => ⟨_, rfl⟩, rfl⟩
  · exact ⟨_, _, _, fun i j acc w _ _ _ _ => ⟨_, rfl⟩, rfl⟩
  · exact ⟨_, _, _, fun i j acc w _ _ _ _ => ⟨_, rfl⟩, rfl⟩
  · exact ⟨_, _, _, fun i j acc w _ _ _ _ => ⟨_, rfl⟩, rfl⟩
  · exact ⟨_, _, _, fun i j acc w _ _ _ _ => ⟨_, rfl⟩, rfl⟩
  · exact ⟨_, _, _, fun i j acc w _ _ _ _ => ⟨_, rfl⟩, rfl⟩
  · exact ⟨_, _, _, fun i j acc w _ _ _ _ => ⟨_, rfl⟩, rfl⟩
  · exact ⟨_, _, _, fun i j acc w _ _ _ _ => ⟨_, rfl⟩, rfl⟩
  · exact ⟨_, _, _, fun i j acc w _ _ _ _ => ⟨_, rfl⟩, rfl⟩
  · exact ⟨_, _, _, fun i j acc w _ _ _ _ => ⟨_, rfl⟩, rfl⟩
  · refine ⟨_, _, _, ?_, rfl⟩
    intro i j acc w hi0 hi1 _ _
    by_cases hm : i = L
    · exact ⟨1, by simp only [hm, if_true]⟩
    · refine ⟨m.sin (TWO_PI / ((2 * L : Int) : mdefloat) * ((L - i : Int) : mdefloat))
          / (TWO_PI / ((2 * L : Int) : mdefloat) * ((L - i : Int) : mdefloat)), ?_⟩
      simp only [hm, if_false]
      unfold setPair
      rw [peek_poke_same _ _ _ hi0 hi1]
  · exact ⟨_, _, _, fun i j acc w _ _ _ _ => ⟨_, rfl⟩, rfl⟩
  · refine ⟨_, _, _, ?_, rfl⟩
    intro i j acc w _ _ _ _
    by_cases hc : (i : mdefloat) ≥ (L : mdefloat) * (1 - beta)
    · exact ⟨1, by simp only [hc, if_true]⟩
    · exact ⟨1 / 2 * (1 - m.cos (M_PI * (i : mdefloat) / ((L : mdefloat) * (1 - beta)))),
        by simp only [hc, if_false]⟩

/-- C13: `mdeGranularSetActiveVoices` rejects an argument whose integer truncation `av` is
negative or above `maxVoices`: the granulator (so `activeVoices` and every grain's
`activeStatus` and `doDelay`) is unchanged; consequently `0 <= activeVoices <= maxVoices`
is preserved by every call. -/
theorem setActiveVoices_guard (g : mdeGranular) (activeVoices : mdefloat) :
    ((cTrunc activeVoices < 0 ∨ cTrunc activeVoices > g.maxVoices) →
        mdeGranularSetActiveVoices g activeVoices = g) ∧
    ((0 ≤ g.activeVoices ∧ g.activeVoices ≤ g.maxVoices) →
        0 ≤ (mdeGranularSetActiveVoices g activeVoices).activeVoices ∧
        (mdeGranularSetActiveVoices g activeVoices).activeVoices
          ≤ (mdeGranularSetActiveVoices g activeVoices).maxVoices) := by
  constructor
  · intro h
    unfold mdeGranularSetActiveVoices
    have : ¬ (cTrunc activeVoices ≥ 0 ∧ cTrunc activeVoices ≤ g.maxVoices) := by omega
    simp only [this, if_false]
  · intro h
    unfold mdeGranularSetActiveVoices
    by_cases hc : cTrunc activeVoices ≥ 0 ∧ cTrunc activeVoices ≤ g.maxVoices
    · simp only [hc, and_self, if_true]
      cases g.grains with
      | none => exact ⟨hc.1, hc.2⟩
      | some gs => exact ⟨hc.1, hc.2⟩
    · simp only [hc, if_false]
      exact h

/-- Witness for C13: 7 active voices requested with `maxVoices = 4`. -/
theorem setActiveVoices_guard_witness :
    mdeGranularSetActiveVoices { exampleGranular with maxVoices := 4, activeVoices := 4 } 7
      = { exampleGranular with maxVoices := 4, activeVoices := 4 } :=
  (setActiveVoices_guard { exampleGranular with maxVoices := 4, activeVoices := 4 } 7).1
    (Or.inr (by
      have : cTrunc (7 : mdefloat) = 7 := by
        have := cTrunc_intCast 7
        simpa using this
      rw [this]
      decide))

/-- C14: `mdeGranularSetDensity(g, f)` leaves the granulator unchanged for every `f` outside
`[0, 100]`, sets `density = f` (and nothing else) for every `f` inside; hence
`0 <= density <= 100` is preserved by every call. -/
theorem setDensity_guard (g : mdeGranular) (f : mdefloat) :
    ((f < 0 ∨ f > 100) → mdeGranularSetDensity g f = g) ∧
    ((0 ≤ f ∧ f ≤ 100) → mdeGranularSetDensity g f = { g with density := f }) ∧
    ((0 ≤ g.density ∧ g.density ≤ 100) →
        0 ≤ (mdeGranularSetDensity g f).density ∧ (mdeGranularSetDensity g f).density ≤ 100) := by
  refine ⟨?_, ?_, ?_⟩
  · intro h
    unfold mdeGranularSetDensity
    have : ¬ (f ≥ 0 ∧ f ≤ 100) := by
      rintro ⟨h1, h2⟩
      rcases h with h | h <;> linarith
    simp only [this, if_false]
  · intro h
    unfold mdeGranularSetDensity
    have : f ≥ 0 ∧ f ≤ 100 := h
    simp only [this, and_self, if_true]
  · intro h
    unfold mdeGranularSetDensity
    by_cases hc : f ≥ 0 ∧ f ≤ 100
    · simp only [hc, and_self, if_true]
    · simp only [hc, if_false]
      exact h

/-- Witness for C14: a density of 150 is rejected. -/
theorem setDensity_guard_witness :
    mdeGranularSetDensity exampleGranular 150 = exampleGranular :=
  (setDensity_guard exampleGranular 150).1 (Or.inr (by norm_num))

/-- C15: for every granulator with `nBufferSamples >= 1` and `samplingRate > 0` and every
argument `f`, after `mdeGranularSetSamplesStartMS(g, f)` we have
`0 <= samplesStart <= nBufferSamples - 1`, and after `mdeGranularSetSamplesEndMS(g, f)` we
have `0 <= samplesEnd <= nBufferSamples - 1`. -/
theorem region_setters_clamp (g : mdeGranular) (f : mdefloat)
    (hN : 1 ≤ g.nBufferSamples) (_hsr : 0 < g.samplingRate) :
    (0 ≤ (mdeGranularSetSamplesStartMS g f).samplesStart ∧
      (mdeGranularSetSamplesStartMS g f).samplesStart ≤ g.nBufferSamples - 1) ∧
    (0 ≤ (mdeGranularSetSamplesEndMS g f).samplesEnd ∧
      (mdeGranularSetSamplesEndMS g f).samplesEnd ≤ g.nBufferSamples - 1) := by
  constructor
  · unfold mdeGranularSetSamplesStartMS
    dsimp only
    split_ifs <;> dsimp only at * <;> omega
  · unfold mdeGranularSetSamplesEndMS
    dsimp only
    split_ifs <;> dsimp only at * <;> omega

/-- Witness for C15: a negative position, -30 ms, in the four-sample example buffer. -/
theorem region_setters_clamp_witness :
    (0 ≤ (mdeGranularSetSamplesStartMS exampleGranular (-30)).samplesStart ∧
      (mdeGranularSetSamplesStartMS exampleGranular (-30)).samplesStart
        ≤ exampleGranular.nBufferSamples - 1) ∧
    (0 ≤ (mdeGranularSetSamplesEndMS exampleGranular (-30)).samplesEnd ∧
      (mdeGranularSetSamplesEndMS exampleGranular (-30)).samplesEnd
        ≤ exampleGranular.nBufferSamples - 1) :=
  region_setters_clamp exampleGranular (-30) (by decide) (by norm_num [exampleGranular])

/-- At 44.1 kHz the sentinel `DBL_MIN` milliseconds is a positive fraction of a sample, and
`ceil` makes it one sample. -/
theorem ms2samples_DBL_MIN : ms2samples 44100 DBL_MIN = 1 := by
  unfold ms2samples DBL_MIN
  rw [Int.ceil_eq_iff]
  constructor
  · norm_num
  · norm_num

/-- C16 at its failing input: in the example granulator (four-sample buffer, 44.1 kHz)
`mdeGranularSetSamplesStartMS(g, DBL_MIN)` gives `samplesStart = 1`, not 0, while
`mdeGranularSetSamplesEndMS(g, DBL_MIN)` gives `samplesEnd = 3 = N - 1`. -/
theorem unset_start_is_one :
    (mdeGranularSetSamplesStartMS exampleGranular DBL_MIN).samplesStart = 1 ∧
    (mdeGranularSetSamplesEndMS exampleGranular DBL_MIN).samplesEnd = 3 := by
  have h := ms2samples_DBL_MIN
  constructor
  · simp only [mdeGranularSetSamplesStartMS, exampleGranular, h]
    decide
  · simp only [mdeGranularSetSamplesEndMS, exampleGranular, h]
    simp

/-- The count stored by `mdeGranularSetTranspositions` is `num` itself (1 for `num = 0`). -/
theorem setTranspositions_numTranspositions (pow : mdefloat → mdefloat → mdefloat)
    (g : mdeGranular) (num : Int) (list : Option (List mdefloat)) :
    (mdeGranularSetTranspositions pow g num list).numTranspositions
      = if num = 0 then 1 else num := rfl

/-- C18 at its failing input: a list of 257 transpositions.  `numTranspositions` is 257,
above `MAXTRANSPOSITIONS = 256`, although only 256 entries were written; with the draw
`rand() = RAND_MAX = 32767` the index `(int)between(0, numTranspositions)` of
`mdeGranularGrainInit` is 256, past the last cell of `srcs`. -/
theorem setTranspositions_count_unbounded :
    (mdeGranularSetTranspositions examplePow exampleGranular 257
        (some (List.replicate 257 0))).numTranspositions = 257 ∧
    ¬ ((mdeGranularSetTranspositions examplePow exampleGranular 257
        (some (List.replicate 257 0))).numTranspositions ≤ MAXTRANSPOSITIONS) ∧
    cTrunc (between 0
      (((mdeGranularSetTranspositions examplePow exampleGranular 257
        (some (List.replicate 257 0))).numTranspositions : Int) : mdefloat) maxRand).1 = 256 := by
  have hn : (mdeGranularSetTranspositions examplePow exampleGranular 257
      (some (List.replicate 257 0))).numTranspositions = 257 := by
    rw [setTranspositions_numTranspositions]
    decide
  refine ⟨hn, ?_, ?_⟩
  · rw [hn]
    decide
  · rw [hn]
    simp only [between, rand, maxRand]
    norm_num [cTrunc, Int.floor_eq_iff]

/-- One iteration of the loop of `mdeGranularSetTranspositions`. -/
theorem setTranspositionsLoop_one (pow : mdefloat → mdefloat → mdefloat)
    (os od : mdefloat) (list tr sr : List mdefloat) :
    setTranspositionsLoop pow os od list 1 0 (tr, sr)
      = (poke tr 0 (peek list 0), poke sr 0 (st2src pow (peek list 0) os od)) := by
  simp only [setTranspositionsLoop]

/-- C19: an empty transposition list defaults to `{0}`.  `mdeGranularSetTranspositions(g, 0, list)`
sets `numTranspositions = 1`, `transpositions[0] = 0` and
`srcs[0] = st2src(0, octaveSize, octaveDivisions)`, which is 1 for every `octaveSize > 0`
and `octaveDivisions > 0` (`pow(x, 0) = 1`, the arrays hold at least one cell). -/
theorem setTranspositions_empty (pow : mdefloat → mdefloat → mdefloat) (g : mdeGranular)
    (list : Option (List mdefloat))
    (hpow : ∀ x : mdefloat, pow x 0 = 1)
    (_hos : 0 < g.octaveSize) (_hod : 0 < g.octaveDivisions)
    (htr : 1 ≤ g.transpositions.length) (hsr : 1 ≤ g.srcs.length) :
    (mdeGranularSetTranspositions pow g 0 list).numTranspositions = 1 ∧
    peek (mdeGranularSetTranspositions pow g 0 list).transpositions 0 = 0 ∧
    peek (mdeGranularSetTranspositions pow g 0 list).srcs 0
      = st2src pow 0 g.octaveSize g.octaveDivisions ∧
    st2src pow 0 g.octaveSize g.octaveDivisions = 1 := by
  have hst : st2src pow 0 g.octaveSize g.octaveDivisions = 1 := by
    unfold st2src
    rw [zero_div]
    exact hpow _
  have hmin : (min (1 : Int) MAXTRANSPOSITIONS).toNat = 1 := by decide
  have hp0 : peek ([0] : List mdefloat) 0 = 0 := by simp [peek]
  unfold mdeGranularSetTranspositions
  simp only [if_true, hmin, setTranspositionsLoop_one, hp0]
  refine ⟨trivial, ?_, ?_, hst⟩
  · exact peek_poke_same _ _ _ (le_refl _) (by exact_mod_cast htr)
  · exact peek_poke_same _ _ _ (le_refl _) (by exact_mod_cast hsr)

/-- Witness for C19: the example granulator, octave size 2 in 12 divisions. -/
theorem setTranspositions_empty_witness :
    (mdeGranularSetTranspositions examplePow exampleGranular 0 none).numTranspositions = 1 ∧
    peek (mdeGranularSetTranspositions examplePow exampleGranular 0 none).transpositions 0 = 0 ∧
    peek (mdeGranularSetTranspositions examplePow exampleGranular 0 none).srcs 0
      = st2src examplePow 0 exampleGranular.octaveSize exampleGranular.octaveDivisions ∧
    st2src examplePow 0 exampleGranular.octaveSize exampleGranular.octaveDivisions = 1 :=
  setTranspositions_empty examplePow exampleGranular none
    (fun _ => by simp [examplePow]) (by norm_num [exampleGranular])
    (by norm_num [exampleGranular]) (by decide) (by decide)

/-- C20: structural setters are gated on OFF.  Whenever the status is not OFF,
`mdeGranularSetRampLenMS`, `mdeGranularSetRampType` and `mdeGranularSetLiveBufferSize` each
return the granulator (and the random source) unchanged, for every argument. -/
theorem structural_setters_gated (m : MathFns) (g : mdeGranular) (rampLenMS sizeMS : mdefloat)
    (type : String) (rs : RandSource) (h : g.status ≠ t_status.OFF) :
    mdeGranularSetRampLenMS m g rampLenMS rs = (g, rs) ∧
    mdeGranularSetRampType m g type rs = (g, rs) ∧
    mdeGranularSetLiveBufferSize g sizeMS = g := by
  refine ⟨?_, ?_, ?_⟩
  · unfold mdeGranularSetRampLenMS
    simp only [h, ne_eq, not_false_eq_true, if_true]
  · unfold mdeGranularSetRampType
    simp only [h, ne_eq, not_false_eq_true, if_true]
  · unfold mdeGranularSetLiveBufferSize
    simp only [h, if_false]

/-- Witness for C20: the example granulator while it is ON. -/
theorem structural_setters_gated_witness :
    mdeGranularSetRampLenMS exampleMath { exampleGranular with status := t_status.ON } 3
        exampleRand = ({ exampleGranular with status := t_status.ON }, exampleRand) ∧
    mdeGranularSetRampType exampleMath { exampleGranular with status := t_status.ON } "WELCH"
        exampleRand = ({ exampleGranular with status := t_status.ON }, exampleRand) ∧
    mdeGranularSetLiveBufferSize { exampleGranular with status := t_status.ON } 5000
      = { exampleGranular with status := t_status.ON } :=
  structural_setters_gated exampleMath { exampleGranular with status := t_status.ON } 3 5000
    "WELCH" exampleRand (by decide)

/-- C11: for every `N >= 1`, any `beta` and a window block of at least `N` cells,
`makeWindow("RECTANGULAR", N, beta, window)` sets `window[i] = 1.0` for every `0 <= i < N`. -/
theorem makeWindow_rectangular (m : MathFns) (N : Int) (beta : mdefloat) (w : List mdefloat)
    (hN : 1 ≤ N) (hlen : N ≤ w.length) :
    ∀ i : Int, 0 ≤ i → i < N → peek (makeWindow m "RECTANGULAR" N beta w) i = 1 := by
  have hcast : (N.toNat : Int) = N := Int.toNat_of_nonneg (by omega)
  have hs := onesLoop_spec N.toNat 0 w (le_refl _) (by omega)
  have hmw : makeWindow m "RECTANGULAR" N beta w = onesLoop N.toNat 0 w := by
    unfold makeWindow
    simp only [String.reduceEq, if_false, if_true]
  intro i hi0 hi1
  rw [hmw]
  exact hs.2.1 i hi0 (by omega)

/-- Witness for C11: three ones written into a block of four cells. -/
theorem makeWindow_rectangular_witness :
    peek (makeWindow exampleMath "RECTANGULAR" 3 (5 / 2) [7, 7, 7, 7]) 2 = 1 :=
  makeWindow_rectangular exampleMath 3 (5 / 2) [7, 7, 7, 7] (by decide) (by decide) 2
    (by decide) (by decide)

/-- The symmetric window loop keeps the block length and leaves every cell outside the two
ranges it stores into (`i .. i+n-1` and `j-n+1 .. j`) as it was. -/
theorem windowLoop_frame (body : Int → Int → mdefloat → List mdefloat → List mdefloat)
    (next : mdefloat → mdefloat) (hb : PairBody body) (n : Nat) :
    ∀ (i j : Int) (acc : mdefloat) (w : List mdefloat),
      0 ≤ i → i + n ≤ w.length → 0 ≤ j - n + 1 → j < w.length →
      (windowLoop body next n i j acc w).length = w.length ∧
      (∀ p : Int, (p < i ∨ i + n ≤ p) → (p ≤ j - n ∨ j < p) →
        peek (windowLoop body next n i j acc w) p = peek w p) := by
  induction n with
  | zero =>
    intro i j acc w _ _ _ _
    simp only [windowLoop]
    exact ⟨trivial, fun _ _ _ => trivial⟩
  | succ n ih =>
    intro i j acc w hi0 hi1 hj0 hj1
    push_cast at hi1 hj0
    simp only [windowLoop]
    obtain ⟨v, hv⟩ := hb i j acc w hi0 (by omega) (by omega) hj1
    rw [hv]
    have hl : (setPair w i j v).length = w.length := length_setPair _ _ _ _
    have h := ih (i + 1) (j - 1) (next acc) (setPair w i j v) (by omega)
      (by rw [hl]; omega) (by omega) (by rw [hl]; omega)
    refine ⟨by rw [h.1, hl], ?_⟩
    intro p hp1 hp2
    push_cast at hp1 hp2
    rw [h.2 p (by omega) (by omega), peek_setPair_other _ _ _ _ _ (by omega) (by omega)]

/-- The last iteration of the symmetric window loop, split off. -/
theorem windowLoop_succ_last (body : Int → Int → mdefloat → List mdefloat → List mdefloat)
    (next : mdefloat → mdefloat) (n : Nat) :
    ∀ (i j : Int) (acc : mdefloat) (w : List mdefloat),
      windowLoop body next (n + 1) i j acc w
        = body (i + n) (j - n) (next^[n] acc) (windowLoop body next n i j acc w) := by
  induction n with
  | zero =>
    intro i j acc w
    simp [windowLoop]
  | succ n ih =>
    intro i j acc w
    have e : windowLoop body next (n + 1 + 1) i j acc w
        = windowLoop body next (n + 1) (i + 1) (j - 1) (next acc) (body i j acc w) := rfl
    rw [e, ih]
    have e2 : windowLoop body next (n + 1) i j acc w
        = windowLoop body next n (i + 1) (j - 1) (next acc) (body i j acc w) := rfl
    rw [e2, Function.iterate_succ_apply]
    push_cast
    have a1 : i + 1 + (n : Int) = i + ((n : Int) + 1) := by ring
    have a2 : j - 1 - (n : Int) = j - ((n : Int) + 1) := by ring
    rw [a1, a2]

/-- The accumulated angle after `n` steps of `angle += c`. -/
theorem iterate_add_const (c : mdefloat) (n : Nat) (a : mdefloat) :
    (fun angle : mdefloat => angle + c)^[n] a = a + n * c := by
  induction n generalizing a with
  | zero => simp
  | succ n ih =>
    rw [Function.iterate_succ_apply, ih]
    push_cast
    ring

/-- The Hann branch of `makeWindow` (names `HANNING` and `HANN`). -/
theorem makeWindow_hann (m : MathFns) (type : String) (N : Int) (beta : mdefloat)
    (w : List mdefloat) (ht : type = "HANNING" ∨ type = "HANN") :
    makeWindow m type N beta w =
      windowLoop (fun i j angle w => setPair w i j (1 / 2 - 1 / 2 * m.cos angle))
        (fun angle => angle + TWO_PI / (N : mdefloat)) (Int.tdiv N 2 + 1).toNat 0 (N - 1) 0 w := by
  rcases ht with h | h <;> subst h <;> unfold makeWindow <;>
    simp only [String.reduceEq, if_false, if_true, or_true, true_or]

/-- C12 (as stated) fails.  With `cos 0 = 1`, `cos pi = -1`, `cos (2 pi / 3) = -1/2`:
for `N = 2` the second iteration (`i = 1`, `j = 0`) overwrites `window[0]` with
`0.5 - 0.5 cos(pi) = 1`, so `window[0] = 1`, not 0; for `N = 3` the value at `N/2 = 1` is
`0.5 - 0.5 cos(2 pi / 3) = 3/4`, not 1. -/
theorem hanning_endpoints_fail :
    peek (makeWindow hannMath "HANNING" 2 (5 / 2) [0, 0]) 0 = 1 ∧
    peek (makeWindow hannMath "HANNING" 3 (5 / 2) [0, 0, 0]) (Int.tdiv 3 2) = 3 / 4 := by
  have t1 : Int.toNat 1 = 1 := rfl
  have t2 : Int.toNat 2 = 2 := rfl
  have d2 : Int.tdiv 2 2 = 1 := by decide
  have d3 : Int.tdiv 3 2 = 1 := by decide
  have hpi : M_PI ≠ 0 := by norm_num [M_PI]
  constructor
  · rw [makeWindow_hann hannMath "HANNING" 2 (5 / 2) [0, 0] (Or.inl rfl)]
    have n2 : (Int.tdiv 2 2 + 1).toNat = 2 := by decide
    have a1 : (0 : mdefloat) + TWO_PI / ((2 : Int) : mdefloat) = M_PI := by
      norm_num [TWO_PI]
    rw [n2]
    simp only [windowLoop, a1]
    norm_num [setPair, poke, peek, hannMath, tableCos, hpi, t1]
  · rw [makeWindow_hann hannMath "HANNING" 3 (5 / 2) [0, 0, 0] (Or.inl rfl)]
    have n3 : (Int.tdiv 3 2 + 1).toNat = 2 := by decide
    have a1 : (0 : mdefloat) + TWO_PI / ((3 : Int) : mdefloat) = TWO_PI / 3 := by
      norm_num
    have h3 : TWO_PI / 3 ≠ 0 := by norm_num [TWO_PI, M_PI]
    have h4 : TWO_PI / 3 ≠ M_PI := by norm_num [TWO_PI, M_PI]
    rw [n3, d3]
    simp only [windowLoop, a1]
    norm_num [setPair, poke, peek, hannMath, tableCos, h3, h4, t1, t2]

/-- C12 (amended): for `makeWindow("HANNING", N, beta, window)` and the alias `"HANN"`, with
`cos 0 = 1` and `cos pi = -1` (the constant `M_PI` standing for pi) and a window block of at
least `N` cells: `window[0] = 0.0` for every `N >= 3`, and `window[N/2] = 1.0` for every
even `N >= 2`. -/
theorem hanning_endpoints (m : MathFns) (type : String) (N : Int) (beta : mdefloat)
    (w : List mdefloat) (ht : type = "HANNING" ∨ type = "HANN")
    (hc0 : m.cos 0 = 1) (hcpi : m.cos M_PI = -1) (hlen : N ≤ w.length) :
    (3 ≤ N → peek (makeWindow m type N beta w) 0 = 0) ∧
    (2 ≤ N → N % 2 = 0 → peek (makeWindow m type N beta w) (Int.tdiv N 2) = 1) := by
  have hpb : PairBody (fun i j angle w => setPair w i j (1 / 2 - 1 / 2 * m.cos angle)) :=
    fun i j acc w _ _ _ _ => ⟨_, rfl⟩
  rw [makeWindow_hann m type N beta w ht]
  constructor
  · intro hN
    have hmid : Int.tdiv N 2 = N / 2 := Int.tdiv_eq_ediv (by omega) (by omega)
    obtain ⟨k, hk⟩ : ∃ k : Nat, (Int.tdiv N 2 + 1).toNat = k + 1 :=
      ⟨(Int.tdiv N 2).toNat, by omega⟩
    have hkc : (k : Int) = N / 2 := by omega
    rw [hk]
    simp only [windowLoop]
    have hl : (setPair w 0 (N - 1) (1 / 2 - 1 / 2 * m.cos 0)).length = w.length :=
      length_setPair _ _ _ _
    have hf := windowLoop_frame _ (fun angle => angle + TWO_PI / (N : mdefloat)) hpb k
      (0 + 1) (N - 1 - 1) (0 + TWO_PI / (N : mdefloat))
      (setPair w 0 (N - 1) (1 / 2 - 1 / 2 * m.cos 0))
      (by omega) (by rw [hl]; omega) (by omega) (by rw [hl]; omega)
    rw [hf.2 0 (Or.inl (by omega)) (Or.inl (by omega)),
      peek_setPair_left _ _ _ _ (le_refl _) (by omega) (by omega) (by omega), hc0]
    norm_num
  · intro hN heven
    have hmid : Int.tdiv N 2 = N / 2 := Int.tdiv_eq_ediv (by omega) (by omega)
    obtain ⟨k, hk⟩ : ∃ k : Nat, (Int.tdiv N 2 + 1).toNat = k + 1 :=
      ⟨(Int.tdiv N 2).toNat, by omega⟩
    have hkc : (k : Int) = N / 2 := by omega
    have hN2 : N = 2 * (k : Int) := by omega
    rw [hk, windowLoop_succ_last, iterate_add_const]
    have hf := windowLoop_frame _ (fun angle => angle + TWO_PI / (N : mdefloat)) hpb k
      0 (N - 1) 0 w (le_refl _) (by omega) (by omega) (by omega)
    have hangle : (0 : mdefloat) + (k : mdefloat) * (TWO_PI / (N : mdefloat)) = M_PI := by
      have hk0 : (k : mdefloat) ≠ 0 := by
        have : (k : Int) ≠ 0 := by omega
        exact_mod_cast this
      rw [hN2]
      unfold TWO_PI
      push_cast
      field_simp
      ring
    rw [hangle, hcpi, hmid, ← hkc]
    have e : (0 : Int) + (k : Int) = (k : Int) := by ring
    rw [e, peek_setPair_left _ _ _ _ (by omega) (by rw [hf.1]; omega) (by omega)
      (by rw [hf.1]; omega)]
    norm_num

/-- Witness for C12 (amended): the Hann window of four samples. -/
theorem hanning_endpoints_witness :
    peek (makeWindow hannMath "HANNING" 4 (5 / 2) [0, 0, 0, 0]) 0 = 0 ∧
    peek (makeWindow hannMath "HANNING" 4 (5 / 2) [0, 0, 0, 0]) (Int.tdiv 4 2) = 1 :=
  ⟨(hanning_endpoints hannMath "HANNING" 4 (5 / 2) [0, 0, 0, 0] (Or.inl rfl)
      (by simp [hannMath, tableCos])
      (by
        have hpi : M_PI ≠ 0 := by norm_num [M_PI]
        simp [hannMath, tableCos, hpi])
      (by decide)).1 (by decide),
   (hanning_endpoints hannMath "HANNING" 4 (5 / 2) [0, 0, 0, 0] (Or.inl rfl)
      (by simp [hannMath, tableCos])
      (by
        have hpi : M_PI ≠ 0 := by norm_num [M_PI]
        simp [hannMath, tableCos, hpi])
      (by decide)).2 (by decide) (by decide)⟩

/-- The function `between` does not change `RAND_MAX`. -/
theorem between_snd_RAND_MAX (a b : mdefloat) (rs : RandSource) :
    (between a b rs).2.RAND_MAX = rs.RAND_MAX := by
  unfold between rand
  split_ifs <;> rfl

/-- The function `between` does not change the sequence of draws, only the position in it. -/
theorem between_snd_draws (a b : mdefloat) (rs : RandSource) :
    (between a b rs).2.draws = rs.draws := by
  unfold between rand
  split_ifs <;> rfl

/-- A random source with the same `RAND_MAX` and the same draws is as well-formed. -/
theorem RandOK_of_eq {rs rs1 : RandSource} (h1 : rs1.RAND_MAX = rs.RAND_MAX)
    (h2 : rs1.draws = rs.draws) (h : RandOK rs) : RandOK rs1 := by
  unfold RandOK at *
  rw [h1, h2]
  exact h

/-- The random source after `between` is well-formed. -/
theorem RandOK_between (a b : mdefloat) (rs : RandSource) (h : RandOK rs) :
    RandOK (between a b rs).2 :=
  RandOK_of_eq (between_snd_RAND_MAX a b rs) (between_snd_draws a b rs) h

/-- The random source after `flip` is well-formed. -/
theorem RandOK_flip (rs : RandSource) (h : RandOK rs) : RandOK (flip rs).2 :=
  @RandOK_of_eq rs (flip rs).2 rfl rfl h

/-- The random source after `randomlyDeviate` is well-formed. -/
theorem RandOK_randomlyDeviate (x d : mdefloat) (rs : RandSource) (h : RandOK rs) :
    RandOK (randomlyDeviate x d rs).2 := by
  have : (randomlyDeviate x d rs).2 = (flip (between 0 d rs).2).2 := rfl
  rw [this]
  exact RandOK_flip _ (RandOK_between _ _ _ h)

/-- The value `between` returns is `min` plus a fraction in `[0, 1)` of `max - min`. -/
theorem between_fst (a b : mdefloat) (rs : RandSource) (h : RandOK rs) :
    ∃ t : mdefloat, 0 ≤ t ∧ t < 1 ∧ (between a b rs).1 = a + t * (b - a) := by
  unfold between rand
  split_ifs with hab
  · exact ⟨0, le_refl _, by norm_num, by simp⟩
  · obtain ⟨h0, hd⟩ := h
    have hr := hd rs.pos
    have hpos : (0 : mdefloat) < (rs.RAND_MAX : mdefloat) + 1 := by
      have : (0 : mdefloat) ≤ (rs.RAND_MAX : mdefloat) := by exact_mod_cast h0
      linarith
    refine ⟨(rs.draws rs.pos : mdefloat) / ((rs.RAND_MAX : mdefloat) + 1), ?_, ?_, ?_⟩
    · apply div_nonneg
      · exact_mod_cast hr.1
      · exact hpos.le
    · rw [div_lt_one hpos]
      have : (rs.draws rs.pos : mdefloat) ≤ (rs.RAND_MAX : mdefloat) := by exact_mod_cast hr.2
      linarith
    · show a + (rs.draws rs.pos : mdefloat) * ((b - a) / ((rs.RAND_MAX : mdefloat) + 1)) = _
      field_simp

/-- With `min < max` and draws in `[0, RAND_MAX]`, `between` returns a value in `[min, max)`. -/
theorem between_range (a b : mdefloat) (rs : RandSource) (h : RandOK rs) (hab : a < b) :
    a ≤ (between a b rs).1 ∧ (between a b rs).1 < b := by
  obtain ⟨t, h0, h1, he⟩ := between_fst a b rs h
  rw [he]
  constructor <;> nlinarith

/-- With `min <= max` and draws in `[0, RAND_MAX]`, `between` returns a value in `[min, max]`. -/
theorem between_range_le (a b : mdefloat) (rs : RandSource) (h : RandOK rs) (hab : a ≤ b) :
    a ≤ (between a b rs).1 ∧ (between a b rs).1 ≤ b := by
  obtain ⟨t, h0, h1, he⟩ := between_fst a b rs h
  rw [he]
  constructor <;> nlinarith

/-- Truncation of a non-negative value is the floor. -/
theorem cTrunc_nonneg_of_nonneg (x : mdefloat) (h : 0 ≤ x) : cTrunc x = ⌊x⌋ := by
  unfold cTrunc
  simp [h]

/-- Truncation toward zero stays between two integers that enclose the value. -/
theorem cTrunc_mem (x : mdefloat) (a b : Int) (ha : (a : mdefloat) ≤ x) (hb : x ≤ (b : mdefloat)) :
    a ≤ cTrunc x ∧ cTrunc x ≤ b := by
  unfold cTrunc
  split_ifs with h
  · refine ⟨Int.le_floor.mpr ha, ?_⟩
    have : ((⌊x⌋ : Int) : mdefloat) ≤ (b : mdefloat) := le_trans (Int.floor_le x) hb
    exact_mod_cast this
  · refine ⟨?_, Int.ceil_le.mpr hb⟩
    have : (a : mdefloat) ≤ ((⌈x⌉ : Int) : mdefloat) := le_trans ha (Int.le_ceil x)
    exact_mod_cast this

/-- `mdeGranularInitGrains` changes the grains only. -/
theorem initGrains_fields (g : mdeGranular) (rs : RandSource) :
    (mdeGranularInitGrains g rs).1.grainLengthMS = g.grainLengthMS ∧
    (mdeGranularInitGrains g rs).1.rampLenMS = g.rampLenMS := by
  unfold mdeGranularInitGrains
  split_ifs
  · cases hg : g.grains <;> exact ⟨rfl, rfl⟩
  · exact ⟨rfl, rfl⟩

/-- Filling the ramp block changes the ramp block only. -/
theorem fillRamp_fields (m : MathFns) (g : mdeGranular) :
    (fillRamp m g).grainLengthMS = g.grainLengthMS ∧ (fillRamp m g).rampLenMS = g.rampLenMS := by
  unfold fillRamp
  cases hg : g.rampUp <;> exact ⟨rfl, rfl⟩

/-- The function `mdeGranularSetRampLenMS` never changes `grainLengthMS`. -/
theorem setRampLenMS_grainLengthMS (m : MathFns) (g : mdeGranular) (r : mdefloat)
    (rs : RandSource) :
    (mdeGranularSetRampLenMS m g r rs).1.grainLengthMS = g.grainLengthMS := by
  unfold mdeGranularSetRampLenMS
  simp only []
  split_ifs
  · rfl
  · rfl
  · rw [(initGrains_fields _ _).1, (fillRamp_fields _ _).1]
  · rfl
  · rw [(initGrains_fields _ _).1, (fillRamp_fields _ _).1]

/-- The ramp length after `mdeGranularSetRampLenMS`: the clamped request when the granulator
is OFF and the request is at most half the grain length, the old value otherwise. -/
theorem setRampLenMS_rampLenMS (m : MathFns) (g : mdeGranular) (r : mdefloat)
    (rs : RandSource) :
    (mdeGranularSetRampLenMS m g r rs).1.rampLenMS =
      (if g.status ≠ t_status.OFF then g.rampLenMS
       else if (if r < RAMPLENMINMS then RAMPLENMINMS else r) > g.grainLengthMS * (1 / 2) then
         g.rampLenMS
       else (if r < RAMPLENMINMS then RAMPLENMINMS else r)) := by
  unfold mdeGranularSetRampLenMS
  simp only []
  split_ifs
  · rfl
  · rfl
  · rw [(initGrains_fields _ _).2, (fillRamp_fields _ _).2]
  · rfl
  · rw [(initGrains_fields _ _).2, (fillRamp_fields _ _).2]

/-- The start setter keeps the grain length, the ramp length, the buffer size and the
sampling rate. -/
theorem setSamplesStartMS_fields (g : mdeGranular) (f : mdefloat) :
    (mdeGranularSetSamplesStartMS g f).grainLengthMS = g.grainLengthMS ∧
    (mdeGranularSetSamplesStartMS g f).rampLenMS = g.rampLenMS ∧
    (mdeGranularSetSamplesStartMS g f).grainLength = g.grainLength ∧
    (mdeGranularSetSamplesStartMS g f).nBufferSamples = g.nBufferSamples ∧
    (mdeGranularSetSamplesStartMS g f).samplingRate = g.samplingRate := by
  unfold mdeGranularSetSamplesStartMS
  simp only []
  split_ifs <;> exact ⟨rfl, rfl, rfl, rfl, rfl⟩

/-- The end setter keeps the grain length, the ramp length, the buffer size and the
sampling rate. -/
theorem setSamplesEndMS_fields (g : mdeGranular) (f : mdefloat) :
    (mdeGranularSetSamplesEndMS g f).grainLengthMS = g.grainLengthMS ∧
    (mdeGranularSetSamplesEndMS g f).rampLenMS = g.rampLenMS ∧
    (mdeGranularSetSamplesEndMS g f).grainLength = g.grainLength ∧
    (mdeGranularSetSamplesEndMS g f).nBufferSamples = g.nBufferSamples ∧
    (mdeGranularSetSamplesEndMS g f).samplingRate = g.samplingRate := by
  unfold mdeGranularSetSamplesEndMS
  simp only []
  split_ifs <;> exact ⟨rfl, rfl, rfl, rfl, rfl⟩

/-- The live-buffer allocation keeps the grain length, the ramp length and the sampling rate. -/
theorem setLiveBufferSize_fields (g : mdeGranular) (f : mdefloat) :
    (mdeGranularSetLiveBufferSize g f).grainLengthMS = g.grainLengthMS ∧
    (mdeGranularSetLiveBufferSize g f).rampLenMS = g.rampLenMS ∧
    (mdeGranularSetLiveBufferSize g f).grainLength = g.grainLength ∧
    (mdeGranularSetLiveBufferSize g f).samplingRate = g.samplingRate := by
  unfold mdeGranularSetLiveBufferSize
  split_ifs <;> exact ⟨rfl, rfl, rfl, rfl⟩

/-- The grain length and ramp length after the common tail of `mdeGranularInit3`. -/
theorem init3Tail_fields (g : mdeGranular) (samplesMS numSamples : mdefloat) (rs : RandSource) :
    (init3Tail g samplesMS numSamples rs).2.1.grainLengthMS =
      (if cTrunc numSamples < g.grainLength then
        samples2ms g.samplingRate (cTrunc ((cTrunc numSamples : mdefloat) * (9 / 10)))
       else g.grainLengthMS) ∧
    (init3Tail g samplesMS numSamples rs).2.1.rampLenMS = g.rampLenMS := by
  unfold init3Tail
  simp only [(initGrains_fields _ _).1, (initGrains_fields _ _).2,
    (setSamplesStartMS_fields _ _).2.2.1, (setSamplesStartMS_fields _ _).2.2.2.1,
    (setSamplesEndMS_fields _ _).2.2.1, (setSamplesEndMS_fields _ _).2.2.2.1,
    (setSamplesStartMS_fields _ _).2.2.2.2, (setSamplesEndMS_fields _ _).2.2.2.2]
  split_ifs
  · exact ⟨rfl, by
      show (mdeGranularSetSamplesStartMS _ _).rampLenMS = _
      rw [(setSamplesStartMS_fields _ _).2.1, (setSamplesEndMS_fields _ _).2.1]⟩
  · constructor
    · rw [(setSamplesStartMS_fields _ _).1, (setSamplesEndMS_fields _ _).1]
    · rw [(setSamplesStartMS_fields _ _).2.1, (setSamplesEndMS_fields _ _).2.1]

/-- The grain length and ramp length after `mdeGranularInit3`. -/
theorem init3_fields (g : mdeGranular) (samples : Option (List mdefloat))
    (samplesMS numSamples : mdefloat) (rs : RandSource) :
    ((mdeGranularInit3 g samples samplesMS numSamples rs).2.1.grainLengthMS = g.grainLengthMS ∨
      (cTrunc numSamples < g.grainLength ∧
        (mdeGranularInit3 g samples samplesMS numSamples rs).2.1.grainLengthMS
          = samples2ms g.samplingRate (cTrunc ((cTrunc numSamples : mdefloat) * (9 / 10))))) ∧
    (mdeGranularInit3 g samples samplesMS numSamples rs).2.1.rampLenMS = g.rampLenMS := by
  have hL : ∀ x : mdeGranular, (x.grainLengthMS = g.grainLengthMS ∧ x.rampLenMS = g.rampLenMS ∧
      x.grainLength = g.grainLength ∧ x.samplingRate = g.samplingRate) →
      (((init3Tail x samplesMS numSamples rs).2.1.grainLengthMS = g.grainLengthMS ∨
        (cTrunc numSamples < g.grainLength ∧
          (init3Tail x samplesMS numSamples rs).2.1.grainLengthMS
            = samples2ms g.samplingRate (cTrunc ((cTrunc numSamples : mdefloat) * (9 / 10))))) ∧
      (init3Tail x samplesMS numSamples rs).2.1.rampLenMS = g.rampLenMS) := by
    intro x ⟨a, b, c, d⟩
    obtain ⟨t1, t2⟩ := init3Tail_fields x samplesMS numSamples rs
    rw [t1, t2, a, b, c, d]
    refine ⟨?_, rfl⟩
    split_ifs with hc
    · exact Or.inr ⟨hc, rfl⟩
    · exact Or.inl rfl
  unfold mdeGranularInit3
  cases samples with
  | some buf => exact hL _ ⟨rfl, rfl, rfl, rfl⟩
  | none =>
    have hx : (fun x : mdeGranular => x.grainLengthMS = g.grainLengthMS ∧
        x.rampLenMS = g.rampLenMS ∧ x.grainLength = g.grainLength ∧
        x.samplingRate = g.samplingRate)
        (if g.theSamples.isNone then mdeGranularSetLiveBufferSize g 10000 else g) := by
      split_ifs
      · exact setLiveBufferSize_fields g 10000
      · exact ⟨rfl, rfl, rfl, rfl⟩
    simp only []
    generalize (if g.theSamples.isNone = true then mdeGranularSetLiveBufferSize g 10000 else g)
      = x at hx ⊢
    obtain ⟨a, b, c, d⟩ := hx
    split_ifs
    · exact ⟨Or.inl a, b⟩
    · exact hL _ ⟨a, b, c, d⟩

/-- C21 (amended): from a state with `grainLengthMS > 2 * rampLenMS`,
`mdeGranularSetGrainLengthMS` keeps the strict inequality for every argument;
`mdeGranularSetRampLenMS` leaves `grainLengthMS >= 2 * rampLenMS` for every argument (a ramp
of exactly half the grain length is accepted); and `mdeGranularInit3` keeps the strict
inequality for all arguments whose buffer is not shorter than the grain
(`grainLength <= (long)numSamples`). -/
theorem length_ramp_invariant (g : mdeGranular) (hinv : g.grainLengthMS > 2 * g.rampLenMS) :
    (∀ f : mdefloat,
      (mdeGranularSetGrainLengthMS g f).grainLengthMS
        > 2 * (mdeGranularSetGrainLengthMS g f).rampLenMS) ∧
    (∀ (m : MathFns) (rampLenMS : mdefloat) (rs : RandSource),
      (mdeGranularSetRampLenMS m g rampLenMS rs).1.grainLengthMS
        ≥ 2 * (mdeGranularSetRampLenMS m g rampLenMS rs).1.rampLenMS) ∧
    (∀ (samples : Option (List mdefloat)) (samplesMS numSamples : mdefloat) (rs : RandSource),
      g.grainLength ≤ cTrunc numSamples →
      (mdeGranularInit3 g samples samplesMS numSamples rs).2.1.grainLengthMS
        > 2 * (mdeGranularInit3 g samples samplesMS numSamples rs).2.1.rampLenMS) := by
  refine ⟨?_, ?_, ?_⟩
  · intro f
    unfold mdeGranularSetGrainLengthMS
    simp only []
    split_ifs with h1 h2
    · exact hinv
    · exact hinv
    · exact not_le.mp h1
  · intro m r rs
    rw [setRampLenMS_grainLengthMS, setRampLenMS_rampLenMS]
    split_ifs with h1 h2 h3 h4
    · exact hinv.le
    · exact hinv.le
    · have := not_lt.mp h3
      linarith
    · exact hinv.le
    · have := not_lt.mp h4
      linarith
  · intro samples ms n rs hle
    obtain ⟨h1, h2⟩ := init3_fields g samples ms n rs
    rw [h2]
    rcases h1 with h1 | ⟨hlt, _⟩
    · rw [h1]; exact hinv
    · omega

/-- The example granulator has `grainLengthMS = 50 > 2 * rampLenMS = 10`. -/
theorem exampleGranular_inv : exampleGranular.grainLengthMS > 2 * exampleGranular.rampLenMS := by
  norm_num [exampleGranular]

/-- Witness for C21 (amended): the example granulator, a grain length of 20 ms and a ramp
length of 25 ms. -/
theorem length_ramp_invariant_witness :
    (mdeGranularSetGrainLengthMS exampleGranular 20).grainLengthMS
        > 2 * (mdeGranularSetGrainLengthMS exampleGranular 20).rampLenMS ∧
    (mdeGranularSetRampLenMS exampleMath exampleGranular 25 exampleRand).1.grainLengthMS
        ≥ 2 * (mdeGranularSetRampLenMS exampleMath exampleGranular 25 exampleRand).1.rampLenMS :=
  ⟨(length_ramp_invariant exampleGranular exampleGranular_inv).1 20,
   (length_ramp_invariant exampleGranular exampleGranular_inv).2.1 exampleMath 25 exampleRand⟩

/-- C21 (as stated) fails.  From the example granulator (`grainLengthMS = 50`,
`rampLenMS = 5`, OFF): `mdeGranularSetRampLenMS(g, 25)` is accepted, because only
`rampLenMS > grainLengthMS * 0.5` is rejected, and leaves `50 = 2 * 25`;
`mdeGranularInit3` with a static buffer of 4 samples rewrites the grain length to 90 per
cent of the buffer, 3 samples or `10/147` ms, below `2 * rampLenMS = 10`. -/
theorem length_ramp_invariant_not_strict :
    exampleGranular.grainLengthMS > 2 * exampleGranular.rampLenMS ∧
    (mdeGranularSetRampLenMS exampleMath exampleGranular 25 exampleRand).1.grainLengthMS = 50 ∧
    (mdeGranularSetRampLenMS exampleMath exampleGranular 25 exampleRand).1.rampLenMS = 25 ∧
    ¬ ((mdeGranularSetRampLenMS exampleMath exampleGranular 25 exampleRand).1.grainLengthMS
        > 2 * (mdeGranularSetRampLenMS exampleMath exampleGranular 25 exampleRand).1.rampLenMS) ∧
    (mdeGranularInit3 exampleGranular (some [0, 1, 2, 3]) 0 4 exampleRand).1 = 0 ∧
    (mdeGranularInit3 exampleGranular (some [0, 1, 2, 3]) 0 4 exampleRand).2.1.grainLengthMS
      = 10 / 147 ∧
    (mdeGranularInit3 exampleGranular (some [0, 1, 2, 3]) 0 4 exampleRand).2.1.rampLenMS = 5 ∧
    ¬ ((mdeGranularInit3 exampleGranular (some [0, 1, 2, 3]) 0 4 exampleRand).2.1.grainLengthMS
        > 2 * (mdeGranularInit3 exampleGranular (some [0, 1, 2, 3]) 0 4
            exampleRand).2.1.rampLenMS) := by
  have a1 : (mdeGranularSetRampLenMS exampleMath exampleGranular 25 exampleRand).1.grainLengthMS
      = 50 := by
    rw [setRampLenMS_grainLengthMS]; rfl
  have a2 : (mdeGranularSetRampLenMS exampleMath exampleGranular 25 exampleRand).1.rampLenMS
      = 25 := by
    rw [setRampLenMS_rampLenMS]
    norm_num [exampleGranular, RAMPLENMINMS]
  have b0 : (mdeGranularInit3 exampleGranular (some [0, 1, 2, 3]) 0 4 exampleRand).1 = 0 := rfl
  have ht : cTrunc 4 = 4 := by norm_num [cTrunc]
  have ht2 : cTrunc (((4 : Int) : mdefloat) * (9 / 10)) = 3 := by
    norm_num [cTrunc, Int.floor_eq_iff]
  have b1 : (mdeGranularInit3 exampleGranular (some [0, 1, 2, 3]) 0 4
      exampleRand).2.1.grainLengthMS = 10 / 147 := by
    show (init3Tail _ 0 4 exampleRand).2.1.grainLengthMS = _
    rw [(init3Tail_fields _ _ _ _).1, ht, ht2]
    norm_num [exampleGranular, samples2ms]
  have b2 : (mdeGranularInit3 exampleGranular (some [0, 1, 2, 3]) 0 4
      exampleRand).2.1.rampLenMS = 5 := by
    rw [(init3_fields _ _ _ _ _).2]; rfl
  refine ⟨exampleGranular_inv, a1, a2, ?_, b0, b1, b2, ?_⟩
  · rw [a1, a2]; norm_num
  · rw [b1, b2]; norm_num

/-- C23: for every granulator with `1 <= numChannels` (an `int`) and every argument `l`,
`mdeGranularSetActiveChannels(g, l)` changes `activeChannels` only, to `l` clamped into
`[1, numChannels]` (`numChannels` if `l > numChannels`, 1 if `l < 1`, `l` otherwise), so
`0 <= activeChannels <= numChannels` afterwards. -/
theorem setActiveChannels_clamps (g : mdeGranular) (l : Int)
    (h1 : 1 ≤ g.numChannels) (hint : g.numChannels < 2 ^ 31) :
    mdeGranularSetActiveChannels g l =
      { g with activeChannels :=
          if l > g.numChannels then g.numChannels else if l < 1 then 1 else l } ∧
    0 ≤ (mdeGranularSetActiveChannels g l).activeChannels ∧
    1 ≤ (mdeGranularSetActiveChannels g l).activeChannels ∧
    (mdeGranularSetActiveChannels g l).activeChannels ≤ g.numChannels ∧
    (mdeGranularSetActiveChannels g l).numChannels = g.numChannels := by
  have hc : ¬ l > g.numChannels → ¬ l < 1 → cInt l = l := by
    intro a b
    unfold cInt
    norm_num at hint ⊢
    omega
  unfold mdeGranularSetActiveChannels
  split_ifs with a b
  · refine ⟨rfl, ?_, ?_, ?_, rfl⟩ <;> dsimp only <;> omega
  · refine ⟨rfl, ?_, ?_, ?_, rfl⟩ <;> dsimp only <;> omega
  · rw [hc a b]
    refine ⟨rfl, ?_, ?_, ?_, rfl⟩ <;> dsimp only <;> omega

/-- Witness for C23: the example granulator (one channel) asked for five channels. -/
theorem setActiveChannels_clamps_witness :
    mdeGranularSetActiveChannels exampleGranular 5 =
      { exampleGranular with activeChannels :=
          if (5 : Int) > exampleGranular.numChannels then exampleGranular.numChannels
          else if (5 : Int) < 1 then 1 else 5 } ∧
    1 ≤ (mdeGranularSetActiveChannels exampleGranular 5).activeChannels ∧
    (mdeGranularSetActiveChannels exampleGranular 5).activeChannels
      ≤ exampleGranular.numChannels :=
  ⟨(setActiveChannels_clamps exampleGranular 5 (by decide) (by decide)).1,
   (setActiveChannels_clamps exampleGranular 5 (by decide) (by decide)).2.2.1,
   (setActiveChannels_clamps exampleGranular 5 (by decide) (by decide)).2.2.2.1⟩

/-- The sample loop of `mdeGranularGrainMixIn` on a grain with at least `n` samples of its
first delay left: `n` iterations advance `firstDelayCounter` by `n` and change nothing else
of the grain, the granulator or the random source. -/
theorem mixLoop_delaying (n : Nat) :
    ∀ (i : Int) (s : MixState), s.gg.firstDelayCounter + (n : Int) ≤ s.gg.firstDelay →
      (mixLoop n i s).gg = { s.gg with firstDelayCounter := s.gg.firstDelayCounter + (n : Int) } ∧
      (mixLoop n i s).parent = s.parent ∧ (mixLoop n i s).rs = s.rs := by
  induction n with
  | zero =>
    intro i s _
    simp [mixLoop]
  | succ n ih =>
    intro i s h
    have hlt : s.gg.firstDelayCounter < s.gg.firstDelay := by push_cast at h; omega
    have hstep : mixStep i s =
        { s with gg := { s.gg with firstDelayCounter := s.gg.firstDelayCounter + 1 },
                 where_ := s.where_.map (fun p => { p with off := p.off + 1 }) } := by
      unfold mixStep
      simp only [hlt, if_true]
    simp only [mixLoop]
    have h2 : (mixStep i s).gg.firstDelayCounter + (n : Int) ≤ (mixStep i s).gg.firstDelay := by
      rw [hstep]; dsimp only; push_cast at h; omega
    obtain ⟨a, b, c⟩ := ih (i + 1) (mixStep i s) h2
    rw [a, b, c, hstep]
    refine ⟨?_, rfl, rfl⟩
    dsimp only
    push_cast
    rw [add_assoc, add_comm (1 : Int) (n : Int)]

/-- C30 (amended): with non-null source samples and a non-null destination, for every grain
with `firstDelay - firstDelayCounter >= howMany >= 0`, `mdeGranularGrainMixIn` leaves the
granulator (every output buffer) and the random source unchanged, and every grain field
except `firstDelayCounter`, which grows by exactly `howMany`. -/
theorem mixIn_delaying (gg : mdeGranularGrain) (parent : mdeGranular)
    (where_ : Option SamplePtr) (howMany : Int) (rs : RandSource)
    (hs : (samplesBlock parent).isSome = true) (hw : where_.isSome = true)
    (h0 : 0 ≤ howMany) (hd : howMany ≤ gg.firstDelay - gg.firstDelayCounter) :
    mdeGranularGrainMixIn gg parent where_ howMany rs =
      ({ gg with firstDelayCounter := gg.firstDelayCounter + howMany }, parent, rs) := by
  unfold mdeGranularGrainMixIn
  simp only [hs, hw, and_self, if_true]
  have hn : ((howMany.toNat : Nat) : Int) = howMany := Int.toNat_of_nonneg h0
  obtain ⟨a, b, c⟩ := mixLoop_delaying howMany.toNat 0
    { gg := gg, parent := parent, where_ := where_, inc := gg.inc, rs := rs }
    (by dsimp only; rw [hn]; omega)
  rw [a, b, c]
  dsimp only
  rw [hn]

/-- Witness for C30 (amended): a grain waiting ten samples, mixed for two samples. -/
theorem mixIn_delaying_witness :
    mdeGranularGrainMixIn delayingGrain exampleGranular (some { chan := 0, off := 0 }) 2
        exampleRand =
      ({ delayingGrain with firstDelayCounter := delayingGrain.firstDelayCounter + 2 },
        exampleGranular, exampleRand) :=
  mixIn_delaying delayingGrain exampleGranular (some { chan := 0, off := 0 }) 2 exampleRand
    rfl rfl (by decide) (by decide)

/-- C30 (as stated) fails without source samples: `mdeGranularGrainMixIn` does nothing unless
`samples && where`, so for a granulator with `samples == NULL` the grain with
`firstDelay = 10`, `firstDelayCounter = 0` and `howMany = 2` keeps `firstDelayCounter = 0`
instead of reaching 2. -/
theorem mixIn_delaying_needs_samples :
    (0 : Int) ≤ 2 ∧ 2 ≤ delayingGrain.firstDelay - delayingGrain.firstDelayCounter ∧
    (mdeGranularGrainMixIn delayingGrain { exampleGranular with samples := none }
        (some { chan := 0, off := 0 }) 2 exampleRand).1.firstDelayCounter = 0 ∧
    (mdeGranularGrainMixIn delayingGrain { exampleGranular with samples := none }
        (some { chan := 0, off := 0 }) 2 exampleRand).1.firstDelayCounter
      ≠ delayingGrain.firstDelayCounter + 2 := by
  refine ⟨by decide, by decide, ?_, ?_⟩ <;>
    simp [mdeGranularGrainMixIn, samplesBlock, exampleGranular, delayingGrain, zeroGrain]

/-- C22 at its failing input: the example granulator (status OFF, `grainLengthMS = 50`,
sampling rate 44100) asked for a live buffer of 10 ms.  With `warnings = 1` the request is
ignored; with `warnings = 0` the test `g->grainLengthMS > sizeMS && g->warnings` is false
and the buffer is allocated: 441 samples, `AllocatedBufferMS = 10`. -/
theorem setLiveBufferSize_warnings_off_accepts :
    exampleGranular.status = t_status.OFF ∧ exampleGranular.grainLengthMS > 10 ∧
    mdeGranularSetLiveBufferSize { exampleGranular with warnings := 1 } 10
      = { exampleGranular with warnings := 1 } ∧
    exampleGranular.nAllocatedBufferSamples = 0 ∧
    (mdeGranularSetLiveBufferSize { exampleGranular with warnings := 0 } 10).nAllocatedBufferSamples
      = 441 ∧
    (mdeGranularSetLiveBufferSize { exampleGranular with warnings := 0 } 10).AllocatedBufferMS
      = 10 ∧
    (mdeGranularSetLiveBufferSize { exampleGranular with warnings := 0 } 10).theSamples
      = some (List.replicate 441 0) := by
  have hms : ms2samples 44100 10 = 441 := by
    norm_num [ms2samples, Int.ceil_eq_iff]
  have hc : cInt 441 = 441 := by decide
  refine ⟨rfl, ?_, ?_, ?_, ?_, ?_, ?_⟩
  · norm_num [exampleGranular]
  · norm_num [mdeGranularSetLiveBufferSize, exampleGranular]
  · rfl
  · simp [mdeGranularSetLiveBufferSize, exampleGranular, hms, hc]
  · simp [mdeGranularSetLiveBufferSize, exampleGranular]
  · have hm : mdeCalloc 441 = some (List.replicate 441 0) := rfl
    rw [← hm]
    simp [mdeGranularSetLiveBufferSize, exampleGranular, hms, hc]

/-- One iteration of the sample loop of `mdeGranularGrainMixIn` writes nothing when the grain
is delaying or when its status at the test `gg->status == OFF || gg->status == SKIPGRAIN`
(after the reinitialisation of an exhausted grain) is OFF. -/
theorem mixStep_off_parent (i : Int) (s : MixState)
    (h : s.gg.firstDelayCounter < s.gg.firstDelay ∨
      (if mdeGranularGrainExhausted s.gg = true then
          (mdeGranularGrainInit s.gg s.parent 0 s.rs).2.1 else s.gg).status = t_status.OFF) :
    (mixStep i s).parent = s.parent := by
  unfold mixStep
  simp only []
  by_cases h1 : s.gg.firstDelayCounter < s.gg.firstDelay
  · rw [if_pos h1]
  · rw [if_neg h1]
    have h2 := h.resolve_left h1
    by_cases he : mdeGranularGrainExhausted s.gg = true
    · rw [if_pos he] at h2
      simp only [if_pos he]
      rw [if_neg (not_not.mpr (Or.inl h2))]
    · rw [if_neg he] at h2
      simp only [if_neg he]
      rw [if_neg (not_not.mpr (Or.inl h2))]

/-- One iteration of the sample loop on a grain of a deactivated voice whose status is OFF:
the grain stays so and nothing is written. -/
theorem mixStep_inactive_off (i : Int) (s : MixState)
    (ha : s.gg.activeStatus = t_status.INACTIVE) (ho : s.gg.status = t_status.OFF) :
    (mixStep i s).gg.activeStatus = t_status.INACTIVE ∧
    (mixStep i s).gg.status = t_status.OFF ∧ (mixStep i s).parent = s.parent := by
  have hI := grainInit_inactive s.gg s.parent 0 s.rs ha
  unfold mixStep
  simp only []
  by_cases h1 : s.gg.firstDelayCounter < s.gg.firstDelay
  · rw [if_pos h1]
    exact ⟨ha, ho, rfl⟩
  · rw [if_neg h1]
    by_cases he : mdeGranularGrainExhausted s.gg = true
    · simp only [if_pos he]
      have h2 : (mdeGranularGrainInit s.gg s.parent 0 s.rs).2.1.status = t_status.OFF := by
        rw [hI]
      rw [if_neg (not_not.mpr (Or.inl h2))]
      dsimp only
      rw [hI]
      exact ⟨ha, rfl, rfl⟩
    · simp only [if_neg he]
      rw [if_neg (not_not.mpr (Or.inl ho))]
      exact ⟨ha, ho, rfl⟩

/-- The sample loop on a grain of a deactivated voice whose status is OFF writes nothing. -/
theorem mixLoop_inactive_off (n : Nat) :
    ∀ (i : Int) (s : MixState), s.gg.activeStatus = t_status.INACTIVE →
      s.gg.status = t_status.OFF → (mixLoop n i s).parent = s.parent := by
  induction n with
  | zero => intro i s _ _; rfl
  | succ n ih =>
    intro i s ha ho
    obtain ⟨a, b, c⟩ := mixStep_inactive_off i s ha ho
    simp only [mixLoop]
    rw [ih (i + 1) (mixStep i s) a b, c]

/-- C24: for a grain whose `activeStatus` is INACTIVE, every parent state, every
`doFirstDelay` and every random source, `mdeGranularGrainInit` returns 1 and changes the
grain only in `status`, which becomes OFF.  In the sample loop of `mdeGranularGrainMixIn` a
grain whose status is OFF at the status test (or that is delaying) adds nothing to the
output memory, and a whole call of `mdeGranularGrainMixIn` on the grain so switched off
leaves the granulator, hence every output buffer, unchanged. -/
theorem grainInit_inactive_short_circuit (gg : mdeGranularGrain) (parent : mdeGranular)
    (doFirstDelay : Int) (rs : RandSource) (h : gg.activeStatus = t_status.INACTIVE) :
    (mdeGranularGrainInit gg parent doFirstDelay rs).1 = 1 ∧
    (mdeGranularGrainInit gg parent doFirstDelay rs).2.1 = { gg with status := t_status.OFF } ∧
    (∀ (i : Int) (s : MixState),
      (s.gg.firstDelayCounter < s.gg.firstDelay ∨
        (if mdeGranularGrainExhausted s.gg = true then
            (mdeGranularGrainInit s.gg s.parent 0 s.rs).2.1 else s.gg).status = t_status.OFF) →
      (mixStep i s).parent = s.parent) ∧
    (∀ (g : mdeGranular) (where_ : Option SamplePtr) (howMany : Int) (r : RandSource),
      (mdeGranularGrainMixIn (mdeGranularGrainInit gg parent doFirstDelay rs).2.1 g where_
        howMany r).2.1 = g) := by
  refine ⟨?_, grainInit_inactive gg parent doFirstDelay rs h, mixStep_off_parent, ?_⟩
  · unfold mdeGranularGrainInit
    simp only [h, if_true]
  · intro g w n r
    rw [grainInit_inactive gg parent doFirstDelay rs h]
    unfold mdeGranularGrainMixIn
    split_ifs
    · exact mixLoop_inactive_off _ 0 _ h rfl
    · rfl

/-- Witness for C24: an exhausted grain of a deactivated voice. -/
theorem grainInit_inactive_short_circuit_witness :
    (mdeGranularGrainInit inactiveExhaustedGrain exampleGranular 0 exampleRand).1 = 1 ∧
    (mdeGranularGrainInit inactiveExhaustedGrain exampleGranular 0 exampleRand).2.1
      = { inactiveExhaustedGrain with status := t_status.OFF } ∧
    (mdeGranularGrainMixIn
      (mdeGranularGrainInit inactiveExhaustedGrain exampleGranular 0 exampleRand).2.1
      exampleGranular (some { chan := 0, off := 0 }) 2 exampleRand).2.1 = exampleGranular :=
  ⟨(grainInit_inactive_short_circuit inactiveExhaustedGrain exampleGranular 0 exampleRand rfl).1,
   (grainInit_inactive_short_circuit inactiveExhaustedGrain exampleGranular 0 exampleRand rfl).2.1,
   (grainInit_inactive_short_circuit inactiveExhaustedGrain exampleGranular 0 exampleRand
      rfl).2.2.2 exampleGranular (some { chan := 0, off := 0 }) 2 exampleRand⟩

/-- The local `status` of `mdeGranularGrainInit` is ON (1) or SKIPGRAIN (6), never 0. -/
theorem status_toInt_ne_zero (c1 c2 : Prop) [Decidable c1] [Decidable c2] :
    (if c1 then t_status.SKIPGRAIN else if c2 then t_status.SKIPGRAIN else t_status.ON).toInt
      ≠ 0 := by
  split_ifs <;> decide

/-- The test `if (status)` of `mdeGranularGrainInit` always takes its first branch: the
locals are those of the first branch, with `newLiveSamples` named `grainNewLiveSamples` and
the floored `plen` named `grainInitPlen`. -/
theorem grainInitLocals_eq (parent : mdeGranular) (inc : mdefloat) (rs1 : RandSource) :
    grainInitLocals parent inc rs1 =
      (let dv := randomlyDeviate (grainInitPlen parent : mdefloat) parent.grainLengthDeviation rs1
       let length : Int := cTrunc dv.1
       let ramplength2 := cInt parent.rampLenSamples * 2
       let backwards : Bool := decide (parent.samplesStart > parent.samplesEnd)
       let givenStart := if backwards then parent.samplesEnd else parent.samplesStart
       let givenEnd := if backwards then parent.samplesStart else parent.samplesEnd
       let min_start : mdefloat :=
         if length < ramplength2 then 0
         else ((givenStart + grainNewLiveSamples parent.live parent.nOutputSamples length : Int)
                : mdefloat)
       let max_start : mdefloat :=
         if length < ramplength2 then 0 else (givenEnd : mdefloat) - (length : mdefloat) * inc
       let b := between min_start max_start dv.2
       let st1 : mdefloat := if inc = 1 then (cTrunc b.1 : mdefloat) else b.1
       { length := length
         st := if parent.live ≠ 0 then st1 + (parent.liveIndex : mdefloat) else st1
         nd := if parent.live ≠ 0 then st1 + (length : mdefloat) * inc + (parent.liveIndex : mdefloat)
               else st1 + (length : mdefloat) * inc
         inc := inc
         backwards := backwards
         status :=
           if length < ramplength2 then t_status.SKIPGRAIN
           else if max_start < min_start then t_status.SKIPGRAIN else t_status.ON
         ramplength := cInt parent.rampLenSamples
         rs := b.2 }) := by
  unfold grainInitLocals grainInitPlen grainNewLiveSamples
  simp only [status_toInt_ne_zero, ne_eq, not_false_eq_true, if_true]

/-- The random source after the draws of `grainInitLocals` is well-formed. -/
theorem grainInitLocals_RandOK (parent : mdeGranular) (inc : mdefloat) (rs1 : RandSource)
    (h : RandOK rs1) : RandOK (grainInitLocals parent inc rs1).rs := by
  rw [grainInitLocals_eq]
  exact RandOK_between _ _ _ (RandOK_randomlyDeviate _ _ _ h)

/-- The first-delay block of `mdeGranularGrainInit` keeps the span, the increment, the
status and the channel of the grain. -/
theorem grainInitFirstDelay_fields (gg : mdeGranularGrain) (d : Int) (rs : RandSource) :
    (grainInitFirstDelay gg d rs).1.length = gg.length ∧
    (grainInitFirstDelay gg d rs).1.start = gg.start ∧
    (grainInitFirstDelay gg d rs).1.end_ = gg.end_ ∧
    (grainInitFirstDelay gg d rs).1.inc = gg.inc ∧
    (grainInitFirstDelay gg d rs).1.status = gg.status ∧
    (grainInitFirstDelay gg d rs).1.channel = gg.channel := by
  unfold grainInitFirstDelay
  split_ifs <;> exact ⟨rfl, rfl, rfl, rfl, rfl, rfl⟩

/-- The fields `mdeGranularGrainInit` assigns to a grain of a voice that is not
deactivated, in terms of the locals of the function. -/
theorem grainInit_active_fields (gg : mdeGranularGrain) (parent : mdeGranular) (d : Int)
    (rs : RandSource) (h : gg.activeStatus ≠ t_status.INACTIVE)
    (p : GrainInitLocals)
    (hp : p = grainInitLocals parent
      (peek parent.srcs (cTrunc (between 0 (parent.numTranspositions : mdefloat) rs).1)
        * parent.transpositionOffset)
      (between 0 (parent.numTranspositions : mdefloat) rs).2) :
    (mdeGranularGrainInit gg parent d rs).1 = 0 ∧
    (mdeGranularGrainInit gg parent d rs).2.1.length = p.length ∧
    (mdeGranularGrainInit gg parent d rs).2.1.start
      = (if p.backwards = true then p.nd else p.st) ∧
    (mdeGranularGrainInit gg parent d rs).2.1.end_
      = (if p.backwards = true then p.st else p.nd) ∧
    (mdeGranularGrainInit gg parent d rs).2.1.inc
      = (if p.backwards = true then -p.inc else p.inc) ∧
    (mdeGranularGrainInit gg parent d rs).2.1.channel
      = cTrunc (between 0 (parent.activeChannels : mdefloat) p.rs).1 ∧
    (mdeGranularGrainInit gg parent d rs).2.1.status
      = (if (between 0 100 (between 0 (parent.activeChannels : mdefloat) p.rs).2).1
            > parent.density then t_status.SKIPGRAIN else p.status) := by
  subst hp
  unfold mdeGranularGrainInit
  simp only [h, if_false]
  refine ⟨trivial, ?_, ?_, ?_, ?_, ?_, ?_⟩
  · exact (grainInitFirstDelay_fields _ _ _).1
  · exact (grainInitFirstDelay_fields _ _ _).2.1
  · exact (grainInitFirstDelay_fields _ _ _).2.2.1
  · exact (grainInitFirstDelay_fields _ _ _).2.2.2.1
  · exact (grainInitFirstDelay_fields _ _ _).2.2.2.2.2
  · exact (grainInitFirstDelay_fields _ _ _).2.2.2.2.1

/-- The channel draw in exact arithmetic: for every granulator with `activeChannels >= 1`
and every random source whose draws lie in `[0, RAND_MAX]`, an active grain gets
`0 <= channel < activeChannels`, because the exact `between(min, max)` with `min < max` is
in `[min, max)`.  Products and quotients are exact here. -/
theorem grainInit_channel_in_range_exact (gg : mdeGranularGrain) (parent : mdeGranular)
    (doFirstDelay : Int) (rs : RandSource) (h : gg.activeStatus ≠ t_status.INACTIVE)
    (hac : 1 ≤ parent.activeChannels) (hr : RandOK rs) :
    (0 ≤ (mdeGranularGrainInit gg parent doFirstDelay rs).2.1.channel ∧
      (mdeGranularGrainInit gg parent doFirstDelay rs).2.1.channel < parent.activeChannels) ∧
    (∀ (min max : mdefloat) (r : RandSource), RandOK r → min < max →
      min ≤ (between min max r).1 ∧ (between min max r).1 < max) := by
  refine ⟨?_, fun a b r hr hab => between_range a b r hr hab⟩
  rw [(grainInit_active_fields gg parent doFirstDelay rs h _ rfl).2.2.2.2.2.1]
  have hok := grainInitLocals_RandOK parent
    (peek parent.srcs (cTrunc (between 0 (parent.numTranspositions : mdefloat) rs).1)
        * parent.transpositionOffset) _ (RandOK_between 0 (parent.numTranspositions : mdefloat) rs hr)
  have hpos : (0 : mdefloat) < (parent.activeChannels : mdefloat) := by
    have : (1 : mdefloat) ≤ (parent.activeChannels : mdefloat) := by exact_mod_cast hac
    linarith
  obtain ⟨h0, h1⟩ := between_range 0 (parent.activeChannels : mdefloat) _ hok hpos
  rw [cTrunc_nonneg_of_nonneg _ h0]
  exact ⟨Int.floor_nonneg.mpr h0, Int.floor_lt.mpr h1⟩

/-- The all-zero random source is well-formed. -/
theorem exampleRand_ok : RandOK exampleRand := by
  unfold RandOK exampleRand
  exact ⟨by decide, fun _ => ⟨le_refl _, by show (0 : Int) ≤ 32767; decide⟩⟩

/-- The all-`RAND_MAX` random source is well-formed. -/
theorem maxRand_ok : RandOK maxRand := by
  unfold RandOK maxRand
  exact ⟨by decide, fun _ => ⟨by show (0 : Int) ≤ 32767; decide, le_refl _⟩⟩

/-- C27 (as stated) fails when `nOutputSamples` divides the length: in live mode with
`nOutputSamples = 64` and `length = 64` the code computes `64 * (1 + 64 / 64) = 128`, while
`64 * ceil(64 / 64) = 64`. -/
theorem newLiveSamples_multiple_not_ceil :
    (0 : Int) ≤ 64 ∧ (1 : Int) ≤ 64 ∧ grainNewLiveSamples 1 64 64 = 128 ∧
    grainNewLiveSamples 1 64 64 ≠ 64 * ⌈((64 : Int) : mdefloat) / ((64 : Int) : mdefloat)⌉ := by
  have h : grainNewLiveSamples 1 64 64 = 128 := by decide
  refine ⟨by decide, by decide, h, ?_⟩
  rw [h]
  norm_num

/-- C27 (amended): for every `length >= 0` and `nOutputSamples >= 1`, the local
`newLiveSamples` of `mdeGranularGrainInit` is, in live mode,
`nOutputSamples * (floor(length / nOutputSamples) + 1)`: this is
`nOutputSamples * ceil(length / nOutputSamples)` when `nOutputSamples` does not divide
`length`, and one block of `nOutputSamples` more than that when it does; in static mode it
is 0. -/
theorem newLiveSamples_formula (live nOutputSamples length : Int) (hl : 0 ≤ length)
    (hn : 1 ≤ nOutputSamples) :
    (live ≠ 0 → grainNewLiveSamples live nOutputSamples length
        = nOutputSamples * (⌊(length : mdefloat) / (nOutputSamples : mdefloat)⌋ + 1)) ∧
    (live ≠ 0 → ¬ nOutputSamples ∣ length → grainNewLiveSamples live nOutputSamples length
        = nOutputSamples * ⌈(length : mdefloat) / (nOutputSamples : mdefloat)⌉) ∧
    (live ≠ 0 → nOutputSamples ∣ length → grainNewLiveSamples live nOutputSamples length
        = nOutputSamples * ⌈(length : mdefloat) / (nOutputSamples : mdefloat)⌉ + nOutputSamples) ∧
    (live = 0 → grainNewLiveSamples live nOutputSamples length = 0) := by
  have hnpos : (0 : mdefloat) < (nOutputSamples : mdefloat) := by
    have : (1 : mdefloat) ≤ (nOutputSamples : mdefloat) := by exact_mod_cast hn
    linarith
  have hfloor : ⌊(length : mdefloat) / (nOutputSamples : mdefloat)⌋ = length / nOutputSamples := by
    rw [Int.floor_eq_iff]
    constructor
    · rw [le_div_iff₀ hnpos]
      have := Int.ediv_mul_le length (show nOutputSamples ≠ 0 by omega)
      exact_mod_cast this
    · rw [div_lt_iff₀ hnpos]
      have := Int.lt_ediv_add_one_mul_self length (show 0 < nOutputSamples by omega)
      exact_mod_cast this
  have htdiv : Int.tdiv length nOutputSamples = length / nOutputSamples :=
    Int.tdiv_eq_ediv hl (by omega)
  refine ⟨?_, ?_, ?_, ?_⟩
  · intro h
    unfold grainNewLiveSamples
    rw [if_pos h, htdiv, hfloor, add_comm]
  · intro h hd
    have hceil : ⌈(length : mdefloat) / (nOutputSamples : mdefloat)⌉ = length / nOutputSamples + 1 := by
      rw [Int.ceil_eq_iff]
      constructor
      · push_cast
        rw [add_sub_cancel_right, lt_div_iff₀ hnpos]
        have h1 := Int.ediv_mul_le length (show nOutputSamples ≠ 0 by omega)
        have h2 : length / nOutputSamples * nOutputSamples ≠ length := by
          intro e
          exact hd ⟨length / nOutputSamples, by rw [mul_comm]; exact e.symm⟩
        have h3 : length / nOutputSamples * nOutputSamples < length := lt_of_le_of_ne h1 h2
        exact_mod_cast h3
      · rw [div_le_iff₀ hnpos]
        have := Int.lt_ediv_add_one_mul_self length (show 0 < nOutputSamples by omega)
        exact_mod_cast this.le
    unfold grainNewLiveSamples
    rw [if_pos h, htdiv, hceil, add_comm]
  · intro h hd
    obtain ⟨k, rfl⟩ := hd
    have hceil : ⌈((nOutputSamples * k : Int) : mdefloat) / (nOutputSamples : mdefloat)⌉ = k := by
      push_cast
      rw [mul_div_cancel_left₀ _ (ne_of_gt hnpos)]
      exact Int.ceil_intCast k
    unfold grainNewLiveSamples
    rw [if_pos h, htdiv, hceil, Int.mul_ediv_cancel_left k (show nOutputSamples ≠ 0 by omega)]
    ring
  · intro h
    unfold grainNewLiveSamples
    simp [h]

/-- Witness for C27 (amended): blocks of 64 samples and a grain of 100 samples. -/
theorem newLiveSamples_formula_witness :
    grainNewLiveSamples 1 64 100 = 64 * ⌈((100 : Int) : mdefloat) / ((64 : Int) : mdefloat)⌉ :=
  (newLiveSamples_formula 1 64 100 (by decide) (by decide)).2.1 (by decide) (by decide)

/-- The deviated value lies within `maxDeviation` per cent of a non-negative `number`. -/
theorem randomlyDeviate_range (x d : mdefloat) (rs : RandSource) (h : RandOK rs)
    (hx : 0 ≤ x) (hd : 0 ≤ d) :
    x * (1 - d / 100) ≤ (randomlyDeviate x d rs).1 ∧
    (randomlyDeviate x d rs).1 ≤ x * (1 + d / 100) := by
  obtain ⟨h0, h1⟩ := between_range_le 0 d rs h hd
  have he : (randomlyDeviate x d rs).1 =
      x + (if (flip (between 0 d rs).2).1 ≠ 0 then -(x * ((between 0 d rs).1 * (1 / 100)))
           else x * ((between 0 d rs).1 * (1 / 100))) := rfl
  rw [he]
  split_ifs <;> constructor <;> nlinarith

/-- The floored `plen` is the larger of `grainLength` and twice the ramp length. -/
theorem grainInitPlen_eq_max (parent : mdeGranular) :
    grainInitPlen parent = max parent.grainLength (2 * cInt parent.rampLenSamples) := by
  unfold grainInitPlen
  split_ifs with h
  · rw [max_eq_right (by omega)]; ring
  · rw [max_eq_left (by omega)]

/-- C29 (amended): for every grain of a voice that is not deactivated, every deviation in
`[0, 100]`, every random source with draws in `[0, RAND_MAX]` and `grainLength >= 0`, with
`P = max(grainLength, 2 * rampLenSamples)`: the length chosen by `mdeGranularGrainInit`
satisfies `P * (1 - grainLengthDeviation/100) - 1 < length <= P * (1 + grainLengthDeviation/100)`
(the deviated value is truncated to an integer), and a length below `2 * rampLenSamples` is
not clamped: the grain is marked SKIPGRAIN. -/
theorem grainInit_length_bounds (gg : mdeGranularGrain) (parent : mdeGranular)
    (doFirstDelay : Int) (rs : RandSource) (h : gg.activeStatus ≠ t_status.INACTIVE)
    (hr : RandOK rs) (hd0 : 0 ≤ parent.grainLengthDeviation)
    (hd1 : parent.grainLengthDeviation ≤ 100) (hg : 0 ≤ parent.grainLength) :
    grainInitPlen parent = max parent.grainLength (2 * cInt parent.rampLenSamples) ∧
    (grainInitPlen parent : mdefloat) * (1 - parent.grainLengthDeviation / 100) - 1
      < ((mdeGranularGrainInit gg parent doFirstDelay rs).2.1.length : mdefloat) ∧
    ((mdeGranularGrainInit gg parent doFirstDelay rs).2.1.length : mdefloat)
      ≤ (grainInitPlen parent : mdefloat) * (1 + parent.grainLengthDeviation / 100) ∧
    ((mdeGranularGrainInit gg parent doFirstDelay rs).2.1.length
        < 2 * cInt parent.rampLenSamples →
      (mdeGranularGrainInit gg parent doFirstDelay rs).2.1.status = t_status.SKIPGRAIN) := by
  have hP : (0 : mdefloat) ≤ (grainInitPlen parent : mdefloat) := by
    have : 0 ≤ grainInitPlen parent := by
      rw [grainInitPlen_eq_max]; exact le_trans hg (le_max_left _ _)
    exact_mod_cast this
  obtain ⟨_, hlen, _, _, _, _, hst⟩ := grainInit_active_fields gg parent doFirstDelay rs h _ rfl
  rw [hlen, hst, grainInitLocals_eq]
  dsimp only
  obtain ⟨a, b⟩ := randomlyDeviate_range (grainInitPlen parent : mdefloat)
    parent.grainLengthDeviation (between 0 (parent.numTranspositions : mdefloat) rs).2
    (RandOK_between _ _ _ hr) hP hd0
  have hx0 : 0 ≤ (randomlyDeviate (grainInitPlen parent : mdefloat)
      parent.grainLengthDeviation (between 0 (parent.numTranspositions : mdefloat) rs).2).1 := by
    refine le_trans ?_ a
    apply mul_nonneg hP
    linarith
  rw [cTrunc_nonneg_of_nonneg _ hx0]
  refine ⟨grainInitPlen_eq_max parent, ?_, ?_, ?_⟩
  · have := Int.lt_floor_add_one (randomlyDeviate (grainInitPlen parent : mdefloat)
      parent.grainLengthDeviation (between 0 (parent.numTranspositions : mdefloat) rs).2).1
    linarith
  · exact le_trans (Int.floor_le _) b
  · intro hlt
    have hlt2 : ⌊(randomlyDeviate (grainInitPlen parent : mdefloat)
      parent.grainLengthDeviation (between 0 (parent.numTranspositions : mdefloat) rs).2).1⌋
        < cInt parent.rampLenSamples * 2 := by omega
    rw [if_pos hlt2]
    split_ifs <;> rfl

/-- The random source of the length example is well-formed. -/
theorem deviateRand_ok : RandOK deviateRand :=
  ⟨by decide, fun n => by
    show (0 : Int) ≤ (if n = 1 then 16384 else if n = 2 then 32767 else 0) ∧
      (if n = 1 then (16384 : Int) else if n = 2 then 32767 else 0) ≤ 32767
    split_ifs <;> decide⟩

/-- Witness for C29 (amended): grain length 10, ramp 5 samples, deviation 5 per cent. -/
theorem grainInit_length_bounds_witness :
    (grainInitPlen shortGrainGranular : mdefloat)
        * (1 - shortGrainGranular.grainLengthDeviation / 100) - 1
      < ((mdeGranularGrainInit activeExhaustedGrain shortGrainGranular 0
          deviateRand).2.1.length : mdefloat) ∧
    ((mdeGranularGrainInit activeExhaustedGrain shortGrainGranular 0
        deviateRand).2.1.length : mdefloat)
      ≤ (grainInitPlen shortGrainGranular : mdefloat)
        * (1 + shortGrainGranular.grainLengthDeviation / 100) :=
  ⟨(grainInit_length_bounds activeExhaustedGrain shortGrainGranular 0 deviateRand (by decide)
      deviateRand_ok (by norm_num [shortGrainGranular, exampleGranular])
      (by norm_num [shortGrainGranular, exampleGranular]) (by decide)).2.1,
   (grainInit_length_bounds activeExhaustedGrain shortGrainGranular 0 deviateRand (by decide)
      deviateRand_ok (by norm_num [shortGrainGranular, exampleGranular])
      (by norm_num [shortGrainGranular, exampleGranular]) (by decide)).2.2.1⟩

/-- The length example evaluated: the deviation draw gives 2.5 per cent, the coin says
"negative", so the length is `(int)(10 - 0.25) = 9`. -/
theorem shortGrain_length :
    (mdeGranularGrainInit activeExhaustedGrain shortGrainGranular 0 deviateRand).2.1.length = 9 := by
  rw [(grainInit_active_fields activeExhaustedGrain shortGrainGranular 0 deviateRand
    (by decide) _ rfl).2.1, grainInitLocals_eq]
  dsimp only
  have hb : (between 0 ((shortGrainGranular.numTranspositions : Int) : mdefloat) deviateRand).2
      = { deviateRand with pos := 1 } := by
    norm_num [between, rand, shortGrainGranular, exampleGranular, deviateRand]
  have hP : grainInitPlen shortGrainGranular = 10 := by decide
  have hd : shortGrainGranular.grainLengthDeviation = 5 := rfl
  rw [hb, hP, hd]
  have hv : (randomlyDeviate ((10 : Int) : mdefloat) 5 { deviateRand with pos := 1 }).1 = 39 / 4 := by
    have ht : Int.tdiv 32767 2 < 32767 := by decide
    norm_num [randomlyDeviate, between, flip, rand, deviateRand, ht]
  rw [hv]
  norm_num [cTrunc, Int.floor_eq_iff]

/-- C29 (as stated) fails: with `grainLength = 10`, `rampLenSamples = 5` (so `P = 10`) and
`grainLengthDeviation = 5`, the draws 16384 and 32767 give the length 9, which is below
`2 * rampLenSamples = 10` and below `P * (1 - 5/100) = 9.5`. -/
theorem grainInit_length_below_floor :
    activeExhaustedGrain.activeStatus = t_status.ACTIVE ∧
    shortGrainGranular.grainLengthDeviation = 5 ∧
    max shortGrainGranular.grainLength (2 * shortGrainGranular.rampLenSamples) = 10 ∧
    (mdeGranularGrainInit activeExhaustedGrain shortGrainGranular 0 deviateRand).2.1.length = 9 ∧
    (mdeGranularGrainInit activeExhaustedGrain shortGrainGranular 0 deviateRand).2.1.length
      < 2 * shortGrainGranular.rampLenSamples ∧
    (((mdeGranularGrainInit activeExhaustedGrain shortGrainGranular 0
        deviateRand).2.1.length : Int) : mdefloat)
      < ((max shortGrainGranular.grainLength (2 * shortGrainGranular.rampLenSamples) : Int)
          : mdefloat) * (1 - shortGrainGranular.grainLengthDeviation / 100) := by
  have h9 := shortGrain_length
  refine ⟨rfl, rfl, by decide, h9, ?_, ?_⟩
  · rw [h9]; decide
  · rw [h9]
    have : max shortGrainGranular.grainLength (2 * shortGrainGranular.rampLenSamples) = 10 := by
      decide
    rw [this]
    norm_num [shortGrainGranular, exampleGranular]

/-- The increment drawn by `mdeGranularGrainInit` is positive when every transposition
factor that can be drawn and the transposition offset are. -/
theorem grainInit_inc_pos (parent : mdeGranular) (rs : RandSource) (hr : RandOK rs)
    (hnt : 1 ≤ parent.numTranspositions)
    (hsrc : ∀ i : Int, 0 ≤ i → i < parent.numTranspositions → 0 < peek parent.srcs i)
    (hoff : 0 < parent.transpositionOffset) :
    0 < peek parent.srcs (cTrunc (between 0 (parent.numTranspositions : mdefloat) rs).1)
          * parent.transpositionOffset := by
  have hpos : (0 : mdefloat) < (parent.numTranspositions : mdefloat) := by
    have : (1 : mdefloat) ≤ (parent.numTranspositions : mdefloat) := by exact_mod_cast hnt
    linarith
  obtain ⟨h0, h1⟩ := between_range 0 (parent.numTranspositions : mdefloat) rs hr hpos
  apply mul_pos _ hoff
  apply hsrc
  · rw [cTrunc_nonneg_of_nonneg _ h0]; exact Int.floor_nonneg.mpr h0
  · rw [cTrunc_nonneg_of_nonneg _ h0]; exact Int.floor_lt.mpr h1

/-- For a static buffer with `samplesStart <= samplesEnd`, locals that end with status ON
have `samplesStart <= st` and `nd = st + length * inc <= samplesEnd`. -/
theorem grainInitLocals_on_region (parent : mdeGranular) (inc : mdefloat) (rs1 : RandSource)
    (hstatic : parent.live = 0) (hfwd : parent.samplesStart ≤ parent.samplesEnd)
    (hr : RandOK rs1) (hon : (grainInitLocals parent inc rs1).status = t_status.ON) :
    (grainInitLocals parent inc rs1).backwards = false ∧
    (grainInitLocals parent inc rs1).inc = inc ∧
    (parent.samplesStart : mdefloat) ≤ (grainInitLocals parent inc rs1).st ∧
    (grainInitLocals parent inc rs1).nd
      = (grainInitLocals parent inc rs1).st
          + ((grainInitLocals parent inc rs1).length : mdefloat) * inc ∧
    (grainInitLocals parent inc rs1).nd ≤ (parent.samplesEnd : mdefloat) := by
  rw [grainInitLocals_eq] at hon ⊢
  have hb : decide (parent.samplesStart > parent.samplesEnd) = false := by
    rw [decide_eq_false_iff_not]; omega
  have hnl : ∀ n l : Int, grainNewLiveSamples 0 n l = 0 := by
    intro n l; unfold grainNewLiveSamples; simp
  simp only [hb, hstatic, hnl, add_zero, ne_eq, not_true_eq_false, if_false,
    Bool.false_eq_true] at hon ⊢
  generalize hdv : randomlyDeviate (grainInitPlen parent : mdefloat)
    parent.grainLengthDeviation rs1 = dv at hon ⊢
  have hok : RandOK dv.2 := by rw [← hdv]; exact RandOK_randomlyDeviate _ _ _ hr
  by_cases hl : cTrunc dv.1 < cInt parent.rampLenSamples * 2
  · rw [if_pos hl] at hon
    exact absurd hon (by decide)
  · rw [if_neg hl] at hon
    simp only [if_neg hl] at hon ⊢
    by_cases hm : (parent.samplesEnd : mdefloat) - (cTrunc dv.1 : mdefloat) * inc
        < (parent.samplesStart : mdefloat)
    · rw [if_pos hm] at hon
      exact absurd hon (by decide)
    · obtain ⟨b0, b1⟩ := between_range_le (parent.samplesStart : mdefloat)
        ((parent.samplesEnd : mdefloat) - (cTrunc dv.1 : mdefloat) * inc) dv.2 hok
        (not_lt.mp hm)
      refine ⟨trivial, trivial, ?_, trivial, ?_⟩
      · by_cases h1 : inc = 1
        · subst h1
          rw [if_pos rfl]
          rw [mul_one] at b0 b1 ⊢
          have := (cTrunc_mem _ parent.samplesStart (parent.samplesEnd - cTrunc dv.1) b0
            (by push_cast; exact b1)).1
          exact_mod_cast this
        · rw [if_neg h1]; exact b0
      · by_cases h1 : inc = 1
        · subst h1
          rw [if_pos rfl]
          rw [mul_one] at b0 b1 ⊢
          have := (cTrunc_mem _ parent.samplesStart (parent.samplesEnd - cTrunc dv.1) b0
            (by push_cast; exact b1)).2
          have h2 : ((cTrunc (between (parent.samplesStart : mdefloat)
            ((parent.samplesEnd : mdefloat) - (cTrunc dv.1 : mdefloat)) dv.2).1 : Int)
              : mdefloat) ≤ ((parent.samplesEnd - cTrunc dv.1 : Int) : mdefloat) := by
            exact_mod_cast this
          push_cast at h2
          linarith
        · rw [if_neg h1]; linarith

/-- C26: for a static buffer (`live = 0`) with `samplesStart <= samplesEnd`, positive
transposition factors and offset, and every random source with draws in `[0, RAND_MAX]`: if
`mdeGranularGrainInit` leaves the grain with status ON then `samplesStart <= start`,
`end = start + length * inc <= samplesEnd`, and every read position `start + k * inc` with
`0 <= k <= length` lies in `[samplesStart, samplesEnd]`.  Values are exact rationals. -/
theorem grainInit_on_inside_region (gg : mdeGranularGrain) (parent : mdeGranular)
    (doFirstDelay : Int) (rs : RandSource)
    (hstatic : parent.live = 0) (hfwd : parent.samplesStart ≤ parent.samplesEnd)
    (hnt : 1 ≤ parent.numTranspositions)
    (hsrc : ∀ i : Int, 0 ≤ i → i < parent.numTranspositions → 0 < peek parent.srcs i)
    (hoff : 0 < parent.transpositionOffset) (hr : RandOK rs)
    (hon : (mdeGranularGrainInit gg parent doFirstDelay rs).2.1.status = t_status.ON) :
    (parent.samplesStart : mdefloat) ≤ (mdeGranularGrainInit gg parent doFirstDelay rs).2.1.start ∧
    (mdeGranularGrainInit gg parent doFirstDelay rs).2.1.end_
      = (mdeGranularGrainInit gg parent doFirstDelay rs).2.1.start
        + ((mdeGranularGrainInit gg parent doFirstDelay rs).2.1.length : mdefloat)
          * (mdeGranularGrainInit gg parent doFirstDelay rs).2.1.inc ∧
    (mdeGranularGrainInit gg parent doFirstDelay rs).2.1.end_ ≤ (parent.samplesEnd : mdefloat) ∧
    (∀ k : Int, 0 ≤ k → k ≤ (mdeGranularGrainInit gg parent doFirstDelay rs).2.1.length →
      (parent.samplesStart : mdefloat)
        ≤ (mdeGranularGrainInit gg parent doFirstDelay rs).2.1.start
          + (k : mdefloat) * (mdeGranularGrainInit gg parent doFirstDelay rs).2.1.inc ∧
      (mdeGranularGrainInit gg parent doFirstDelay rs).2.1.start
          + (k : mdefloat) * (mdeGranularGrainInit gg parent doFirstDelay rs).2.1.inc
        ≤ (parent.samplesEnd : mdefloat)) := by
  by_cases h : gg.activeStatus = t_status.INACTIVE
  · rw [grainInit_inactive gg parent doFirstDelay rs h] at hon
    have hoff2 : t_status.OFF = t_status.ON := hon
    exact absurd hoff2 (by decide)
  · have hinc := grainInit_inc_pos parent rs hr hnt hsrc hoff
    obtain ⟨_, hlen, hst, hnd, hi, _, hstat⟩ :=
      grainInit_active_fields gg parent doFirstDelay rs h _ rfl
    rw [hstat] at hon
    have hon2 : (grainInitLocals parent
        (peek parent.srcs (cTrunc (between 0 (parent.numTranspositions : mdefloat) rs).1)
          * parent.transpositionOffset)
        (between 0 (parent.numTranspositions : mdefloat) rs).2).status = t_status.ON := by
      split_ifs at hon with hc
      exact hon
    obtain ⟨pb, pi, ps, pn, pe⟩ := grainInitLocals_on_region parent _ _ hstatic hfwd
      (RandOK_between _ _ _ hr) hon2
    rw [hlen, hst, hnd, hi, pb]
    simp only [Bool.false_eq_true, if_false]
    rw [pi]
    refine ⟨ps, pn, pe, ?_⟩
    intro k hk0 hkl
    have hk0' : (0 : mdefloat) ≤ (k : mdefloat) := by exact_mod_cast hk0
    have hkl' : (k : mdefloat) ≤ ((grainInitLocals parent
        (peek parent.srcs (cTrunc (between 0 (parent.numTranspositions : mdefloat) rs).1)
          * parent.transpositionOffset)
        (between 0 (parent.numTranspositions : mdefloat) rs).2).length : mdefloat) := by
      exact_mod_cast hkl
    constructor
    · have := mul_nonneg hk0' hinc.le
      linarith
    · have := mul_le_mul_of_nonneg_right hkl' hinc.le
      rw [pn] at pe
      linarith

/-- The roomy example evaluated: the grain is left ON. -/
theorem roomy_status :
    (mdeGranularGrainInit activeExhaustedGrain roomyGranular 0 exampleRand).2.1.status
      = t_status.ON := by
  rw [(grainInit_active_fields activeExhaustedGrain roomyGranular 0 exampleRand
    (by decide) _ rfl).2.2.2.2.2.2, grainInitLocals_eq]
  dsimp only
  have hP : grainInitPlen roomyGranular = 4 := by decide
  rw [hP]
  norm_num [between, rand, flip, randomlyDeviate, roomyGranular, exampleGranular, exampleRand,
    cTrunc, peek, grainNewLiveSamples, cInt]

/-- Witness for C26: a grain of 4 samples in a region of 10 samples. -/
theorem grainInit_on_inside_region_witness :
    (roomyGranular.samplesStart : mdefloat)
      ≤ (mdeGranularGrainInit activeExhaustedGrain roomyGranular 0 exampleRand).2.1.start ∧
    (mdeGranularGrainInit activeExhaustedGrain roomyGranular 0 exampleRand).2.1.end_
      ≤ (roomyGranular.samplesEnd : mdefloat) :=
  ⟨(grainInit_on_inside_region activeExhaustedGrain roomyGranular 0 exampleRand rfl
      (by decide) (by decide)
      (by
        intro i h0 h1
        have hi : i = 0 := by
          have : roomyGranular.numTranspositions = 1 := rfl
          omega
        subst hi
        norm_num [peek, roomyGranular, exampleGranular])
      (by norm_num [roomyGranular, exampleGranular]) exampleRand_ok roomy_status).1,
   (grainInit_on_inside_region activeExhaustedGrain roomyGranular 0 exampleRand rfl
      (by decide) (by decide)
      (by
        intro i h0 h1
        have hi : i = 0 := by
          have : roomyGranular.numTranspositions = 1 := rfl
          omega
        subst hi
        norm_num [peek, roomyGranular, exampleGranular])
      (by norm_num [roomyGranular, exampleGranular]) exampleRand_ok roomy_status).2.2.1⟩

/-- C25 at its failing input: static forward region `[0, 3]`, grain length 2205, the only
transposition factor 2, all draws 0.  The start interval is empty
(`samplesEnd - length * inc < samplesStart`) and the grain is marked SKIPGRAIN, but the test
`if (status)` is true for SKIPGRAIN too, so the branch that sets `inc = 1.0` and
`nd = givenStart + plen` never runs: the increment stays 2 and `end = 4410`, not
`samplesStart + length = 2205`. -/
theorem grainInit_skip_keeps_transposition :
    activeExhaustedGrain.activeStatus = t_status.ACTIVE ∧
    octaveUpGranular.live = 0 ∧ octaveUpGranular.samplesStart = 0 ∧
    octaveUpGranular.samplesEnd = 3 ∧
    ((3 : mdefloat) - 2205 * 2 < 0) ∧
    (mdeGranularGrainInit activeExhaustedGrain octaveUpGranular 0 exampleRand).2.1.length
      = 2205 ∧
    (mdeGranularGrainInit activeExhaustedGrain octaveUpGranular 0 exampleRand).2.1.status
      = t_status.SKIPGRAIN ∧
    (mdeGranularGrainInit activeExhaustedGrain octaveUpGranular 0 exampleRand).2.1.inc = 2 ∧
    (mdeGranularGrainInit activeExhaustedGrain octaveUpGranular 0 exampleRand).2.1.start = 0 ∧
    (mdeGranularGrainInit activeExhaustedGrain octaveUpGranular 0 exampleRand).2.1.end_
      = 4410 := by
  obtain ⟨_, hlen, hst, hnd, hi, _, hstat⟩ :=
    grainInit_active_fields activeExhaustedGrain octaveUpGranular 0 exampleRand (by decide) _ rfl
  rw [hlen, hst, hnd, hi, hstat, grainInitLocals_eq]
  dsimp only
  have hP : grainInitPlen octaveUpGranular = 2205 := by decide
  rw [hP]
  refine ⟨rfl, rfl, rfl, rfl, by norm_num, ?_, ?_, ?_, ?_, ?_⟩ <;>
  norm_num [between, rand, flip, randomlyDeviate, octaveUpGranular, exampleGranular, exampleRand,
    cTrunc, peek, grainNewLiveSamples, cInt]

/-- C39: `mdeGranularSetGrainAmp(g, f)` leaves the granulator unchanged, in particular
`grainAmp`, `lastGrainAmp`, `targetGrainAmp` and `grainAmpInc`, for every `f` when
`mdeGranularAtTargetGrainAmp` is false, for every `f` outside `[0, 100]`, and for every `f`
with `|targetGrainAmp - f| <= 0.00001`. -/
theorem setGrainAmp_ignored (g : mdeGranular) (f : mdefloat)
    (h : ¬ mdeGranularAtTargetGrainAmp g = true ∨ ¬ (0 ≤ f ∧ f ≤ 100) ∨
      fabs (g.targetGrainAmp - f) ≤ 1 / 100000) :
    mdeGranularSetGrainAmp g f = g ∧
    (mdeGranularSetGrainAmp g f).grainAmp = g.grainAmp ∧
    (mdeGranularSetGrainAmp g f).lastGrainAmp = g.lastGrainAmp ∧
    (mdeGranularSetGrainAmp g f).targetGrainAmp = g.targetGrainAmp ∧
    (mdeGranularSetGrainAmp g f).grainAmpInc = g.grainAmpInc := by
  have e : mdeGranularSetGrainAmp g f = g := by
    unfold mdeGranularSetGrainAmp
    simp only []
    by_cases h1 : f ≥ 0 ∧ f ≤ 100
    · rw [if_pos h1]
      by_cases h2 : mdeGranularAtTargetGrainAmp g = true ∧
          fabs (g.targetGrainAmp - f) > 1 / 100000
      · exfalso
        rcases h with h | h | h
        · exact h h2.1
        · exact h ⟨h1.1, h1.2⟩
        · exact absurd h2.2 (not_lt.mpr h)
      · rw [if_neg h2]
    · rw [if_neg h1]
  rw [e]
  exact ⟨rfl, rfl, rfl, rfl, rfl⟩

/-- C36: for every buffer, every integer-valued index `x >= 0` and either direction,
`interpolate(x, samples, N, backwards)` is the cell `samples[(long)x % N]` that
`mdeGranularGrainMixIn` reads directly when the increment is exactly 1.0, which is
`samples[x mod N]` for `N >= 1`. -/
theorem interpolate_integer_index (s : List mdefloat) (N : Int) (x : Int) (backwards : Int)
    (hx : 0 ≤ x) :
    interpolate (x : mdefloat) (some s) N backwards = peek s (Int.tmod (cTrunc (x : mdefloat)) N) ∧
    (0 < N → interpolate (x : mdefloat) (some s) N backwards = peek s (x % N)) := by
  have hc : cTrunc (x : mdefloat) = x := cTrunc_intCast x
  have hi : interpolateIndex (x : mdefloat) N = Int.tmod x N := by
    unfold interpolateIndex
    rw [hc]
    simp only []
    have : ¬ Int.tmod x N < 0 := not_lt.mpr (Int.tmod_nonneg N hx)
    rw [if_neg this]
  have h1 : interpolate (x : mdefloat) (some s) N backwards = peek s (Int.tmod x N) := by
    unfold interpolate
    simp only [hc, sub_self, fabs, lt_irrefl, if_false, zero_mul, add_zero]
    unfold interpolateTaps
    simp only [hi]
    split_ifs <;> rfl
  refine ⟨by rw [hc]; exact h1, fun hN => ?_⟩
  rw [h1, Int.tmod_eq_emod hx hN.le]

/-- Witness for C39: a request of 200 to the example granulator. -/
theorem setGrainAmp_ignored_witness :
    mdeGranularSetGrainAmp exampleGranular 200 = exampleGranular :=
  (setGrainAmp_ignored exampleGranular 200 (Or.inr (Or.inl (by norm_num)))).1

/-- Witness for C36: index 5 in a buffer of four samples, read backwards. -/
theorem interpolate_integer_index_witness :
    interpolate ((5 : Int) : mdefloat) (some [0, 1, 2, 3]) 4 1 = peek [0, 1, 2, 3] (5 % 4) :=
  (interpolate_integer_index [0, 1, 2, 3] 4 5 1 (by decide)).2 (by decide)

/-- The sample loop of `mdeGranularGrainMixIn` on a grain that is past its delay and is not
exhausted during the `n` samples: `current` advances by `n * inc` and `icurrent` by `n`
whatever the status; for a silent grain nothing else changes. -/
theorem mixLoop_advance (n : Nat) :
    ∀ (i : Int) (s : MixState), ¬ s.gg.firstDelayCounter < s.gg.firstDelay →
      s.gg.icurrent + (n : Int) ≤ s.gg.length + 1 →
      (mixLoop n i s).gg.current = s.gg.current + (n : mdefloat) * s.inc ∧
      (mixLoop n i s).gg.icurrent = s.gg.icurrent + (n : Int) ∧
      ((s.gg.status = t_status.OFF ∨ s.gg.status = t_status.SKIPGRAIN) →
        (mixLoop n i s).gg = { s.gg with current := s.gg.current + (n : mdefloat) * s.inc,
                                         icurrent := s.gg.icurrent + (n : Int) } ∧
        (mixLoop n i s).parent = s.parent ∧ (mixLoop n i s).rs = s.rs) := by
  induction n with
  | zero =>
    intro i s _ _
    simp [mixLoop]
  | succ n ih =>
    intro i s hd hl
    have he : ¬ mdeGranularGrainExhausted s.gg = true := by
      unfold mdeGranularGrainExhausted
      rw [decide_eq_true_iff]
      push_cast at hl
      omega
    -- the step
    have hstep : (mixStep i s).gg.current = s.gg.current + s.inc ∧
        (mixStep i s).gg.icurrent = s.gg.icurrent + 1 ∧
        (mixStep i s).gg.length = s.gg.length ∧
        (mixStep i s).gg.firstDelay = s.gg.firstDelay ∧
        (mixStep i s).gg.firstDelayCounter = s.gg.firstDelayCounter ∧
        (mixStep i s).inc = s.inc ∧
        ((s.gg.status = t_status.OFF ∨ s.gg.status = t_status.SKIPGRAIN) →
          (mixStep i s).gg = { s.gg with current := s.gg.current + s.inc,
                                         icurrent := s.gg.icurrent + 1 } ∧
          (mixStep i s).parent = s.parent ∧ (mixStep i s).rs = s.rs) := by
      unfold mixStep
      simp only []
      rw [if_neg hd]
      simp only [if_neg he]
      by_cases hs : s.gg.status = t_status.OFF ∨ s.gg.status = t_status.SKIPGRAIN
      · rw [if_neg (not_not.mpr hs)]
        exact ⟨rfl, rfl, rfl, rfl, rfl, rfl, fun _ => ⟨rfl, rfl, rfl⟩⟩
      · rw [if_pos hs]
        dsimp only
        refine ⟨?_, ?_, ?_, ?_, ?_, rfl, fun h => absurd h hs⟩
        all_goals
          unfold mdeGranularGrainGetRampVal
          cases s.parent.rampUp <;> cases s.parent.rampDown <;>
            first
              | rfl
              | (simp only []; split_ifs <;> rfl)
    obtain ⟨c1, c2, c3, c4, c5, c6, c7⟩ := hstep
    simp only [mixLoop]
    have hd2 : ¬ (mixStep i s).gg.firstDelayCounter < (mixStep i s).gg.firstDelay := by
      rw [c4, c5]; exact hd
    have hl2 : (mixStep i s).gg.icurrent + (n : Int) ≤ (mixStep i s).gg.length + 1 := by
      rw [c2, c3]; push_cast at hl; omega
    obtain ⟨a1, a2, a3⟩ := ih (i + 1) (mixStep i s) hd2 hl2
    refine ⟨?_, ?_, ?_⟩
    · rw [a1, c1, c6]; push_cast; ring
    · rw [a2, c2]; push_cast; ring
    · intro hs
      obtain ⟨e1, e2, e3⟩ := c7 hs
      have hs2 : (mixStep i s).gg.status = t_status.OFF ∨
          (mixStep i s).gg.status = t_status.SKIPGRAIN := by
        rw [e1]; exact hs
      obtain ⟨b1, b2, b3⟩ := a3 hs2
      rw [b1, b2, b3, e2, e3, c6, e1]
      refine ⟨?_, rfl, rfl⟩
      dsimp only
      congr 1
      · push_cast; ring
      · push_cast; ring

/-- C31 (amended): with non-null source samples and a non-null destination, for every grain
past its delay and `0 <= howMany <= length - icurrent + 1`, `mdeGranularGrainMixIn`
advances `current` by `howMany * inc` and `icurrent` by `howMany` whatever the status of
the grain; when the status is SKIPGRAIN or OFF it changes nothing else: every other grain
field, the granulator (every output buffer) and the random source are unchanged. -/
theorem mixIn_silent_advance (gg : mdeGranularGrain) (parent : mdeGranular)
    (where_ : Option SamplePtr) (howMany : Int) (rs : RandSource)
    (hs : (samplesBlock parent).isSome = true) (hw : where_.isSome = true)
    (hd : ¬ gg.firstDelayCounter < gg.firstDelay)
    (h0 : 0 ≤ howMany) (hl : howMany ≤ gg.length - gg.icurrent + 1) :
    (mdeGranularGrainMixIn gg parent where_ howMany rs).1.current
      = gg.current + (howMany : mdefloat) * gg.inc ∧
    (mdeGranularGrainMixIn gg parent where_ howMany rs).1.icurrent = gg.icurrent + howMany ∧
    ((gg.status = t_status.SKIPGRAIN ∨ gg.status = t_status.OFF) →
      mdeGranularGrainMixIn gg parent where_ howMany rs =
        ({ gg with current := gg.current + (howMany : mdefloat) * gg.inc,
                   icurrent := gg.icurrent + howMany }, parent, rs)) := by
  unfold mdeGranularGrainMixIn
  simp only [hs, hw, and_self, if_true]
  have hn : ((howMany.toNat : Nat) : Int) = howMany := Int.toNat_of_nonneg h0
  have hq : ((howMany.toNat : Nat) : mdefloat) = (howMany : mdefloat) := by
    have : (((howMany.toNat : Nat) : Int) : mdefloat) = (howMany : mdefloat) := by rw [hn]
    exact_mod_cast this
  obtain ⟨a1, a2, a3⟩ := mixLoop_advance howMany.toNat 0
    { gg := gg, parent := parent, where_ := where_, inc := gg.inc, rs := rs } hd
    (by dsimp only; rw [hn]; omega)
  refine ⟨?_, ?_, ?_⟩
  · rw [a1, hq]
  · rw [a2, hn]
  · intro hst
    obtain ⟨b1, b2, b3⟩ := a3 (Or.symm hst)
    rw [b1, b2, b3]
    dsimp only
    rw [hq, hn]

/-- Witness for C31 (amended): a SKIPGRAIN grain at sample 3 of 10, mixed for two samples. -/
theorem mixIn_silent_advance_witness :
    mdeGranularGrainMixIn silentGrain exampleGranular (some { chan := 0, off := 0 }) 2
        exampleRand =
      ({ silentGrain with current := silentGrain.current + ((2 : Int) : mdefloat) * silentGrain.inc,
                          icurrent := silentGrain.icurrent + 2 }, exampleGranular, exampleRand) :=
  (mixIn_silent_advance silentGrain exampleGranular (some { chan := 0, off := 0 }) 2 exampleRand
    rfl rfl (by decide) (by decide) (by decide)).2.2 (Or.inl rfl)

/-- C31 (as stated) fails without source samples: `mdeGranularGrainMixIn` does nothing unless
`samples && where`, so with `samples == NULL` the SKIPGRAIN grain (`icurrent = 3`,
`current = 7`, `inc = 2`, `length = 10`) keeps `icurrent = 3` and `current = 7` after
`howMany = 2` instead of reaching 5 and 11. -/
theorem mixIn_silent_needs_samples :
    ¬ silentGrain.firstDelayCounter < silentGrain.firstDelay ∧
    ¬ mdeGranularGrainExhausted silentGrain = true ∧
    silentGrain.status = t_status.SKIPGRAIN ∧
    (2 : Int) ≤ silentGrain.length - silentGrain.icurrent + 1 ∧
    (mdeGranularGrainMixIn silentGrain { exampleGranular with samples := none }
        (some { chan := 0, off := 0 }) 2 exampleRand).1.icurrent = 3 ∧
    (mdeGranularGrainMixIn silentGrain { exampleGranular with samples := none }
        (some { chan := 0, off := 0 }) 2 exampleRand).1.icurrent ≠ silentGrain.icurrent + 2 ∧
    (mdeGranularGrainMixIn silentGrain { exampleGranular with samples := none }
        (some { chan := 0, off := 0 }) 2 exampleRand).1.current = 7 ∧
    (mdeGranularGrainMixIn silentGrain { exampleGranular with samples := none }
        (some { chan := 0, off := 0 }) 2 exampleRand).1.current
      ≠ silentGrain.current + 2 * silentGrain.inc := by
  refine ⟨by decide, by decide, rfl, by decide, ?_, ?_, ?_, ?_⟩ <;>
    simp [mdeGranularGrainMixIn, samplesBlock, exampleGranular, silentGrain, zeroGrain]

/-- Reading the reversed block at `k` is reading the block at `N - 1 - k`. -/
theorem peek_reverse (s : List mdefloat) (k : Int) (h0 : 0 ≤ k) (h1 : k < s.length) :
    peek s.reverse k = peek s ((s.length : Int) - 1 - k) := by
  unfold peek
  have h2 : (0 : Int) ≤ (s.length : Int) - 1 - k := by omega
  rw [if_pos h0, if_pos h2]
  have hk : k.toNat < s.length := by omega
  have hk2 : ((s.length : Int) - 1 - k).toNat < s.length := by omega
  rw [List.getD_eq_getElem _ _ (by rw [List.length_reverse]; exact hk),
    List.getD_eq_getElem _ _ hk2, List.getElem_reverse]
  congr 1
  omega

/-- C35: for every buffer `s` of length `N >= 2`, every integer index `0 <= n < N` and every
fraction `0 <= f < 1`, `interpolate(n + f, s, N, 1)` equals
`interpolate((N - 1 - n) + f, rev(s), N, 0)` with `rev(s)[k] = s[N - 1 - k]`; the backward
taps `(a, b, c, d)` are the cells `n + 1`, `n`, `n - 1` and `n - 2`, all modulo `N`. -/
theorem interpolate_backwards_mirror (s : List mdefloat) (N n : Int) (f : mdefloat)
    (hlen : (s.length : Int) = N) (hN : 2 ≤ N) (hn0 : 0 ≤ n) (hn1 : n < N)
    (hf0 : 0 ≤ f) (hf1 : f < 1) :
    interpolate ((n : mdefloat) + f) (some s) N 1
      = interpolate (((N - 1 - n : Int) : mdefloat) + f) (some s.reverse) N 0 ∧
    interpolateTaps ((n : mdefloat) + f) N 1
      = ((n + 1) % N, n, (n - 1) % N, (n - 2) % N) := by
  have hfl : ∀ m : Int, 0 ≤ m → cTrunc ((m : mdefloat) + f) = m := by
    intro m hm
    unfold cTrunc
    have : (0 : mdefloat) ≤ (m : mdefloat) + f := by
      have : (0 : mdefloat) ≤ (m : mdefloat) := by exact_mod_cast hm
      linarith
    rw [if_pos this, Int.floor_eq_iff]
    constructor <;> linarith
  have hidx : ∀ m : Int, 0 ≤ m → m < N → interpolateIndex ((m : mdefloat) + f) N = m := by
    intro m hm0 hm1
    unfold interpolateIndex
    rw [hfl m hm0]
    have : Int.tmod m N = m := Int.tmod_eq_of_lt hm0 hm1
    simp only [this]
    rw [if_neg (by omega)]
  have hm0 : 0 ≤ N - 1 - n := by omega
  have hm1 : N - 1 - n < N := by omega
  have ht1 : ∀ z : Int, 0 ≤ z → z < N → Int.tmod z N = z := fun z a b => Int.tmod_eq_of_lt a b
  have htN : Int.tmod N N = 0 := by simp
  have htN1 : Int.tmod (N + 1) N = 1 := by
    rw [Int.tmod_eq_emod (by omega) (by omega)]
    rw [Int.add_emod_self_left]
    exact Int.emod_eq_of_lt (by omega) (by omega)
  have hpr : ∀ k : Int, 0 ≤ k → k < N → peek s.reverse k = peek s (N - 1 - k) := by
    intro k a b
    rw [peek_reverse s k a (by omega), hlen]
  -- taps
  have hb : interpolateTaps ((n : mdefloat) + f) N 1
      = (Int.tmod (n + 1) N, n, (if n ≠ 0 then n - 1 else N - 1),
          (if n = 0 then N - 1 - 1 else if n = 1 then N - 1 else n - 2)) := by
    unfold interpolateTaps
    simp only [hidx n hn0 hn1]
    rw [if_pos (by decide)]
  have hfw : interpolateTaps (((N - 1 - n : Int) : mdefloat) + f) N 0
      = ((if N - 1 - n ≠ 0 then N - 1 - n - 1 else N - 1), N - 1 - n,
          Int.tmod (N - 1 - n + 1) N, Int.tmod (N - 1 - n + 2) N) := by
    unfold interpolateTaps
    simp only [hidx (N - 1 - n) hm0 hm1]
    rw [if_neg (by decide)]
  constructor
  · unfold interpolate
    simp only [hb, hfw, hfl n hn0, hfl (N - 1 - n) hm0]
    have e1 : peek s (Int.tmod (n + 1) N)
        = peek s.reverse (if N - 1 - n ≠ 0 then N - 1 - n - 1 else N - 1) := by
      by_cases h : n = N - 1
      · subst h
        have : N - 1 + 1 = N := by ring
        rw [this, htN, if_neg (by simp), hpr _ (by omega) (by omega)]
        exact congrArg (peek s) (by ring)
      · rw [if_pos (by omega), ht1 _ (by omega) (by omega), hpr _ (by omega) (by omega)]
        exact congrArg (peek s) (by ring)
    have e2 : peek s n = peek s.reverse (N - 1 - n) := by
      rw [hpr _ hm0 hm1]; exact congrArg (peek s) (by ring)
    have e3 : peek s (if n ≠ 0 then n - 1 else N - 1)
        = peek s.reverse (Int.tmod (N - 1 - n + 1) N) := by
      by_cases h : n = 0
      · subst h
        have : N - 1 - 0 + 1 = N := by ring
        rw [this, htN, if_neg (by simp), hpr _ (by omega) (by omega)]
        exact congrArg (peek s) (by ring)
      · rw [if_pos h, ht1 _ (by omega) (by omega), hpr _ (by omega) (by omega)]
        exact congrArg (peek s) (by ring)
    have e4 : peek s (if n = 0 then N - 1 - 1 else if n = 1 then N - 1 else n - 2)
        = peek s.reverse (Int.tmod (N - 1 - n + 2) N) := by
      by_cases h : n = 0
      · subst h
        have : N - 1 - 0 + 2 = N + 1 := by ring
        rw [this, htN1, if_pos rfl, hpr _ (by omega) (by omega)]
      · by_cases h1 : n = 1
        · subst h1
          have : N - 1 - 1 + 2 = N := by ring
          rw [this, htN, if_neg (by decide), if_pos rfl, hpr _ (by omega) (by omega)]
          exact congrArg (peek s) (by ring)
        · rw [if_neg h, if_neg h1, ht1 _ (by omega) (by omega), hpr _ (by omega) (by omega)]
          exact congrArg (peek s) (by ring)
    rw [e1, e2, e3, e4]
    have ef : fabs ((n : mdefloat) + f - (n : mdefloat)) = f := by
      unfold fabs; rw [add_sub_cancel_left, if_neg (not_lt.mpr hf0)]
    have ef2 : fabs (((N - 1 - n : Int) : mdefloat) + f - ((N - 1 - n : Int) : mdefloat)) = f := by
      unfold fabs; rw [add_sub_cancel_left, if_neg (not_lt.mpr hf0)]
    rw [ef, ef2]
  · rw [hb]
    have hw : ∀ z : Int, -N ≤ z → z < 0 → z % N = z + N := fun z a b =>
      (@Int.add_emod_self z N).symm.trans (Int.emod_eq_of_lt (by omega) (by omega))
    have a1 : Int.tmod (n + 1) N = (n + 1) % N := Int.tmod_eq_emod (by omega) (by omega)
    have a3 : (if n ≠ 0 then n - 1 else N - 1) = (n - 1) % N := by
      by_cases h : n = 0
      · subst h
        rw [if_neg (by simp)]
        have : (0 - 1 : Int) % N = N - 1 := by
          rw [hw (0 - 1) (by omega) (by omega)]; ring
        rw [this]
      · rw [if_pos h, Int.emod_eq_of_lt (by omega) (by omega)]
    have a4 : (if n = 0 then N - 1 - 1 else if n = 1 then N - 1 else n - 2) = (n - 2) % N := by
      by_cases h : n = 0
      · subst h
        rw [if_pos rfl]
        have : (0 - 2 : Int) % N = N - 2 := by
          rw [hw (0 - 2) (by omega) (by omega)]; ring
        rw [this]; ring
      · by_cases h1 : n = 1
        · subst h1
          rw [if_neg (by decide), if_pos rfl]
          have : (1 - 2 : Int) % N = N - 1 := by
            rw [hw (1 - 2) (by omega) (by omega)]; ring
          rw [this]
        · rw [if_neg h, if_neg h1, Int.emod_eq_of_lt (by omega) (by omega)]
    rw [a1, a3, a4]

/-- Witness for C35: index 1.5 in a buffer of four samples. -/
theorem interpolate_backwards_mirror_witness :
    interpolate (((1 : Int) : mdefloat) + 1 / 2) (some [0, 1, 2, 3]) 4 1
      = interpolate (((4 - 1 - 1 : Int) : mdefloat) + 1 / 2) (some [0, 1, 2, 3].reverse) 4 0 :=
  (interpolate_backwards_mirror [0, 1, 2, 3] 4 1 (1 / 2) rfl (by decide) (by decide)
    (by decide) (by norm_num) (by norm_num)).1

/-- The copy loop of `mdeGranularCopyInputSamples` from a write index `li` inside
`[0, N)`: the pointer stays at offset `li`, the index ends at `(li + n) mod N`, cells outside
`[0, N)` are untouched, and a cell inside holds the input sample of the last iteration that
wrote it, or its old value. -/
theorem copyInputSamplesLoop_spec (in_ : List mdefloat) (N : Int) (hN : 1 ≤ N) (n : Nat) :
    ∀ (i : Int) (block : List mdefloat) (li : Int), 0 ≤ li → li < N → N ≤ block.length →
      (copyInputSamplesLoop in_ N n i (block, li, li)).2.1
        = (copyInputSamplesLoop in_ N n i (block, li, li)).2.2 ∧
      (copyInputSamplesLoop in_ N n i (block, li, li)).2.2 = (li + (n : Int)) % N ∧
      (copyInputSamplesLoop in_ N n i (block, li, li)).1.length = block.length ∧
      (∀ p : Int, (p < 0 ∨ N ≤ p) →
        peek (copyInputSamplesLoop in_ N n i (block, li, li)).1 p = peek block p) ∧
      (∀ p : Int, 0 ≤ p → p < N →
        ((∀ k : Nat, k < n → (li + (k : Int)) % N ≠ p) ∧
          peek (copyInputSamplesLoop in_ N n i (block, li, li)).1 p = peek block p) ∨
        (∃ k : Nat, k < n ∧ (li + (k : Int)) % N = p ∧
          (∀ k2 : Nat, k < k2 → k2 < n → (li + (k2 : Int)) % N ≠ p) ∧
          peek (copyInputSamplesLoop in_ N n i (block, li, li)).1 p = peek in_ (i + (k : Int)))) := by
  induction n with
  | zero =>
    intro i block li h0 h1 _
    simp only [copyInputSamplesLoop, Nat.cast_zero, add_zero]
    refine ⟨trivial, (Int.emod_eq_of_lt h0 h1).symm, trivial, fun _ _ => trivial, fun p _ _ => ?_⟩
    exact Or.inl ⟨fun k hk => absurd hk (Nat.not_lt_zero k), trivial⟩
  | succ n ih =>
    intro i block li h0 h1 hlen
    -- the state after the first iteration
    have key : ∃ li1 : Int, 0 ≤ li1 ∧ li1 < N ∧ li1 = (li + 1) % N ∧
        copyInputSamplesLoop in_ N (n + 1) i (block, li, li)
          = copyInputSamplesLoop in_ N n (i + 1) (poke block li (peek in_ i), li1, li1) := by
      by_cases hw : li + 1 = N
      · refine ⟨0, le_refl _, by omega, ?_, ?_⟩
        · rw [hw, Int.emod_self]
        · simp only [copyInputSamplesLoop, if_pos hw]
      · refine ⟨li + 1, by omega, by omega, ?_, ?_⟩
        · exact (Int.emod_eq_of_lt (by omega) (by omega)).symm
        · simp only [copyInputSamplesLoop, if_neg hw]
    obtain ⟨li1, g0, g1, ge, hk⟩ := key
    rw [hk]
    have hlen1 : N ≤ ((poke block li (peek in_ i)).length : Int) := by
      rw [length_poke]; exact hlen
    obtain ⟨a1, a2, a3, a4, a5⟩ := ih (i + 1) (poke block li (peek in_ i)) li1 g0 g1 hlen1
    have hmod : ∀ k : Nat, (li1 + (k : Int)) % N = (li + ((k + 1 : Nat) : Int)) % N := by
      intro k
      rw [ge, Int.emod_add_emod]
      congr 1
      push_cast
      ring
    refine ⟨a1, ?_, ?_, ?_, ?_⟩
    · rw [a2, hmod n]
    · rw [a3, length_poke]
    · intro p hp
      rw [a4 p hp, peek_poke_ne]
      omega
    · intro p hp0 hp1
      rcases a5 p hp0 hp1 with ⟨hno, hval⟩ | ⟨k, hkn, hkp, hlast, hval⟩
      · by_cases hpl : li = p
        · right
          refine ⟨0, Nat.succ_pos n, ?_, ?_, ?_⟩
          · rw [Nat.cast_zero, add_zero, hpl]; exact Int.emod_eq_of_lt hp0 hp1
          · intro k2 hk20 hk2n
            obtain ⟨k3, rfl⟩ : ∃ k3, k2 = k3 + 1 := ⟨k2 - 1, by omega⟩
            rw [← hmod k3]
            exact hno k3 (by omega)
          · rw [hval, hpl, peek_poke_same _ _ _ hp0 (by omega), Nat.cast_zero, add_zero]
        · left
          refine ⟨?_, ?_⟩
          · intro k hkn
            cases k with
            | zero =>
              rw [Nat.cast_zero, add_zero, Int.emod_eq_of_lt h0 h1]; exact hpl
            | succ k3 =>
              rw [← hmod k3]
              exact hno k3 (by omega)
          · rw [hval, peek_poke_ne _ _ _ _ hpl]
      · right
        refine ⟨k + 1, by omega, ?_, ?_, ?_⟩
        · rw [← hmod k]; exact hkp
        · intro k2 hk20 hk2n
          obtain ⟨k3, rfl⟩ : ∃ k3, k2 = k3 + 1 := ⟨k2 - 1, by omega⟩
          rw [← hmod k3]
          exact hlast k3 (by omega) (by omega)
        · rw [hval]
          congr 1
          push_cast
          ring

/-- C37: for a live buffer of at least `N = nBufferSamples >= 1` cells, `0 <= liveIndex < N`
and `nsamps >= 0`, `mdeGranularCopyInputSamples` leaves
`liveIndex = (old liveIndex + nsamps) mod N`, again in `[0, N)`, keeps the size of the
block, writes no cell outside `[0, N - 1]`, and every cell `p` in `[0, N - 1]` holds `in[i]`
for the last `i < nsamps` with `(liveIndex + i) mod N = p`, or its old value when there is
no such `i`. -/
theorem copyInputSamples_wraps (g : mdeGranular) (in_ : List mdefloat) (nsamps : Int)
    (block : List mdefloat) (N : Int)
    (hb : g.theSamples = some block) (hN : g.nBufferSamples = N) (h1 : 1 ≤ N)
    (hlen : N ≤ block.length) (hl0 : 0 ≤ g.liveIndex) (hl1 : g.liveIndex < N)
    (hn : 0 ≤ nsamps) :
    (mdeGranularCopyInputSamples g in_ nsamps).liveIndex = (g.liveIndex + nsamps) % N ∧
    0 ≤ (mdeGranularCopyInputSamples g in_ nsamps).liveIndex ∧
    (mdeGranularCopyInputSamples g in_ nsamps).liveIndex < N ∧
    ((mdeGranularCopyInputSamples g in_ nsamps).theSamples.getD []).length = block.length ∧
    (∀ p : Int, (p < 0 ∨ N ≤ p) →
      peek ((mdeGranularCopyInputSamples g in_ nsamps).theSamples.getD []) p = peek block p) ∧
    (∀ p : Int, 0 ≤ p → p < N →
      ((∀ i : Int, 0 ≤ i → i < nsamps → (g.liveIndex + i) % N ≠ p) ∧
        peek ((mdeGranularCopyInputSamples g in_ nsamps).theSamples.getD []) p = peek block p) ∨
      (∃ i : Int, 0 ≤ i ∧ i < nsamps ∧ (g.liveIndex + i) % N = p ∧
        (∀ i2 : Int, i < i2 → i2 < nsamps → (g.liveIndex + i2) % N ≠ p) ∧
        peek ((mdeGranularCopyInputSamples g in_ nsamps).theSamples.getD []) p = peek in_ i)) := by
  have hnn : ((nsamps.toNat : Nat) : Int) = nsamps := Int.toNat_of_nonneg hn
  obtain ⟨_, a2, a3, a4, a5⟩ := copyInputSamplesLoop_spec in_ N h1 nsamps.toNat 0 block
    g.liveIndex hl0 hl1 hlen
  have e1 : (mdeGranularCopyInputSamples g in_ nsamps).liveIndex
      = (copyInputSamplesLoop in_ N nsamps.toNat 0 (block, g.liveIndex, g.liveIndex)).2.2 := by
    unfold mdeGranularCopyInputSamples
    rw [hb, hN]
  have e2 : (mdeGranularCopyInputSamples g in_ nsamps).theSamples.getD []
      = (copyInputSamplesLoop in_ N nsamps.toNat 0 (block, g.liveIndex, g.liveIndex)).1 := by
    unfold mdeGranularCopyInputSamples
    rw [hb, hN]
    rfl
  rw [e1, e2, a2, hnn]
  refine ⟨rfl, Int.emod_nonneg _ (by omega), Int.emod_lt_of_pos _ (by omega), a3, a4, ?_⟩
  intro p hp0 hp1
  rcases a5 p hp0 hp1 with ⟨hno, hval⟩ | ⟨k, hkn, hkp, hlast, hval⟩
  · left
    refine ⟨?_, hval⟩
    intro i hi0 hi1
    have := hno i.toNat (by omega)
    rwa [Int.toNat_of_nonneg hi0] at this
  · right
    refine ⟨(k : Int), by omega, by omega, hkp, ?_, ?_⟩
    · intro i2 h1 h2
      have := hlast i2.toNat (by omega) (by omega)
      rwa [Int.toNat_of_nonneg (by omega)] at this
    · rw [hval, zero_add]

/-- Witness for C37: two samples written at index 3 of a buffer of four. -/
theorem copyInputSamples_wraps_witness :
    (mdeGranularCopyInputSamples liveGranular [5, 6] 2).liveIndex
      = (liveGranular.liveIndex + 2) % 4 :=
  (copyInputSamples_wraps liveGranular [5, 6] 2 [0, 0, 0, 0] 4 rfl rfl (by decide) (by decide)
    (by decide) (by decide) (by decide)).1

/-- The first-delay block keeps the ramp bookkeeping of the grain. -/
theorem grainInitFirstDelay_ramp (gg : mdeGranularGrain) (d : Int) (rs : RandSource) :
    (grainInitFirstDelay gg d rs).1.endRampUp = gg.endRampUp ∧
    (grainInitFirstDelay gg d rs).1.startRampDown = gg.startRampDown ∧
    (grainInitFirstDelay gg d rs).1.rampi = gg.rampi ∧
    (grainInitFirstDelay gg d rs).1.icurrent = gg.icurrent ∧
    (grainInitFirstDelay gg d rs).1.length = gg.length := by
  unfold grainInitFirstDelay
  split_ifs <;> exact ⟨rfl, rfl, rfl, rfl, rfl⟩

/-- The ramp bookkeeping of a grain that `mdeGranularGrainInit` has set up. -/
theorem grainInit_ramp_fields (gg : mdeGranularGrain) (parent : mdeGranular) (d : Int)
    (rs : RandSource) (h : gg.activeStatus ≠ t_status.INACTIVE) :
    (mdeGranularGrainInit gg parent d rs).2.1.endRampUp = cInt parent.rampLenSamples ∧
    (mdeGranularGrainInit gg parent d rs).2.1.startRampDown
      = (mdeGranularGrainInit gg parent d rs).2.1.length - cInt parent.rampLenSamples ∧
    (mdeGranularGrainInit gg parent d rs).2.1.rampi = 0 ∧
    (mdeGranularGrainInit gg parent d rs).2.1.icurrent = 0 := by
  unfold mdeGranularGrainInit
  simp only [h, if_false]
  refine ⟨?_, ?_, ?_, ?_⟩
  · rw [(grainInitFirstDelay_ramp _ _ _).1]; rfl
  · rw [(grainInitFirstDelay_ramp _ _ _).2.1, (grainInitFirstDelay_ramp _ _ _).2.2.2.2]; rfl
  · rw [(grainInitFirstDelay_ramp _ _ _).2.2.1]
  · rw [(grainInitFirstDelay_ramp _ _ _).2.2.2.1]

/-- The four cases of `mdeGranularGrainGetRampVal` with non-null tables. -/
theorem getRampVal_cases (gg : mdeGranularGrain) (block : List mdefloat) (off rampLen : Int) :
    (gg.icurrent < gg.endRampUp →
      mdeGranularGrainGetRampVal gg (some block) (some off) rampLen
        = (peek block gg.icurrent, gg)) ∧
    (¬ gg.icurrent < gg.endRampUp → gg.icurrent ≥ gg.startRampDown → gg.rampi < rampLen →
      mdeGranularGrainGetRampVal gg (some block) (some off) rampLen
        = (peek block (off + gg.rampi), { gg with rampi := gg.rampi + 1 })) ∧
    (¬ gg.icurrent < gg.endRampUp → gg.icurrent ≥ gg.startRampDown → ¬ gg.rampi < rampLen →
      mdeGranularGrainGetRampVal gg (some block) (some off) rampLen = (0, gg)) ∧
    (¬ gg.icurrent < gg.endRampUp → ¬ gg.icurrent ≥ gg.startRampDown →
      mdeGranularGrainGetRampVal gg (some block) (some off) rampLen = (1, gg)) := by
  unfold mdeGranularGrainGetRampVal
  refine ⟨fun a => ?_, fun a b c => ?_, fun a b c => ?_, fun a b => ?_⟩
  · simp only [if_pos a]
  · simp only [if_neg a, if_pos b, if_pos c]
  · simp only [if_neg a, if_pos b, if_neg c]
  · simp only [if_neg a, if_neg b]

/-- The ramp bookkeeping over the life of a fresh grain with `length >= 2 * r`: after `k`
samples `icurrent = k`, and `rampi` counts the samples spent at or after `startRampDown`,
up to `r`. -/
theorem rampCalls_fresh (block : List mdefloat) (off r len : Int) (g0 : mdeGranularGrain)
    (hr : 0 ≤ r) (hlen : 2 * r ≤ len) (hl : g0.length = len) (hi : g0.icurrent = 0)
    (hp : g0.rampi = 0) (hu : g0.endRampUp = r) (hd : g0.startRampDown = len - r) (k : Nat) :
    (k : Int) ≤ len + 1 →
      (rampCalls (some block) (some off) r k g0).icurrent = (k : Int) ∧
      (rampCalls (some block) (some off) r k g0).endRampUp = r ∧
      (rampCalls (some block) (some off) r k g0).startRampDown = len - r ∧
      (rampCalls (some block) (some off) r k g0).length = len ∧
      (rampCalls (some block) (some off) r k g0).rampi
        = (if (k : Int) ≤ len - r then 0 else if (k : Int) - (len - r) ≤ r then (k : Int) - (len - r) else r) := by
  induction k with
  | zero =>
    intro _
    simp only [rampCalls, Nat.cast_zero]
    refine ⟨hi, hu, hd, hl, ?_⟩
    rw [hp, if_pos (by omega)]
  | succ k ih =>
    intro hk
    push_cast at hk
    obtain ⟨a1, a2, a3, a4, a5⟩ := ih (by omega)
    have hc := getRampVal_cases (rampCalls (some block) (some off) r k g0) block off r
    simp only [rampCalls]
    push_cast
    by_cases c1 : (rampCalls (some block) (some off) r k g0).icurrent
        < (rampCalls (some block) (some off) r k g0).endRampUp
    · rw [hc.1 c1]
      dsimp only
      rw [a1, a2] at c1
      refine ⟨by rw [a1], a2, a3, a4, ?_⟩
      rw [a5, if_pos (by omega), if_pos (by omega)]
    · by_cases c2 : (rampCalls (some block) (some off) r k g0).icurrent
          ≥ (rampCalls (some block) (some off) r k g0).startRampDown
      · by_cases c3 : (rampCalls (some block) (some off) r k g0).rampi < r
        · rw [hc.2.1 c1 c2 c3]
          dsimp only
          rw [a1, a2] at c1
          rw [a1, a3] at c2
          rw [a5] at c3
          refine ⟨by rw [a1], a2, a3, a4, ?_⟩
          rw [a5]
          split_ifs at c3 ⊢ <;> omega
        · rw [hc.2.2.1 c1 c2 c3]
          dsimp only
          rw [a1, a2] at c1
          rw [a1, a3] at c2
          rw [a5] at c3
          refine ⟨by rw [a1], a2, a3, a4, ?_⟩
          rw [a5]
          split_ifs at c3 ⊢ <;> omega
      · rw [hc.2.2.2 c1 c2]
        dsimp only
        rw [a1, a2] at c1
        rw [a1, a3] at c2
        refine ⟨by rw [a1], a2, a3, a4, ?_⟩
        rw [a5]
        split_ifs <;> omega

/-- A non-negative value below `2^31` is stored in an `int` unchanged. -/
theorem cInt_of_range (r : Int) (h0 : 0 ≤ r) (h1 : r < 2 ^ 31) : cInt r = r := by
  unfold cInt
  norm_num at h1 ⊢
  omega

/-- C32: with non-null tables `mdeGranularGrainGetRampVal` returns `rampUp[icurrent]` when
`icurrent < endRampUp`; otherwise, when `icurrent >= startRampDown`, it returns
`rampDown[rampi]` and advances `rampi` by one if `rampi < rampLen`, and returns 0 without
advancing if not; otherwise it returns 1.  For a grain set up by `mdeGranularGrainInit`
(ramp length `0 <= rampLenSamples < 2^31`) with `length >= 2 * rampLenSamples`, over the
samples `k = 0..length` the counter `icurrent` is `k`, a ramp-up read has
`k <= rampLenSamples - 1`, and a ramp-down read uses
`rampi = k - (length - rampLenSamples)` with `0 <= rampi <= rampLenSamples - 1`. -/
theorem getRampVal_spec (gg : mdeGranularGrain) (block : List mdefloat) (off rampLen : Int) :
    (gg.icurrent < gg.endRampUp →
      mdeGranularGrainGetRampVal gg (some block) (some off) rampLen
        = (peek block gg.icurrent, gg)) ∧
    (¬ gg.icurrent < gg.endRampUp → gg.icurrent ≥ gg.startRampDown → gg.rampi < rampLen →
      mdeGranularGrainGetRampVal gg (some block) (some off) rampLen
        = (peek block (off + gg.rampi), { gg with rampi := gg.rampi + 1 })) ∧
    (¬ gg.icurrent < gg.endRampUp → gg.icurrent ≥ gg.startRampDown → ¬ gg.rampi < rampLen →
      mdeGranularGrainGetRampVal gg (some block) (some off) rampLen = (0, gg)) ∧
    (¬ gg.icurrent < gg.endRampUp → ¬ gg.icurrent ≥ gg.startRampDown →
      mdeGranularGrainGetRampVal gg (some block) (some off) rampLen = (1, gg)) ∧
    (∀ (parent : mdeGranular) (doFirstDelay : Int) (rs : RandSource),
      gg.activeStatus ≠ t_status.INACTIVE →
      0 ≤ parent.rampLenSamples → parent.rampLenSamples < 2 ^ 31 →
      2 * parent.rampLenSamples ≤ (mdeGranularGrainInit gg parent doFirstDelay rs).2.1.length →
      ∀ k : Nat, (k : Int) ≤ (mdeGranularGrainInit gg parent doFirstDelay rs).2.1.length →
        (rampCalls (some block) (some off) parent.rampLenSamples k
          (mdeGranularGrainInit gg parent doFirstDelay rs).2.1).icurrent = (k : Int) ∧
        ((rampCalls (some block) (some off) parent.rampLenSamples k
            (mdeGranularGrainInit gg parent doFirstDelay rs).2.1).icurrent
          < (rampCalls (some block) (some off) parent.rampLenSamples k
            (mdeGranularGrainInit gg parent doFirstDelay rs).2.1).endRampUp →
          (k : Int) ≤ parent.rampLenSamples - 1) ∧
        (¬ (rampCalls (some block) (some off) parent.rampLenSamples k
            (mdeGranularGrainInit gg parent doFirstDelay rs).2.1).icurrent
          < (rampCalls (some block) (some off) parent.rampLenSamples k
            (mdeGranularGrainInit gg parent doFirstDelay rs).2.1).endRampUp →
         (rampCalls (some block) (some off) parent.rampLenSamples k
            (mdeGranularGrainInit gg parent doFirstDelay rs).2.1).icurrent
          ≥ (rampCalls (some block) (some off) parent.rampLenSamples k
            (mdeGranularGrainInit gg parent doFirstDelay rs).2.1).startRampDown →
         (rampCalls (some block) (some off) parent.rampLenSamples k
            (mdeGranularGrainInit gg parent doFirstDelay rs).2.1).rampi < parent.rampLenSamples →
          (rampCalls (some block) (some off) parent.rampLenSamples k
            (mdeGranularGrainInit gg parent doFirstDelay rs).2.1).rampi
            = (k : Int) - ((mdeGranularGrainInit gg parent doFirstDelay rs).2.1.length
                - parent.rampLenSamples) ∧
          0 ≤ (rampCalls (some block) (some off) parent.rampLenSamples k
            (mdeGranularGrainInit gg parent doFirstDelay rs).2.1).rampi ∧
          (rampCalls (some block) (some off) parent.rampLenSamples k
            (mdeGranularGrainInit gg parent doFirstDelay rs).2.1).rampi
            ≤ parent.rampLenSamples - 1)) := by
  obtain ⟨c1, c2, c3, c4⟩ := getRampVal_cases gg block off rampLen
  refine ⟨c1, c2, c3, c4, ?_⟩
  intro parent d rs hact hr0 hr1 hlen k hk
  obtain ⟨f1, f2, f3, f4⟩ := grainInit_ramp_fields gg parent d rs hact
  rw [cInt_of_range _ hr0 hr1] at f1 f2
  obtain ⟨a1, a2, a3, _, a5⟩ := rampCalls_fresh block off parent.rampLenSamples
    (mdeGranularGrainInit gg parent d rs).2.1.length (mdeGranularGrainInit gg parent d rs).2.1
    hr0 hlen rfl f4 f3 f1 f2 k (by omega)
  refine ⟨a1, ?_, ?_⟩
  · intro h
    rw [a1, a2] at h
    omega
  · intro h1 h2 h3
    rw [a1, a2] at h1
    rw [a1, a3] at h2
    rw [a5] at h3 ⊢
    split_ifs at h3 ⊢ <;> omega

/-- Witness for C32: a grain in its ramp-up reads the table at `icurrent`. -/
theorem getRampVal_spec_witness :
    mdeGranularGrainGetRampVal rampingGrain (some [0, 1, 1, 0]) (some 2) 2
      = (peek [0, 1, 1, 0] rampingGrain.icurrent, rampingGrain) :=
  (getRampVal_spec rampingGrain [0, 1, 1, 0] 2 2).1 (by decide)

/-- Reading back the grain that was just stored. -/
theorem peekGrain_pokeGrain_same (gs : List mdeGranularGrain) (i : Int) (x : mdeGranularGrain)
    (h0 : 0 ≤ i) (h1 : i < gs.length) : peekGrain (pokeGrain gs i x) i = x := by
  unfold peekGrain pokeGrain
  simp only [if_pos h0]
  rw [List.getD_eq_getElem _ _ (by rw [List.length_set]; omega)]
  simp

/-- Storing one grain leaves the other cells of the array alone. -/
theorem peekGrain_pokeGrain_ne (gs : List mdeGranularGrain) (i j : Int) (x : mdeGranularGrain)
    (h : i ≠ j) : peekGrain (pokeGrain gs i x) j = peekGrain gs j := by
  unfold peekGrain pokeGrain
  by_cases h0 : 0 ≤ i
  · simp only [if_pos h0]
    by_cases h1 : 0 ≤ j
    · simp only [if_pos h1]
      have hne : i.toNat ≠ j.toNat := by omega
      simp only [List.getD_eq_getElem?_getD]
      rw [List.getElem?_set_ne hne]
    · simp only [if_neg h1]
  · simp only [if_neg h0]

/-- Storing a grain keeps the size of the array. -/
theorem length_pokeGrain (gs : List mdeGranularGrain) (i : Int) (x : mdeGranularGrain) :
    (pokeGrain gs i x).length = gs.length := by
  unfold pokeGrain
  split_ifs
  · exact List.length_set _ _ _
  · rfl

/-- The delay loop of `mdeGranularSmoothMode`. -/
theorem smoothModeLoop_spec (dinc : Int) (n : Nat) :
    ∀ (i delay : Int) (gs : List mdeGranularGrain), 0 ≤ i →
      (smoothModeLoop dinc n i delay gs).length = gs.length ∧
      ∀ j : Int,
        (i ≤ j → j < i + (n : Int) → j < gs.length →
          peekGrain (smoothModeLoop dinc n i delay gs) j
            = { peekGrain gs j with doDelay := delay + (j - i) * dinc }) ∧
        (¬ (i ≤ j ∧ j < i + (n : Int) ∧ j < gs.length) →
          peekGrain (smoothModeLoop dinc n i delay gs) j = peekGrain gs j) := by
  induction n with
  | zero =>
    intro i delay gs _
    refine ⟨rfl, fun j => ⟨fun a b _ => ?_, fun _ => rfl⟩⟩
    simp only [Nat.cast_zero, add_zero] at b
    omega
  | succ n ih =>
    intro i delay gs hi
    simp only [smoothModeLoop]
    obtain ⟨l1, a⟩ := ih (i + 1) (delay + dinc)
      (pokeGrain gs i { peekGrain gs i with doDelay := delay }) (by omega)
    rw [length_pokeGrain] at l1 a
    refine ⟨l1, fun j => ⟨fun h1 h2 h3 => ?_, fun h => ?_⟩⟩
    · push_cast at h2
      by_cases hj : j = i
      · subst hj
        rw [(a j).2 (by omega), peekGrain_pokeGrain_same _ _ _ hi h3, sub_self, zero_mul,
          add_zero]
      · have e : delay + dinc + (j - (i + 1)) * dinc = delay + (j - i) * dinc := by ring
        rw [(a j).1 (by omega) (by omega) h3, peekGrain_pokeGrain_ne _ _ _ _ (fun e => hj e.symm),
          e]
    · push_cast at h
      rw [(a j).2 (by omega)]
      by_cases hj : j = i
      · subst hj
        have hlen : ¬ j < gs.length := by omega
        unfold peekGrain pokeGrain
        simp only [if_pos hi]
        rw [List.getD_eq_default _ _ (by rw [List.length_set]; omega),
          List.getD_eq_default _ _ (by omega)]
      · rw [peekGrain_pokeGrain_ne _ _ _ _ (fun e => hj e.symm)]

/-- For at least one active voice `mdeGranularSmoothMode` is defined, sets the deviation
to 0 and gives voice `i` below `activeVoices` the delay `i * max(2, grainLength / activeVoices)`. -/
theorem smoothMode_spreads (g : mdeGranular) (gs : List mdeGranularGrain)
    (hg : g.grains = some gs) (hav : 1 ≤ g.activeVoices) (hlen : g.activeVoices ≤ gs.length) :
    ∃ g2 : mdeGranular, mdeGranularSmoothMode g = some g2 ∧ g2.grainLengthDeviation = 0 ∧
      ∀ i : Int,
        (0 ≤ i → i < g.activeVoices →
          peekGrain (g2.grains.getD []) i
            = { peekGrain gs i with
                doDelay := i * max 2 (Int.tdiv g.grainLength g.activeVoices) }) ∧
        (g.activeVoices ≤ i → peekGrain (g2.grains.getD []) i = peekGrain gs i) := by
  have hne : ¬ g.activeVoices = 0 := by omega
  have hmax : (if Int.tdiv g.grainLength g.activeVoices < 2 then 2
      else Int.tdiv g.grainLength g.activeVoices) = max 2 (Int.tdiv g.grainLength g.activeVoices) := by
    split_ifs with h
    · rw [max_eq_left (by omega)]
    · rw [max_eq_right (by omega)]
  obtain ⟨_, a⟩ := smoothModeLoop_spec (max 2 (Int.tdiv g.grainLength g.activeVoices))
    g.activeVoices.toNat 0 0 gs (le_refl _)
  have hnn : ((g.activeVoices.toNat : Nat) : Int) = g.activeVoices :=
    Int.toNat_of_nonneg (by omega)
  have hgo : mdeGranularSmoothMode g = some
      { g with grainLengthDeviation := 0,
               grains := some (smoothModeLoop (max 2 (Int.tdiv g.grainLength g.activeVoices))
                 g.activeVoices.toNat 0 0 gs) } := by
    unfold mdeGranularSmoothMode
    simp only [if_neg hne, forceGrainReinit_noop, hg, hmax]
  refine ⟨_, hgo, rfl, ?_⟩
  intro i
  dsimp only [Option.getD_some]
  refine ⟨fun h0 h1 => ?_, fun h => ?_⟩
  · have e : 0 + (i - 0) * max 2 (Int.tdiv g.grainLength g.activeVoices)
        = i * max 2 (Int.tdiv g.grainLength g.activeVoices) := by ring
    rw [(a i).1 h0 (by rw [hnn]; omega) (by omega), e]
  · rw [(a i).2 (by rw [hnn]; omega)]

/-- C40 at its failing input: `mdeGranularSetActiveVoices(g, 0)` is accepted and leaves
`activeVoices = 0` (so `0 <= activeVoices <= maxVoices`), and `mdeGranularSmoothMode` then
evaluates `len / av` with `av = 0`: the model has no result. -/
theorem smoothMode_divides_by_zero :
    (mdeGranularSetActiveVoices exampleGranular 0).activeVoices = 0 ∧
    0 ≤ (mdeGranularSetActiveVoices exampleGranular 0).activeVoices ∧
    (mdeGranularSetActiveVoices exampleGranular 0).activeVoices
      ≤ (mdeGranularSetActiveVoices exampleGranular 0).maxVoices ∧
    mdeGranularSmoothMode (mdeGranularSetActiveVoices exampleGranular 0) = none := by
  have hc : cTrunc 0 = 0 := by norm_num [cTrunc]
  have h0 : (mdeGranularSetActiveVoices exampleGranular 0).activeVoices = 0 := by
    simp [mdeGranularSetActiveVoices, hc, exampleGranular]
  have hm : (mdeGranularSetActiveVoices exampleGranular 0).maxVoices = 1 := by
    simp [mdeGranularSetActiveVoices, hc, exampleGranular]
  refine ⟨h0, by rw [h0], by rw [h0, hm]; decide, ?_⟩
  unfold mdeGranularSmoothMode
  simp only [h0, if_true]


/-- Reading back the channel block that was just stored. -/
theorem peekChan_pokeChan_same (bufs : List (Option (List mdefloat))) (j : Int)
    (buf b : List mdefloat) (h : peekChan bufs j = some buf) :
    peekChan (pokeChan bufs j b) j = some b := by
  unfold peekChan pokeChan at *
  by_cases h0 : 0 ≤ j
  · rw [if_pos h0] at h ⊢
    rw [if_pos h0]
    have hlt : j.toNat < bufs.length := by
      by_contra hc
      rw [List.getD_eq_default _ _ (not_lt.mp hc)] at h
      exact absurd h (by simp)
    rw [List.getD_eq_getElem _ _ (by rw [List.length_set]; exact hlt)]
    simp
  · rw [if_neg h0] at h
    exact absurd h (by simp)

/-- Storing the block of one channel leaves the other channels alone. -/
theorem peekChan_pokeChan_ne (bufs : List (Option (List mdefloat))) (j k : Int)
    (b : List mdefloat) (h : j ≠ k) :
    peekChan (pokeChan bufs j b) k = peekChan bufs k := by
  unfold peekChan pokeChan
  by_cases h0 : 0 ≤ j
  · simp only [if_pos h0]
    by_cases h1 : 0 ≤ k
    · simp only [if_pos h1]
      have hne : j.toNat ≠ k.toNat := by omega
      simp only [List.getD_eq_getElem?_getD]
      rw [List.getElem?_set_ne hne]
    · simp only [if_neg h1]
  · simp only [if_neg h0]

/-- The function `silence` keeps the size of the block. -/
theorem length_silence (buf : List mdefloat) (n : Int) : (silence buf n).length = buf.length := by
  unfold silence
  rw [List.length_append, List.length_replicate, List.length_drop]
  have h : Nat.min n.toNat buf.length = min n.toNat buf.length := rfl
  rw [h]
  omega

/-- After `silence(where, n)` the first `n` cells read 0. -/
theorem peek_silence (buf : List mdefloat) (n k : Int) (h0 : 0 ≤ k) (h1 : k < n) :
    peek (silence buf n) k = 0 := by
  by_cases hk : k.toNat < buf.length
  · unfold peek silence
    rw [if_pos h0]
    have hk2 : k.toNat < (Nat.min n.toNat buf.length) := by
      apply lt_min
      · omega
      · exact hk
    rw [List.getD_eq_getElem?_getD,
      List.getElem?_append_left (by rw [List.length_replicate]; exact hk2),
      List.getElem?_replicate, if_pos hk2]
    rfl
  · unfold peek
    rw [if_pos h0, List.getD_eq_default]
    rw [length_silence]
    omega

/-- The zeroing loop of `mdeGranularGo`. -/
theorem goSilenceLoop_spec (t : Int) (n : Nat) :
    ∀ (i : Int) (bufs : List (Option (List mdefloat))), 0 ≤ i → ∀ j : Int,
      peekChan (goSilenceLoop t n i bufs) j =
        (if i ≤ j ∧ j < i + (n : Int) then (peekChan bufs j).map (fun b => silence b (cInt t))
         else peekChan bufs j) := by
  induction n with
  | zero =>
    intro i bufs _ j
    simp only [goSilenceLoop, Nat.cast_zero, add_zero]
    rw [if_neg (by omega)]
  | succ n ih =>
    intro i bufs hi j
    simp only [goSilenceLoop]
    cases hb : peekChan bufs i with
    | none =>
      simp only []
      rw [ih (i + 1) bufs (by omega) j]
      push_cast
      by_cases hj : j = i
      · subst hj
        rw [if_neg (by omega), if_pos (by omega), hb]
        rfl
      · by_cases h2 : i + 1 ≤ j ∧ j < i + 1 + (n : Int)
        · rw [if_pos h2, if_pos (by omega)]
        · rw [if_neg h2, if_neg (by omega)]
    | some buf =>
      simp only []
      rw [ih (i + 1) _ (by omega) j]
      push_cast
      by_cases hj : j = i
      · subst hj
        rw [if_neg (by omega), if_pos (by omega), peekChan_pokeChan_same _ _ _ _ hb, hb]
        rfl
      · rw [peekChan_pokeChan_ne _ _ _ _ (fun e => hj e.symm)]
        by_cases h2 : i + 1 ≤ j ∧ j < i + 1 + (n : Int)
        · rw [if_pos h2, if_pos (by omega)]
        · rw [if_neg h2, if_neg (by omega)]

/-- One call of `mdeGranularGetGrainAmpAndInc` changes `grainAmp` only. -/
theorem getGrainAmpAndInc_frame (g : mdeGranular) :
    ∃ a : mdefloat, (mdeGranularGetGrainAmpAndInc g).2 = { g with grainAmp := a } := by
  unfold mdeGranularGetGrainAmpAndInc
  simp only []
  split_ifs
  · exact ⟨0, rfl⟩
  · exact ⟨g.grainAmp, rfl⟩
  · exact ⟨0, rfl⟩
  · exact ⟨g.grainAmp + g.grainAmpInc, rfl⟩

/-- The amplitude loop of `mdeGranularGo` changes `grainAmp` and `grainAmps` only. -/
theorem goGrainAmpsLoop_frame (n : Nat) :
    ∀ (i : Int) (g : mdeGranular), ∃ (a : mdefloat) (amps : Option (List mdefloat)),
      goGrainAmpsLoop n i g = { g with grainAmp := a, grainAmps := amps } := by
  induction n with
  | zero => intro i g; exact ⟨g.grainAmp, g.grainAmps, rfl⟩
  | succ n ih =>
    intro i g
    obtain ⟨a, ea⟩ := getGrainAmpAndInc_frame g
    simp only [goGrainAmpsLoop]
    obtain ⟨a2, amps2, e2⟩ := ih (i + 1)
      { (mdeGranularGetGrainAmpAndInc g).2 with
        grainAmps := (mdeGranularGetGrainAmpAndInc g).2.grainAmps.map
          (fun amps => poke amps i (mdeGranularGetGrainAmpAndInc g).1) }
    rw [e2, ea]
    exact ⟨a2, amps2, rfl⟩

/-- The amplitude block of `mdeGranularGo` changes `grainAmp` and `grainAmps` only. -/
theorem goGrainAmps_frame (t : Int) (g : mdeGranular) :
    ∃ (a : mdefloat) (amps : Option (List mdefloat)),
      goGrainAmps t g = { g with grainAmp := a, grainAmps := amps } := by
  unfold goGrainAmps
  cases h : g.grainAmps with
  | none => exact ⟨g.grainAmp, g.grainAmps, rfl⟩
  | some amps =>
    simp only []
    split_ifs
    · exact ⟨g.grainAmp, g.grainAmps, rfl⟩
    · exact goGrainAmpsLoop_frame _ _ _

/-- The zeroing block of `mdeGranularGo` changes the output memory only. -/
theorem goSilence_frame (t : Int) (g : mdeGranular) :
    ∃ cb : Option (List (Option (List mdefloat))),
      goSilence t g = { g with channelBuffers := cb } := by
  unfold goSilence
  cases h : g.channelBuffers with
  | none => exact ⟨g.channelBuffers, rfl⟩
  | some bufs => exact ⟨_, rfl⟩

/-- The first two blocks of `mdeGranularGo`. -/
theorem goSilence_goGrainAmps (g : mdeGranular) :
    ∃ (a : mdefloat) (amps : Option (List mdefloat)),
      goSilence g.nOutputSamples (goGrainAmps g.nOutputSamples g) =
        { g with grainAmp := a, grainAmps := amps,
                 channelBuffers := g.channelBuffers.map
                   (goSilenceLoop g.nOutputSamples g.numChannels.toNat 0) } := by
  obtain ⟨a, amps, e⟩ := goGrainAmps_frame g.nOutputSamples g
  rw [e]
  refine ⟨a, amps, ?_⟩
  unfold goSilence
  cases h : g.channelBuffers with
  | none => simp only [h, Option.map_none']
  | some bufs => simp only [h, Option.map_some']


/-- Without a non-OFF status or without grains, `mdeGranularGo` stops after the zeroing. -/
theorem go_without_mixing (g : mdeGranular) (rs : RandSource)
    (h : g.status = t_status.OFF ∨ g.grains = none) :
    mdeGranularGo g rs = (goSilence g.nOutputSamples (goGrainAmps g.nOutputSamples g), rs) := by
  obtain ⟨a, amps, e⟩ := goSilence_goGrainAmps g
  unfold mdeGranularGo
  simp only []
  rw [e]
  have hc : ¬ (g.status.toInt ≠ 0 ∧ g.grains.isSome = true) := by
    rintro ⟨c1, c2⟩
    rcases h with h | h
    · rw [h] at c1; exact c1 rfl
    · rw [h] at c2; exact absurd c2 (by simp)
  rw [if_neg hc]


/-- Without mixing, `mdeGranularGo` changes neither the grains nor the status, replaces
each of the `numChannels` channel blocks by `silence(block, nOutputSamples)` and leaves the
channels beyond `numChannels` as they were. -/
theorem go_off_blocks (g : mdeGranular) (rs : RandSource)
    (h : g.status = t_status.OFF ∨ g.grains = none)
    (hn0 : 0 ≤ g.nOutputSamples) (hn1 : g.nOutputSamples < 2 ^ 31) :
    (mdeGranularGo g rs).1.grains = g.grains ∧
    (mdeGranularGo g rs).1.status = g.status ∧
    (mdeGranularGo g rs).2 = rs ∧
    (∀ j : Int, 0 ≤ j → j < g.numChannels →
      peekChan ((mdeGranularGo g rs).1.channelBuffers.getD []) j
        = (peekChan (g.channelBuffers.getD []) j).map (fun b => silence b g.nOutputSamples)) ∧
    (∀ j : Int, g.numChannels ≤ j →
      peekChan ((mdeGranularGo g rs).1.channelBuffers.getD []) j
        = peekChan (g.channelBuffers.getD []) j) ∧
    (∀ j k : Int, 0 ≤ j → j < g.numChannels → 0 ≤ k → k < g.nOutputSamples →
      outSample (mdeGranularGo g rs).1 j k = 0) := by
  obtain ⟨a, amps, e⟩ := goSilence_goGrainAmps g
  have hgo := go_without_mixing g rs h
  rw [hgo, e]
  have hct := cInt_of_range _ hn0 hn1
  have hch : ∀ j : Int,
      peekChan ((g.channelBuffers.map
        (goSilenceLoop g.nOutputSamples g.numChannels.toNat 0)).getD []) j
      = (if 0 ≤ j ∧ j < g.numChannels then
          (peekChan (g.channelBuffers.getD []) j).map (fun b => silence b g.nOutputSamples)
         else peekChan (g.channelBuffers.getD []) j) := by
    intro j
    cases hb : g.channelBuffers with
    | none =>
      simp only [Option.map_none', Option.getD_none]
      have : peekChan ([] : List (Option (List mdefloat))) j = none := by
        unfold peekChan; split_ifs <;> rfl
      rw [this]
      split_ifs <;> rfl
    | some bufs =>
      simp only [Option.map_some', Option.getD_some]
      rw [goSilenceLoop_spec _ _ 0 bufs (le_refl _) j, hct, zero_add]
      by_cases hc : 0 ≤ j ∧ j < g.numChannels
      · rw [if_pos hc, if_pos ⟨hc.1, by omega⟩]
      · rw [if_neg hc]
        by_cases hj : 0 ≤ j
        · rw [if_neg (by omega)]
        · have : peekChan bufs j = none := by unfold peekChan; rw [if_neg hj]
          rw [this]
          split_ifs <;> rfl
  refine ⟨rfl, rfl, rfl, ?_, ?_, ?_⟩
  · intro j h0 h1
    dsimp only
    rw [hch j, if_pos ⟨h0, h1⟩]
  · intro j h1
    dsimp only
    rw [hch j]
    by_cases hj : 0 ≤ j ∧ j < g.numChannels
    · omega
    · rw [if_neg hj]
  · intro j k h0 h1 k0 k1
    unfold outSample
    dsimp only
    cases hb : g.channelBuffers with
    | none => rfl
    | some bufs =>
      simp only [Option.map_some']
      have := hch j
      rw [hb] at this
      simp only [Option.map_some', Option.getD_some] at this
      rw [this, if_pos ⟨h0, h1⟩]
      cases hp : peekChan bufs j with
      | none => rfl
      | some buf =>
        simp only [Option.map_some']
        exact peek_silence buf _ k k0 k1

/-- The statement `*where += out` changes the output memory only. -/
theorem mixInto_frame (g : mdeGranular) (w : Option SamplePtr) (out : mdefloat) :
    ∃ cb : Option (List (Option (List mdefloat))),
      mixInto g w out = { g with channelBuffers := cb } := by
  unfold mixInto
  cases w with
  | none => exact ⟨g.channelBuffers, rfl⟩
  | some p =>
    rcases Option.eq_none_or_eq_some g.channelBuffers with hb | ⟨bufs, hb⟩
    · simp only [hb]
      exact ⟨g.channelBuffers, rfl⟩
    · simp only [hb]
      split_ifs
      · rcases Option.eq_none_or_eq_some (bufs.getD p.chan.toNat none) with hc | ⟨buf, hc⟩
        · simp only [hc]
          exact ⟨g.channelBuffers, rfl⟩
        · simp only [hc]
          exact ⟨_, rfl⟩
      · exact ⟨g.channelBuffers, rfl⟩

/-- One iteration of the sample loop changes the output memory of the granulator only. -/
theorem mixStep_frame (i : Int) (s : MixState) :
    ∃ cb : Option (List (Option (List mdefloat))),
      (mixStep i s).parent = { s.parent with channelBuffers := cb } := by
  unfold mixStep
  simp only []
  by_cases h1 : s.gg.firstDelayCounter < s.gg.firstDelay
  · rw [if_pos h1]
    exact ⟨s.parent.channelBuffers, rfl⟩
  · rw [if_neg h1]
    by_cases he : mdeGranularGrainExhausted s.gg = true
    · simp only [if_pos he]
      split_ifs <;>
        first
          | exact ⟨s.parent.channelBuffers, rfl⟩
          | exact mixInto_frame _ _ _
    · simp only [if_neg he]
      split_ifs <;>
        first
          | exact ⟨s.parent.channelBuffers, rfl⟩
          | exact mixInto_frame _ _ _

/-- The sample loop changes the output memory of the granulator only. -/
theorem mixLoop_frame (n : Nat) :
    ∀ (i : Int) (s : MixState), ∃ cb : Option (List (Option (List mdefloat))),
      (mixLoop n i s).parent = { s.parent with channelBuffers := cb } := by
  induction n with
  | zero => intro i s; exact ⟨s.parent.channelBuffers, rfl⟩
  | succ n ih =>
    intro i s
    simp only [mixLoop]
    obtain ⟨cb1, e1⟩ := mixStep_frame i s
    obtain ⟨cb2, e2⟩ := ih (i + 1) (mixStep i s)
    rw [e2, e1]
    exact ⟨cb2, rfl⟩

/-- `mdeGranularGrainMixIn` changes the output memory of the granulator only. -/
theorem mixIn_frame (gg : mdeGranularGrain) (parent : mdeGranular) (w : Option SamplePtr)
    (howMany : Int) (rs : RandSource) :
    ∃ cb : Option (List (Option (List mdefloat))),
      (mdeGranularGrainMixIn gg parent w howMany rs).2.1 = { parent with channelBuffers := cb } := by
  unfold mdeGranularGrainMixIn
  split_ifs
  · exact mixLoop_frame _ _ _
  · exact ⟨parent.channelBuffers, rfl⟩

/-- The loop over the voices changes the output memory and the grains only. -/
theorem goMixLoop_frame (t : Int) (n : Nat) :
    ∀ (i : Int) (g : mdeGranular) (rs : RandSource),
      ∃ (cb : Option (List (Option (List mdefloat)))) (gr : Option (List mdeGranularGrain)),
        (goMixLoop t n i g rs).1 = { g with channelBuffers := cb, grains := gr } := by
  induction n with
  | zero => intro i g rs; exact ⟨g.channelBuffers, g.grains, rfl⟩
  | succ n ih =>
    intro i g rs
    simp only [goMixLoop]
    cases hg : g.grains with
    | none => exact ⟨g.channelBuffers, none, by simp only []; rw [← hg]⟩
    | some gs =>
      simp only []
      obtain ⟨cb1, e1⟩ := mixIn_frame (peekGrain gs i) g
        (channelPtr g (peekGrain gs i).channel 0) (cInt t) rs
      obtain ⟨cb2, gr2, e2⟩ := ih (i + 1)
        { (mdeGranularGrainMixIn (peekGrain gs i) g (channelPtr g (peekGrain gs i).channel 0)
            (cInt t) rs).2.1 with
          grains := some (pokeGrain gs i
            (mdeGranularGrainMixIn (peekGrain gs i) g (channelPtr g (peekGrain gs i).channel 0)
              (cInt t) rs).1) }
        (mdeGranularGrainMixIn (peekGrain gs i) g (channelPtr g (peekGrain gs i).channel 0)
            (cInt t) rs).2.2
      rw [e2, e1]
      exact ⟨cb2, gr2, rfl⟩

/-- One call of `mdeGranularGetAmpForStatus` changes `status` and `statusRampIndex` only. -/
theorem getAmpForStatus_frame (g : mdeGranular) :
    ∃ (st : t_status) (idx : Int),
      (mdeGranularGetAmpForStatus g).2 = { g with status := st, statusRampIndex := idx } := by
  cases g with
  | mk f_samplingRate f_maxVoices f_activeVoices f_transpositionOffsetST f_transpositionOffset
      f_numTranspositions f_transpositions f_srcs f_grainLengthMS f_grainLength f_grainLengthDeviation
      f_BufferName f_numChannels f_activeChannels f_channelBuffers f_signalIn f_nOutputSamples
      f_grains f_theSamples f_samples f_nBufferSamples f_nAllocatedBufferSamples f_AllocatedBufferMS
      f_BufferSamplesMS f_samplesStartMS f_samplesStart f_samplesEndMS f_samplesEnd f_rampLenMS
      f_rampLenSamples f_rampUp f_rampDown f_density f_status f_grainAmp f_lastGrainAmp
      f_targetGrainAmp f_grainAmpInc f_grainAmps f_statusRampIndex f_live f_liveIndex f_rampType
      f_octaveSize f_octaveDivisions f_warnings f_portionPosition f_portionWidth =>
    cases f_status
    case STARTING =>
      cases f_rampUp <;>
        (simp only [mdeGranularGetAmpForStatus]; split_ifs <;> exact ⟨_, _, rfl⟩)
    case STOPPING =>
      simp only [mdeGranularGetAmpForStatus, forceGrainReinit_noop]
      split_ifs <;> exact ⟨_, _, rfl⟩
    all_goals exact ⟨_, _, rfl⟩

/-- The fade block changes `status`, `statusRampIndex` and the output memory only. -/
theorem goFadeLoop_frame (n : Nat) :
    ∀ (i : Int) (g : mdeGranular),
      ∃ (st : t_status) (idx : Int) (cb : Option (List (Option (List mdefloat)))),
        goFadeLoop n i g = { g with status := st, statusRampIndex := idx, channelBuffers := cb } := by
  induction n with
  | zero => intro i g; exact ⟨g.status, g.statusRampIndex, g.channelBuffers, rfl⟩
  | succ n ih =>
    intro i g
    obtain ⟨st1, idx1, e1⟩ := getAmpForStatus_frame g
    simp only [goFadeLoop]
    cases hb : (mdeGranularGetAmpForStatus g).2.channelBuffers with
    | none =>
      simp only []
      obtain ⟨st2, idx2, cb2, e2⟩ := ih (i + 1) (mdeGranularGetAmpForStatus g).2
      rw [e2, e1]
      exact ⟨st2, idx2, cb2, rfl⟩
    | some bufs =>
      simp only []
      obtain ⟨st2, idx2, cb2, e2⟩ := ih (i + 1)
        { (mdeGranularGetAmpForStatus g).2 with
          channelBuffers := some (goFadeChannels i (mdeGranularGetAmpForStatus g).1
            (mdeGranularGetAmpForStatus g).2.activeChannels.toNat 0 bufs) }
      rw [e2, e1]
      exact ⟨st2, idx2, cb2, rfl⟩

/-- After the amplitude block, `mdeGranularGo` changes neither the amplitude state nor the
amplitude table. -/
theorem go_amp_frame (g : mdeGranular) (rs : RandSource) :
    (mdeGranularGo g rs).1.grainAmp = (goGrainAmps g.nOutputSamples g).grainAmp ∧
    (mdeGranularGo g rs).1.targetGrainAmp = (goGrainAmps g.nOutputSamples g).targetGrainAmp ∧
    (mdeGranularGo g rs).1.grainAmps = (goGrainAmps g.nOutputSamples g).grainAmps := by
  obtain ⟨cb0, e0⟩ := goSilence_frame g.nOutputSamples (goGrainAmps g.nOutputSamples g)
  obtain ⟨cb1, gr1, e1⟩ := goMixLoop_frame g.nOutputSamples
    (goSilence g.nOutputSamples (goGrainAmps g.nOutputSamples g)).maxVoices.toNat 0
    (goSilence g.nOutputSamples (goGrainAmps g.nOutputSamples g)) rs
  obtain ⟨st2, idx2, cb2, e2⟩ := goFadeLoop_frame g.nOutputSamples.toNat 0 (goMixed g rs).1
  have em : (goMixed g rs).1 = (goMixLoop g.nOutputSamples
    (goSilence g.nOutputSamples (goGrainAmps g.nOutputSamples g)).maxVoices.toNat 0
    (goSilence g.nOutputSamples (goGrainAmps g.nOutputSamples g)) rs).1 := rfl
  unfold mdeGranularGo
  simp only []
  split_ifs
  · dsimp only
    rw [e2, em, e1, e0]
    exact ⟨rfl, rfl, rfl⟩
  · rw [em, e1, e0]
    exact ⟨rfl, rfl, rfl⟩
  · rw [e0]
    exact ⟨rfl, rfl, rfl⟩

/-- The amplitude loop of `mdeGranularGo` during a glide from `a` to `f`. -/
theorem goGrainAmpsLoop_glide (a f : mdefloat) (N : Int) (hN : 1 ≤ N) (ha : 0 ≤ a) (hf : 0 ≤ f)
    (hne : a ≠ f) (m : Nat) :
    ∀ (i : Int) (s : mdeGranular) (amps : List mdefloat), 0 ≤ i → i + (m : Int) ≤ N + 1 →
      s.lastGrainAmp = a → s.targetGrainAmp = f → s.grainAmpInc = (f - a) / (N : mdefloat) →
      s.grainAmp = a + ((min i N : Int) : mdefloat) * ((f - a) / (N : mdefloat)) →
      s.grainAmps = some amps → i + (m : Int) ≤ amps.length →
      (goGrainAmpsLoop m i s).grainAmp
        = a + ((min (i + (m : Int)) N : Int) : mdefloat) * ((f - a) / (N : mdefloat)) ∧
      (goGrainAmpsLoop m i s).targetGrainAmp = f ∧
      ∃ amps2 : List mdefloat, (goGrainAmpsLoop m i s).grainAmps = some amps2 ∧
        amps2.length = amps.length ∧
        ∀ j : Int, (i ≤ j → j < i + (m : Int) →
            peek amps2 j = a + (j : mdefloat) * ((f - a) / (N : mdefloat))) ∧
          (¬ (i ≤ j ∧ j < i + (m : Int)) → peek amps2 j = peek amps j) := by
  have hNq : (0 : mdefloat) < (N : mdefloat) := by
    have : (1 : mdefloat) ≤ (N : mdefloat) := by exact_mod_cast hN
    linarith
  induction m with
  | zero =>
    intro i s amps _ _ _ ht _ hg hamps _
    simp only [goGrainAmpsLoop, Nat.cast_zero, add_zero]
    refine ⟨hg, ht, amps, hamps, rfl, fun j => ⟨fun h1 h2 => by omega, fun _ => rfl⟩⟩
  | succ m ih =>
    intro i s amps hi0 him hl ht hinc hg hamps hlen
    push_cast at him hlen
    have hiN : i ≤ N := by omega
    have hmin : min i N = i := min_eq_left hiN
    rw [hmin] at hg
    -- position of the amplitude between a and f
    have hfrac0 : (0 : mdefloat) ≤ (i : mdefloat) := by exact_mod_cast hi0
    have hfracN : (i : mdefloat) ≤ (N : mdefloat) := by exact_mod_cast hiN
    have hat : mdeGranularAtTargetGrainAmp s = true ↔ i = N := by
      rw [atTarget_iff, hl, ht, hg]
      constructor
      · intro h
        by_contra hc
        have hlt : (i : mdefloat) < (N : mdefloat) := by
          have : i < N := lt_of_le_of_ne hiN hc
          exact_mod_cast this
        have key : a + (i : mdefloat) * ((f - a) / (N : mdefloat)) - f
            = (a - f) * (((N : mdefloat) - (i : mdefloat)) / (N : mdefloat)) := by
          field_simp
          ring
        have hpos : 0 < ((N : mdefloat) - (i : mdefloat)) / (N : mdefloat) :=
          div_pos (by linarith) hNq
        rcases h with ⟨h1, h2⟩ | ⟨h1, h2⟩
        · have hlt2 : a - f < 0 := by
            rcases lt_or_eq_of_le h1 with h | h
            · linarith
            · exact absurd h hne
          have : a + (i : mdefloat) * ((f - a) / (N : mdefloat)) - f < 0 := by
            rw [key]; exact mul_neg_of_neg_of_pos hlt2 hpos
          linarith
        · have hlt2 : 0 < a - f := by
            rcases lt_or_eq_of_le h1 with h | h
            · linarith
            · exact absurd h.symm hne
          have : 0 < a + (i : mdefloat) * ((f - a) / (N : mdefloat)) - f := by
            rw [key]; exact mul_pos hlt2 hpos
          linarith
      · intro h
        subst h
        have : a + (i : mdefloat) * ((f - a) / (i : mdefloat)) = f := by
          field_simp
        rw [this]
        rcases le_total a f with h | h
        · exact Or.inl ⟨h, le_refl _⟩
        · exact Or.inr ⟨h, le_refl _⟩
    have hret : (mdeGranularGetGrainAmpAndInc s).1
        = a + (i : mdefloat) * ((f - a) / (N : mdefloat)) := by
      unfold mdeGranularGetGrainAmpAndInc
      exact hg
    -- amplitude stays between a and f, hence non-negative
    have hbetween : ∀ t : mdefloat, 0 ≤ t → t ≤ (N : mdefloat) →
        0 ≤ a + t * ((f - a) / (N : mdefloat)) := by
      intro t t0 t1
      have key : a + t * ((f - a) / (N : mdefloat))
          = a * (((N : mdefloat) - t) / (N : mdefloat)) + f * (t / (N : mdefloat)) := by
        field_simp
        ring
      rw [key]
      have h1 : 0 ≤ ((N : mdefloat) - t) / (N : mdefloat) := div_nonneg (by linarith) hNq.le
      have h2 : 0 ≤ t / (N : mdefloat) := div_nonneg t0 hNq.le
      exact add_nonneg (mul_nonneg ha h1) (mul_nonneg hf h2)
    have hstate : (mdeGranularGetGrainAmpAndInc s).2 =
        { s with grainAmp := a + ((min (i + 1) N : Int) : mdefloat) * ((f - a) / (N : mdefloat)) } := by
      by_cases hc : i = N
      · rw [getGrainAmp_at_target s (hat.mpr hc) (by rw [hg]; exact hbetween _ hfrac0 hfracN)]
        have : min (i + 1) N = i := by rw [hc]; exact min_eq_right (by omega)
        rw [this, ← hg]
      · rw [getGrainAmp_gliding s (fun h => hc (hat.mp h))]
        have hlt : i + 1 ≤ N := by omega
        have : min (i + 1) N = i + 1 := min_eq_left hlt
        rw [this, hg, hinc]
        have e : a + (i : mdefloat) * ((f - a) / (N : mdefloat)) + (f - a) / (N : mdefloat)
            = a + ((i + 1 : Int) : mdefloat) * ((f - a) / (N : mdefloat)) := by
          push_cast; ring
        rw [e]
        have h0 : 0 ≤ a + ((i + 1 : Int) : mdefloat) * ((f - a) / (N : mdefloat)) :=
          hbetween _ (by exact_mod_cast (show (0 : Int) ≤ i + 1 by omega))
            (by exact_mod_cast hlt)
        rw [if_neg (not_lt.mpr h0)]
    simp only [goGrainAmpsLoop]
    rw [hret, hstate]
    have hlen2 : i + 1 + (m : Int) ≤ ((poke amps i (a + (i : mdefloat) * ((f - a) / (N : mdefloat)))).length : Int) := by
      rw [length_poke]; omega
    obtain ⟨r1, r2, amps2, r3, r4, r5⟩ := ih (i + 1)
      { s with
        grainAmp := a + ((min (i + 1) N : Int) : mdefloat) * ((f - a) / (N : mdefloat)),
        grainAmps := some (poke amps i (a + (i : mdefloat) * ((f - a) / (N : mdefloat)))) }
      (poke amps i (a + (i : mdefloat) * ((f - a) / (N : mdefloat))))
      (by omega) (by omega) hl ht hinc
      rfl rfl hlen2
    have hs : ({ s with
        grainAmp := a + ((min (i + 1) N : Int) : mdefloat) * ((f - a) / (N : mdefloat)) }
          : mdeGranular).grainAmps.map (fun amps => poke amps i
            (a + (i : mdefloat) * ((f - a) / (N : mdefloat))))
        = some (poke amps i (a + (i : mdefloat) * ((f - a) / (N : mdefloat)))) := by
      dsimp only
      rw [hamps]
      rfl
    rw [hs]
    refine ⟨?_, r2, amps2, r3, ?_, ?_⟩
    · have e : i + 1 + (m : Int) = i + ((m + 1 : Nat) : Int) := by push_cast; ring
      rw [r1, e]
    · rw [r4, length_poke]
    · intro j
      refine ⟨?_, ?_⟩
      · intro h1 h2
        push_cast at h2
        by_cases hj : j = i
        · subst hj
          rw [(r5 j).2 (by omega), peek_poke_same _ _ _ hi0 (by omega)]
        · exact (r5 j).1 (by omega) (by omega)
      · intro h
        push_cast at h
        rw [(r5 j).2 (by omega), peek_poke_ne _ _ _ _ (by omega)]

/-- One tick of glide in exact arithmetic: let the amplitude table hold at least
`n = nOutputSamples >= 2` cells and let `mdeGranularSetGrainAmp(g, f)` be accepted with
`0.00001 <= f <= 100` from the amplitude `a = grainAmp >= 0`, `a` differing from `f`.  Then
the next `mdeGranularGo` fills `grainAmps[i] = a + i * (f - a) / (n - 1)` for `0 <= i < n`
and leaves `grainAmp = targetGrainAmp = f`.  Sums are exact here. -/
theorem glide_one_tick_exact (g : mdeGranular) (f : mdefloat) (amps : List mdefloat)
    (rs : RandSource)
    (hamps : g.grainAmps = some amps) (hlen : g.nOutputSamples ≤ amps.length)
    (hn : 2 ≤ g.nOutputSamples) (hf0 : 1 / 100000 ≤ f) (hf1 : f ≤ 100)
    (hat : mdeGranularAtTargetGrainAmp g = true)
    (hdiff : fabs (g.targetGrainAmp - f) > 1 / 100000)
    (ha : 0 ≤ g.grainAmp) (hne : g.grainAmp ≠ f) :
    (∀ i : Int, 0 ≤ i → i < g.nOutputSamples →
      peek ((mdeGranularGo (mdeGranularSetGrainAmp g f) rs).1.grainAmps.getD []) i
        = g.grainAmp + (i : mdefloat) * ((f - g.grainAmp) / ((g.nOutputSamples - 1 : Int) : mdefloat))) ∧
    (mdeGranularGo (mdeGranularSetGrainAmp g f) rs).1.grainAmp = f ∧
    (mdeGranularGo (mdeGranularSetGrainAmp g f) rs).1.targetGrainAmp = f := by
  have hfpos : (0 : mdefloat) ≤ f := by linarith
  have hset := setGrainAmp_accepted g f hfpos hf1 hat hdiff
  rw [if_neg (not_lt.mpr hf0)] at hset
  have hl : (mdeGranularSetGrainAmp g f).lastGrainAmp = g.grainAmp := by rw [hset]
  have ht : (mdeGranularSetGrainAmp g f).targetGrainAmp = f := by rw [hset]
  have hi : (mdeGranularSetGrainAmp g f).grainAmpInc
      = (f - g.grainAmp) / ((g.nOutputSamples - 1 : Int) : mdefloat) := by rw [hset]
  have hg : (mdeGranularSetGrainAmp g f).grainAmp = g.grainAmp := by rw [hset]
  have hA : (mdeGranularSetGrainAmp g f).grainAmps = some amps := by rw [hset]; exact hamps
  have hO : (mdeGranularSetGrainAmp g f).nOutputSamples = g.nOutputSamples := by rw [hset]
  obtain ⟨e1, e2, e3⟩ := go_amp_frame (mdeGranularSetGrainAmp g f) rs
  rw [e1, e2, e3, hO]
  have hnot : ¬ mdeGranularAtTargetGrainAmp (mdeGranularSetGrainAmp g f) = true := by
    rw [atTarget_iff, hl, ht, hg]
    rintro (⟨h1, h2⟩ | ⟨h1, h2⟩)
    · exact hne (le_antisymm h1 h2)
    · exact hne (le_antisymm h2 h1)
  have hgo : goGrainAmps g.nOutputSamples (mdeGranularSetGrainAmp g f)
      = goGrainAmpsLoop g.nOutputSamples.toNat 0 (mdeGranularSetGrainAmp g f) := by
    unfold goGrainAmps
    simp only [hA]
    rw [if_pos (fun h => hnot h.1)]
  rw [hgo]
  have hnn : ((g.nOutputSamples.toNat : Nat) : Int) = g.nOutputSamples :=
    Int.toNat_of_nonneg (by omega)
  obtain ⟨r1, r2, amps2, r3, _, r5⟩ := goGrainAmpsLoop_glide g.grainAmp f (g.nOutputSamples - 1)
    (by omega) ha hfpos hne g.nOutputSamples.toNat 0 (mdeGranularSetGrainAmp g f) amps
    (le_refl _) (by rw [hnn]; omega) hl ht hi
    (by
      rw [hg, min_eq_left (by omega : (0 : Int) ≤ g.nOutputSamples - 1)]
      simp)
    hA (by rw [hnn]; omega)
  refine ⟨?_, ?_, r2⟩
  · intro i hi0 hi1
    rw [r3]
    exact (r5 i).1 hi0 (by rw [hnn]; omega)
  · rw [r1, hnn, zero_add, min_eq_right (by omega)]
    have hq : (((g.nOutputSamples - 1 : Int) : mdefloat)) ≠ 0 := by
      have : (g.nOutputSamples - 1 : Int) ≠ 0 := by omega
      exact_mod_cast this
    rw [mul_div_cancel₀ _ hq]
    ring

/-- Reading an output sample through a non-null `channelBuffers`. -/
theorem outSample_some (g : mdeGranular) (bufs : List (Option (List mdefloat))) (j k : Int)
    (h : g.channelBuffers = some bufs) :
    outSample g j k = ((peekChan bufs j).map (fun b => peek b k)).getD 0 := by
  unfold outSample
  rw [h]
  rcases Option.eq_none_or_eq_some (peekChan bufs j) with hb | ⟨buf, hb⟩
  · simp only [hb, Option.map_none', Option.getD_none]
  · simp only [hb, Option.map_some', Option.getD_some]

/-- Without `channelBuffers` every output sample reads 0. -/
theorem outSample_none (g : mdeGranular) (j k : Int) (h : g.channelBuffers = none) :
    outSample g j k = 0 := by
  unfold outSample
  rw [h]

/-- The statement `*samp *= v` on cell `i` of a block. -/
theorem peek_poke_scale (buf : List mdefloat) (i k : Int) (v : mdefloat) :
    peek (poke buf i (peek buf i * v)) k = if k = i then peek buf k * v else peek buf k := by
  by_cases hk : k = i
  · subst hk
    rw [if_pos rfl]
    by_cases hr : 0 ≤ k ∧ k < buf.length
    · exact peek_poke_same _ _ _ hr.1 hr.2
    · have h0 : peek buf k = 0 := by
        unfold peek
        split_ifs with h
        · rw [List.getD_eq_default]
          have : ¬ k < buf.length := fun hh => hr ⟨h, hh⟩
          omega
        · rfl
      have hp : poke buf k (peek buf k * v) = buf := by
        unfold poke
        split_ifs with h
        · apply List.set_eq_of_length_le
          have : ¬ k < buf.length := fun hh => hr ⟨h, hh⟩
          omega
        · rfl
      rw [hp, h0, zero_mul]
  · rw [if_neg hk, peek_poke_ne _ _ _ _ (fun e => hk e.symm)]

/-- The loop over the active channels in the fade block. -/
theorem goFadeChannels_spec (i : Int) (v : mdefloat) (n : Nat) :
    ∀ (j0 : Int) (bufs : List (Option (List mdefloat))), 0 ≤ j0 → ∀ j k : Int,
      ((peekChan (goFadeChannels i v n j0 bufs) j).map (fun b => peek b k)).getD 0 =
        (if j0 ≤ j ∧ j < j0 + (n : Int) ∧ k = i then
          ((peekChan bufs j).map (fun b => peek b k)).getD 0 * v
         else ((peekChan bufs j).map (fun b => peek b k)).getD 0) := by
  induction n with
  | zero =>
    intro j0 bufs _ j k
    simp only [goFadeChannels, Nat.cast_zero, add_zero]
    rw [if_neg (by omega)]
  | succ n ih =>
    intro j0 bufs h0 j k
    simp only [goFadeChannels]
    push_cast
    rcases Option.eq_none_or_eq_some (peekChan bufs j0) with hb | ⟨buf, hb⟩
    · simp only [hb]
      rw [ih (j0 + 1) bufs (by omega) j k]
      by_cases hj : j = j0
      · subst hj
        rw [if_neg (by omega), hb]
        simp
      · by_cases hc : j0 + 1 ≤ j ∧ j < j0 + 1 + (n : Int) ∧ k = i
        · rw [if_pos hc, if_pos ⟨by omega, by omega, hc.2.2⟩]
        · rw [if_neg hc, if_neg (by omega)]
    · simp only [hb]
      rw [ih (j0 + 1) _ (by omega) j k]
      by_cases hj : j = j0
      · subst hj
        rw [if_neg (by omega), peekChan_pokeChan_same _ _ _ _ hb, hb]
        simp only [Option.map_some', Option.getD_some]
        rw [peek_poke_scale]
        by_cases hk : k = i
        · rw [if_pos hk, if_pos ⟨le_refl _, by omega, hk⟩]
        · rw [if_neg hk, if_neg (fun h => hk h.2.2)]
      · rw [peekChan_pokeChan_ne _ _ _ _ (fun e => hj e.symm)]
        by_cases hc : j0 + 1 ≤ j ∧ j < j0 + 1 + (n : Int) ∧ k = i
        · rw [if_pos hc, if_pos ⟨by omega, by omega, hc.2.2⟩]
        · rw [if_neg hc, if_neg (by omega)]

/-- One sample of the fade block: every active channel is scaled at sample `i`. -/
theorem fade_sample (g : mdeGranular) (bufs : List (Option (List mdefloat))) (i : Int)
    (v : mdefloat) (j k : Int) (hb : g.channelBuffers = some bufs) :
    outSample { g with channelBuffers := some (goFadeChannels i v g.activeChannels.toNat 0 bufs) }
        j k
      = (if 0 ≤ j ∧ j < g.activeChannels ∧ k = i then outSample g j k * v else outSample g j k) := by
  rw [outSample_some _ _ j k rfl, outSample_some g bufs j k hb,
    goFadeChannels_spec i v _ 0 bufs (le_refl _) j k]
  by_cases hc : 0 ≤ j ∧ j < g.activeChannels ∧ k = i
  · rw [if_pos hc, if_pos ⟨hc.1, by omega, hc.2.2⟩]
  · rw [if_neg hc, if_neg (by omega)]

/-- One iteration of the fade block in terms of the value and state of
`mdeGranularGetAmpForStatus`. -/
theorem goFadeLoop_succ (n : Nat) (i : Int) (g : mdeGranular) :
    ∃ g2 : mdeGranular, goFadeLoop (n + 1) i g = goFadeLoop n (i + 1) g2 ∧
      g2.status = (mdeGranularGetAmpForStatus g).2.status ∧
      g2.statusRampIndex = (mdeGranularGetAmpForStatus g).2.statusRampIndex ∧
      g2.rampLenSamples = g.rampLenSamples ∧ g2.rampUp = g.rampUp ∧ g2.rampDown = g.rampDown ∧
      g2.activeChannels = g.activeChannels ∧
      ∀ j k : Int, outSample g2 j k =
        (if 0 ≤ j ∧ j < g.activeChannels ∧ k = i then
          outSample g j k * (mdeGranularGetAmpForStatus g).1
         else outSample g j k) := by
  obtain ⟨st, idx, e⟩ := getAmpForStatus_frame g
  rcases Option.eq_none_or_eq_some (mdeGranularGetAmpForStatus g).2.channelBuffers
    with hb | ⟨bufs, hb⟩
  · refine ⟨(mdeGranularGetAmpForStatus g).2, ?_, rfl, rfl, ?_, ?_, ?_, ?_, ?_⟩
    · simp only [goFadeLoop, hb]
    · rw [e]
    · rw [e]
    · rw [e]
    · rw [e]
    · intro j k
      have hg : g.channelBuffers = none := by rw [e] at hb; exact hb
      rw [outSample_none _ j k hb, outSample_none g j k hg]
      split_ifs <;> simp
  · refine ⟨{ (mdeGranularGetAmpForStatus g).2 with
        channelBuffers := some (goFadeChannels i (mdeGranularGetAmpForStatus g).1
          (mdeGranularGetAmpForStatus g).2.activeChannels.toNat 0 bufs) },
      ?_, rfl, rfl, ?_, ?_, ?_, ?_, ?_⟩
    · simp only [goFadeLoop, hb]
    · rw [e]
    · rw [e]
    · rw [e]
    · rw [e]
    · intro j k
      have hac : (mdeGranularGetAmpForStatus g).2.activeChannels = g.activeChannels := by rw [e]
      have hg : g.channelBuffers = some bufs := by rw [e] at hb; exact hb
      have hout : ∀ j k, outSample (mdeGranularGetAmpForStatus g).2 j k = outSample g j k := by
        intro j k
        rw [outSample_some _ bufs j k hb, outSample_some g bufs j k hg]
      rw [fade_sample (mdeGranularGetAmpForStatus g).2 bufs i _ j k hb, hac, hout]

/-- The fade block once the status is OFF: the remaining samples of the active channels
become 0. -/
theorem goFadeLoop_off (n : Nat) :
    ∀ (i0 : Int) (g : mdeGranular), g.status = t_status.OFF →
      (goFadeLoop n i0 g).status = t_status.OFF ∧
      ∀ j k : Int, outSample (goFadeLoop n i0 g) j k =
        (if 0 ≤ j ∧ j < g.activeChannels ∧ i0 ≤ k ∧ k < i0 + (n : Int) then 0
         else outSample g j k) := by
  induction n with
  | zero =>
    intro i0 g hs
    refine ⟨hs, fun j k => ?_⟩
    simp only [goFadeLoop, Nat.cast_zero, add_zero]
    rw [if_neg (by omega)]
  | succ n ih =>
    intro i0 g hs
    have hv : mdeGranularGetAmpForStatus g = (0, g) := by
      unfold mdeGranularGetAmpForStatus
      rw [hs]
    obtain ⟨g2, e, s1, _, _, _, _, s6, s7⟩ := goFadeLoop_succ n i0 g
    rw [hv] at s1 s7
    obtain ⟨a1, a2⟩ := ih (i0 + 1) g2 (by rw [s1]; exact hs)
    rw [e]
    refine ⟨a1, fun j k => ?_⟩
    rw [a2 j k, s6, s7 j k]
    push_cast
    by_cases hc : 0 ≤ j ∧ j < g.activeChannels ∧ i0 + 1 ≤ k ∧ k < i0 + 1 + (n : Int)
    · have h1 : 0 ≤ j ∧ j < g.activeChannels ∧ i0 ≤ k ∧ k < i0 + ((n : Int) + 1) := by omega
      simp only [if_pos hc, if_pos h1]
    · by_cases hk : 0 ≤ j ∧ j < g.activeChannels ∧ k = i0
      · have h1 : 0 ≤ j ∧ j < g.activeChannels ∧ i0 ≤ k ∧ k < i0 + ((n : Int) + 1) := by omega
        simp only [if_neg hc, if_pos hk, if_pos h1, mul_zero]
      · have h1 : ¬ (0 ≤ j ∧ j < g.activeChannels ∧ i0 ≤ k ∧ k < i0 + ((n : Int) + 1)) := by
          omega
        simp only [if_neg hc, if_neg hk, if_neg h1]

/-- The fade block while the status is STOPPING. -/
theorem goFadeLoop_stopping (n : Nat) :
    ∀ (i0 : Int) (g : mdeGranular), g.status = t_status.STOPPING →
      (1 ≤ n → g.rampLenSamples ≤ g.statusRampIndex + (n : Int) →
        (goFadeLoop n i0 g).status = t_status.OFF) ∧
      ∀ j k : Int, outSample (goFadeLoop n i0 g) j k =
        (if 0 ≤ j ∧ j < g.activeChannels ∧ i0 ≤ k ∧ k < i0 + (n : Int) then
          outSample g j k *
            (if g.statusRampIndex + (k - i0) + 1 < g.rampLenSamples then
              peekRampDown g (g.statusRampIndex + (k - i0)) else 0)
         else outSample g j k) := by
  induction n with
  | zero =>
    intro i0 g _
    refine ⟨fun h => absurd h (by decide), fun j k => ?_⟩
    simp only [goFadeLoop, Nat.cast_zero, add_zero]
    rw [if_neg (by omega)]
  | succ n ih =>
    intro i0 g hs
    obtain ⟨g2, e, s1, s2, s3, s4, s5, s6, s7⟩ := goFadeLoop_succ n i0 g
    rw [e]
    push_cast
    by_cases hc : g.statusRampIndex + 1 ≥ g.rampLenSamples
    · -- the ramp ends at this sample
      have hv : mdeGranularGetAmpForStatus g
          = (0, { g with status := t_status.OFF, statusRampIndex := 0 }) := by
        unfold mdeGranularGetAmpForStatus
        rw [hs]
        simp only [hc, if_true, forceGrainReinit_noop]
      rw [hv] at s1 s7
      obtain ⟨a1, a2⟩ := goFadeLoop_off n (i0 + 1) g2 s1
      refine ⟨fun _ _ => a1, fun j k => ?_⟩
      rw [a2 j k, s6, s7 j k]
      by_cases hr : 0 ≤ j ∧ j < g.activeChannels ∧ i0 + 1 ≤ k ∧ k < i0 + 1 + (n : Int)
      · have h1 : 0 ≤ j ∧ j < g.activeChannels ∧ i0 ≤ k ∧ k < i0 + ((n : Int) + 1) := by omega
        have h2 : ¬ g.statusRampIndex + (k - i0) + 1 < g.rampLenSamples := by omega
        simp only [if_pos hr, if_pos h1, if_neg h2, mul_zero]
      · by_cases hk : 0 ≤ j ∧ j < g.activeChannels ∧ k = i0
        · have h1 : 0 ≤ j ∧ j < g.activeChannels ∧ i0 ≤ k ∧ k < i0 + ((n : Int) + 1) := by omega
          have h2 : ¬ g.statusRampIndex + (k - i0) + 1 < g.rampLenSamples := by omega
          simp only [if_neg hr, if_pos hk, if_pos h1, if_neg h2]
        · have h1 : ¬ (0 ≤ j ∧ j < g.activeChannels ∧ i0 ≤ k ∧ k < i0 + ((n : Int) + 1)) := by
            omega
          simp only [if_neg hr, if_neg hk, if_neg h1]
    · have hv : mdeGranularGetAmpForStatus g
          = (peekRampDown g g.statusRampIndex,
              { g with statusRampIndex := g.statusRampIndex + 1 }) := by
        unfold mdeGranularGetAmpForStatus
        rw [hs]
        simp only [hc, if_false]
      rw [hv] at s1 s2 s7
      have hs2 : g2.status = t_status.STOPPING := by rw [s1]; exact hs
      have hidx : g2.statusRampIndex = g.statusRampIndex + 1 := s2
      have hpr : ∀ x : Int, peekRampDown g2 x = peekRampDown g x := by
        intro x
        unfold peekRampDown
        rw [s4, s5]
      obtain ⟨a1, a2⟩ := ih (i0 + 1) g2 hs2
      refine ⟨fun _ hL => a1 (by omega) (by rw [s3, hidx]; omega), fun j k => ?_⟩
      rw [a2 j k, s6, s7 j k, s3, hidx]
      have e1 : g.statusRampIndex + 1 + (k - (i0 + 1)) = g.statusRampIndex + (k - i0) := by ring
      rw [e1, hpr]
      by_cases hr : 0 ≤ j ∧ j < g.activeChannels ∧ i0 + 1 ≤ k ∧ k < i0 + 1 + (n : Int)
      · have h1 : 0 ≤ j ∧ j < g.activeChannels ∧ i0 ≤ k ∧ k < i0 + ((n : Int) + 1) := by omega
        have h2 : ¬ (0 ≤ j ∧ j < g.activeChannels ∧ k = i0) := by omega
        simp only [if_pos hr, if_pos h1, if_neg h2]
      · by_cases hk : 0 ≤ j ∧ j < g.activeChannels ∧ k = i0
        · have h1 : 0 ≤ j ∧ j < g.activeChannels ∧ i0 ≤ k ∧ k < i0 + ((n : Int) + 1) := by omega
          have hki : k = i0 := hk.2.2
          have h2 : g.statusRampIndex + (k - i0) + 1 < g.rampLenSamples := by omega
          simp only [if_neg hr, if_pos hk, if_pos h1, if_pos h2]
          rw [hki, sub_self, add_zero]
        · have h1 : ¬ (0 ≤ j ∧ j < g.activeChannels ∧ i0 ≤ k ∧ k < i0 + ((n : Int) + 1)) := by
            omega
          simp only [if_neg hr, if_neg hk, if_neg h1]

/-- C34 (amended): in a tick that begins with status STOPPING, with the grain array present,
`nOutputSamples >= 1`, `statusRampIndex = s` and `rampLenSamples - s = r <= nOutputSamples`,
`mdeGranularGo` ends with status OFF; sample `i` of every active channel
(`0 <= j < activeChannels`) is the mixed value times `rampDown[s + i]` for `i < r - 1` and
times 0 for `i >= r - 1`; channels `j >= activeChannels` keep the mixed value. -/
theorem go_stopping_fade (g : mdeGranular) (rs : RandSource)
    (hs : g.status = t_status.STOPPING) (hg : g.grains.isSome = true)
    (hn : 1 ≤ g.nOutputSamples)
    (hr : g.rampLenSamples - g.statusRampIndex ≤ g.nOutputSamples) :
    (mdeGranularGo g rs).1.status = t_status.OFF ∧
    (∀ i j : Int, 0 ≤ i → i < g.nOutputSamples →
      (0 ≤ j → j < g.activeChannels →
        outSample (mdeGranularGo g rs).1 j i
          = outSample (goMixed g rs).1 j i *
              (if i < g.rampLenSamples - g.statusRampIndex - 1 then
                peekRampDown g (g.statusRampIndex + i) else 0)) ∧
      (g.activeChannels ≤ j →
        outSample (mdeGranularGo g rs).1 j i = outSample (goMixed g rs).1 j i)) := by
  obtain ⟨a, amps, e⟩ := goSilence_goGrainAmps g
  obtain ⟨cb1, gr1, e1⟩ := goMixLoop_frame g.nOutputSamples
    (goSilence g.nOutputSamples (goGrainAmps g.nOutputSamples g)).maxVoices.toNat 0
    (goSilence g.nOutputSamples (goGrainAmps g.nOutputSamples g)) rs
  have em : (goMixed g rs).1 = (goMixLoop g.nOutputSamples
    (goSilence g.nOutputSamples (goGrainAmps g.nOutputSamples g)).maxVoices.toNat 0
    (goSilence g.nOutputSamples (goGrainAmps g.nOutputSamples g)) rs).1 := rfl
  have m1 : (goMixed g rs).1.status = t_status.STOPPING := by rw [em, e1, e]; exact hs
  have m2 : (goMixed g rs).1.statusRampIndex = g.statusRampIndex := by rw [em, e1, e]
  have m3 : (goMixed g rs).1.rampLenSamples = g.rampLenSamples := by rw [em, e1, e]
  have m4 : (goMixed g rs).1.rampUp = g.rampUp := by rw [em, e1, e]
  have m5 : (goMixed g rs).1.rampDown = g.rampDown := by rw [em, e1, e]
  have m6 : (goMixed g rs).1.activeChannels = g.activeChannels := by rw [em, e1, e]
  have hgo : (mdeGranularGo g rs).1 = goFadeLoop g.nOutputSamples.toNat 0 (goMixed g rs).1 := by
    unfold mdeGranularGo
    simp only []
    have hc : (goSilence g.nOutputSamples (goGrainAmps g.nOutputSamples g)).status.toInt ≠ 0 ∧
        (goSilence g.nOutputSamples (goGrainAmps g.nOutputSamples g)).grains.isSome = true := by
      rw [e]
      dsimp only
      rw [hs]
      exact ⟨by decide, hg⟩
    rw [if_pos hc, if_pos (Or.inr m1)]
  have hnn : ((g.nOutputSamples.toNat : Nat) : Int) = g.nOutputSamples :=
    Int.toNat_of_nonneg (by omega)
  obtain ⟨a1, a2⟩ := goFadeLoop_stopping g.nOutputSamples.toNat 0 (goMixed g rs).1 m1
  have hpr : ∀ x : Int, peekRampDown (goMixed g rs).1 x = peekRampDown g x := by
    intro x
    unfold peekRampDown
    rw [m4, m5]
  rw [hgo]
  refine ⟨a1 (by omega) (by rw [m2, m3, hnn]; omega), ?_⟩
  intro i j hi0 hi1
  rw [a2 j i, m2, m3, m6, hnn, hpr, sub_zero, zero_add]
  refine ⟨fun hj0 hj1 => ?_, fun hj => ?_⟩
  · rw [if_pos ⟨hj0, hj1, hi0, hi1⟩]
    by_cases hc : i < g.rampLenSamples - g.statusRampIndex - 1
    · rw [if_pos hc, if_pos (by omega)]
    · rw [if_neg hc, if_neg (by omega)]
  · rw [if_neg (by omega)]

/-- Witness for C34 (amended): the example granulator stopping, ramp of two samples. -/
theorem go_stopping_fade_witness :
    (mdeGranularGo stoppingGranular exampleRand).1.status = t_status.OFF :=
  (go_stopping_fade stoppingGranular exampleRand rfl rfl (by decide) (by decide)).1

/-- C34 (as stated) fails without grains: the fade block is inside
`if (g->status && g->grains)`, so with `grains == NULL` a tick that begins with status
STOPPING, `statusRampIndex = 0` and `rampLenSamples = 2 <= nOutputSamples = 2` never calls
`mdeGranularGetAmpForStatus` and ends with status STOPPING, not OFF. -/
theorem go_stopping_needs_grains :
    ({ stoppingGranular with grains := none } : mdeGranular).status = t_status.STOPPING ∧
    ({ stoppingGranular with grains := none } : mdeGranular).statusRampIndex = 0 ∧
    ({ stoppingGranular with grains := none } : mdeGranular).rampLenSamples - 0
      ≤ ({ stoppingGranular with grains := none } : mdeGranular).nOutputSamples ∧
    (mdeGranularGo { stoppingGranular with grains := none } exampleRand).1.status
      = t_status.STOPPING ∧
    (mdeGranularGo { stoppingGranular with grains := none } exampleRand).1.status
      ≠ t_status.OFF := by
  have h : (mdeGranularGo { stoppingGranular with grains := none } exampleRand).1.status
      = t_status.STOPPING := by
    rw [go_without_mixing _ _ (Or.inr rfl)]
    obtain ⟨a, amps, e⟩ := goSilence_goGrainAmps
      ({ stoppingGranular with grains := none } : mdeGranular)
    dsimp only at e ⊢
    rw [e]
    rfl
  refine ⟨rfl, rfl, by decide, h, ?_⟩
  rw [h]
  decide

/-- After `silence(where, n)` each of the first `n` cells of the block holds 0. -/
theorem silence_zero (buf : List mdefloat) (n : Int) (k : Nat) (h1 : (k : Int) < n)
    (h2 : k < buf.length) : (silence buf n)[k]? = some 0 := by
  unfold silence
  have hk2 : k < (Nat.min n.toNat buf.length) := by
    apply lt_min
    · omega
    · exact h2
  rw [List.getElem?_append_left (by rw [List.length_replicate]; exact hk2),
    List.getElem?_replicate, if_pos hk2]

/-- The function `silence(where, n)` leaves the cells from `n` on as they were. -/
theorem silence_rest (buf : List mdefloat) (n : Int) (k : Nat) (h1 : n ≤ (k : Int)) :
    (silence buf n)[k]? = buf[k]? := by
  by_cases hk : k < buf.length
  · unfold silence
    have hm : Nat.min n.toNat buf.length = n.toNat := by
      have h : Nat.min n.toNat buf.length = min n.toNat buf.length := rfl
      rw [h]
      omega
    rw [hm, List.getElem?_append_right (by rw [List.length_replicate]; omega),
      List.length_replicate, List.getElem?_drop]
    congr 1
    omega
  · rw [List.getElem?_eq_none (by rw [length_silence]; omega),
      List.getElem?_eq_none (by omega)]

/-- C33: when the status is OFF or the grain array is absent (`nOutputSamples` a
non-negative `int`), `mdeGranularGo` changes neither the grains nor the status; every one of
the `numChannels` channel buffers is its old block after `silence(buffer, nOutputSamples)`:
a block of the same size whose first `nOutputSamples` cells hold 0, whatever they held
before, and whose later cells are as they were; the buffers beyond `numChannels` are
untouched; every sample `(j, k)` with `j < numChannels`, `k < nOutputSamples` reads 0. -/
theorem go_off_silence (g : mdeGranular) (rs : RandSource)
    (h : g.status = t_status.OFF ∨ g.grains = none)
    (hn0 : 0 ≤ g.nOutputSamples) (hn1 : g.nOutputSamples < 2 ^ 31) :
    (mdeGranularGo g rs).1.grains = g.grains ∧
    (mdeGranularGo g rs).1.status = g.status ∧
    (mdeGranularGo g rs).2 = rs ∧
    (∀ j : Int, 0 ≤ j → j < g.numChannels →
      peekChan ((mdeGranularGo g rs).1.channelBuffers.getD []) j
        = (peekChan (g.channelBuffers.getD []) j).map (fun b => silence b g.nOutputSamples)) ∧
    (∀ (j : Int) (b : List mdefloat), 0 ≤ j → j < g.numChannels →
      peekChan (g.channelBuffers.getD []) j = some b →
      ∃ b2 : List mdefloat,
        peekChan ((mdeGranularGo g rs).1.channelBuffers.getD []) j = some b2 ∧
        b2.length = b.length ∧
        (∀ k : Nat, (k : Int) < g.nOutputSamples → k < b.length → b2[k]? = some 0) ∧
        (∀ k : Nat, g.nOutputSamples ≤ (k : Int) → b2[k]? = b[k]?)) ∧
    (∀ j : Int, g.numChannels ≤ j →
      peekChan ((mdeGranularGo g rs).1.channelBuffers.getD []) j
        = peekChan (g.channelBuffers.getD []) j) ∧
    (∀ j k : Int, 0 ≤ j → j < g.numChannels → 0 ≤ k → k < g.nOutputSamples →
      outSample (mdeGranularGo g rs).1 j k = 0) := by
  obtain ⟨h1, h2, h3, h4, h5, h6⟩ := go_off_blocks g rs h hn0 hn1
  refine ⟨h1, h2, h3, h4, ?_, h5, h6⟩
  intro j b hj0 hj1 hb
  refine ⟨silence b g.nOutputSamples, ?_, length_silence _ _, ?_, ?_⟩
  · rw [h4 j hj0 hj1, hb]
    rfl
  · intro k hk1 hk2
    exact silence_zero b _ k hk1 hk2
  · intro k hk
    exact silence_rest b _ k hk

/-- Witness for C33: the example granulator, OFF, with other values than zero in its
output memory. -/
theorem go_off_silence_witness :
    outSample (mdeGranularGo { stoppingGranular with status := t_status.OFF } exampleRand).1 0 1
      = 0 :=
  (go_off_silence { stoppingGranular with status := t_status.OFF } exampleRand (Or.inl rfl)
    (by decide) (by decide)).2.2.2.2.2.2 0 1 (by decide) (by decide) (by decide) (by decide)

/-- The nearest integer: `roundEven q = m` when `q` is nearer to `m` than to any other
integer, or half-way between `m` and a neighbour with `m` even. -/
theorem roundEven_eval (q : ℚ) (m : Int)
    (h : |q - m| < 1 / 2 ∨ (|q - m| = 1 / 2 ∧ m % 2 = 0)) : roundEven q = m := by
  unfold roundEven
  have hf1 := Int.floor_le q
  have hf2 := Int.lt_floor_add_one q
  generalize Int.floor q = n at hf1 hf2 ⊢
  rcases h with h | ⟨h, he⟩
  · rw [abs_lt] at h
    obtain ⟨h1, h2⟩ := h
    by_cases c1 : q - (n : ℚ) < 1 / 2
    · rw [if_pos c1]
      have a1 : (n : ℚ) < m + 1 := by linarith
      have a2 : (m : ℚ) < n + 1 := by linarith
      have b1 : n < m + 1 := by exact_mod_cast a1
      have b2 : m < n + 1 := by exact_mod_cast a2
      omega
    · rw [if_neg c1]
      by_cases c2 : 1 / 2 < q - (n : ℚ)
      · rw [if_pos c2]
        have a1 : (n : ℚ) < m := by linarith
        have a2 : (m : ℚ) < n + 2 := by linarith
        have b1 : n < m := by exact_mod_cast a1
        have b2 : m < n + 2 := by exact_mod_cast a2
        omega
      · exfalso
        have e : q = n + 1 / 2 := by linarith [not_lt.mp c1, not_lt.mp c2]
        have a1 : (n : ℚ) < m := by linarith
        have a2 : (m : ℚ) < n + 1 := by linarith
        have b1 : n < m := by exact_mod_cast a1
        have b2 : m < n + 1 := by exact_mod_cast a2
        omega
  · rcases (abs_eq (by norm_num : (0 : ℚ) ≤ 1 / 2)).mp h with h | h
    · have e : q = m + 1 / 2 := by linarith
      have a1 : (n : ℚ) < m + 1 := by linarith
      have a2 : (m : ℚ) < n + 1 := by linarith
      have b1 : n < m + 1 := by exact_mod_cast a1
      have b2 : m < n + 1 := by exact_mod_cast a2
      have hn : n = m := by omega
      subst hn
      rw [if_neg (by linarith), if_neg (by linarith), if_pos he]
    · have e : q = m - 1 / 2 := by linarith
      have a1 : (n : ℚ) < m := by linarith
      have a2 : (m : ℚ) < n + 2 := by linarith
      have b1 : n < m := by exact_mod_cast a1
      have b2 : m < n + 2 := by exact_mod_cast a2
      have hn : m = n + 1 := by omega
      subst hn
      push_cast at e
      rw [if_neg (by linarith), if_neg (by linarith), if_neg (by omega)]

/-- The binade of `x`: `Int.log 2 |x| = k` when `2^k <= |x| < 2^(k+1)`. -/
theorem log2_eval (x : ℚ) (k : Int) (hlo : (2 : ℚ) ^ k ≤ |x|) (hhi : |x| < (2 : ℚ) ^ (k + 1)) :
    Int.log 2 |x| = k := by
  have hpos : 0 < |x| := lt_of_lt_of_le (zpow_pos (by norm_num) _) hlo
  apply le_antisymm
  · have := (Int.lt_zpow_iff_log_lt (by norm_num : 1 < 2) hpos).mp (by exact_mod_cast hhi)
    omega
  · exact (Int.zpow_le_iff_le_log (by norm_num : 1 < 2) hpos).mp (by exact_mod_cast hlo)

/-- Evaluation of `roundTo`: for `x` in the binade `k`, with `e = k - (p - 1)` the exponent
of its last place, the result is `m * 2^e` for the integer `m` nearest to `x / 2^e`. -/
theorem roundTo_eval (p : Nat) (x : ℚ) (k e m : Int) (hk : k - ((p : Int) - 1) = e)
    (hlo : (2 : ℚ) ^ k ≤ |x|) (hhi : |x| < (2 : ℚ) ^ (k + 1))
    (h : |x / (2 : ℚ) ^ e - m| < 1 / 2 ∨ (|x / (2 : ℚ) ^ e - m| = 1 / 2 ∧ m % 2 = 0)) :
    roundTo p x = (m : ℚ) * (2 : ℚ) ^ e := by
  unfold roundTo
  simp only [log2_eval x k hlo hhi, hk]
  rw [roundEven_eval _ m h]

/-- Evaluation of `roundTo` at a positive number that is not half-way between two
neighbours. -/
theorem roundTo_pos (p : Nat) (x : ℚ) (k e m : Int) (hk : k - ((p : Int) - 1) = e)
    (hlo : (2 : ℚ) ^ k ≤ x) (hhi : x < (2 : ℚ) ^ (k + 1))
    (h1 : (m : ℚ) - 1 / 2 < x / (2 : ℚ) ^ e) (h2 : x / (2 : ℚ) ^ e < (m : ℚ) + 1 / 2) :
    roundTo p x = (m : ℚ) * (2 : ℚ) ^ e := by
  have hx : 0 < x := lt_of_lt_of_le (zpow_pos (by norm_num) _) hlo
  refine roundTo_eval p x k e m hk ?_ ?_ (Or.inl ?_)
  · rwa [abs_of_pos hx]
  · rwa [abs_of_pos hx]
  · rw [abs_lt]; constructor <;> linarith

/-- Evaluation of `roundTo` at a positive number half-way between two neighbours: the even
one is taken. -/
theorem roundTo_pos_tie (p : Nat) (x : ℚ) (k e m : Int) (hk : k - ((p : Int) - 1) = e)
    (hlo : (2 : ℚ) ^ k ≤ x) (hhi : x < (2 : ℚ) ^ (k + 1))
    (h1 : |x / (2 : ℚ) ^ e - m| = 1 / 2) (h2 : m % 2 = 0) :
    roundTo p x = (m : ℚ) * (2 : ℚ) ^ e := by
  have hx : 0 < x := lt_of_lt_of_le (zpow_pos (by norm_num) _) hlo
  refine roundTo_eval p x k e m hk ?_ ?_ (Or.inr ⟨h1, h2⟩)
  · rwa [abs_of_pos hx]
  · rwa [abs_of_pos hx]

/-- Evaluation of `roundTo` at a negative number that is not half-way between two
neighbours. -/
theorem roundTo_negative (p : Nat) (x : ℚ) (k e m : Int) (hk : k - ((p : Int) - 1) = e)
    (hlo : (2 : ℚ) ^ k ≤ -x) (hhi : -x < (2 : ℚ) ^ (k + 1))
    (h1 : (m : ℚ) - 1 / 2 < x / (2 : ℚ) ^ e) (h2 : x / (2 : ℚ) ^ e < (m : ℚ) + 1 / 2) :
    roundTo p x = (m : ℚ) * (2 : ℚ) ^ e := by
  have hx : x < 0 := by
    have := lt_of_lt_of_le (zpow_pos (by norm_num : (0 : ℚ) < 2) k) hlo
    linarith
  refine roundTo_eval p x k e m hk ?_ ?_ (Or.inl ?_)
  · rwa [abs_of_neg hx]
  · rwa [abs_of_neg hx]
  · rw [abs_lt]; constructor <;> linarith

/-- Zero is rounded to zero. -/
theorem roundTo_zero (p : Nat) : roundTo p 0 = 0 := by
  unfold roundTo
  have : roundEven 0 = 0 := roundEven_eval 0 0 (Or.inl (by norm_num))
  simp only [zero_div, this, Int.cast_zero, zero_mul]

/-- With the identity as rounding, `makeRampsLoopFl` is the exact loop. -/
theorem makeRampsLoopFl_id (inc : mdefloat) (n : Nat) :
    ∀ (up down : Int) (f : mdefloat) (block : List mdefloat),
      makeRampsLoopFl (fun x => x) inc n up down f block = makeRampsLoop inc n up down f block := by
  induction n with
  | zero => intro up down f block; rfl
  | succ n ih =>
    intro up down f block
    simp only [makeRampsLoopFl, makeRampsLoop]
    exact ih _ _ _ _

/-- With the identity as rounding, `makeRampsFl` is `makeRamps`. -/
theorem makeRampsFl_id (rampLen : Int) (block : List mdefloat) (up down : Int) :
    makeRampsFl (fun x => x) rampLen block up down = makeRamps rampLen block up down := by
  unfold makeRampsFl makeRamps
  exact makeRampsLoopFl_id _ _ _ _ _ _

/-- With the identity as rounding, `portionBoundsFl` is `portionBounds`. -/
theorem portionBoundsFl_id (B position width : mdefloat) :
    portionBoundsFl (fun x => x) B position width = portionBounds B position width := rfl

/-- With the identity as rounding, `mdeGranularGetGrainAmpAndIncFl` is the exact function. -/
theorem getGrainAmpAndIncFl_id (g : mdeGranular) :
    mdeGranularGetGrainAmpAndIncFl (fun x => x) g = mdeGranularGetGrainAmpAndInc g := rfl

/-- With the identity as rounding, `mdeGranularSetGrainAmpFl` is the exact function. -/
theorem setGrainAmpFl_id (g : mdeGranular) (f : mdefloat) :
    mdeGranularSetGrainAmpFl (fun x => x) g f = mdeGranularSetGrainAmp g f := rfl

/-- With the identity as rounding, `mdeGranularPortionFl` is `mdeGranularPortion`. -/
theorem portionFl_id (g : mdeGranular) (position width : mdefloat) :
    mdeGranularPortionFl (fun x => x) g position width = mdeGranularPortion g position width :=
  rfl

/-- With the identity as rounding, `betweenFl` is `between`. -/
theorem betweenFl_id (a b : mdefloat) (rs : RandSource) :
    betweenFl (fun x => x) a b rs = between a b rs := rfl

/-- The constant `(double)0.00001`. -/
theorem binary64_min :
    binary64 (1 / 100000) = 5902958103587057 / 590295810358705651712 := by
  rw [binary64, roundTo_pos 53 _ (-17) (-69) 5902958103587057 (by norm_num) (by norm_num) (by norm_num)
    (by norm_num) (by norm_num)]
  norm_num

/-- The difference `1.0 - 0.5` is exact. -/
theorem binary64_half :
    binary64 (1 - 1 / 2) = 1 / 2 := by
  rw [binary64, roundTo_pos 53 _ (-1) (-53) 4503599627370496 (by norm_num) (by norm_num) (by norm_num)
    (by norm_num) (by norm_num)]
  norm_num

/-- The difference `0.5 - 1.0` is exact. -/
theorem binary64_neg_half :
    binary64 (1 / 2 - 1) = (-(1 / 2)) := by
  rw [binary64, roundTo_negative 53 _ (-1) (-53) (-4503599627370496) (by norm_num) (by norm_num) (by norm_num)
    (by norm_num) (by norm_num)]
  norm_num

/-- The integer 3 is a `double`. -/
theorem binary64_three :
    binary64 (((4 - 1 : Int) : mdefloat)) = 3 := by
  rw [binary64, roundTo_pos 53 _ (1) (-51) 6755399441055744 (by norm_num) (by norm_num) (by norm_num)
    (by norm_num) (by norm_num)]
  norm_num

/-- The quotient `0.5 / 3.0` as a `double`, 0.16666666666666666. -/
theorem binary64_sixth :
    binary64 (1 / 2 / 3) = 6004799503160661 / 36028797018963968 := by
  rw [binary64, roundTo_pos 53 _ (-3) (-55) 6004799503160661 (by norm_num) (by norm_num) (by norm_num)
    (by norm_num) (by norm_num)]
  norm_num

/-- Rounded addition number 1 of the glide from 0.5 to 1.0 in steps of `0.5 / 3.0`. -/
theorem binary64_glide_1 :
    binary64 (1 / 2 + 6004799503160661 / 36028797018963968) = 6004799503160661 / 9007199254740992 := by
  rw [binary64, roundTo_pos 53 _ (-1) (-53) 6004799503160661 (by norm_num) (by norm_num) (by norm_num)
    (by norm_num) (by norm_num)]
  norm_num

/-- Rounded addition number 2 of the glide from 0.5 to 1.0 in steps of `0.5 / 3.0`. -/
theorem binary64_glide_2 :
    binary64 (6004799503160661 / 9007199254740992 + 6004799503160661 / 36028797018963968) = 3752999689475413 / 4503599627370496 := by
  rw [binary64, roundTo_pos 53 _ (-1) (-53) 7505999378950826 (by norm_num) (by norm_num) (by norm_num)
    (by norm_num) (by norm_num)]
  norm_num

/-- Rounded addition number 3 of the glide from 0.5 to 1.0 in steps of `0.5 / 3.0`. -/
theorem binary64_glide_3 :
    binary64 (3752999689475413 / 4503599627370496 + 6004799503160661 / 36028797018963968) = 9007199254740991 / 9007199254740992 := by
  rw [binary64, roundTo_pos 53 _ (-1) (-53) 9007199254740991 (by norm_num) (by norm_num) (by norm_num)
    (by norm_num) (by norm_num)]
  norm_num

/-- Rounded addition number 4 of the glide from 0.5 to 1.0 in steps of `0.5 / 3.0`. -/
theorem binary64_glide_4 :
    binary64 (9007199254740991 / 9007199254740992 + 6004799503160661 / 36028797018963968) = 2627099782632789 / 2251799813685248 := by
  rw [binary64, roundTo_pos 53 _ (0) (-52) 5254199565265578 (by norm_num) (by norm_num) (by norm_num)
    (by norm_num) (by norm_num)]
  norm_num

/-- The increment of `makeRamps(4, ...)`: `1.0 / 3.0` as a `double`, 0.3333333333333333. -/
theorem binary64_third :
    binary64 (1 / 3) = 6004799503160661 / 18014398509481984 := by
  rw [binary64, roundTo_pos 53 _ (-2) (-54) 6004799503160661 (by norm_num) (by norm_num) (by norm_num)
    (by norm_num) (by norm_num)]
  norm_num

/-- First addition of the increment in `makeRamps(4, ...)`. -/
theorem binary64_ramp_1 :
    binary64 (0 + 6004799503160661 / 18014398509481984) = 6004799503160661 / 18014398509481984 := by
  rw [binary64, roundTo_pos 53 _ (-2) (-54) 6004799503160661 (by norm_num) (by norm_num) (by norm_num)
    (by norm_num) (by norm_num)]
  norm_num

/-- Second addition of the increment in `makeRamps(4, ...)`: 0.6666666666666666. -/
theorem binary64_ramp_2 :
    binary64 (6004799503160661 / 18014398509481984 + 6004799503160661 / 18014398509481984) = 6004799503160661 / 9007199254740992 := by
  rw [binary64, roundTo_pos 53 _ (-1) (-53) 6004799503160661 (by norm_num) (by norm_num) (by norm_num)
    (by norm_num) (by norm_num)]
  norm_num

/-- The ramp-down value `1.0f - f` at `f = 0.6666666666666666`: 0.33333333333333337. -/
theorem binary64_ramp_down_2 :
    binary64 (1 - 6004799503160661 / 9007199254740992) = 3002399751580331 / 9007199254740992 := by
  rw [binary64, roundTo_pos 53 _ (-2) (-54) 6004799503160662 (by norm_num) (by norm_num) (by norm_num)
    (by norm_num) (by norm_num)]
  norm_num

/-- The integer 44109 is a `double`. -/
theorem binary64_44109 :
    binary64 (((44109 : Int) : mdefloat)) = 44109 := by
  rw [binary64, roundTo_pos 53 _ (15) (-37) 6062294798696448 (by norm_num) (by norm_num) (by norm_num)
    (by norm_num) (by norm_num)]
  norm_num

/-- The quotient `44109.0 / 44100.0` as a `double`. -/
theorem binary64_44109_div :
    binary64 (44109 / 44100) = 4504518729335265 / 4503599627370496 := by
  rw [binary64, roundTo_pos 53 _ (0) (-52) 4504518729335265 (by norm_num) (by norm_num) (by norm_num)
    (by norm_num) (by norm_num)]
  norm_num

/-- The product `1000.0 * (44109.0 / 44100.0)` as a `double`, 1000.2040816326529. -/
theorem binary64_long_ms :
    binary64 (1000 * (4504518729335265 / 4503599627370496)) = 8797888143232939 / 8796093022208 := by
  rw [binary64, roundTo_pos 53 _ (9) (-43) 8797888143232939 (by norm_num) (by norm_num) (by norm_num)
    (by norm_num) (by norm_num)]
  norm_num

/-- The constant `(double)0.01`. -/
theorem binary64_hundredth :
    binary64 (1 / 100) = 5764607523034235 / 576460752303423488 := by
  rw [binary64, roundTo_pos 53 _ (-7) (-59) 5764607523034235 (by norm_num) (by norm_num) (by norm_num)
    (by norm_num) (by norm_num)]
  norm_num

/-- The product `buf_ms * width` for the whole of the 44109-sample buffer. -/
theorem binary64_portion_bw :
    binary64 (8797888143232939 / 8796093022208 * 100) = 3436675055950367 / 34359738368 := by
  rw [binary64, roundTo_pos 53 _ (16) (-36) 6873350111900734 (by norm_num) (by norm_num) (by norm_num)
    (by norm_num) (by norm_num)]
  norm_num

/-- The local `width_ms`: one unit in the last place above `buf_ms`. -/
theorem binary64_portion_w :
    binary64 (3436675055950367 / 34359738368 * (5764607523034235 / 576460752303423488)) = 2199472035808235 / 2199023255552 := by
  rw [binary64, roundTo_pos 53 _ (9) (-43) 8797888143232940 (by norm_num) (by norm_num) (by norm_num)
    (by norm_num) (by norm_num)]
  norm_num

/-- The local `half_width_ms`. -/
theorem binary64_portion_half :
    binary64 (2199472035808235 / 2199023255552 * (1 / 2)) = 2199472035808235 / 4398046511104 := by
  rw [binary64, roundTo_pos 53 _ (8) (-44) 8797888143232940 (by norm_num) (by norm_num) (by norm_num)
    (by norm_num) (by norm_num)]
  norm_num

/-- The product `buf_ms * position` at position 50. -/
theorem binary64_portion_bp :
    binary64 (8797888143232939 / 8796093022208 * 50) = 3436675055950367 / 68719476736 := by
  rw [binary64, roundTo_pos 53 _ (15) (-37) 6873350111900734 (by norm_num) (by norm_num) (by norm_num)
    (by norm_num) (by norm_num)]
  norm_num

/-- The local `pos_ms`. -/
theorem binary64_portion_p :
    binary64 (3436675055950367 / 68719476736 * (5764607523034235 / 576460752303423488)) = 2199472035808235 / 4398046511104 := by
  rw [binary64, roundTo_pos 53 _ (8) (-44) 8797888143232940 (by norm_num) (by norm_num) (by norm_num)
    (by norm_num) (by norm_num)]
  norm_num

/-- The local `start` before the clamps. -/
theorem binary64_portion_start :
    binary64 (2199472035808235 / 4398046511104 - 2199472035808235 / 4398046511104) = 0 := by
  rw [binary64]
  norm_num [roundTo_zero]

/-- The local `end` before the clamps. -/
theorem binary64_portion_end :
    binary64 (2199472035808235 / 4398046511104 + 2199472035808235 / 4398046511104) = 2199472035808235 / 2199023255552 := by
  rw [binary64, roundTo_pos 53 _ (9) (-43) 8797888143232940 (by norm_num) (by norm_num) (by norm_num)
    (by norm_num) (by norm_num)]
  norm_num

/-- The difference `buf_ms - width_ms`, below zero. -/
theorem binary64_portion_shift :
    binary64 (8797888143232939 / 8796093022208 - 2199472035808235 / 2199023255552) = (-(1 / 8796093022208)) := by
  rw [binary64, roundTo_negative 53 _ (-43) (-95) (-4503599627370496) (by norm_num) (by norm_num) (by norm_num)
    (by norm_num) (by norm_num)]
  norm_num

/-- The integer 2 is a `float`. -/
theorem binary32_two :
    binary32 (((2 : Int) : mdefloat)) = 2 := by
  rw [binary32, roundTo_pos 24 _ (1) (-22) 8388608 (by norm_num) (by norm_num) (by norm_num)
    (by norm_num) (by norm_num)]
  norm_num

/-- The conversion `(float)RAND_MAX` of 2147483647 rounds up to 2147483648. -/
theorem binary32_rand_max :
    binary32 (((2147483647 : Int) : mdefloat)) = 2147483648 := by
  rw [binary32, roundTo_pos 24 _ (30) (7) 16777216 (by norm_num) (by norm_num) (by norm_num)
    (by norm_num) (by norm_num)]
  norm_num

/-- The sum `(float)RAND_MAX + 1.0f` rounds back to 2147483648. -/
theorem binary32_div :
    binary32 (2147483648 + 1) = 2147483648 := by
  rw [binary32, roundTo_pos 24 _ (31) (8) 8388608 (by norm_num) (by norm_num) (by norm_num)
    (by norm_num) (by norm_num)]
  norm_num

/-- The difference `max - min` for 0 and 2. -/
theorem binary32_diff :
    binary32 (2 - 0) = 2 := by
  rw [binary32, roundTo_pos 24 _ (1) (-22) 8388608 (by norm_num) (by norm_num) (by norm_num)
    (by norm_num) (by norm_num)]
  norm_num

/-- The quotient `diff / div`. -/
theorem binary32_scaler :
    binary32 (2 / 2147483648) = 1 / 1073741824 := by
  rw [binary32, roundTo_pos 24 _ (-30) (-53) 8388608 (by norm_num) (by norm_num) (by norm_num)
    (by norm_num) (by norm_num)]
  norm_num

/-- The product `r * scaler` at the top draw. -/
theorem binary32_product :
    binary32 (2147483648 * (1 / 1073741824)) = 2 := by
  rw [binary32, roundTo_pos 24 _ (1) (-22) 8388608 (by norm_num) (by norm_num) (by norm_num)
    (by norm_num) (by norm_num)]
  norm_num

/-- The sum `min + (r * scaler)`. -/
theorem binary32_sum :
    binary32 (0 + 2) = 2 := by
  rw [binary32, roundTo_pos 24 _ (1) (-22) 8388608 (by norm_num) (by norm_num) (by norm_num)
    (by norm_num) (by norm_num)]
  norm_num

/-- The request 1.0 is accepted by the granulator at rest at 0.5 with four samples per tick:
the increment is `0.5 / 3.0` rounded. -/
theorem setGrainAmpFl_glide :
    mdeGranularSetGrainAmpFl binary64 glideGranular 1
      = glideState (1 / 2) [1 / 2, 1 / 2, 1 / 2, 1 / 2] := by
  have hat : mdeGranularAtTargetGrainAmp glideGranular = true := by
    rw [atTarget_iff]
    norm_num [glideGranular, exampleGranular]
  have h1 : binary64 (glideGranular.targetGrainAmp - 1) = -(1 / 2) := binary64_neg_half
  have h2 : binary64 (1 - glideGranular.grainAmp) = 1 / 2 := binary64_half
  have h3 : binary64 ((glideGranular.nOutputSamples - 1 : Int) : mdefloat) = 3 := binary64_three
  unfold mdeGranularSetGrainAmpFl
  simp only [hat, h1, h2, h3, binary64_min, binary64_sixth]
  norm_num [fabs]
  rfl

/-- One call of `mdeGranularGetGrainAmpAndInc` during the glide, below the target: the
amplitude becomes the rounded sum `v`. -/
theorem getGrainAmpAndIncFl_glide (a v : mdefloat) (amps : List mdefloat) (ha : a < 1)
    (hv : binary64 (a + 6004799503160661 / 36028797018963968) = v) (h0 : 0 ≤ v) :
    mdeGranularGetGrainAmpAndIncFl binary64 (glideState a amps) = (a, glideState v amps) := by
  have hat : ¬ mdeGranularAtTargetGrainAmp (glideState a amps) = true := by
    rw [atTarget_iff]
    norm_num [glideState, glideGranular, exampleGranular]
    exact ha
  have hv2 : binary64 ((glideState a amps).grainAmp + (glideState a amps).grainAmpInc) = v := hv
  unfold mdeGranularGetGrainAmpAndIncFl
  dsimp only
  rw [if_neg hat, hv2]
  dsimp only
  rw [if_neg (not_lt.mpr h0)]
  rfl

/-- One call of `mdeGranularGetGrainAmpAndInc` once the amplitude is at or above the target:
nothing changes. -/
theorem getGrainAmpAndIncFl_rest (a : mdefloat) (amps : List mdefloat) (ha : 1 ≤ a) :
    mdeGranularGetGrainAmpAndIncFl binary64 (glideState a amps) = (a, glideState a amps) := by
  have hat : mdeGranularAtTargetGrainAmp (glideState a amps) = true := by
    rw [atTarget_iff]
    norm_num [glideState, glideGranular, exampleGranular]
    exact ha
  have h0 : ¬ (glideState a amps).grainAmp < 0 := by
    show ¬ a < 0
    linarith
  unfold mdeGranularGetGrainAmpAndIncFl
  dsimp only
  rw [if_pos hat, if_neg h0]
  rfl

/-- C9 at its failing input, in doubles.  The granulator at rest at 0.5 with four samples
per tick accepts the request 1.0 (`grainAmpInc = 0.5 / 3.0`).  After three calls of
`mdeGranularGetGrainAmpAndInc` the amplitude is `1 - 2^-53`, one unit in the last place
below the target; the fourth call adds a whole increment and leaves it 0.1666... above the
target: `grainAmp - targetGrainAmp` changes sign and grows in magnitude.  The fifth call
changes nothing: the amplitude rests there. -/
theorem glide_crosses_by_a_step :
    mdeGranularSetGrainAmpFl binary64 glideGranular 1
      = glideState (1 / 2) [1 / 2, 1 / 2, 1 / 2, 1 / 2] ∧
    (grainAmpCallsFl binary64 3 (mdeGranularSetGrainAmpFl binary64 glideGranular 1)).grainAmp
        - (grainAmpCallsFl binary64 3
            (mdeGranularSetGrainAmpFl binary64 glideGranular 1)).targetGrainAmp
      = -(1 / 9007199254740992) ∧
    (grainAmpCallsFl binary64 4 (mdeGranularSetGrainAmpFl binary64 glideGranular 1)).grainAmp
        - (grainAmpCallsFl binary64 4
            (mdeGranularSetGrainAmpFl binary64 glideGranular 1)).targetGrainAmp
      = 375299968947541 / 2251799813685248 ∧
    (grainAmpCallsFl binary64 5 (mdeGranularSetGrainAmpFl binary64 glideGranular 1)).grainAmp
      = (grainAmpCallsFl binary64 4
          (mdeGranularSetGrainAmpFl binary64 glideGranular 1)).grainAmp := by
  have c1 : grainAmpCallsFl binary64 1 (glideState (1 / 2) [1 / 2, 1 / 2, 1 / 2, 1 / 2])
      = glideState (6004799503160661 / 9007199254740992) [1 / 2, 1 / 2, 1 / 2, 1 / 2] := by
    show (mdeGranularGetGrainAmpAndIncFl binary64
      (glideState (1 / 2) [1 / 2, 1 / 2, 1 / 2, 1 / 2])).2 = _
    rw [getGrainAmpAndIncFl_glide _ _ _ (by norm_num) binary64_glide_1 (by norm_num)]
  have c2 : grainAmpCallsFl binary64 2 (glideState (1 / 2) [1 / 2, 1 / 2, 1 / 2, 1 / 2])
      = glideState (3752999689475413 / 4503599627370496) [1 / 2, 1 / 2, 1 / 2, 1 / 2] := by
    show (mdeGranularGetGrainAmpAndIncFl binary64 (grainAmpCallsFl binary64 1 _)).2 = _
    rw [c1, getGrainAmpAndIncFl_glide _ _ _ (by norm_num) binary64_glide_2 (by norm_num)]
  have c3 : grainAmpCallsFl binary64 3 (glideState (1 / 2) [1 / 2, 1 / 2, 1 / 2, 1 / 2])
      = glideState (9007199254740991 / 9007199254740992) [1 / 2, 1 / 2, 1 / 2, 1 / 2] := by
    show (mdeGranularGetGrainAmpAndIncFl binary64 (grainAmpCallsFl binary64 2 _)).2 = _
    rw [c2, getGrainAmpAndIncFl_glide _ _ _ (by norm_num) binary64_glide_3 (by norm_num)]
  have c4 : grainAmpCallsFl binary64 4 (glideState (1 / 2) [1 / 2, 1 / 2, 1 / 2, 1 / 2])
      = glideState (2627099782632789 / 2251799813685248) [1 / 2, 1 / 2, 1 / 2, 1 / 2] := by
    show (mdeGranularGetGrainAmpAndIncFl binary64 (grainAmpCallsFl binary64 3 _)).2 = _
    rw [c3, getGrainAmpAndIncFl_glide _ _ _ (by norm_num) binary64_glide_4 (by norm_num)]
  have c5 : grainAmpCallsFl binary64 5 (glideState (1 / 2) [1 / 2, 1 / 2, 1 / 2, 1 / 2])
      = glideState (2627099782632789 / 2251799813685248) [1 / 2, 1 / 2, 1 / 2, 1 / 2] := by
    show (mdeGranularGetGrainAmpAndIncFl binary64 (grainAmpCallsFl binary64 4 _)).2 = _
    rw [c4, getGrainAmpAndIncFl_rest _ _ (by norm_num)]
  rw [setGrainAmpFl_glide, c3, c4, c5]
  refine ⟨rfl, ?_, ?_, rfl⟩
  · show (9007199254740991 / 9007199254740992 : mdefloat) - 1 = _
    norm_num
  · show (2627099782632789 / 2251799813685248 : mdefloat) - 1 = _
    norm_num

/-- One iteration of the amplitude loop of `mdeGranularGo` during the glide, below the
target: the amplitude `a` is stored in cell `i` and the rounded sum `v` becomes the
amplitude. -/
theorem goGrainAmpsLoopFl_glide (n : Nat) (i : Int) (a v : mdefloat) (amps : List mdefloat)
    (ha : a < 1) (hv : binary64 (a + 6004799503160661 / 36028797018963968) = v) (h0 : 0 ≤ v) :
    goGrainAmpsLoopFl binary64 (n + 1) i (glideState a amps)
      = goGrainAmpsLoopFl binary64 n (i + 1) (glideState v (poke amps i a)) := by
  show goGrainAmpsLoopFl binary64 n (i + 1)
      { (mdeGranularGetGrainAmpAndIncFl binary64 (glideState a amps)).2 with
        grainAmps := (mdeGranularGetGrainAmpAndIncFl binary64 (glideState a amps)).2.grainAmps.map
          (fun amps => poke amps i (mdeGranularGetGrainAmpAndIncFl binary64 (glideState a amps)).1) }
      = _
  rw [getGrainAmpAndIncFl_glide a v amps ha hv h0]
  rfl

/-- One iteration of the amplitude loop of `mdeGranularGo` once the amplitude is at or above
the target: the amplitude `a` is stored in cell `i` and nothing else changes. -/
theorem goGrainAmpsLoopFl_rest (n : Nat) (i : Int) (a : mdefloat) (amps : List mdefloat)
    (ha : 1 ≤ a) :
    goGrainAmpsLoopFl binary64 (n + 1) i (glideState a amps)
      = goGrainAmpsLoopFl binary64 n (i + 1) (glideState a (poke amps i a)) := by
  show goGrainAmpsLoopFl binary64 n (i + 1)
      { (mdeGranularGetGrainAmpAndIncFl binary64 (glideState a amps)).2 with
        grainAmps := (mdeGranularGetGrainAmpAndIncFl binary64 (glideState a amps)).2.grainAmps.map
          (fun amps => poke amps i (mdeGranularGetGrainAmpAndIncFl binary64 (glideState a amps)).1) }
      = _
  rw [getGrainAmpAndIncFl_rest a amps ha]
  rfl

/-- C38 at its failing input, in doubles.  The granulator at rest at 0.5 with four samples
per tick accepts the request 1.0; the amplitude block of the next `mdeGranularGo` fills
`grainAmps` with 0.5, 0.6666666666666666, 0.8333333333333333, 0.9999999999999999 and leaves
`grainAmp = 1.1666666666666665`, not the target 1.0; the block of the tick after that fills
the table with 1.1666666666666665 and the amplitude stays there. -/
theorem glide_tick_ends_above_target :
    (goGrainAmpsFl binary64 4 (mdeGranularSetGrainAmpFl binary64 glideGranular 1)).grainAmps
      = some [1 / 2, 6004799503160661 / 9007199254740992, 3752999689475413 / 4503599627370496,
              9007199254740991 / 9007199254740992] ∧
    (goGrainAmpsFl binary64 4 (mdeGranularSetGrainAmpFl binary64 glideGranular 1)).grainAmp
      = 2627099782632789 / 2251799813685248 ∧
    (goGrainAmpsFl binary64 4
      (mdeGranularSetGrainAmpFl binary64 glideGranular 1)).targetGrainAmp = 1 ∧
    (goGrainAmpsFl binary64 4 (goGrainAmpsFl binary64 4
      (mdeGranularSetGrainAmpFl binary64 glideGranular 1))).grainAmps
      = some [2627099782632789 / 2251799813685248, 2627099782632789 / 2251799813685248,
              2627099782632789 / 2251799813685248, 2627099782632789 / 2251799813685248] ∧
    (goGrainAmpsFl binary64 4 (goGrainAmpsFl binary64 4
      (mdeGranularSetGrainAmpFl binary64 glideGranular 1))).grainAmp
      = 2627099782632789 / 2251799813685248 := by
  have hgo : goGrainAmpsFl binary64 4 (glideState (1 / 2) [1 / 2, 1 / 2, 1 / 2, 1 / 2])
      = glideState (2627099782632789 / 2251799813685248)
          [1 / 2, 6004799503160661 / 9007199254740992, 3752999689475413 / 4503599627370496,
           9007199254740991 / 9007199254740992] := by
    have hat : ¬ (mdeGranularAtTargetGrainAmp
        (glideState (1 / 2) [1 / 2, 1 / 2, 1 / 2, 1 / 2]) = true ∧
        peek [1 / 2, 1 / 2, 1 / 2, 1 / 2] 0
          = (glideState (1 / 2) [1 / 2, 1 / 2, 1 / 2, 1 / 2]).grainAmp) := by
      rw [atTarget_iff]
      norm_num [glideState, glideGranular, exampleGranular]
    have hamps : (glideState (1 / 2) [1 / 2, 1 / 2, 1 / 2, 1 / 2]).grainAmps
        = some [1 / 2, 1 / 2, 1 / 2, 1 / 2] := rfl
    have p0 : poke [1 / 2, 1 / 2, 1 / 2, 1 / 2] 0 (1 / 2) = [1 / 2, 1 / 2, 1 / 2, 1 / 2] := by
      simp [poke]
    have p1 : poke [1 / 2, 1 / 2, 1 / 2, 1 / 2] (0 + 1) (6004799503160661 / 9007199254740992)
        = [1 / 2, 6004799503160661 / 9007199254740992, 1 / 2, 1 / 2] := by
      simp [poke]
    have p2 : poke [1 / 2, 6004799503160661 / 9007199254740992, 1 / 2, 1 / 2] (0 + 1 + 1)
          (3752999689475413 / 4503599627370496)
        = [1 / 2, 6004799503160661 / 9007199254740992, 3752999689475413 / 4503599627370496,
           1 / 2] := by
      simp [poke]
    have p3 : poke [1 / 2, 6004799503160661 / 9007199254740992,
          3752999689475413 / 4503599627370496, 1 / 2] (0 + 1 + 1 + 1)
          (9007199254740991 / 9007199254740992)
        = [1 / 2, 6004799503160661 / 9007199254740992, 3752999689475413 / 4503599627370496,
           9007199254740991 / 9007199254740992] := by
      simp [poke]
    unfold goGrainAmpsFl
    simp only [hamps]
    rw [if_pos hat]
    show goGrainAmpsLoopFl binary64 (3 + 1) 0 _ = _
    rw [goGrainAmpsLoopFl_glide 3 0 _ _ _ (by norm_num) binary64_glide_1 (by norm_num), p0,
      goGrainAmpsLoopFl_glide 2 _ _ _ _ (by norm_num) binary64_glide_2 (by norm_num), p1,
      goGrainAmpsLoopFl_glide 1 _ _ _ _ (by norm_num) binary64_glide_3 (by norm_num), p2,
      goGrainAmpsLoopFl_glide 0 _ _ _ _ (by norm_num) binary64_glide_4 (by norm_num), p3]
    rfl
  have hgo2 : goGrainAmpsFl binary64 4 (glideState (2627099782632789 / 2251799813685248)
        [1 / 2, 6004799503160661 / 9007199254740992, 3752999689475413 / 4503599627370496,
         9007199254740991 / 9007199254740992])
      = glideState (2627099782632789 / 2251799813685248)
          [2627099782632789 / 2251799813685248, 2627099782632789 / 2251799813685248,
           2627099782632789 / 2251799813685248, 2627099782632789 / 2251799813685248] := by
    have hne : ¬ (mdeGranularAtTargetGrainAmp
        (glideState (2627099782632789 / 2251799813685248)
          [1 / 2, 6004799503160661 / 9007199254740992, 3752999689475413 / 4503599627370496,
           9007199254740991 / 9007199254740992]) = true ∧
        peek [1 / 2, 6004799503160661 / 9007199254740992, 3752999689475413 / 4503599627370496,
           9007199254740991 / 9007199254740992] 0
          = (glideState (2627099782632789 / 2251799813685248)
          [1 / 2, 6004799503160661 / 9007199254740992, 3752999689475413 / 4503599627370496,
           9007199254740991 / 9007199254740992]).grainAmp) := by
      intro h
      have h2 : (1 / 2 : mdefloat) = 2627099782632789 / 2251799813685248 := h.2
      norm_num at h2
    have hamps2 : (glideState (2627099782632789 / 2251799813685248)
          [1 / 2, 6004799503160661 / 9007199254740992, 3752999689475413 / 4503599627370496,
           9007199254740991 / 9007199254740992]).grainAmps
        = some [1 / 2, 6004799503160661 / 9007199254740992,
            3752999689475413 / 4503599627370496, 9007199254740991 / 9007199254740992] := rfl
    unfold goGrainAmpsFl
    simp only [hamps2]
    rw [if_pos hne]
    show goGrainAmpsLoopFl binary64 (3 + 1) 0 _ = _
    rw [goGrainAmpsLoopFl_rest 3 0 _ _ (by norm_num),
      goGrainAmpsLoopFl_rest 2 _ _ _ (by norm_num),
      goGrainAmpsLoopFl_rest 1 _ _ _ (by norm_num),
      goGrainAmpsLoopFl_rest 0 _ _ _ (by norm_num)]
    show glideState _ _ = glideState _ _
    congr 1
  rw [setGrainAmpFl_glide, hgo, hgo2]
  exact ⟨rfl, rfl, rfl, rfl, rfl⟩

/-- Starting the additions one step later: `rampValue` from `fl (f + inc)` is `rampValue`
from `f`, one step on. -/
theorem rampValue_shift (fl : ℚ → ℚ) (inc f : mdefloat) (k : Nat) :
    rampValue fl inc (fl (f + inc)) k = rampValue fl inc f (k + 1) := by
  induction k with
  | zero => rfl
  | succ k ih =>
    show fl (rampValue fl inc (fl (f + inc)) k + inc) = fl (rampValue fl inc f (k + 1) + inc)
    rw [ih]

/-- The loop of `makeRamps` with rounded arithmetic: cell `up + k` holds `f` after `k` rounded
additions of `inc`, cell `down + k` holds the rounded `1 - f` for that `f`, and every cell
outside the two ranges is as it was. -/
theorem makeRampsLoopFl_spec (fl : ℚ → ℚ) (inc : mdefloat) (n : Nat) :
    ∀ (up down : Int) (f : mdefloat) (block : List mdefloat),
      0 ≤ up → up + n ≤ down → down + n ≤ block.length →
      (makeRampsLoopFl fl inc n up down f block).length = block.length ∧
      (∀ k : Nat, k < n →
        peek (makeRampsLoopFl fl inc n up down f block) (up + k) = rampValue fl inc f k ∧
        peek (makeRampsLoopFl fl inc n up down f block) (down + k)
          = fl (1 - rampValue fl inc f k)) ∧
      (∀ p : Int, (p < up ∨ (up + n ≤ p ∧ p < down) ∨ down + n ≤ p) →
        peek (makeRampsLoopFl fl inc n up down f block) p = peek block p) := by
  induction n with
  | zero =>
    intro up down f block _ _ _
    simp only [makeRampsLoopFl]
    exact ⟨trivial, fun k hk => absurd hk (Nat.not_lt_zero k), fun _ _ => trivial⟩
  | succ n ih =>
    intro up down f block hup hud hlen
    push_cast at hud hlen
    simp only [makeRampsLoopFl]
    have hl1 : (poke (poke block up f) down (fl (1 - f))).length = block.length := by
      rw [length_poke, length_poke]
    have h := ih (up + 1) (down + 1) (fl (f + inc)) (poke (poke block up f) down (fl (1 - f)))
      (by omega) (by omega) (by rw [hl1]; omega)
    refine ⟨by rw [h.1, hl1], ?_, ?_⟩
    · intro k hk
      cases k with
      | zero =>
        simp only [Nat.cast_zero, add_zero]
        constructor
        · rw [h.2.2 up (Or.inl (by omega)), peek_poke_ne _ _ _ _ (by omega)]
          exact peek_poke_same _ _ _ hup (by omega)
        · rw [h.2.2 down (Or.inr (Or.inl ⟨by omega, by omega⟩))]
          exact peek_poke_same _ _ _ (by omega) (by rw [length_poke]; omega)
      | succ k =>
        have hk' := h.2.1 k (by omega)
        have e1 : up + ((k + 1 : Nat) : Int) = up + 1 + (k : Int) := by push_cast; ring
        have e2 : down + ((k + 1 : Nat) : Int) = down + 1 + (k : Int) := by push_cast; ring
        rw [e1, e2, hk'.1, hk'.2, rampValue_shift]
        exact ⟨rfl, rfl⟩
    · intro p hp
      rw [h.2.2 p (by omega), peek_poke_ne _ _ _ _ (by omega),
        peek_poke_ne _ _ _ _ (by omega)]

/-- The call `makeRamps(L, window, window + L)` with rounded arithmetic over a block of at
least `2L` cells: the block keeps its size, `window[k]` is `f` after `k` rounded additions
of the increment and `window[L + k]` is the rounded `1 - window[k]`, for `0 <= k < L`. -/
theorem makeRampsFl_spec (fl : ℚ → ℚ) (L : Int) (w : List mdefloat) (hL : 0 ≤ L)
    (hlen : 2 * L ≤ w.length) :
    (makeRampsFl fl L w 0 L).length = w.length ∧
    (∀ k : Nat, (k : Int) < L →
      peek (makeRampsFl fl L w 0 L) k
        = rampValue fl (fl (1 / fl ((L - 1 : Int) : mdefloat))) 0 k ∧
      peek (makeRampsFl fl L w 0 L) (L + k) = fl (1 - peek (makeRampsFl fl L w 0 L) k)) := by
  have hcast : (L.toNat : Int) = L := Int.toNat_of_nonneg hL
  have h := makeRampsLoopFl_spec fl (fl (1 / fl ((L - 1 : Int) : mdefloat))) L.toNat 0 L 0 w
    (le_refl _) (by omega) (by omega)
  have e : makeRampsFl fl L w 0 L
      = makeRampsLoopFl fl (fl (1 / fl ((L - 1 : Int) : mdefloat))) L.toNat 0 L 0 w := rfl
  rw [e]
  refine ⟨h.1, ?_⟩
  intro k hk
  have hk' := h.2.1 k (by omega)
  rw [zero_add] at hk'
  exact ⟨hk'.1, by rw [hk'.1]; exact hk'.2⟩

/-- C10 (as stated) fails in doubles: for `makeWindow("TRAPEZOID", 8, ...)`, which is
`makeRamps(4, window, window + 4)`, `window[1] = 0.3333333333333333` but its mirror cell
`window[6] = 1.0f - 0.6666666666666666 = 0.33333333333333337`. -/
theorem makeRamps_mirror_fails_in_doubles :
    peek (makeWindowFl binary64 exampleMath "TRAPEZOID" 8 (5 / 2) (List.replicate 8 0)) 1
      = 6004799503160661 / 18014398509481984 ∧
    peek (makeWindowFl binary64 exampleMath "TRAPEZOID" 8 (5 / 2) (List.replicate 8 0)) (8 - 1 - 1)
      = 6004799503160662 / 18014398509481984 := by
  have hw : makeWindowFl binary64 exampleMath "TRAPEZOID" 8 (5 / 2) (List.replicate 8 0)
      = makeRampsFl binary64 4 (List.replicate 8 0) 0 4 := by
    unfold makeWindowFl
    rw [if_pos rfl]
    rfl
  have h := makeRampsFl_spec binary64 4 (List.replicate 8 0) (by decide) (by decide)
  have h1 := (h.2 1 (by decide)).1
  have h2 := h.2 2 (by decide)
  have v1 : rampValue binary64 (binary64 (1 / binary64 ((4 - 1 : Int) : mdefloat))) 0 1
      = 6004799503160661 / 18014398509481984 := by
    show binary64 (0 + binary64 (1 / binary64 ((4 - 1 : Int) : mdefloat))) = _
    rw [binary64_three, binary64_third, binary64_ramp_1]
  have v2 : rampValue binary64 (binary64 (1 / binary64 ((4 - 1 : Int) : mdefloat))) 0 2
      = 6004799503160661 / 9007199254740992 := by
    show binary64 (rampValue binary64 (binary64 (1 / binary64 ((4 - 1 : Int) : mdefloat))) 0 1
      + binary64 (1 / binary64 ((4 - 1 : Int) : mdefloat))) = _
    rw [v1, binary64_three, binary64_third, binary64_ramp_2]
  rw [hw]
  refine ⟨?_, ?_⟩
  · have e : ((1 : Nat) : Int) = 1 := rfl
    rw [e] at h1
    rw [h1, v1]
  · have e : (8 : Int) - 1 - 1 = 4 + ((2 : Nat) : Int) := by decide
    rw [e, h2.2, h2.1, v2, binary64_ramp_down_2]
    norm_num

/-- C10 (amended): for every shape name accepted by `makeWindow`, every even size `N = 2L`
with `L >= 2`, every window block of at least `N` cells and every rounding `fl` of the
arithmetic, the table keeps its size; for every shape other than `TRAPEZOID` it is
symmetric, `window[i] = window[N-1-i]` for `0 <= i < N`, hence the ramp-down half mirrors
the ramp-up half, `rampDown[i] = rampUp[L-1-i]`; for `TRAPEZOID` (`makeRamps`)
`rampUp[0] = 0`, `rampUp[i+1] = fl (rampUp[i] + inc)` with `inc = fl (1 / (L - 1))`, and
`rampDown[i] = fl (1 - rampUp[i])`; with exact arithmetic (`fl` the identity) the table is
symmetric for every shape. -/
theorem window_symmetry_rounded (fl : ℚ → ℚ) (m : MathFns) (type : String) (L : Int)
    (beta : mdefloat) (w : List mdefloat) (hacc : type ∈ acceptedShapes) (hL : 2 ≤ L)
    (hlen : 2 * L ≤ w.length) :
    (makeWindowFl fl m type (2 * L) beta w).length = w.length ∧
    (type ≠ "TRAPEZOID" →
      (∀ i : Int, 0 ≤ i → i < 2 * L →
        peek (makeWindowFl fl m type (2 * L) beta w) i
          = peek (makeWindowFl fl m type (2 * L) beta w) (2 * L - 1 - i)) ∧
      (∀ i : Int, 0 ≤ i → i < L →
        peek (makeWindowFl fl m type (2 * L) beta w) (L + i)
          = peek (makeWindowFl fl m type (2 * L) beta w) (L - 1 - i))) ∧
    (type = "TRAPEZOID" →
      peek (makeWindowFl fl m type (2 * L) beta w) 0 = 0 ∧
      (∀ i : Int, 0 ≤ i → i + 1 < L →
        peek (makeWindowFl fl m type (2 * L) beta w) (i + 1)
          = fl (peek (makeWindowFl fl m type (2 * L) beta w) i
              + fl (1 / fl ((L - 1 : Int) : mdefloat)))) ∧
      (∀ i : Int, 0 ≤ i → i < L →
        peek (makeWindowFl fl m type (2 * L) beta w) (L + i)
          = fl (1 - peek (makeWindowFl fl m type (2 * L) beta w) i))) ∧
    (∀ i : Int, 0 ≤ i → i < 2 * L →
      peek (makeWindowFl (fun x => x) m type (2 * L) beta w) i
        = peek (makeWindowFl (fun x => x) m type (2 * L) beta w) (2 * L - 1 - i)) := by
  have hmid := tdiv_two_mul L (by omega)
  have hsym : type ≠ "TRAPEZOID" → ∀ i : Int, 0 ≤ i → i < 2 * L →
      peek (makeWindow m type (2 * L) beta w) i
        = peek (makeWindow m type (2 * L) beta w) (2 * L - 1 - i) := by
    intro hne
    rcases makeWindow_shape m type L beta w hacc (by omega) with h | h | ⟨body, next, acc, hb, h⟩
    · rw [h]
      exact makeRamps_symmetric L w hL hlen
    · rw [h]
      have hs := onesLoop_spec (2 * L).toNat 0 w (le_refl _)
        (by have : ((2 * L).toNat : Int) = 2 * L := Int.toNat_of_nonneg (by omega); omega)
      have hcast : ((2 * L).toNat : Int) = 2 * L := Int.toNat_of_nonneg (by omega)
      intro i hi0 hi1
      rw [hs.2.1 i hi0 (by omega), hs.2.1 (2 * L - 1 - i) (by omega) (by omega)]
    · rw [h]
      exact windowLoop_symmetric body next L acc w hb (by omega) hlen
  have hlenW : (makeWindow m type (2 * L) beta w).length = w.length := by
    rcases makeWindow_shape m type L beta w hacc (by omega) with h | h | ⟨body, next, acc, hb, h⟩
    · rw [h]
      have hcast : (L.toNat : Int) = L := Int.toNat_of_nonneg (by omega)
      exact (makeRampsLoop_spec (1 / ((L - 1 : Int) : mdefloat)) L.toNat 0 L 0 w (le_refl _)
        (by omega) (by omega)).1
    · rw [h]
      exact (onesLoop_spec (2 * L).toNat 0 w (le_refl _)
        (by have : ((2 * L).toNat : Int) = 2 * L := Int.toNat_of_nonneg (by omega); omega)).1
    · rw [h]
      have hcast : ((L + 1).toNat : Int) = L + 1 := Int.toNat_of_nonneg (by omega)
      exact (windowLoop_frame body next hb (L + 1).toNat 0 (2 * L - 1) acc w (le_refl _)
        (by omega) (by omega) (by omega)).1
  by_cases ht : type = "TRAPEZOID"
  · have hw : ∀ r : ℚ → ℚ, makeWindowFl r m type (2 * L) beta w = makeRampsFl r L w 0 L := by
      intro r
      unfold makeWindowFl
      rw [if_pos ht, hmid]
    have hs := makeRampsFl_spec fl L w (by omega) hlen
    rw [hw fl]
    refine ⟨hs.1, fun hne => absurd ht hne, fun _ => ⟨?_, ?_, ?_⟩, ?_⟩
    · have := (hs.2 0 (by omega)).1
      exact this
    · intro i hi0 hi1
      have hc : ((i.toNat : Nat) : Int) = i := Int.toNat_of_nonneg hi0
      have hc1 : ((i.toNat + 1 : Nat) : Int) = i + 1 := by push_cast; omega
      have h1 := (hs.2 (i.toNat + 1) (by omega)).1
      have h0 := (hs.2 i.toNat (by omega)).1
      rw [hc1] at h1
      rw [hc] at h0
      rw [h1, h0]
      rfl
    · intro i hi0 hi1
      have hc : ((i.toNat : Nat) : Int) = i := Int.toNat_of_nonneg hi0
      have h1 := (hs.2 i.toNat (by omega)).2
      rw [hc] at h1
      exact h1
    · rw [hw (fun x => x), makeRampsFl_id]
      exact makeRamps_symmetric L w hL hlen
  · have hw : ∀ r : ℚ → ℚ, makeWindowFl r m type (2 * L) beta w = makeWindow m type (2 * L) beta w := by
      intro r
      unfold makeWindowFl
      rw [if_neg ht]
    rw [hw fl, hw (fun x => x)]
    refine ⟨hlenW, fun _ => ⟨hsym ht, ?_⟩, fun h => absurd h ht, hsym ht⟩
    intro i hi0 hi1
    have := hsym ht (L + i) (by omega) (by omega)
    have e : 2 * L - 1 - (L + i) = L - 1 - i := by ring
    rw [e] at this
    exact this

/-- Witness for C10 (amended): the trapezoid of size 4 in doubles starts at 0. -/
theorem window_symmetry_rounded_witness :
    peek (makeWindowFl binary64 exampleMath "TRAPEZOID" (2 * 2) (5 / 2) [7, 7, 7, 7]) 0 = 0 :=
  ((window_symmetry_rounded binary64 exampleMath "TRAPEZOID" 2 (5 / 2) [7, 7, 7, 7]
    (by decide) (by decide) (by decide)).2.2.1 rfl).1

/-- The start setter leaves `samplesStart` at or above 0 when the buffer is not empty. -/
theorem setSamplesStartMS_nonneg (g : mdeGranular) (f : mdefloat) (hN : 1 ≤ g.nBufferSamples) :
    0 ≤ (mdeGranularSetSamplesStartMS g f).samplesStart := by
  unfold mdeGranularSetSamplesStartMS
  dsimp only
  split_ifs <;> dsimp only at * <;> omega

/-- The end setter does not write `samplesStart`. -/
theorem setSamplesEndMS_samplesStart (g : mdeGranular) (f : mdefloat) :
    (mdeGranularSetSamplesEndMS g f).samplesStart = g.samplesStart := by
  unfold mdeGranularSetSamplesEndMS
  dsimp only
  split_ifs <;> rfl

/-- The bounds of `mdeGranularPortion` in exact arithmetic. -/
theorem portionBounds_exact (B position width : mdefloat)
    (hp : 0 ≤ position ∧ position ≤ 100) (hw : 0 < width ∧ width ≤ 100) (hB : 0 ≤ B) :
    0 ≤ (portionBounds B position width).1 ∧
    (portionBounds B position width).1 ≤ (portionBounds B position width).2 ∧
    (portionBounds B position width).2 ≤ B ∧
    (portionBounds B position width).2 - (portionBounds B position width).1
      = B * width / 100 ∧
    (0 ≤ B * position / 100 - B * width / 200 →
      B * position / 100 + B * width / 200 ≤ B →
      (portionBounds B position width).1 = B * position / 100 - B * width / 200) := by
  obtain ⟨hp0, hp1⟩ := hp
  obtain ⟨hw0, hw1⟩ := hw
  have hBw : 0 ≤ B * width := mul_nonneg hB hw0.le
  have hBw2 : B * width ≤ B * 100 := mul_le_mul_of_nonneg_left hw1 hB
  unfold portionBounds
  dsimp only
  by_cases h1 : B * position * (1 / 100) - B * width * (1 / 100) * (1 / 2) < 0
  · have h2 : ¬ (B * width * (1 / 100) > B) := by
      intro h; linarith
    simp only [h1, h2, if_true, if_false]
    refine ⟨le_refl _, by linarith, by linarith, by ring, ?_⟩
    intro h3 _
    exfalso
    linarith
  · by_cases h2 : B * position * (1 / 100) + B * width * (1 / 100) * (1 / 2) > B
    · simp only [h1, h2, if_true, if_false]
      refine ⟨by linarith, by linarith, le_refl _, by ring, ?_⟩
      intro _ h4
      exfalso
      linarith
    · simp only [h1, h2, if_false]
      push_neg at h1 h2
      refine ⟨h1, by linarith, h2, by ring, ?_⟩
      intro _ _
      ring

/-- C17 (as stated) fails in doubles: for a buffer of 44109 samples at 44.1 kHz
(`BufferSamplesMS = samples2ms(44100, 44109) = 1000.2040816326529`), position 50 and width
100, `width_ms = buf_ms * 100 * 0.01` is one unit in the last place above `buf_ms`, the
window is moved back from the end of the buffer and `start = buf_ms - width_ms = -2^-43`,
below 0. -/
theorem portion_start_below_zero_in_doubles :
    samples2msFl binary64 44100 44109 = 8797888143232939 / 8796093022208 ∧
    portionBoundsFl binary64 (8797888143232939 / 8796093022208) 50 100
      = (-(1 / 8796093022208), 8797888143232939 / 8796093022208) := by
  constructor
  · unfold samples2msFl
    rw [binary64_44109, binary64_44109_div, binary64_long_ms]
  · unfold portionBoundsFl
    simp only [binary64_hundredth, binary64_portion_bw, binary64_portion_w,
      binary64_portion_half, binary64_portion_bp, binary64_portion_p, binary64_portion_start,
      binary64_portion_end, binary64_portion_shift]
    norm_num

/-- C17 (amended): for every position in `[0, 100]`, every width in `(0, 100]`, a buffer of
at least one sample and every rounding `fl` of the arithmetic, `mdeGranularPortion` passes
the bounds `start`, `end` of `portionBoundsFl` to the region setters; `end <= B` for
`B = BufferSamplesMS`; `0 <= start` unless the window was moved back from the end of the
buffer, where `end = B` and `start = fl (B - width_ms)`; the `samplesStart` stored is at or
above 0 in every case; and with exact arithmetic (`fl` the identity) and `B >= 0`,
`0 <= start <= end <= B`, `end - start = B * width / 100`, and
`start = B*position/100 - B*width/200` when the unclamped window already fits. -/
theorem portion_bounds_rounded (fl : ℚ → ℚ) (g : mdeGranular) (position width : mdefloat)
    (hp : 0 ≤ position ∧ position ≤ 100) (hw : 0 < width ∧ width ≤ 100)
    (hN : 1 ≤ g.nBufferSamples) :
    mdeGranularPortionFl fl g position width =
      mdeGranularSetSamplesEndMS
        (mdeGranularSetSamplesStartMS
          { g with portionPosition := position, portionWidth := width }
          (portionBoundsFl fl g.BufferSamplesMS position width).1)
        (portionBoundsFl fl g.BufferSamplesMS position width).2 ∧
    (portionBoundsFl fl g.BufferSamplesMS position width).2 ≤ g.BufferSamplesMS ∧
    (0 ≤ (portionBoundsFl fl g.BufferSamplesMS position width).1 ∨
      ((portionBoundsFl fl g.BufferSamplesMS position width).2 = g.BufferSamplesMS ∧
       (portionBoundsFl fl g.BufferSamplesMS position width).1
        = fl (g.BufferSamplesMS
            - fl (fl (g.BufferSamplesMS * width) * fl (1 / 100))))) ∧
    0 ≤ (mdeGranularPortionFl fl g position width).samplesStart ∧
    (0 ≤ g.BufferSamplesMS →
      0 ≤ (portionBoundsFl (fun x => x) g.BufferSamplesMS position width).1 ∧
      (portionBoundsFl (fun x => x) g.BufferSamplesMS position width).1
        ≤ (portionBoundsFl (fun x => x) g.BufferSamplesMS position width).2 ∧
      (portionBoundsFl (fun x => x) g.BufferSamplesMS position width).2 ≤ g.BufferSamplesMS ∧
      (portionBoundsFl (fun x => x) g.BufferSamplesMS position width).2
          - (portionBoundsFl (fun x => x) g.BufferSamplesMS position width).1
        = g.BufferSamplesMS * width / 100 ∧
      (0 ≤ g.BufferSamplesMS * position / 100 - g.BufferSamplesMS * width / 200 →
        g.BufferSamplesMS * position / 100 + g.BufferSamplesMS * width / 200
          ≤ g.BufferSamplesMS →
        (portionBoundsFl (fun x => x) g.BufferSamplesMS position width).1
          = g.BufferSamplesMS * position / 100 - g.BufferSamplesMS * width / 200)) := by
  have hguard : ¬ (width ≤ 0 ∨ width > 100 ∨ position < 0 ∨ position > 100) := by
    rintro (h | h | h | h) <;> linarith [hp.1, hp.2, hw.1, hw.2]
  have hP : mdeGranularPortionFl fl g position width =
      mdeGranularSetSamplesEndMS
        (mdeGranularSetSamplesStartMS
          { g with portionPosition := position, portionWidth := width }
          (portionBoundsFl fl g.BufferSamplesMS position width).1)
        (portionBoundsFl fl g.BufferSamplesMS position width).2 := by
    unfold mdeGranularPortionFl
    rw [if_neg hguard]
  refine ⟨hP, ?_, ?_, ?_, ?_⟩
  · unfold portionBoundsFl
    dsimp only
    split_ifs with h1 h2 h2
    · exact le_refl _
    · exact not_lt.mp h2
    · exact le_refl _
    · exact not_lt.mp h2
  · unfold portionBoundsFl
    dsimp only
    split_ifs with h1 h2 h2
    · exact Or.inr ⟨rfl, rfl⟩
    · exact Or.inl (le_refl _)
    · exact Or.inr ⟨rfl, rfl⟩
    · exact Or.inl (not_lt.mp h1)
  · rw [hP, setSamplesEndMS_samplesStart]
    exact setSamplesStartMS_nonneg _ _ hN
  · intro hB
    rw [portionBoundsFl_id]
    exact portionBounds_exact g.BufferSamplesMS position width hp hw hB

/-- Witness for C17 (amended): the middle fifth of a one-second buffer, in doubles. -/
theorem portion_bounds_rounded_witness :
    (portionBoundsFl binary64
        ({ exampleGranular with BufferSamplesMS := 1000 } : mdeGranular).BufferSamplesMS 50 20).2
      ≤ ({ exampleGranular with BufferSamplesMS := 1000 } : mdeGranular).BufferSamplesMS :=
  (portion_bounds_rounded binary64 { exampleGranular with BufferSamplesMS := 1000 } 50 20
    ⟨by norm_num, by norm_num⟩ ⟨by norm_num, by norm_num⟩ (by decide)).2.1

/-- C28 at its failing input, in floats (the Pd build) with `RAND_MAX = 2147483647`: when
`rand()` returns `RAND_MAX`, `(float)RAND_MAX`, `div` and the converted draw are all
`2147483648`, `between(0, 2)` returns `2 = max`, and the channel assigned for
`activeChannels = 2` is 2, outside `[0, activeChannels)`. -/
theorem between_reaches_max_in_floats :
    (betweenFl binary32 0 2 topRand).1 = 2 ∧
    grainInitChannelFl binary32 { exampleGranular with numChannels := 2, activeChannels := 2 }
      topRand = 2 := by
  have hb : (betweenFl binary32 0 2 topRand).1 = 2 := by
    have h1 : binary32 ((topRand.RAND_MAX : Int) : mdefloat) = 2147483648 := binary32_rand_max
    have h2 : binary32 (((rand topRand).1 : Int) : mdefloat) = 2147483648 := binary32_rand_max
    unfold betweenFl
    rw [if_neg (by norm_num)]
    simp only [h1, h2, binary32_div, binary32_diff, binary32_scaler, binary32_product,
      binary32_sum]
  refine ⟨hb, ?_⟩
  unfold grainInitChannelFl
  have h3 : binary32 ((({ exampleGranular with numChannels := 2, activeChannels := 2 } :
      mdeGranular).activeChannels : Int) : mdefloat) = 2 := binary32_two
  rw [h3, hb]
  norm_num [cTrunc]

/-- The first-delay block of `mdeGranularGrainInit` does not write `backwards`. -/
theorem grainInitFirstDelay_backwards (gg : mdeGranularGrain) (d : Int) (rs : RandSource) :
    (grainInitFirstDelay gg d rs).1.backwards = gg.backwards := by
  unfold grainInitFirstDelay
  split_ifs <;> rfl

/-- With `samplesStart <= samplesEnd` the local `backwards` of `mdeGranularGrainInit` is 0. -/
theorem grainInitLocals_forward (parent : mdeGranular) (inc : mdefloat) (rs : RandSource)
    (h : parent.samplesStart ≤ parent.samplesEnd) :
    (grainInitLocals parent inc rs).backwards = false := by
  show decide (parent.samplesStart > parent.samplesEnd) = false
  exact decide_eq_false (not_lt.mpr h)

/-- C4 (amended): for every buffer of `N >= 2` samples, every fractional index and either
direction flag, and for a one-sample buffer read forwards, each of the four taps
`a, b, c, d` that `interpolate` reads is at an index inside `[0, N-1]`; and a grain of a
voice that is not deactivated, set up by `mdeGranularGrainInit` with
`samplesStart <= samplesEnd`, reads forwards (`backwards = 0`). -/
theorem interpolateTaps_safe :
    (∀ (x : mdefloat) (N bw : Int), (2 ≤ N ∨ (N = 1 ∧ bw = 0)) →
      (0 ≤ (interpolateTaps x N bw).1 ∧ (interpolateTaps x N bw).1 < N) ∧
      (0 ≤ (interpolateTaps x N bw).2.1 ∧ (interpolateTaps x N bw).2.1 < N) ∧
      (0 ≤ (interpolateTaps x N bw).2.2.1 ∧ (interpolateTaps x N bw).2.2.1 < N) ∧
      (0 ≤ (interpolateTaps x N bw).2.2.2 ∧ (interpolateTaps x N bw).2.2.2 < N)) ∧
    (∀ (gg : mdeGranularGrain) (parent : mdeGranular) (d : Int) (rs : RandSource),
      gg.activeStatus ≠ t_status.INACTIVE → parent.samplesStart ≤ parent.samplesEnd →
      (mdeGranularGrainInit gg parent d rs).2.1.backwards = 0) := by
  constructor
  · intro x N bw h
    rcases h with h | ⟨h1, h2⟩
    · exact interpolateTaps_in_range x N bw h
    · subst h2
      exact interpolateTaps_forward_in_range x N (by omega)
  · intro gg parent d rs hact hse
    unfold mdeGranularGrainInit
    simp only [hact, if_false]
    rw [grainInitFirstDelay_backwards]
    simp only [grainInitLocals_forward parent _ _ hse]
    rfl

/-- Witness for C4 (amended): a one-sample buffer read forwards at position 3.5. -/
theorem interpolateTaps_safe_witness :
    (0 ≤ (interpolateTaps (7 / 2) 1 0).1 ∧ (interpolateTaps (7 / 2) 1 0).1 < 1) ∧
    (0 ≤ (interpolateTaps (7 / 2) 1 0).2.1 ∧ (interpolateTaps (7 / 2) 1 0).2.1 < 1) ∧
    (0 ≤ (interpolateTaps (7 / 2) 1 0).2.2.1 ∧ (interpolateTaps (7 / 2) 1 0).2.2.1 < 1) ∧
    (0 ≤ (interpolateTaps (7 / 2) 1 0).2.2.2 ∧ (interpolateTaps (7 / 2) 1 0).2.2.2 < 1) :=
  interpolateTaps_safe.1 (7 / 2) 1 0 (Or.inr ⟨rfl, rfl⟩)

end MdeGranular
